import Mathlib

/-!
# Pascal-S to C translator: a shallow embedding

Verification development for the compiler under
`src/3-B/编译原理与技术课程设计/compiler`.  The four passes of the C++ program
(`Lexer`, `Parser`, `SemanticAnalyzer`, `Generator`) and the driver
`solveCCode` are transcribed as executable Lean functions; the theorems at
the end state the properties of the specification over these functions.

Conventions of the embedding

* A C++ `char` is a Lean `Char`; a `std::string` is a `String` (or the
  `List Char` of its characters where the code indexes into it).
* Mutable objects become explicit state records that are passed along.
* A C++ exception that the program never catches, a null pointer
  dereference, `std::get` on the wrong variant alternative and `map::at`
  on a missing key all end the run abnormally; they are the constructors
  of `Crash`.  What the analyzer has written to the diagnostics stream
  before such an end stays written: an abnormal end of the analysis is an
  `Abort`, which carries those diagnostics.
* Node identity (the pointer used as key of the annotation maps) is the
  `addr` field the parser gives to every node it allocates.
* Loops are recursive functions.  Loops that scan the source text are
  bounded by the length of the text; the recursive-descent functions and
  the main loop of the lexer take an explicit fuel argument.
-/

set_option autoImplicit false

/-! ## Characters and strings -/

/-- The NUL character, what `std::string::operator[]` yields at `size()`. -/
def NUL : Char := Char.ofNat 0

/-- The single quote character. -/
def QUOTE : Char := Char.ofNat 39

/-- The double quote character. -/
def DQUOTE : Char := Char.ofNat 34

/-- The newline character. -/
def NEWLINE : Char := Char.ofNat 10

/-- `std::isdigit` in the "C" locale. -/
def isdigit (c : Char) : Bool := decide (48 ≤ c.toNat) && decide (c.toNat ≤ 57)

/-- `std::isalpha` in the "C" locale. -/
def isalpha (c : Char) : Bool :=
  (decide (65 ≤ c.toNat) && decide (c.toNat ≤ 90)) || (decide (97 ≤ c.toNat) && decide (c.toNat ≤ 122))

/-- `std::isalnum` in the "C" locale. -/
def isalnum (c : Char) : Bool := isalpha c || isdigit c

/-- `std::tolower` in the "C" locale. -/
def tolower (c : Char) : Char :=
  if 65 ≤ c.toNat ∧ c.toNat ≤ 90 then Char.ofNat (c.toNat + 32) else c

/-- `std::string::substr(pos, n)` for `pos ≤ size()`. -/
def substr (s : List Char) (pos n : Nat) : List Char := (s.drop pos).take n

/-! ## Tokens (`token.hpp`) -/

/-- The enumeration `TokenType`. -/
inductive TokenType
  | PROGRAM | CONST | VAR | PROCEDURE | FUNCTION | BEGIN | END | ARRAY | OF
  | INTEGER | REAL | BOOLEAN | CHAR | IF | THEN | ELSE | FOR | TO | DO | WHILE
  | READ | WRITE | TRUE | FALSE | BREAK
  | LPAREN | RPAREN | COMMA | SEMICOLON | DOT | COLON | LBRACKET | RBRACKET | DOTDOT
  | PLUS | MINUS | TIMES | RDIV | ASSIGN | DIV | MOD | AND | OR | NOT
  | EQUAL | LT | LE | GT | GE | NE
  | IDENTIFIER | NUMBER | CHAR_LITERAL | STRING_LITERAL
  | END_OF_FILE
  deriving DecidableEq, Repr

/-- The class `Token`: a kind, a textual value (empty when absent) and a line. -/
structure Token where
  type : TokenType
  value : String
  line : Nat
  deriving DecidableEq, Repr

/-! ## Lexer (`lexer.hpp`, `lexer.cpp`) -/

/-- The class `LexerException`: a message and a line. -/
structure LexerException where
  msg : String
  line : Nat
  deriving DecidableEq, Repr

/-- The data members of the class `Lexer`. -/
structure Lexer where
  src : List Char
  raw_src : List Char
  tokens : List Token
  start : Nat
  current : Nat
  line_num : Nat
  processingString : Bool
  deriving DecidableEq, Repr

namespace Lexer

/-- `Lexer::stringToLower`. -/
def stringToLower (s : List Char) : List Char := s.map tolower

/-- `Lexer::Lexer(std::string)`: `src` is the lower-cased text, `raw_src` the text as given. -/
def new (src_ : String) : Lexer :=
  { src := stringToLower src_.data, raw_src := src_.data, tokens := [], start := 0, current := 0,
    line_num := 1, processingString := false }

/-- The table `KEYWORDS`. -/
def KEYWORDS : List (String × TokenType) :=
  [("program", .PROGRAM), ("const", .CONST), ("var", .VAR), ("procedure", .PROCEDURE),
   ("function", .FUNCTION), ("begin", .BEGIN), ("end", .END), ("array", .ARRAY), ("of", .OF),
   ("integer", .INTEGER), ("real", .REAL), ("boolean", .BOOLEAN), ("char", .CHAR), ("if", .IF),
   ("then", .THEN), ("else", .ELSE), ("for", .FOR), ("to", .TO), ("do", .DO), ("while", .WHILE),
   ("read", .READ), ("write", .WRITE), ("true", .TRUE), ("false", .FALSE), ("break", .BREAK)]

/-- `Lexer::isEnd`. -/
def isEnd (lx : Lexer) : Bool := decide (lx.src.length ≤ lx.current)

/-- `Lexer::getNextChar`: `src[current++]`.  The code never reads past index `size()`,
where `std::string` yields NUL. -/
def getNextChar (lx : Lexer) : Char × Lexer :=
  (lx.src.getD lx.current NUL, { lx with current := lx.current + 1 })

/-- `Lexer::backward`. -/
def backward (lx : Lexer) : Lexer := { lx with current := lx.current - 1 }

/-- `Lexer::addToken(const TokenType&)`. -/
def addToken (lx : Lexer) (t : TokenType) : Lexer :=
  { lx with tokens := lx.tokens ++ [⟨t, "", lx.line_num⟩] }

/-- `Lexer::addToken(const TokenType&, const std::string&)`. -/
def addTokenV (lx : Lexer) (t : TokenType) (s : List Char) : Lexer :=
  { lx with tokens := lx.tokens ++ [⟨t, String.mk s, lx.line_num⟩] }

/-- The bound given to the loops that walk over the source text: each iteration
reads one character and the loops stop at the end of the text. -/
def loopBound (lx : Lexer) : Nat := lx.src.length + 1

/-- The loop `while ((std::isdigit(getNextChar()) != 0) && !isEnd()) ;`. -/
def digitLoop : Nat → Lexer → Lexer
  | 0, lx => lx
  | fuel + 1, lx =>
    let (c, lx1) := lx.getNextChar
    if isdigit c && !lx1.isEnd then digitLoop fuel lx1 else lx1

/-- The digit loop followed by `if (!isEnd()) backward();`. -/
def digits (lx : Lexer) : Lexer :=
  let lx1 := digitLoop lx.loopBound lx
  if !lx1.isEnd then lx1.backward else lx1

/-- The lambda `processScientific` of `Lexer::processNumber`. -/
def processScientific (lx : Lexer) : Lexer :=
  if lx.isEnd then lx
  else
    let (c, lx1) := lx.getNextChar
    if c = 'e' then
      if lx1.isEnd then lx1.backward
      else
        let (c2, lx2) := lx1.getNextChar
        if c2 = '+' || c2 = '-' then
          if lx2.isEnd then lx2.backward.backward
          else
            let (c3, lx3) := lx2.getNextChar
            if !isdigit c3 then lx3.backward.backward.backward
            else digits lx3
        else if isdigit c2 then digits lx2
        else lx2.backward.backward
    else lx1.backward

/-- `Lexer::processNumber`. -/
def processNumber (lx : Lexer) : Lexer :=
  let lx1 := digits lx
  let lx2 :=
    if !lx1.isEnd then
      let (c, a) := lx1.getNextChar
      if c ≠ '.' || a.isEnd then processScientific a.backward
      else
        let (d, b) := a.getNextChar
        if !isdigit d then b.backward.backward
        else processScientific (digits b)
    else lx1
  lx2.addTokenV .NUMBER (substr lx2.src lx2.start (lx2.current - lx2.start))

/-- The loop `while ((std::isalnum(c = getNextChar()) != 0 || c == '_') && !isEnd()) count++;`
of `Lexer::processKeywordsAndIdentifiersAndAlphaOps`; yields the lexer, the last character
read and the counter. -/
def alnumLoop : Nat → Lexer → Char → Nat → Lexer × Char × Nat
  | 0, lx, c, count => (lx, c, count)
  | fuel + 1, lx, _, count =>
    let (c, lx1) := lx.getNextChar
    if (isalnum c || c = '_') && !lx1.isEnd then alnumLoop fuel lx1 c (count + 1)
    else (lx1, c, count)

/-- `Lexer::processKeywordsAndIdentifiersAndAlphaOps`. -/
def processKeywordsAndIdentifiersAndAlphaOps (lx : Lexer) : Lexer × Option LexerException :=
  let (lx1, c, count) := alnumLoop lx.loopBound lx NUL 1
  let lx2 := if !isalnum c && c ≠ '_' then lx1.backward else lx1
  if count > 256 then
    (lx2, some ⟨"Identifier " ++ String.mk [QUOTE] ++ String.mk (substr lx2.src lx2.start 10) ++
      "..." ++ String.mk [QUOTE] ++ " is too long.", lx2.line_num⟩)
  else
    let word := String.mk (substr lx2.src lx2.start (lx2.current - lx2.start))
    if word = "div" then (lx2.addToken .DIV, none)
    else if word = "mod" then (lx2.addToken .MOD, none)
    else if word = "and" then (lx2.addToken .AND, none)
    else if word = "or" then (lx2.addToken .OR, none)
    else if word = "not" then (lx2.addToken .NOT, none)
    else match KEYWORDS.lookup word with
      | some t => (lx2.addToken t, none)
      | none => (lx2.addTokenV .IDENTIFIER word.data, none)

/-- The loop of `Lexer::processString`: reads up to the closing quote; a newline or the end
of the text before it raises the exception. -/
def stringLoop : Nat → Lexer → Lexer × Option LexerException
  | 0, lx => (lx, none)
  | fuel + 1, lx =>
    let (c, lx1) := lx.getNextChar
    if c = QUOTE then (lx1, none)
    else if c = NEWLINE then
      ({ lx1 with line_num := lx1.line_num + 1 },
        some ⟨"Unclosed string " ++ String.mk (substr lx1.src lx1.start (lx1.current - lx1.start - 1)) ++ ".",
          lx1.line_num⟩)
    else if lx1.isEnd then
      (lx1, some ⟨"Unclosed string " ++ String.mk (substr lx1.src lx1.start (lx1.current - lx1.start)) ++ ".",
          lx1.line_num⟩)
    else stringLoop fuel lx1

/-- `Lexer::processString`. -/
def processString (lx : Lexer) : Lexer × Option LexerException :=
  let lx0 := { lx with processingString := true }
  if lx0.isEnd then (lx0, some ⟨"Unclosed string " ++ String.mk [QUOTE] ++ ".", lx0.line_num⟩)
  else
    match stringLoop lx0.loopBound lx0 with
    | (lx1, some e) => (lx1, some e)
    | (lx1, none) =>
      let raw := substr lx1.src lx1.start (lx1.current - lx1.start)
      (lx1.addTokenV .STRING_LITERAL (substr raw 1 (raw.length - 2)), none)

/-- The loop `while (!isEnd() && (c = getNextChar()) != '\n') ;` of a `//` comment. -/
def lineCommentLoop : Nat → Lexer → Char → Lexer × Char
  | 0, lx, c => (lx, c)
  | fuel + 1, lx, c =>
    if lx.isEnd then (lx, c)
    else
      let (c1, lx1) := lx.getNextChar
      if c1 ≠ NEWLINE then lineCommentLoop fuel lx1 c1 else (lx1, c1)

/-- The loop of a brace comment: reads up to the closing brace, counting newlines. -/
def braceCommentLoop : Nat → Lexer → Lexer
  | 0, lx => lx
  | fuel + 1, lx =>
    if lx.isEnd then lx
    else
      let (c1, lx1) := lx.getNextChar
      if c1 ≠ Char.ofNat 125 then
        braceCommentLoop fuel (if c1 = NEWLINE then { lx1 with line_num := lx1.line_num + 1 } else lx1)
      else lx1

/-- The `case '\''` branch of `Lexer::scanNextToken`. -/
def scanQuote (lx : Lexer) : Lexer × Option LexerException :=
  if lx.isEnd then (lx, some ⟨"Unclosed char literal " ++ String.mk [QUOTE] ++ ".", lx.line_num⟩)
  else
    let (c, lx1) := lx.getNextChar
    if c = NEWLINE then
      ({ lx1 with line_num := lx1.line_num + 1 },
        some ⟨"Unclosed char literal " ++ String.mk [QUOTE] ++
          String.mk (substr lx1.src lx1.start (lx1.current - lx1.start - 1)) ++ ".", lx1.line_num⟩)
    else if c = QUOTE then
      (lx1, some ⟨"There should be a char between a pair of " ++ String.mk [DQUOTE, QUOTE, DQUOTE] ++ ".",
        lx1.line_num⟩)
    else if lx1.isEnd then
      (lx1, some ⟨"Unclosed char literal " ++
          String.mk (substr lx1.src lx1.start (lx1.current - lx1.start)) ++ ".", lx1.line_num⟩)
    else
      let (c2, lx2) := lx1.getNextChar
      let finish (l : Lexer) : Lexer × Option LexerException :=
        let l1 := if !l.processingString then
            l.addTokenV .CHAR_LITERAL (substr l.raw_src l.start (l.current - l.start)) else l
        ({ l1 with processingString := false }, none)
      if c2 ≠ QUOTE then
        if c2 = NEWLINE then
          ({ lx2 with line_num := lx2.line_num + 1 },
            some ⟨"Unclosed char literal " ++
              String.mk (substr lx2.src lx2.start (lx2.current - lx2.start - 1)) ++ ".", lx2.line_num⟩)
        else
          match processString lx2.backward.backward with
          | (lx3, some e) => (lx3, some e)
          | (lx3, none) => finish lx3
      else finish lx2

/-- `Lexer::scanNextToken`: the lexer after the call and the exception it throws, if any. -/
def scanNextToken (lx : Lexer) : Lexer × Option LexerException :=
  let (c, lx1) := lx.getNextChar
  if c = ' ' || c = '\t' || c = '\r' then (lx1, none)
  else if c = NEWLINE then ({ lx1 with line_num := lx1.line_num + 1 }, none)
  else if c = '(' then (lx1.addToken .LPAREN, none)
  else if c = ')' then (lx1.addToken .RPAREN, none)
  else if c = ',' then (lx1.addToken .COMMA, none)
  else if c = ';' then (lx1.addToken .SEMICOLON, none)
  else if c = '.' then
    if lx1.isEnd then (lx1.addToken .DOT, none)
    else
      let (c2, lx2) := lx1.getNextChar
      if c2 = '.' then (lx2.addToken .DOTDOT, none) else (lx2.backward.addToken .DOT, none)
  else if c = ':' then
    -- `if (!isEnd() && getNextChar() == '=')`: at the end of the text nothing is read
    if lx1.isEnd then (lx1.backward.addToken .COLON, none)
    else
      let (c2, lx2) := lx1.getNextChar
      if c2 = '=' then (lx2.addToken .ASSIGN, none) else (lx2.backward.addToken .COLON, none)
  else if c = QUOTE then scanQuote lx1
  else if c = '[' then (lx1.addToken .LBRACKET, none)
  else if c = ']' then (lx1.addToken .RBRACKET, none)
  else if c = '+' then (lx1.addToken .PLUS, none)
  else if c = '-' then (lx1.addToken .MINUS, none)
  else if c = '*' then (lx1.addToken .TIMES, none)
  else if c = '/' then
    if lx1.isEnd then (lx1.backward.addToken .RDIV, none)
    else
      let (c2, lx2) := lx1.getNextChar
      if c2 = '/' then
        let (lx3, c3) := lineCommentLoop lx2.loopBound lx2 c
        (if c3 = NEWLINE then { lx3 with line_num := lx3.line_num + 1 } else lx3, none)
      else (lx2.backward.addToken .RDIV, none)
  else if c = '=' then (lx1.addToken .EQUAL, none)
  else if c = '<' then
    -- at the end of the text nothing is read and `c` is still `<`
    if lx1.isEnd then (lx1.backward.addToken .LT, none)
    else
      let (c2, lx2) := lx1.getNextChar
      if c2 = '=' then (lx2.addToken .LE, none)
      else if c2 = '>' then (lx2.addToken .NE, none)
      else (lx2.backward.addToken .LT, none)
  else if c = '>' then
    if lx1.isEnd then (lx1.backward.addToken .GT, none)
    else
      let (c2, lx2) := lx1.getNextChar
      if c2 = '=' then (lx2.addToken .GE, none) else (lx2.backward.addToken .GT, none)
  else if c = Char.ofNat 123 then (braceCommentLoop lx1.loopBound lx1, none)
  else if isdigit c then (processNumber lx1, none)
  else if isalpha c then processKeywordsAndIdentifiersAndAlphaOps lx1
  else (lx1, some ⟨"Unknown char " ++ String.mk [QUOTE, c, QUOTE] ++ ".", lx1.line_num⟩)

/-- The loop of `Lexer::scan`: `none` when the fuel runs out before the end of the text
is reached. -/
def scanLoop : Nat → Lexer → List LexerException → Option (Lexer × List LexerException)
  | 0, _, _ => none
  | fuel + 1, lx, errors =>
    if lx.isEnd then some (lx, errors)
    else
      match scanNextToken { lx with start := lx.current } with
      | (lx1, some e) => scanLoop fuel lx1 (errors ++ [e])
      | (lx1, none) => scanLoop fuel lx1 errors

/-- `Lexer::scan`, run for at most `fuel` iterations of its loop: the lexer after the
END_OF_FILE token is added, and the errors that `scan` throws when the list is not empty. -/
def scan (fuel : Nat) (lx : Lexer) : Option (Lexer × List LexerException) :=
  match scanLoop fuel lx [] with
  | none => none
  | some (lx1, errors) => some (lx1.addToken .END_OF_FILE, errors)

end Lexer


/-! ## Syntax tree (`ast.hpp`) -/

/-- The enumeration `BasicType`. -/
inductive BasicType
  | INTEGER | REAL | BOOLEAN | CHAR
  deriving DecidableEq, Repr

/-- The enumeration `Term::MulOp`. -/
inductive MulOp
  | TIMES | RDIV | DIV | MOD | AND
  deriving DecidableEq, Repr

/-- The enumeration `SimpleExpression::AddOp`. -/
inductive AddOp
  | PLUS | MINUS | OR
  deriving DecidableEq, Repr

/-- The enumeration `Expression::RelOp`. -/
inductive RelOp
  | GT | EQ | LE | GE | LT | NE
  deriving DecidableEq, Repr

/-- The class `Parameter`. -/
structure Parameter where
  has_var : Bool
  id_list : List String
  basic_type : BasicType
  deriving DecidableEq, Repr

/-- The class `ConstDecl`: the value is the text of the literal. -/
structure ConstDecl where
  id : String
  value : String
  deriving DecidableEq, Repr

/-- The class `Type`: the periods are the texts of the bounds. -/
structure TypeNode where
  periods : List (String × String)
  basic_type : BasicType
  deriving DecidableEq, Repr

/-- The class `VarDecl`. -/
structure VarDecl where
  id_list : List String
  type : TypeNode
  deriving DecidableEq, Repr

mutual
/-- The class `Factor`: one constructor for each `FactorType` with the payload the parser
gives it (`std::string` or child node).  `addr` stands for the address of the node. -/
inductive Factor
  | NUMBER (addr : Nat) (value : String)
  | BOOLEAN (addr : Nat) (value : String)
  | VARIABLE (addr : Nat) (v : Variable)
  | FUNCTION (addr : Nat) (call : ProcedureCall)
  | EXPRESSION (addr : Nat) (e : Expression)
  | WITH_UMINUS (addr : Nat) (operand : Factor)
  | WITH_PLUS (addr : Nat) (operand : Factor)
  | WITH_NOT (addr : Nat) (operand : Factor)
  | UNKNOWN (addr : Nat) (id : String)
/-- The member `factors` of `Term`: a `std::vector<std::pair<MulOp, FactorPtr>>`. -/
inductive FactorList
  | nil
  | cons (op : MulOp) (f : Factor) (tl : FactorList)
/-- The class `Term`. -/
inductive Term
  | mk (firstFactor : Factor) (factors : FactorList)
/-- The member `terms` of `SimpleExpression`: a `std::vector<std::pair<AddOp, TermPtr>>`. -/
inductive TermList
  | nil
  | cons (op : AddOp) (t : Term) (tl : TermList)
/-- The class `SimpleExpression`. -/
inductive SimpleExpression
  | mk (firstTerm : Term) (terms : TermList)
/-- The class `Expression`: `simple` when `right` is empty, `relational` when it holds
an operator and a right operand. -/
inductive Expression
  | simple (left : SimpleExpression)
  | relational (left : SimpleExpression) (op : RelOp) (right : SimpleExpression)
/-- A `std::vector<ExpressionPtr>`. -/
inductive ExpressionList
  | nil
  | cons (e : Expression) (tl : ExpressionList)
/-- The class `Variable`. -/
inductive Variable
  | mk (id : String) (expressions : ExpressionList)
/-- The class `ProcedureCall`. -/
inductive ProcedureCall
  | mk (id : String) (parameters : ExpressionList)
end

mutual
/-- The subclasses of `Statement`.  `If` without an else branch has a null
`else_statement`.  `addr` stands for the address of the node. -/
inductive Statement
  | NullStatement
  | Assign (addr : Nat) (left : Variable) (right : Expression)
  | ProcedureCall (call : ProcedureCall)
  | CompoundStatement (c : CompoundStatement)
  | If (condition : Expression) (then_statement : Statement)
  | IfElse (condition : Expression) (then_statement : Statement) (else_statement : Statement)
  | For (id : String) (lb ub : Expression) (statement : Statement)
  | While (condition : Expression) (statement : Statement)
  | Read (addr : Nat) (variables_ : List Variable)
  | Write (addr : Nat) (expressions : ExpressionList)
  | Break
/-- A `std::vector<StatementPtr>`. -/
inductive StatementList
  | nil
  | cons (s : Statement) (tl : StatementList)
/-- The class `CompoundStatement`. -/
inductive CompoundStatement
  | mk (addr : Nat) (statements : StatementList)
end

/-- The class `Subprogram`.  `ret_type` is read for functions only (the member is not
initialised for a procedure). -/
structure Subprogram where
  id : String
  is_func : Bool
  parameters : List Parameter
  ret_type : BasicType
  const_declaration : List ConstDecl
  var_declaration : List VarDecl
  compound_statement : CompoundStatement

/-- The class `Program`. -/
structure Program where
  program_id : String
  parameters : List String
  const_declaration : List ConstDecl
  var_declaration : List VarDecl
  subprograms : List Subprogram
  compound_statement : CompoundStatement

namespace ExpressionList

/-- The elements in order. -/
def toList : ExpressionList → List Expression
  | .nil => []
  | .cons e tl => e :: toList tl

/-- `std::vector::push_back`. -/
def push_back : ExpressionList → Expression → ExpressionList
  | .nil, x => .cons x .nil
  | .cons e tl, x => .cons e (push_back tl x)

/-- `std::vector::size`. -/
def size : ExpressionList → Nat
  | .nil => 0
  | .cons _ tl => size tl + 1

/-- `std::vector::empty`. -/
def empty : ExpressionList → Bool
  | .nil => true
  | .cons _ _ => false

end ExpressionList

namespace FactorList

/-- `std::vector::push_back`. -/
def push_back : FactorList → MulOp → Factor → FactorList
  | .nil, o, x => .cons o x .nil
  | .cons op f tl, o, x => .cons op f (push_back tl o x)

/-- `std::vector::empty`. -/
def empty : FactorList → Bool
  | .nil => true
  | .cons _ _ _ => false

end FactorList

namespace TermList

/-- `std::vector::push_back`. -/
def push_back : TermList → AddOp → Term → TermList
  | .nil, o, x => .cons o x .nil
  | .cons op t tl, o, x => .cons op t (push_back tl o x)

/-- `std::vector::empty`. -/
def empty : TermList → Bool
  | .nil => true
  | .cons _ _ _ => false

end TermList

namespace StatementList

/-- `std::vector::push_back`. -/
def push_back : StatementList → Statement → StatementList
  | .nil, x => .cons x .nil
  | .cons s tl, x => .cons s (push_back tl x)

/-- The elements in order. -/
def toList : StatementList → List Statement
  | .nil => []
  | .cons s tl => s :: toList tl

end StatementList

/-- `Variable::getId`. -/
def Variable.getId : Variable → String
  | .mk id _ => id

/-- `Variable::getExpressions`. -/
def Variable.getExpressions : Variable → ExpressionList
  | .mk _ es => es

/-- `ProcedureCall::getId`. -/
def ProcedureCall.getId : ProcedureCall → String
  | .mk id _ => id

/-- `ProcedureCall::getParameters`. -/
def ProcedureCall.getParameters : ProcedureCall → ExpressionList
  | .mk _ ps => ps

/-- `Expression::getLeft`. -/
def Expression.getLeft : Expression → SimpleExpression
  | .simple l => l
  | .relational l _ _ => l

/-- `Expression::getRight().has_value()`. -/
def Expression.hasRight : Expression → Bool
  | .simple _ => false
  | .relational _ _ _ => true

/-- `SimpleExpression::getFirstTerm`. -/
def SimpleExpression.getFirstTerm : SimpleExpression → Term
  | .mk t _ => t

/-- `SimpleExpression::getTerms`. -/
def SimpleExpression.getTerms : SimpleExpression → TermList
  | .mk _ ts => ts

/-- `Term::getFirstFactor`. -/
def Term.getFirstFactor : Term → Factor
  | .mk f _ => f

/-- `Term::getFactors`. -/
def Term.getFactors : Term → FactorList
  | .mk _ fs => fs

/-- The address of a factor node. -/
def Factor.addr : Factor → Nat
  | .NUMBER a _ | .BOOLEAN a _ | .VARIABLE a _ | .FUNCTION a _ | .EXPRESSION a _
  | .WITH_UMINUS a _ | .WITH_PLUS a _ | .WITH_NOT a _ | .UNKNOWN a _ => a

/-- `CompoundStatement::getStatements`. -/
def CompoundStatement.getStatements : CompoundStatement → StatementList
  | .mk _ ss => ss

/-- The address of a compound statement node. -/
def CompoundStatement.addr : CompoundStatement → Nat
  | .mk a _ => a

/-! ## Parser (`parser.hpp`, `parser.cpp`) -/

/-- How a run of the parser can fail: the exception `ParserException` (a message and the
line of the offending token), a read of `tokens[current]` outside the vector, or the fuel
of the embedding running out. -/
inductive ParserError
  | ParserException (msg : String) (line : Nat)
  | outOfRange
  | outOfFuel
  deriving DecidableEq, Repr

/-- The data members of the class `Parser`, and the counter from which node addresses
are drawn. -/
structure Parser where
  tokens : List Token
  current : Nat
  nextAddr : Nat
  deriving DecidableEq, Repr

/-- A member function of `Parser`: it changes the parser and returns or throws. -/
abbrev ParserM := StateT Parser (Except ParserError)

namespace Parser

/-- `Parser::Parser(std::vector<Token>)`. -/
def new (tokens : List Token) : Parser := { tokens := tokens, current := 0, nextAddr := 0 }

/-- The address of a freshly allocated node (`std::make_unique`). -/
def alloc : ParserM Nat := fun p => .ok (p.nextAddr, { p with nextAddr := p.nextAddr + 1 })

/-- `Parser::getToken`: `tokens[current]`. -/
def getToken : ParserM Token := fun p =>
  match p.tokens[p.current]? with
  | some t => .ok (t, p)
  | none => .error .outOfRange

/-- `Parser::isEnd`. -/
def isEnd : ParserM Bool := do
  return (← getToken).type == .END_OF_FILE

/-- `Parser::check`. -/
def check (type : TokenType) : ParserM Bool := do
  if (← isEnd) then
    return false
  return (← getToken).type == type

/-- `Parser::forward`. -/
def forward : ParserM Unit := modify fun p => { p with current := p.current + 1 }

/-- `Parser::backward`. -/
def backward : ParserM Unit := modify fun p => { p with current := p.current - 1 }

/-- `Parser::match`. -/
def match_ (type : TokenType) : ParserM Bool := do
  if (← check type) then
    forward
    return true
  return false

/-- `Parser::consume`. -/
def consume (type : TokenType) (msg : String) : ParserM Token := do
  if (← check type) then
    let t ← getToken
    forward
    return t
  throw (.ParserException msg (← getToken).line)

/-- The chain `if (match(INTEGER)) ... else throw ParserException(msg, getToken().line)`
that reads a basic type. -/
def basicType (msg : String) : ParserM BasicType := do
  if (← match_ .INTEGER) then return .INTEGER
  else if (← match_ .REAL) then return .REAL
  else if (← match_ .BOOLEAN) then return .BOOLEAN
  else if (← match_ .CHAR) then return .CHAR
  else throw (.ParserException msg (← getToken).line)

mutual
/-- `Parser::factor`. -/
def factor : Nat → ParserM Factor
  | 0 => throw .outOfFuel
  | fuel + 1 => do
    if (← check .IDENTIFIER) then
      forward
      if (← check .LPAREN) then
        let a ← alloc
        backward
        return .FUNCTION a (← procedureCall fuel)
      else if (← check .LBRACKET) then
        let a ← alloc
        backward
        return .VARIABLE a (← variable_ fuel)
      else
        let a ← alloc
        backward
        return .UNKNOWN a (← consume .IDENTIFIER "Expected identifier as a factor.").value
    else if (← check .NUMBER) then
      let a ← alloc
      return .NUMBER a (← consume .NUMBER "Expected numeric literal as a factor.").value
    else if (← match_ .LPAREN) then
      let a ← alloc
      let e ← expression fuel
      let _ ← consume .RPAREN "Expected ')' to close parenthesized expression."
      return .EXPRESSION a e
    else if (← match_ .NOT) then
      let a ← alloc
      return .WITH_NOT a (← factor fuel)
    else if (← match_ .MINUS) then
      let a ← alloc
      return .WITH_UMINUS a (← factor fuel)
    else if (← match_ .TRUE) then
      let a ← alloc
      return .BOOLEAN a "true"
    else if (← match_ .FALSE) then
      let a ← alloc
      return .BOOLEAN a "false"
    else if (← match_ .PLUS) then
      let a ← alloc
      return .WITH_PLUS a (← factor fuel)
    else
      throw (.ParserException "Expected factor" (← getToken).line)
/-- The `while` loop of `Parser::term`. -/
def termLoop : Nat → Factor → FactorList → ParserM Term
  | 0, _, _ => throw .outOfFuel
  | fuel + 1, first, factors => do
    if (← check .TIMES) || (← check .RDIV) || (← check .DIV) || (← check .MOD) || (← check .AND) then
      if (← match_ .TIMES) then
        termLoop fuel first (factors.push_back .TIMES (← factor fuel))
      else if (← match_ .RDIV) then
        termLoop fuel first (factors.push_back .RDIV (← factor fuel))
      else if (← match_ .DIV) then
        termLoop fuel first (factors.push_back .DIV (← factor fuel))
      else if (← match_ .MOD) then
        termLoop fuel first (factors.push_back .MOD (← factor fuel))
      else if (← match_ .AND) then
        termLoop fuel first (factors.push_back .AND (← factor fuel))
      else
        termLoop fuel first factors
    else
      return .mk first factors
/-- `Parser::term`. -/
def term : Nat → ParserM Term
  | 0 => throw .outOfFuel
  | fuel + 1 => do
    let first ← factor fuel
    termLoop fuel first .nil
/-- The `while` loop of `Parser::simpleExpression`. -/
def simpleExpressionLoop : Nat → Term → TermList → ParserM SimpleExpression
  | 0, _, _ => throw .outOfFuel
  | fuel + 1, first, terms => do
    if (← check .PLUS) || (← check .MINUS) || (← check .OR) then
      if (← match_ .PLUS) then
        simpleExpressionLoop fuel first (terms.push_back .PLUS (← term fuel))
      else if (← match_ .MINUS) then
        simpleExpressionLoop fuel first (terms.push_back .MINUS (← term fuel))
      else if (← match_ .OR) then
        simpleExpressionLoop fuel first (terms.push_back .OR (← term fuel))
      else
        simpleExpressionLoop fuel first terms
    else
      return .mk first terms
/-- `Parser::simpleExpression`. -/
def simpleExpression : Nat → ParserM SimpleExpression
  | 0 => throw .outOfFuel
  | fuel + 1 => do
    let first ← term fuel
    simpleExpressionLoop fuel first .nil
/-- `Parser::expression`. -/
def expression : Nat → ParserM Expression
  | 0 => throw .outOfFuel
  | fuel + 1 => do
    let left ← simpleExpression fuel
    if (← match_ .GT) then
      return .relational left .GT (← simpleExpression fuel)
    else if (← match_ .EQUAL) then
      return .relational left .EQ (← simpleExpression fuel)
    else if (← match_ .LT) then
      return .relational left .LT (← simpleExpression fuel)
    else if (← match_ .GE) then
      return .relational left .GE (← simpleExpression fuel)
    else if (← match_ .LE) then
      return .relational left .LE (← simpleExpression fuel)
    else if (← match_ .NE) then
      return .relational left .NE (← simpleExpression fuel)
    else
      return .simple left
/-- The loop `while (match(TokenType::COMMA)) add(expression());` shared by
`Parser::variable`, `Parser::procedureCall` and `Parser::writeStatement`. -/
def expressionListLoop : Nat → ExpressionList → ParserM ExpressionList
  | 0, _ => throw .outOfFuel
  | fuel + 1, acc => do
    if (← match_ .COMMA) then
      expressionListLoop fuel (acc.push_back (← expression fuel))
    else
      return acc
/-- `Parser::variable`. -/
def variable_ : Nat → ParserM Variable
  | 0 => throw .outOfFuel
  | fuel + 1 => do
    let id := (← consume .IDENTIFIER "Expected variable identifier.").value
    if (← match_ .LBRACKET) then
      let first ← expression fuel
      let es ← expressionListLoop fuel (.cons first .nil)
      let _ ← consume .RBRACKET "Expected ']' to close array index."
      return .mk id es
    else
      return .mk id .nil
/-- `Parser::procedureCall`. -/
def procedureCall : Nat → ParserM ProcedureCall
  | 0 => throw .outOfFuel
  | fuel + 1 => do
    let id := (← consume .IDENTIFIER "Expected procedure or function identifier for call.").value
    if (← match_ .LPAREN) then
      if (← match_ .RPAREN) then
        return .mk id .nil
      let first ← expression fuel
      let ps ← expressionListLoop fuel (.cons first .nil)
      let _ ← consume .RPAREN "Expected ')' to close argument list in procedure/function call."
      return .mk id ps
    else
      return .mk id .nil
end

/-- The test `check(IDENTIFIER) || check(BEGIN) || ... || check(BREAK)` with which
`ifStatement`, `forStatement` and `whileStatement` decide whether a statement follows. -/
def startsStatement : ParserM Bool := do
  return (← check .IDENTIFIER) || (← check .BEGIN) || (← check .IF) || (← check .FOR) ||
    (← check .WHILE) || (← check .READ) || (← check .WRITE) || (← check .BREAK)

/-- `Parser::assign`. -/
def assign (fuel : Nat) : ParserM Statement := do
  let left ← variable_ fuel
  let _ ← consume .ASSIGN "Expected ':=' for assignment."
  let right ← expression fuel
  return .Assign (← alloc) left right

/-- The loop `while (match(TokenType::COMMA)) addVariable(variable());` of
`Parser::readStatement`. -/
def variableListLoop : Nat → List Variable → ParserM (List Variable)
  | 0, _ => throw .outOfFuel
  | fuel + 1, acc => do
    if (← match_ .COMMA) then
      variableListLoop fuel (acc ++ [← variable_ fuel])
    else
      return acc

/-- `Parser::readStatement`. -/
def readStatement (fuel : Nat) : ParserM Statement := do
  let _ ← consume .READ "Expected 'read' keyword to start read statement."
  let a ← alloc
  let _ ← consume .LPAREN "Expected '(' after 'read' keyword."
  let first ← variable_ fuel
  let vs ← variableListLoop fuel [first]
  let _ ← consume .RPAREN "Expected ')' to close variable list in read statement."
  return .Read a vs

/-- `Parser::writeStatement`. -/
def writeStatement (fuel : Nat) : ParserM Statement := do
  let _ ← consume .WRITE "Expected 'write' keyword to start write statement."
  let a ← alloc
  let _ ← consume .LPAREN "Expected '(' after 'write' keyword."
  let first ← expression fuel
  let es ← expressionListLoop fuel (.cons first .nil)
  let _ ← consume .RPAREN "Expected ')' to close expression list in write statement."
  return .Write a es

/-- `Parser::breakStatement`. -/
def breakStatement : ParserM Statement := do
  let _ ← consume .BREAK "Expected 'break' keyword."
  return .Break

mutual
/-- `Parser::statement`. -/
def statement : Nat → ParserM Statement
  | 0 => throw .outOfFuel
  | fuel + 1 => do
    if (← check .BEGIN) then
      return .CompoundStatement (← compoundStatement fuel)
    else if (← check .IF) then
      ifStatement fuel
    else if (← check .FOR) then
      forStatement fuel
    else if (← check .WHILE) then
      whileStatement fuel
    else if (← check .READ) then
      readStatement fuel
    else if (← check .WRITE) then
      writeStatement fuel
    else if (← check .IDENTIFIER) then
      forward
      if (← check .ASSIGN) || (← check .LBRACKET) then
        backward
        assign fuel
      else if (← check .LPAREN) then
        backward
        return .ProcedureCall (← procedureCall fuel)
      else
        backward
        return .ProcedureCall (← procedureCall fuel)
    else if (← check .BREAK) then
      breakStatement
    else
      throw (.ParserException "Expected statement" (← getToken).line)
/-- The loop `while (!match(TokenType::END))` of `Parser::compoundStatement`. -/
def compoundStatementLoop : Nat → StatementList → ParserM StatementList
  | 0, _ => throw .outOfFuel
  | fuel + 1, acc => do
    if (← match_ .END) then
      return acc
    else
      let _ ← consume .SEMICOLON "Expected ';' to separate statements in compound statement."
      if (← check .SEMICOLON) || (← check .END) then
        compoundStatementLoop fuel (acc.push_back .NullStatement)
      else
        compoundStatementLoop fuel (acc.push_back (← statement fuel))
/-- `Parser::compoundStatement`. -/
def compoundStatement : Nat → ParserM CompoundStatement
  | 0 => throw .outOfFuel
  | fuel + 1 => do
    let _ ← consume .BEGIN "Expected 'begin' keyword to start compound statement."
    let a ← alloc
    if (← match_ .END) then
      return .mk a (.cons .NullStatement .nil)
    else
      let first ← if (← check .SEMICOLON) then pure Statement.NullStatement else statement fuel
      return .mk a (← compoundStatementLoop fuel (.cons first .nil))
/-- `Parser::ifStatement`. -/
def ifStatement : Nat → ParserM Statement
  | 0 => throw .outOfFuel
  | fuel + 1 => do
    let _ ← consume .IF "Expected 'if' keyword to start if statement."
    let condition ← expression fuel
    let _ ← consume .THEN "Expected 'then' keyword after if condition."
    let then_statement ← if (← startsStatement) then statement fuel else pure .NullStatement
    if (← match_ .ELSE) then
      let else_statement ← if (← startsStatement) then statement fuel else pure .NullStatement
      return .IfElse condition then_statement else_statement
    else
      return .If condition then_statement
/-- `Parser::forStatement`. -/
def forStatement : Nat → ParserM Statement
  | 0 => throw .outOfFuel
  | fuel + 1 => do
    let _ ← consume .FOR "Expected 'for' keyword to start for loop."
    let id := (← consume .IDENTIFIER "Expected loop control variable identifier after 'for' keyword.").value
    let _ ← consume .ASSIGN "Expected ':=' for loop control variable initialization."
    let lower_bound ← expression fuel
    let _ ← consume .TO "Expected 'to' keyword for for loop range."
    let upper_bound ← expression fuel
    let _ ← consume .DO "Expected 'do' keyword before for loop body."
    let statement ← if (← startsStatement) then statement fuel else pure .NullStatement
    return .For id lower_bound upper_bound statement
/-- `Parser::whileStatement`. -/
def whileStatement : Nat → ParserM Statement
  | 0 => throw .outOfFuel
  | fuel + 1 => do
    let _ ← consume .WHILE "Expected 'while' keyword to start while loop."
    let condition ← expression fuel
    let _ ← consume .DO "Expected 'do' keyword before while loop body."
    let statement ← if (← startsStatement) then statement fuel else pure .NullStatement
    return .While condition statement
end

/-- The loop `while (match(TokenType::COMMA)) add(consume(TokenType::IDENTIFIER, msg).value);`
of `Parser::program`, `Parser::parameter` and `Parser::varDeclaration`. -/
def identifierListLoop (msg : String) : Nat → List String → ParserM (List String)
  | 0, _ => throw .outOfFuel
  | fuel + 1, acc => do
    if (← match_ .COMMA) then
      identifierListLoop msg fuel (acc ++ [(← consume .IDENTIFIER msg).value])
    else
      return acc

/-- `Parser::parameter`. -/
def parameter (fuel : Nat) : ParserM Parameter := do
  let has_var ← match_ .VAR
  let first := (← consume .IDENTIFIER "Expected identifier for parameter name.").value
  let ids ← identifierListLoop "Expected identifier for parameter name." fuel [first]
  let _ ← consume .COLON "Expected ':' after parameter identifier list to specify type."
  let t ← basicType "Expected basic type"
  return { has_var := has_var, id_list := ids, basic_type := t }

/-- `Parser::constDeclaration`. -/
def constDeclaration : ParserM ConstDecl := do
  let id := (← consume .IDENTIFIER "Expected identifier for constant name.").value
  let _ ← consume .EQUAL "Expected '=' after constant identifier in constant declaration."
  if (← match_ .PLUS) then
    return ⟨id, "+" ++ (← consume .NUMBER "Expected numeric value after '+' in constant declaration.").value⟩
  if (← match_ .MINUS) then
    return ⟨id, "-" ++ (← consume .NUMBER "Expected numeric value after '-' in constant declaration.").value⟩
  if (← check .NUMBER) then
    return ⟨id, (← consume .NUMBER "Expected numeric value for constant.").value⟩
  if (← check .CHAR_LITERAL) then
    return ⟨id, (← consume .CHAR_LITERAL "Expected character literal for constant.").value⟩
  return ⟨id, String.mk [DQUOTE] ++
    (← consume .STRING_LITERAL "Expected string literal for constant.").value ++ String.mk [DQUOTE]⟩

/-- The lambda `isIntegralString` of `Parser::type`. -/
def isIntegralString (s : String) : Bool := s.data.all isdigit

/-- One `lower .. upper` range of `Parser::type`. -/
def period : ParserM (String × String) := do
  let lower := (← consume .NUMBER "Expected numeric value for array lower bound.").value
  if !isIntegralString lower then
    throw (.ParserException "Expected a integral value for array lower bound" (← getToken).line)
  let _ ← consume .DOTDOT "Expected '..' between array bounds."
  let upper := (← consume .NUMBER "Expected numeric value for array upper bound.").value
  if !isIntegralString upper then
    throw (.ParserException "Expected a integral value for array upper bound" (← getToken).line)
  return (lower, upper)

/-- The loop `while (match(TokenType::COMMA))` of `Parser::type`. -/
def periodLoop : Nat → List (String × String) → ParserM (List (String × String))
  | 0, _ => throw .outOfFuel
  | fuel + 1, acc => do
    if (← match_ .COMMA) then
      periodLoop fuel (acc ++ [← period])
    else
      return acc

/-- `Parser::type`. -/
def type (fuel : Nat) : ParserM TypeNode := do
  if (← match_ .ARRAY) then
    let _ ← consume .LBRACKET "Expected '[' after 'array' keyword."
    let first ← period
    let periods ← periodLoop fuel [first]
    let _ ← consume .RBRACKET "Expected ']' to close array bounds."
    let _ ← consume .OF "Expected 'of' keyword before array element type."
    let t ← basicType "Expected basic type after 'of' in array declaration"
    return { periods := periods, basic_type := t }
  else
    let t ← basicType "Expected basic type"
    return { periods := [], basic_type := t }

/-- `Parser::varDeclaration`. -/
def varDeclaration (fuel : Nat) : ParserM VarDecl := do
  let first := (← consume .IDENTIFIER "Expected identifier for variable name.").value
  let ids ← identifierListLoop "Expected identifier for variable name." fuel [first]
  let _ ← consume .COLON "Expected ':' after variable identifier list."
  let t ← type fuel
  return { id_list := ids, type := t }

/-- The loop `while (check(TokenType::IDENTIFIER))` over constant declarations. -/
def constDeclarationLoop (msg : String) : Nat → List ConstDecl → ParserM (List ConstDecl)
  | 0, _ => throw .outOfFuel
  | fuel + 1, acc => do
    if (← check .IDENTIFIER) then
      let d ← constDeclaration
      let _ ← consume .SEMICOLON msg
      constDeclarationLoop msg fuel (acc ++ [d])
    else
      return acc

/-- The loop `while (check(TokenType::IDENTIFIER))` over variable declarations. -/
def varDeclarationLoop (msg : String) : Nat → List VarDecl → ParserM (List VarDecl)
  | 0, _ => throw .outOfFuel
  | fuel + 1, acc => do
    if (← check .IDENTIFIER) then
      let d ← varDeclaration fuel
      let _ ← consume .SEMICOLON msg
      varDeclarationLoop msg fuel (acc ++ [d])
    else
      return acc

/-- The loop `while (match(TokenType::SEMICOLON)) addParameter(parameter());`. -/
def parameterLoop : Nat → List Parameter → ParserM (List Parameter)
  | 0, _ => throw .outOfFuel
  | fuel + 1, acc => do
    if (← match_ .SEMICOLON) then
      parameterLoop fuel (acc ++ [← parameter fuel])
    else
      return acc

/-- The formal parameter list of `Parser::subprogram`; `msg` is the message for a
missing closing parenthesis. -/
def parameterList (msg : String) (fuel : Nat) : ParserM (List Parameter) := do
  if (← match_ .LPAREN) then
    if !(← match_ .RPAREN) then
      let first ← parameter fuel
      let ps ← parameterLoop fuel [first]
      let _ ← consume .RPAREN msg
      return ps
    else
      return []
  else
    return []

/-- The part of `Parser::subprogram` after the header: constants, variables and body. -/
def subprogramBody (fuel : Nat) : ParserM (List ConstDecl × List VarDecl × CompoundStatement) := do
  let consts ← if (← match_ .CONST) then
      constDeclarationLoop "Expected ';' after constant declaration in subprogram." fuel []
    else pure []
  let vars ← if (← match_ .VAR) then
      varDeclarationLoop "Expected ';' after variable declaration in subprogram." fuel []
    else pure []
  let body ← compoundStatement fuel
  return (consts, vars, body)

/-- `Parser::subprogram`. -/
def subprogram (fuel : Nat) : ParserM Subprogram := do
  if (← match_ .PROCEDURE) then
    let id := (← consume .IDENTIFIER "Expected procedure identifier after 'procedure' keyword.").value
    let ps ← parameterList "Expected ')' to close procedure parameter list." fuel
    let _ ← consume .SEMICOLON "Expected ';' after procedure header."
    let (consts, vars, body) ← subprogramBody fuel
    return { id := id, is_func := false, parameters := ps, ret_type := .INTEGER,
             const_declaration := consts, var_declaration := vars, compound_statement := body }
  else if (← match_ .FUNCTION) then
    let id := (← consume .IDENTIFIER "Expected function identifier after 'function' keyword.").value
    let ps ← parameterList "Expected ')' to close function parameter list." fuel
    let _ ← consume .COLON "Expected ':' after function parameter list for return type specification."
    let ret ← basicType "Expected return type"
    let _ ← consume .SEMICOLON "Expected ';' after function header."
    let (consts, vars, body) ← subprogramBody fuel
    return { id := id, is_func := true, parameters := ps, ret_type := ret,
             const_declaration := consts, var_declaration := vars, compound_statement := body }
  else
    throw (.ParserException "Expected 'procedure' or 'function'" (← getToken).line)

/-- The loop `while (check(PROCEDURE) || check(FUNCTION))` of `Parser::program`. -/
def subprogramLoop : Nat → List Subprogram → ParserM (List Subprogram)
  | 0, _ => throw .outOfFuel
  | fuel + 1, acc => do
    if (← check .PROCEDURE) || (← check .FUNCTION) then
      let sp ← subprogram fuel
      let _ ← consume .SEMICOLON "Expected ';' after subprogram declaration."
      subprogramLoop fuel (acc ++ [sp])
    else
      return acc

/-- `Parser::program`, every loop and recursive call of which gets `fuel`. -/
def program (fuel : Nat) : ParserM Program := do
  let _ ← consume .PROGRAM "Expected 'program' keyword at the beginning of the program declaration."
  let program_id := (← consume .IDENTIFIER "Expected program identifier after 'program' keyword.").value
  let parameters ← if (← match_ .LPAREN) then do
      let first := (← consume .IDENTIFIER "Expected identifier for program parameter.").value
      let ps ← identifierListLoop "Expected identifier for program parameter." fuel [first]
      let _ ← consume .RPAREN "Expected ')' to close program parameter list."
      pure ps
    else pure []
  let _ ← consume .SEMICOLON "Expected ';' after program header."
  let consts ← if (← match_ .CONST) then
      constDeclarationLoop "Expected ';' after constant declaration." fuel []
    else pure []
  let vars ← if (← match_ .VAR) then
      varDeclarationLoop "Expected ';' after variable declaration." fuel []
    else pure []
  let subprograms ← subprogramLoop fuel []
  let body ← compoundStatement fuel
  let _ ← consume .DOT "Expected '.' at the end of the program."
  return { program_id := program_id, parameters := parameters, const_declaration := consts,
           var_declaration := vars, subprograms := subprograms, compound_statement := body }

end Parser

/-! ## Symbol table (`symbol_table.hpp`, `symbol_table.cpp`) -/

/-- The enumeration `TypeKind`. -/
inductive TypeKind
  | BASIC | ARRAY | PROCEDURE | FUNCTION
  deriving DecidableEq, Repr

/-- The enumeration `BaseTypeKind`. -/
inductive BaseTypeKind
  | INTEGER | REAL | BOOLEAN | CHAR
  deriving DecidableEq, Repr

/-- A `SymbolEntry` of basic type, as `CallableType::parameters` and the local scope of a
callable hold them: `SemanticAnalyzer::visit(const Parameter&)` is the only function that
inserts into the scope these entries are taken from. -/
structure ParamEntry where
  name : String
  base_kind : BaseTypeKind
  scope_level : Nat
  is_reference : Bool
  deriving DecidableEq, Repr

/-- The class `SymbolType`; the constructor gives `kind` and the alternative of `type_data`.
`BASIC` holds a `BaseType`.  `ARRAY` holds an `ArrayType`, whose `element_type` is always
one of the four basic type objects (`processType` is the only caller of `createArrayType`).
`CALLABLE` holds a `CallableType`: `kind` is `FUNCTION` when `is_function`, else `PROCEDURE`;
`return_type` is one of the basic type objects, or null for a procedure; `local_scope`
lists the entries of the scope it points to. -/
inductive SymbolType
  | BASIC (base_kind : BaseTypeKind)
  | ARRAY (dimensions : List (Int × Int)) (element_type : BaseTypeKind)
  | CALLABLE (is_function : Bool) (return_type : Option BaseTypeKind)
      (parameters : List ParamEntry) (local_scope : List ParamEntry)
  deriving DecidableEq, Repr

/-- The member `kind` of `SymbolType`. -/
def SymbolType.kind : SymbolType → TypeKind
  | .BASIC _ => .BASIC
  | .ARRAY _ _ => .ARRAY
  | .CALLABLE is_function _ _ _ => if is_function then .FUNCTION else .PROCEDURE

/-- The class `SymbolEntry`.  `const_value` is `none` while the variant holds its default
alternative; the member `return_type` (a string that is never read) is left out. -/
structure SymbolEntry where
  name : String
  type : SymbolType
  scope_level : Nat
  is_constant : Bool := false
  const_value : Option String := none
  is_reference : Bool := false
  line_number : Nat := 0
  deriving DecidableEq, Repr

/-- The enumeration `SemanticError::ErrorType`. -/
inductive ErrorType
  | DUPLICATE_DEFINITION | UNDEFINED_SYMBOL | SCOPE_VIOLATION | VAR_PARAM_ERROR | TYPE_MISMATCH
  | ARRAY_INDEX_OUT_OF_BOUNDS | CONSTANT_ASSIGNMENT | OTHER_ERROR
  deriving DecidableEq, Repr

/-- One call of `SemanticError::report`: what is written to the diagnostics stream. -/
structure Report where
  type : ErrorType
  message : String
  line_number : Nat
  deriving DecidableEq, Repr

/-- The class `SymbolTable`: the entries in insertion order (the names are distinct) and
the scope level.  The parent is the next table of the scope stack. -/
structure SymbolTable where
  entries : List SymbolEntry
  current_scope : Nat
  deriving DecidableEq, Repr

namespace SymbolTable

/-- `SymbolTable::lookup`. -/
def lookup (t : SymbolTable) (name : String) : Option SymbolEntry :=
  t.entries.find? (fun e => e.name == name)

/-- `SymbolTable::insert`: the table, whether the entry was inserted, and the report made
when the name is already defined. -/
def insert (t : SymbolTable) (entry : SymbolEntry) : SymbolTable × Bool × Option Report :=
  match t.lookup entry.name with
  | some _ =>
    (t, false, some ⟨.DUPLICATE_DEFINITION,
      "identifier '" ++ entry.name ++ "' is already defined in the current scope", entry.line_number⟩)
  | none => ({ t with entries := t.entries ++ [entry] }, true, none)

/-- `SymbolTable::recursiveLookup`, on a table followed by the chain of its parents. -/
def recursiveLookup : List SymbolTable → String → Option SymbolEntry
  | [], _ => none
  | t :: parents, name =>
    match t.lookup name with
    | some e => some e
    | none => recursiveLookup parents name

end SymbolTable

/-- The class `ScopeStack`: the head of the list is `stack.back()`, and the tail of a
table in the list is the chain of its parents. -/
abbrev ScopeStack := List SymbolTable

namespace ScopeStack

/-- `ScopeStack::push`. -/
def push (stack : ScopeStack) : ScopeStack := ⟨[], stack.length⟩ :: stack

/-- `ScopeStack::pop`. -/
def pop (stack : ScopeStack) : ScopeStack := stack.tail

/-- `ScopeStack::current`. -/
def current (stack : ScopeStack) : Option SymbolTable := stack.head?

/-- `ScopeStack::isAccessible`. -/
def isAccessible (stack : ScopeStack) (symbol : SymbolEntry) : Bool :=
  match stack with
  | [] => false
  | t :: _ => decide (symbol.scope_level ≤ t.current_scope)

end ScopeStack

/-! ## Library functions -/

/-- `std::isspace` in the "C" locale. -/
def isspace (c : Char) : Bool := c = ' ' || (decide (9 ≤ c.toNat) && decide (c.toNat ≤ 13))

/-- The value of a run of decimal digits at the head of the text, if there is one. -/
def digitsValue : List Char → Option Nat → Option Nat
  | [], acc => acc
  | c :: cs, acc =>
    if isdigit c then digitsValue cs (some (acc.getD 0 * 10 + (c.toNat - 48))) else acc

/-- `std::stoi(s)`: white space, an optional sign and decimal digits are read from the head
of the text; `none` when it throws (`std::invalid_argument` without a digit,
`std::out_of_range` outside the range of `int`). -/
def stoi (s : String) : Option Int :=
  let body := s.data.dropWhile isspace
  let (negative, rest) := match body with
    | '-' :: r => (true, r)
    | '+' :: r => (false, r)
    | r => (false, r)
  match digitsValue rest none with
  | none => none
  | some n =>
    let v : Int := if negative then -(n : Int) else (n : Int)
    if -2147483648 ≤ v ∧ v ≤ 2147483647 then some v else none

/-- Arithmetic on `int`, wrapped to 32 bits. -/
def wrapInt (v : Int) : Int := (v + 2147483648) % 4294967296 - 2147483648

/-- The text `std::to_string` gives for an `int`. -/
def intToString (v : Int) : String := toString v

/-- The text `std::to_string` gives for a `size_t`. -/
def sizeToString (n : Nat) : String := toString n

/-- How a run of the analyzer or the generator ends abnormally. -/
inductive Crash
  | nullDereference
  | badVariantAccess
  | outOfRange
  | stoiException
  deriving DecidableEq, Repr

/-- `std::map::emplace`: the pair is inserted when the key is not in the map. -/
def mapEmplace {κ ν : Type} [BEq κ] (m : List (κ × ν)) (k : κ) (v : ν) : List (κ × ν) :=
  match m.lookup k with
  | some _ => m
  | none => m ++ [(k, v)]

/-- Assignment through `std::map::operator[]`. -/
def mapAssign {κ ν : Type} [BEq κ] (m : List (κ × ν)) (k : κ) (v : ν) : List (κ × ν) :=
  match m.lookup k with
  | some _ => m.map (fun p => if p.1 == k then (k, v) else p)
  | none => m ++ [(k, v)]

/-! ## Utilities (`utils.hpp`, `utils.cpp`) -/

namespace Utils

/-- `Utils::getBasicTypeName`. -/
def getBasicTypeName : BasicType → String
  | .INTEGER => "int"
  | .REAL => "float"
  | .BOOLEAN => "bool"
  | .CHAR => "char"

/-- `Utils::getAddOpName`. -/
def getAddOpName : AddOp → String
  | .PLUS => "+"
  | .MINUS => "-"
  | .OR => "||"

/-- `Utils::getMulOpName`. -/
def getMulOpName : MulOp → String
  | .TIMES => "*"
  | .RDIV => "/"
  | .DIV => "/"
  | .MOD => "%"
  | .AND => "&&"

/-- `Utils::getRelOpName`. -/
def getRelOpName : RelOp → String
  | .GT => ">"
  | .EQ => "=="
  | .LE => "<="
  | .GE => ">="
  | .LT => "<"
  | .NE => "!="

end Utils

/-! ## Semantic analyzer (`semantic_analyzer.hpp`, `semantic_analyzer.cpp`) -/

/-- The data members of the class `SemanticAnalyzer` (the maps are keyed by node address),
and `reports`, the calls of `SemanticError::report` made so far. -/
structure SemanticAnalyzer where
  scope_stack : ScopeStack
  error_count : Nat
  is_function_return : List (Nat × Bool)
  read_fmt_specifier : List (Nat × String)
  write_fmt_specifier : List (Nat × String)
  is_factor_function_call : List (Nat × Bool)
  is_factor_with_not_number : List (Nat × Bool)
  is_var_param : List (String × List Bool)
  params_name : List (String × List String)
  reports : List Report
  deriving DecidableEq, Repr

/-- An abnormal end of the analysis: `crash` is what ended the run, `reports` are the calls
of `SemanticError::report` made before, whose text is on the diagnostics stream already. -/
structure Abort where
  crash : Crash
  reports : List Report
  deriving DecidableEq, Repr

/-- A member function of `SemanticAnalyzer`: it changes the analyzer and returns, or the
run ends abnormally. -/
abbrev SemM := StateT SemanticAnalyzer (Except Abort)

namespace SemanticAnalyzer

/-- The member `integer_type`. -/
def integer_type : SymbolType := .BASIC .INTEGER

/-- The member `real_type`. -/
def real_type : SymbolType := .BASIC .REAL

/-- The member `boolean_type`. -/
def boolean_type : SymbolType := .BASIC .BOOLEAN

/-- The member `char_type`. -/
def char_type : SymbolType := .BASIC .CHAR

/-- `SemanticAnalyzer::SemanticAnalyzer()`: the global scope is pushed. -/
def new : SemanticAnalyzer :=
  { scope_stack := ScopeStack.push [], error_count := 0, is_function_return := [],
    read_fmt_specifier := [], write_fmt_specifier := [], is_factor_function_call := [],
    is_factor_with_not_number := [], is_var_param := [], params_name := [], reports := [] }

/-- `SemanticAnalyzer::hasError`. -/
def hasError (s : SemanticAnalyzer) : Bool := decide (s.error_count > 0)

/-- `SemanticError::report`. -/
def report (type : ErrorType) (message : String) (line_number : Nat) : SemM Unit :=
  modify fun s => { s with reports := s.reports ++ [⟨type, message, line_number⟩] }

/-- The statement `error_count++`. -/
def countError : SemM Unit := modify fun s => { s with error_count := s.error_count + 1 }

/-- The run ends abnormally with `c`; the diagnostics written so far stay written. -/
def abort {α : Type} (c : Crash) : SemM α := fun s => .error ⟨c, s.reports⟩

/-- Dereference of a pointer that may be null. -/
def deref {α : Type} : Option α → SemM α
  | some a => pure a
  | none => abort .nullDereference

/-- `std::get<BaseType>(t->type_data).base_kind`. -/
def getBaseKind : SymbolType → SemM BaseTypeKind
  | .BASIC k => pure k
  | _ => abort .badVariantAccess

/-- `scope_stack.current()->recursiveLookup(name)`. -/
def recursiveLookup (name : String) : SemM (Option SymbolEntry) := do
  match (← get).scope_stack with
  | [] => abort .nullDereference
  | stack => return SymbolTable.recursiveLookup stack name

/-- `scope_stack.current()->lookup(name)`. -/
def lookup (name : String) : SemM (Option SymbolEntry) := do
  match (← get).scope_stack with
  | [] => abort .nullDereference
  | t :: _ => return t.lookup name

/-- `scope_stack.current()->getCurrentScope()`. -/
def getCurrentScope : SemM Nat := do
  match (← get).scope_stack with
  | [] => abort .nullDereference
  | t :: _ => return t.current_scope

/-- `scope_stack.current()->insert(entry)`; the return value is ignored at every call. -/
def insert (entry : SymbolEntry) : SemM Unit := do
  let s ← get
  match s.scope_stack with
  | [] => abort .nullDereference
  | t :: parents =>
    let (t1, _, r) := t.insert entry
    set { s with scope_stack := t1 :: parents, reports := s.reports ++ r.toList }

/-- `SemanticAnalyzer::isNumericType`. -/
def isNumericType (type : SymbolType) : Bool :=
  type = .BASIC .INTEGER || type = .BASIC .REAL

/-- `SemanticAnalyzer::isIntegerType`. -/
def isIntegerType (type : SymbolType) : Bool := type = .BASIC .INTEGER

/-- `SemanticAnalyzer::isBooleanType`. -/
def isBooleanType (type : SymbolType) : Bool := type = .BASIC .BOOLEAN

/-- `SemanticAnalyzer::getSymbolTypeFromBasicType`. -/
def getSymbolTypeFromBasicType : BasicType → SymbolType
  | .INTEGER => integer_type
  | .REAL => real_type
  | .BOOLEAN => boolean_type
  | .CHAR => char_type

/-- The base kind of `getSymbolTypeFromBasicType`. -/
def baseKindOf : BasicType → BaseTypeKind
  | .INTEGER => .INTEGER
  | .REAL => .REAL
  | .BOOLEAN => .BOOLEAN
  | .CHAR => .CHAR

/-- `SemanticAnalyzer::getTypeName`. -/
def getTypeName : Option SymbolType → String
  | none => "unknown"
  | some (.BASIC .INTEGER) => "integer"
  | some (.BASIC .REAL) => "real"
  | some (.BASIC .BOOLEAN) => "boolean"
  | some (.BASIC .CHAR) => "char"
  | some (.ARRAY _ _) => "array"
  | some (.CALLABLE true _ _ _) => "function"
  | some (.CALLABLE false _ _ _) => "procedure"

/-- `SemanticAnalyzer::areTypesCompatible`. -/
def areTypesCompatible (target_type source_type : SymbolType) : Bool :=
  match target_type, source_type with
  | .BASIC t, .BASIC s => t = s || (t = .REAL && s = .INTEGER)
  | .ARRAY _ t, .ARRAY _ s => t = s || (t = .REAL && s = .INTEGER)
  | _, _ => false

/-- `SemanticAnalyzer::getNumericResultType`; the arguments are pointers and are
dereferenced in the order of the condition. -/
def getNumericResultType (left right : Option SymbolType) : SemM SymbolType := do
  let l ← deref left
  let bad ← if !isNumericType l then pure true else do
    let r ← deref right
    pure (!isNumericType r)
  if bad then
    report .TYPE_MISMATCH "Arithmetic operation requires numeric operands" 0
    countError
    return integer_type
  let r ← deref right
  if l = .BASIC .REAL || r = .BASIC .REAL then
    return real_type
  return integer_type

mutual
/-- `SemanticAnalyzer::getFactorType`. -/
def getFactorType : Factor → SemM (Option SymbolType)
  | .NUMBER _ value_str =>
    if value_str.data.contains '.' then return some real_type else return some integer_type
  | .VARIABLE _ var => do
    match (← recursiveLookup var.getId) with
    | none => return none
    | some var_entry =>
      match var_entry.type with
      | .ARRAY dims elem =>
        if !var.getExpressions.empty then return some (.BASIC elem) else return some (.ARRAY dims elem)
      | var_type => return some var_type
  | .EXPRESSION _ e => getExpressionType e
  | .FUNCTION _ proc_call => do
    match (← recursiveLookup proc_call.getId) with
    | none => return none
    | some func_entry =>
      match func_entry.type with
      | .CALLABLE true return_type _ _ => return return_type.map .BASIC
      | _ => return none
  | .WITH_PLUS _ operand => do
    let operand_type ← getFactorType operand
    if operand_type = some (.BASIC .INTEGER) || operand_type = some (.BASIC .REAL) then
      return operand_type
    else return none
  | .WITH_UMINUS _ operand => do
    let operand_type ← getFactorType operand
    if operand_type = some (.BASIC .INTEGER) || operand_type = some (.BASIC .REAL) then
      return operand_type
    else return none
  | .WITH_NOT _ operand => do
    match (← getFactorType operand) with
    | none => return none
    | some operand_type =>
      if operand_type = .BASIC .INTEGER then return some integer_type
      match operand_type with
      | .ARRAY _ .INTEGER => return some integer_type
      | _ =>
        if (← getBaseKind operand_type) ≠ .BOOLEAN then return none
        return some boolean_type
  | .BOOLEAN _ _ => return some boolean_type
  | .UNKNOWN _ id => do
    match (← recursiveLookup id) with
    | none => return none
    | some entry =>
      match entry.type with
      | .CALLABLE true return_type _ _ => return return_type.map .BASIC
      | t => return some t
/-- The loop of `SemanticAnalyzer::getTermType`: the type of every further factor is
computed and dropped. -/
def getTermTypeLoop : FactorList → SemM Unit
  | .nil => return ()
  | .cons _ factor tl => do
    let _ ← getFactorType factor
    getTermTypeLoop tl
/-- `SemanticAnalyzer::getTermType`. -/
def getTermType : Term → SemM (Option SymbolType)
  | .mk firstFactor factors => do
    if factors.empty then
      getFactorType firstFactor
    else
      let type ← getFactorType firstFactor
      getTermTypeLoop factors
      return type
/-- The loop of `SemanticAnalyzer::getSimpleExpressionType`. -/
def getSimpleExpressionTypeLoop : TermList → Option SymbolType → SemM (Option SymbolType)
  | .nil, type => return type
  | .cons op term tl, type => do
    let term_type ← getTermType term
    if op = .OR then
      let t ← deref type
      let flag1 : Bool ← if t = .BASIC .BOOLEAN then do
          pure (decide ((← deref term_type) = .BASIC .BOOLEAN))
        else pure false
      let flag2 : Bool ← if t = .BASIC .INTEGER then do
          pure (decide ((← deref term_type) = .BASIC .INTEGER))
        else pure false
      if flag1 = false && flag2 = false then
        report .TYPE_MISMATCH "Logical OR operator requires boolean or integer operands" 0
        countError
      if flag1 then
        getSimpleExpressionTypeLoop tl (some boolean_type)
      else
        getSimpleExpressionTypeLoop tl (some integer_type)
    else
      getSimpleExpressionTypeLoop tl (some (← getNumericResultType type term_type))
/-- `SemanticAnalyzer::getSimpleExpressionType`. -/
def getSimpleExpressionType : SimpleExpression → SemM (Option SymbolType)
  | .mk firstTerm terms => do
    if terms.empty then
      getTermType firstTerm
    else
      let type ← getTermType firstTerm
      getSimpleExpressionTypeLoop terms type
/-- `SemanticAnalyzer::getExpressionType`. -/
def getExpressionType : Expression → SemM (Option SymbolType)
  | .simple left => getSimpleExpressionType left
  | .relational _ _ _ => return some boolean_type
end

/-- `SemanticAnalyzer::tryGetConstantValue`. -/
def tryGetConstantValue : Expression → Option Int
  | .simple (.mk (.mk (.NUMBER _ value_str) .nil) .nil) => stoi value_str
  | _ => none

mutual
/-- `SemanticAnalyzer::visit(const Factor&)`. -/
def visitFactor : Factor → SemM Unit
  | .NUMBER _ _ => return ()
  | .VARIABLE _ var => visitVariable var
  | .EXPRESSION _ e => visitExpression e
  | .FUNCTION _ func_call => visitProcedureCall func_call
  | .WITH_PLUS _ operand => do
    let operand_type ← deref (← getFactorType operand)
    if !(operand_type = .BASIC .INTEGER || operand_type = .BASIC .REAL) then
      report .TYPE_MISMATCH "Unary minus operator requires numeric operand" 0
      countError
      return
    visitFactor operand
  | .WITH_UMINUS _ operand => do
    let operand_type ← deref (← getFactorType operand)
    if !(operand_type = .BASIC .INTEGER || operand_type = .BASIC .REAL) then
      report .TYPE_MISMATCH "Unary minus operator requires numeric operand" 0
      countError
      return
    visitFactor operand
  | .WITH_NOT addr operand => do
    let operand_type ← deref (← getFactorType operand)
    if !(operand_type = .BASIC .BOOLEAN || operand_type = .BASIC .INTEGER ||
        operand_type = .BASIC .REAL) then
      report .TYPE_MISMATCH "NOT operator requires boolean operand" 0
      countError
      return
    if (← getBaseKind operand_type) = .INTEGER then
      modify fun s => { s with is_factor_with_not_number := mapEmplace s.is_factor_with_not_number addr true }
    else
      modify fun s => { s with is_factor_with_not_number := mapEmplace s.is_factor_with_not_number addr false }
    visitFactor operand
  | .BOOLEAN _ _ => return ()
  | .UNKNOWN addr id => do
    match (← recursiveLookup id) with
    | none =>
      report .UNDEFINED_SYMBOL ("Use undeclared variable or function '" ++ id ++ "'") 0
      countError
    | some entry =>
      if entry.type.kind = .FUNCTION || entry.type.kind = .PROCEDURE then
        modify fun s => { s with is_factor_function_call := mapEmplace s.is_factor_function_call addr true }
      else
        modify fun s => { s with is_factor_function_call := mapEmplace s.is_factor_function_call addr false }
/-- The loop of `SemanticAnalyzer::visit(const Term&)`. -/
def visitTermLoop : FactorList → SymbolType → SemM Unit
  | .nil, _ => return ()
  | .cons op factor tl, first_factor_type => do
    visitFactor factor
    match (← getFactorType factor) with
    | none => visitTermLoop tl first_factor_type
    | some current_factor_type =>
      match op with
      | .TIMES =>
        if !isNumericType first_factor_type || !isNumericType current_factor_type then
          report .TYPE_MISMATCH ("Operator '" ++ "*" ++ "' requires numeric operands, but got '" ++
            getTypeName first_factor_type ++ "' and '" ++ getTypeName current_factor_type ++ "'") 0
          countError
        visitTermLoop tl (← getNumericResultType first_factor_type current_factor_type)
      | .RDIV =>
        if !isNumericType first_factor_type || !isNumericType current_factor_type then
          report .TYPE_MISMATCH ("Operator '" ++ "/" ++ "' requires numeric operands, but got '" ++
            getTypeName first_factor_type ++ "' and '" ++ getTypeName current_factor_type ++ "'") 0
          countError
        visitTermLoop tl (← getNumericResultType first_factor_type current_factor_type)
      | .DIV =>
        if !isIntegerType first_factor_type || !isIntegerType current_factor_type then
          report .TYPE_MISMATCH ("Operator '" ++ "DIV" ++ "' requires integer operands, but got '" ++
            getTypeName first_factor_type ++ "' and '" ++ getTypeName current_factor_type ++ "'") 0
          countError
        visitTermLoop tl integer_type
      | .MOD =>
        if !isIntegerType first_factor_type || !isIntegerType current_factor_type then
          report .TYPE_MISMATCH ("Operator '" ++ "MOD" ++ "' requires integer operands, but got '" ++
            getTypeName first_factor_type ++ "' and '" ++ getTypeName current_factor_type ++ "'") 0
          countError
        visitTermLoop tl integer_type
      | .AND =>
        if (!isBooleanType first_factor_type || !isBooleanType current_factor_type) &&
            (!isIntegerType first_factor_type || !isIntegerType current_factor_type) then
          report .TYPE_MISMATCH ("Operator 'AND' requires boolean operands, but got '" ++
            getTypeName first_factor_type ++ "' and '" ++ getTypeName current_factor_type ++ "'") 0
          countError
        visitTermLoop tl boolean_type
/-- `SemanticAnalyzer::visit(const Term&)`. -/
def visitTerm : Term → SemM Unit
  | .mk firstFactor factors => do
    visitFactor firstFactor
    match (← getFactorType firstFactor) with
    | none => return
    | some first_factor_type => visitTermLoop factors first_factor_type
/-- The loop of `SemanticAnalyzer::visit(const SimpleExpression&)`. -/
def visitSimpleExpressionLoop : TermList → SymbolType → SemM Unit
  | .nil, _ => return ()
  | .cons op term tl, first_term_type => do
    visitTerm term
    match (← getTermType term) with
    | none => visitSimpleExpressionLoop tl first_term_type
    | some current_term_type =>
      match op with
      | .PLUS =>
        if !isNumericType first_term_type || !isNumericType current_term_type then
          report .TYPE_MISMATCH ("Operator '" ++ "+" ++ "' requires numeric operands, but got '" ++
            getTypeName first_term_type ++ "' and '" ++ getTypeName current_term_type ++ "'") 0
          countError
        visitSimpleExpressionLoop tl (← getNumericResultType first_term_type current_term_type)
      | .MINUS =>
        if !isNumericType first_term_type || !isNumericType current_term_type then
          report .TYPE_MISMATCH ("Operator '" ++ "-" ++ "' requires numeric operands, but got '" ++
            getTypeName first_term_type ++ "' and '" ++ getTypeName current_term_type ++ "'") 0
          countError
        visitSimpleExpressionLoop tl (← getNumericResultType first_term_type current_term_type)
      | .OR =>
        if (!isBooleanType first_term_type || !isBooleanType current_term_type) &&
            (!isIntegerType first_term_type || !isIntegerType current_term_type) then
          report .TYPE_MISMATCH ("Operator 'OR' requires boolean operands, but got '" ++
            getTypeName first_term_type ++ "' and '" ++ getTypeName current_term_type ++ "'") 0
          countError
        visitSimpleExpressionLoop tl boolean_type
/-- `SemanticAnalyzer::visit(const SimpleExpression&)`. -/
def visitSimpleExpression : SimpleExpression → SemM Unit
  | .mk firstTerm terms => do
    visitTerm firstTerm
    match (← getTermType firstTerm) with
    | none => return
    | some first_term_type => visitSimpleExpressionLoop terms first_term_type
/-- `SemanticAnalyzer::visit(const Expression&)`. -/
def visitExpression : Expression → SemM Unit
  | .simple left => visitSimpleExpression left
  | .relational left op right => do
    visitSimpleExpression left
    visitSimpleExpression right
    let left_type ← getSimpleExpressionType left
    let right_type ← getSimpleExpressionType right
    match left_type, right_type with
    | some left_type, some right_type =>
      let are_numeric := isNumericType left_type && isNumericType right_type
      let are_same_type := areTypesCompatible left_type right_type || areTypesCompatible right_type left_type
      if op = .GT || op = .LT || op = .GE || op = .LE then
        if !are_numeric && !are_same_type then
          report .TYPE_MISMATCH ("Operator '" ++ Utils.getRelOpName op ++
            "' requires compatible operands, but got '" ++ getTypeName left_type ++ "' and '" ++
            getTypeName right_type ++ "'") 0
          countError
      else if op = .EQ || op = .NE then
        let are_both_boolean := isBooleanType left_type && isBooleanType right_type
        if !are_numeric && !are_same_type && !are_both_boolean then
          report .TYPE_MISMATCH ("Operator '" ++ (if op = .EQ then "=" else "<>") ++
            "' requires compatible operands, but got '" ++ getTypeName left_type ++ "' and '" ++
            getTypeName right_type ++ "'") 0
          countError
    | _, _ => return
/-- The loop over the index expressions of `SemanticAnalyzer::visit(const Variable&)`;
`i` is the position of the first expression of the list. -/
def visitIndexLoop : ExpressionList → List (Int × Int) → Nat → String → SemM Unit
  | .nil, _, _, _ => return ()
  | .cons expr tl, dimensions, i, var_name => do
    visitExpression expr
    match tryGetConstantValue expr with
    | some index_value =>
      match dimensions[i]? with
      | none => abort .outOfRange
      | some (lower_bound, upper_bound) =>
        if index_value < lower_bound || index_value > upper_bound then
          report .ARRAY_INDEX_OUT_OF_BOUNDS ("Array index " ++ intToString index_value ++
            " is out of range [" ++ intToString lower_bound ++ ".." ++ intToString upper_bound ++
            "] for array '" ++ var_name ++ "' at dimension " ++ sizeToString (i + 1)) 0
          countError
    | none => pure ()
    visitIndexLoop tl dimensions (i + 1) var_name
/-- `SemanticAnalyzer::visit(const Variable&)`. -/
def visitVariable : Variable → SemM Unit
  | .mk var_name expressions => do
    match (← recursiveLookup var_name) with
    | none =>
      report .UNDEFINED_SYMBOL ("Use undeclared variables '" ++ var_name ++ "'") 0
      countError
    | some entry =>
      if !ScopeStack.isAccessible (← get).scope_stack entry then
        report .SCOPE_VIOLATION ("variable '" ++ var_name ++ "' Out of its scope") 0
        countError
        return
      if !expressions.empty then
        match entry.type with
        | .ARRAY dimensions _ =>
          if expressions.size ≠ dimensions.length then
            report .OTHER_ERROR ("Array '" ++ var_name ++ "' has " ++ sizeToString dimensions.length ++
              " dimensions, but accessed with " ++ sizeToString expressions.size ++ " indices") 0
            countError
            return
          visitIndexLoop expressions dimensions 0 var_name
        | _ =>
          report .TYPE_MISMATCH
            ("Variable '" ++ var_name ++ "' is not an array type but used with indices") 0
          countError
/-- The loop over the arguments of `SemanticAnalyzer::visit(const ProcedureCall&)`; `i` is
the position of the first expression of the list.  (The `args` vector of the code stays
empty, the `dynamic_cast` of an `Expression` to `Variable` being null.) -/
def visitArgumentLoop : ExpressionList → List ParamEntry → Nat → String → SemM Unit
  | .nil, _, _, _ => return ()
  | .cons expr tl, formal_params, i, proc_name => do
    visitExpression expr
    match (← getExpressionType expr) with
    | none => visitArgumentLoop tl formal_params (i + 1) proc_name
    | some expr_type =>
      match formal_params[i]? with
      | none => abort .outOfRange
      | some formal_param =>
        let formal_type := SymbolType.BASIC formal_param.base_kind
        if !areTypesCompatible formal_type expr_type then
          report .TYPE_MISMATCH ("Parameter " ++ sizeToString (i + 1) ++ " of call to '" ++ proc_name ++
            "' has incompatible type: expected '" ++ getTypeName formal_type ++ "', got '" ++
            getTypeName expr_type ++ "'") 0
          countError
        if formal_param.is_reference then
          let only_one_factor := expr.getLeft.getFirstTerm.getFactors.empty &&
            expr.getLeft.getTerms.empty && !expr.hasRight
          let is_lvalue : Bool ←
            if only_one_factor then
              match expr.getLeft.getFirstTerm.getFirstFactor with
              | .VARIABLE _ _ => pure true
              | .UNKNOWN _ id => do
                match (← recursiveLookup id) with
                | some func_entry => pure (decide (func_entry.type.kind ≠ .FUNCTION))
                | none =>
                  report .UNDEFINED_SYMBOL ("Use undeclared variables '" ++ id ++ "'") 0
                  countError
                  pure false
              | _ => pure false
            else pure false
          if !is_lvalue then
            report .TYPE_MISMATCH ("Parameter " ++ sizeToString (i + 1) ++ " of '" ++ proc_name ++
              "' requires a variable reference (VAR parameter)") 0
            countError
        visitArgumentLoop tl formal_params (i + 1) proc_name
/-- `SemanticAnalyzer::visit(const ProcedureCall&)`. -/
def visitProcedureCall : ProcedureCall → SemM Unit
  | .mk proc_name actual_params => do
    match (← recursiveLookup proc_name) with
    | none =>
      report .UNDEFINED_SYMBOL ("Invoke an undeclared procedure '" ++ proc_name ++ "'") 0
      countError
    | some proc_entry =>
      match proc_entry.type with
      | .CALLABLE _ _ formal_params _ =>
        if formal_params.length ≠ actual_params.size then
          report .OTHER_ERROR ("Procedure/function '" ++ proc_name ++ "' requires " ++
            sizeToString formal_params.length ++ " parameters, but " ++
            sizeToString actual_params.size ++ " were given") 0
          countError
          return
        visitArgumentLoop actual_params formal_params 0 proc_name
      | _ =>
        report .TYPE_MISMATCH ("'" ++ proc_name ++ "' Not a procedure or a function") 0
        countError
end

/-- `SemanticAnalyzer::visit(const Parameter&)`. -/
def visitParameter (parameter : Parameter) : SemM Unit := do
  let basic_type := getSymbolTypeFromBasicType parameter.basic_type
  for param_id in parameter.id_list do
    let param_entry : SymbolEntry :=
      { name := param_id, type := basic_type, scope_level := (← getCurrentScope),
        is_reference := parameter.has_var }
    insert param_entry

/-- The lambda `isIntegralString` of `SemanticAnalyzer::visit(const ConstDecl&)`. -/
def isIntegralString (s : String) : Bool := s.data.all (fun c => isdigit c || c = '+' || c = '-')

/-- The lambda `isFloatString` of `SemanticAnalyzer::visit(const ConstDecl&)`. -/
def isFloatString (s : String) : Bool := s.data.contains '.'

/-- The lambda `isString` of `SemanticAnalyzer::visit(const ConstDecl&)`. -/
def isString (s : String) : Bool :=
  decide (s.data.length ≥ 2) && s.data.head? = some DQUOTE && s.data.getLast? = some DQUOTE

/-- The type `SemanticAnalyzer::visit(const ConstDecl&)` infers from the text of a constant. -/
def constType (const_value : String) : Option SymbolType :=
  if isIntegralString const_value then some integer_type
  else if const_value.data.length = 3 && const_value.data.head? = some QUOTE &&
      const_value.data.getLast? = some QUOTE then some char_type
  else if isFloatString const_value then some real_type
  else if isString const_value then some char_type
  else none

/-- `SemanticAnalyzer::visit(const ConstDecl&)`. -/
def visitConstDecl (const_decl : ConstDecl) : SemM Unit := do
  match constType const_decl.value with
  | none =>
    report .TYPE_MISMATCH ("Unknown constant type for '" ++ const_decl.id ++ "'") 0
    countError
  | some const_type =>
    let const_entry : SymbolEntry :=
      { name := const_decl.id, type := const_type, scope_level := (← getCurrentScope),
        is_constant := true, const_value := some const_decl.value }
    insert const_entry

/-- The loop over the periods of `SemanticAnalyzer::processType`: `none` after an illegal
boundary. -/
def processPeriods : List (String × String) → List (Int × Int) → SemM (Option (List (Int × Int)))
  | [], dims => return some dims
  | (lower, upper) :: rest, dims => do
    match stoi lower, stoi upper with
    | some lower_bound, some upper_bound =>
      if lower_bound > upper_bound then
        report .OTHER_ERROR ("Invalid array bounds: " ++ lower ++ ".." ++ upper) 0
      processPeriods rest (dims ++ [(lower_bound, upper_bound)])
    | _, _ =>
      report .OTHER_ERROR ("Illegal array boundary: " ++ lower ++ ".." ++ upper) 0
      countError
      return none

/-- `SemanticAnalyzer::processType`. -/
def processType (type_node : TypeNode) : SemM (Option SymbolType) := do
  if type_node.periods.isEmpty then
    return some (getSymbolTypeFromBasicType type_node.basic_type)
  match (← processPeriods type_node.periods []) with
  | none => return none
  | some dims => return some (.ARRAY dims (baseKindOf type_node.basic_type))

/-- `SemanticAnalyzer::visit(const VarDecl&)`. -/
def visitVarDecl (var_decl : VarDecl) : SemM Unit := do
  match (← processType var_decl.type) with
  | none => return
  | some var_type =>
    for var_id in var_decl.id_list do
      insert { name := var_id, type := var_type, scope_level := (← getCurrentScope) }

/-- The report of `SemanticAnalyzer::visit(const Assign&)` for a type mismatch. -/
def reportCannotAssign (right_type actual_left_type : SymbolType) (left_var_name : String) :
    SemM Unit := do
  report .TYPE_MISMATCH ("Cannot assign value of type '" ++ getTypeName right_type ++
    "' to variable '" ++ left_var_name ++ "' of type '" ++ getTypeName actual_left_type ++ "'") 0
  countError

/-- The statement `is_function_return.emplace(&assign, flag)`. -/
def emplaceIsFunctionReturn (addr : Nat) (flag : Bool) : SemM Unit :=
  modify fun s => { s with is_function_return := mapEmplace s.is_function_return addr flag }

/-- `SemanticAnalyzer::visit(const Assign&)`. -/
def visitAssign (addr : Nat) (left : Variable) (right : Expression) : SemM Unit := do
  visitVariable left
  visitExpression right
  let left_var_name := left.getId
  match (← recursiveLookup left_var_name) with
  | none => return
  | some left_entry =>
    if left_entry.is_constant then
      report .CONSTANT_ASSIGNMENT ("cannot to constants '" ++ left_var_name ++ "' assign values") 0
      countError
      return
    let left_type := left_entry.type
    match (← getExpressionType right) with
    | none =>
      emplaceIsFunctionReturn addr false
    | some right_type =>
      let left_has_index := !left.getExpressions.empty
      let actual_left_type : SymbolType :=
        match left_type with
        | .ARRAY _ elem => if left_has_index then .BASIC elem else left_type
        | _ => left_type
      match actual_left_type with
      | .BASIC left_base_type =>
        let right_base_type ← getBaseKind right_type
        if left_base_type = right_base_type then
          emplaceIsFunctionReturn addr false
        else if left_base_type = .REAL && right_base_type = .INTEGER then
          emplaceIsFunctionReturn addr false
        else
          reportCannotAssign right_type actual_left_type left_var_name
      | .CALLABLE true return_type _ _ =>
        let return_type ← deref return_type
        let right_base_type ← getBaseKind right_type
        if return_type = right_base_type || (return_type = .REAL && right_base_type = .INTEGER) then
          emplaceIsFunctionReturn addr true
        else
          reportCannotAssign right_type actual_left_type left_var_name
      | _ =>
        reportCannotAssign right_type actual_left_type left_var_name

/-- The format specifier `SemanticAnalyzer::visit(const Read&)` picks for a base kind. -/
def readSpecifier : BaseTypeKind → String
  | .INTEGER => "%d"
  | .REAL => "%f"
  | .CHAR => "%c"
  | .BOOLEAN => "%d"

/-- The loop of `SemanticAnalyzer::visit(const Read&)`. -/
def visitReadLoop : List Variable → String → SemM String
  | [], fmt => return fmt
  | var :: rest, fmt => do
    visitVariable var
    let var_name := var.getId
    match (← recursiveLookup var_name) with
    | none => visitReadLoop rest fmt
    | some var_entry =>
      if var_entry.is_constant then
        report .CONSTANT_ASSIGNMENT ("Cannot read into constant '" ++ var_name ++ "'") 0
        countError
        visitReadLoop rest fmt
      else
        let is_array := decide (var_entry.type.kind = .ARRAY)
        let has_index := !var.getExpressions.empty
        if is_array && !has_index then
          report .TYPE_MISMATCH ("Cannot read into an entire array '" ++ var_name ++
            "', must specify array element") 0
          countError
        let fmt1 ← match var_entry.type with
          | .BASIC k => pure (fmt ++ readSpecifier k)
          | .ARRAY _ elem => pure (fmt ++ readSpecifier elem)
          | .CALLABLE true return_type _ _ => do
            pure (fmt ++ readSpecifier (← deref return_type))
          | var_type => do
            report .TYPE_MISMATCH ("Cannot read into variable '" ++ var_name ++ "' of type '" ++
              getTypeName var_type ++ "'") 0
            pure fmt
        visitReadLoop rest (if rest.isEmpty then fmt1 else fmt1 ++ " ")

/-- `SemanticAnalyzer::visit(const Read&)`. -/
def visitRead (addr : Nat) (variables_ : List Variable) : SemM Unit := do
  let fmt ← visitReadLoop variables_ ""
  modify fun s => { s with read_fmt_specifier := mapEmplace s.read_fmt_specifier addr fmt }

/-- The test of `SemanticAnalyzer::visit(const Write&)` for a constant whose value is a
quoted string, on the entry the first factor of the expression names. -/
def isStringConstant (ent : SymbolEntry) : SemM Bool := do
  if ent.is_constant then
    match ent.const_value with
    | none => abort .badVariantAccess
    | some const_value =>
      if const_value.data.length ≥ 2 then
        return const_value.data.head? = some DQUOTE && const_value.data.getLast? = some DQUOTE
      else return false
  else return false

/-- The loop of `SemanticAnalyzer::visit(const Write&)`. -/
def visitWriteLoop : ExpressionList → String → SemM String
  | .nil, fmt => return fmt
  | .cons expr rest, fmt => do
    let is_string ← match expr.getLeft.getFirstTerm.getFirstFactor with
      | .UNKNOWN _ id => do
        match (← recursiveLookup id) with
        | some ent => isStringConstant ent
        | none => pure false
      | _ => pure false
    if is_string then
      visitWriteLoop rest (fmt ++ "%s")
    else
      visitExpression expr
      match (← getExpressionType expr) with
      | none => visitWriteLoop rest fmt
      | some expr_type =>
        if expr_type = integer_type then visitWriteLoop rest (fmt ++ "%d")
        else if expr_type = real_type then visitWriteLoop rest (fmt ++ "%f")
        else if expr_type = char_type then visitWriteLoop rest (fmt ++ "%c")
        else if expr_type = boolean_type then visitWriteLoop rest (fmt ++ "%d")
        else
          report .TYPE_MISMATCH ("Cannot write variable of type '" ++ getTypeName expr_type ++ "'") 0
          visitWriteLoop rest fmt

/-- `SemanticAnalyzer::visit(const Write&)`. -/
def visitWrite (addr : Nat) (expressions : ExpressionList) : SemM Unit := do
  let fmt ← visitWriteLoop expressions ""
  modify fun s => { s with write_fmt_specifier := mapEmplace s.write_fmt_specifier addr fmt }

/-- The check of `visit(const If&)` and `visit(const While&)` that a condition is boolean;
`what` is "If" or "While". -/
def checkCondition (what : String) (condition : Expression) : SemM Unit := do
  match (← getExpressionType condition) with
  | none => return
  | some condition_type =>
    if !(condition_type = .BASIC .BOOLEAN) then
      report .TYPE_MISMATCH (what ++ " condition must be of boolean type, but got '" ++
        getTypeName condition_type ++ "'") 0
      countError

/-- The checks `SemanticAnalyzer::visit(const For&)` makes after the body is visited. -/
def checkFor (loop_var_name : String) (loop_var_type : SymbolType) (lb ub : Expression) :
    SemM Unit := do
  if !(loop_var_type = .BASIC .INTEGER) then
    report .TYPE_MISMATCH ("For loop variable '" ++ loop_var_name ++
      "' must be of integer type, but got '" ++ getTypeName loop_var_type ++ "'") 0
    countError
  let lower_bound_type ← getExpressionType lb
  let upper_bound_type ← getExpressionType ub
  match lower_bound_type with
  | some t =>
    if !(t = .BASIC .INTEGER) then
      report .TYPE_MISMATCH
        ("For loop lower bound must be of integer type, but got '" ++ getTypeName t ++ "'") 0
      countError
  | none => pure ()
  match upper_bound_type with
  | some t =>
    if !(t = .BASIC .INTEGER) then
      report .TYPE_MISMATCH
        ("For loop upper bound must be of integer type, but got '" ++ getTypeName t ++ "'") 0
      countError
  | none => pure ()

mutual
/-- The `visit` function of `SemanticAnalyzer` that `accept` calls for a statement. -/
def visitStatement : Statement → SemM Unit
  | .NullStatement => return ()
  | .Assign addr left right => visitAssign addr left right
  | .ProcedureCall call => visitProcedureCall call
  | .CompoundStatement c => visitCompoundStatement c
  | .If condition then_statement => do
    visitExpression condition
    visitStatement then_statement
    checkCondition "If" condition
  | .IfElse condition then_statement else_statement => do
    visitExpression condition
    visitStatement then_statement
    visitStatement else_statement
    checkCondition "If" condition
  | .For loop_var_name lb ub statement => do
    match (← recursiveLookup loop_var_name) with
    | none =>
      report .UNDEFINED_SYMBOL ("Use undeclared loop variables '" ++ loop_var_name ++ "'") 0
      countError
    | some loop_var_entry =>
      visitExpression lb
      visitExpression ub
      visitStatement statement
      checkFor loop_var_name loop_var_entry.type lb ub
  | .While condition statement => do
    visitExpression condition
    visitStatement statement
    checkCondition "While" condition
  | .Read addr variables_ => visitRead addr variables_
  | .Write addr expressions => visitWrite addr expressions
  | .Break => return ()
/-- The loop of `SemanticAnalyzer::visit(const CompoundStatement&)`. -/
def visitStatementList : StatementList → SemM Unit
  | .nil => return ()
  | .cons stmt tl => do
    visitStatement stmt
    visitStatementList tl
/-- `SemanticAnalyzer::visit(const CompoundStatement&)`. -/
def visitCompoundStatement : CompoundStatement → SemM Unit
  | .mk _ statements => visitStatementList statements
end

/-- The entries `SemanticAnalyzer::visit(const Subprogram&)` collects for the parameter ids
of one `Parameter` node. -/
def collectParameters : List String → List ParamEntry → SemM (List ParamEntry)
  | [], acc => return acc
  | param_id :: rest, acc => do
    match (← lookup param_id) with
    | some e =>
      match e.type with
      | .BASIC k => collectParameters rest (acc ++ [⟨e.name, k, e.scope_level, e.is_reference⟩])
      | _ => collectParameters rest acc
    | none => collectParameters rest acc

/-- The first loop over the parameters of `SemanticAnalyzer::visit(const Subprogram&)`. -/
def visitParametersFirst : List Parameter → List ParamEntry → SemM (List ParamEntry)
  | [], acc => return acc
  | param :: rest, acc => do
    visitParameter param
    visitParametersFirst rest (← collectParameters param.id_list acc)

/-- The second loop over the parameters of `SemanticAnalyzer::visit(const Subprogram&)`,
which fills `is_var_param` and `params_name`. -/
def visitParametersSecond (subprogram_id : String) : List Parameter → SemM Unit
  | [] => return ()
  | param :: rest => do
    visitParameter param
    for param_id in param.id_list do
      modify fun s =>
        { s with
          is_var_param := mapAssign s.is_var_param subprogram_id
            (((s.is_var_param.lookup subprogram_id).getD []) ++ [param.has_var])
          params_name := mapAssign s.params_name subprogram_id
            (((s.params_name.lookup subprogram_id).getD []) ++ [param_id]) }
    visitParametersSecond subprogram_id rest

/-- `SemanticAnalyzer::visit(const Subprogram&)`. -/
def visitSubprogram (subprogram : Subprogram) : SemM Unit := do
  let subprogram_id := subprogram.id
  let is_function := subprogram.is_func
  modify fun s => { s with scope_stack := s.scope_stack.push }
  let parameters ← visitParametersFirst subprogram.parameters []
  let return_type : Option BaseTypeKind :=
    if is_function then some (baseKindOf subprogram.ret_type) else none
  let local_scope ← match (← get).scope_stack with
    | [] => abort Crash.nullDereference
    | t :: _ => pure (t.entries.filterMap fun e =>
        match e.type with
        | .BASIC k => some (⟨e.name, k, e.scope_level, e.is_reference⟩ : ParamEntry)
        | _ => none)
  let subprogram_type := SymbolType.CALLABLE is_function return_type parameters local_scope
  modify fun s => { s with scope_stack := s.scope_stack.pop }
  insert { name := subprogram_id, type := subprogram_type, scope_level := (← getCurrentScope) }
  modify fun s => { s with scope_stack := s.scope_stack.push }
  modify fun s =>
    { s with is_var_param := mapAssign s.is_var_param subprogram_id []
             params_name := mapAssign s.params_name subprogram_id [] }
  visitParametersSecond subprogram_id subprogram.parameters
  for const_decl in subprogram.const_declaration do
    visitConstDecl const_decl
  for var_decl in subprogram.var_declaration do
    visitVarDecl var_decl
  visitCompoundStatement subprogram.compound_statement
  modify fun s => { s with scope_stack := s.scope_stack.pop }

/-- `SemanticAnalyzer::visit(const Program&)`. -/
def visitProgram (program : Program) : SemM Unit := do
  for const_decl in program.const_declaration do
    visitConstDecl const_decl
  for var_decl in program.var_declaration do
    visitVarDecl var_decl
  for subprogram in program.subprograms do
    visitSubprogram subprogram
  visitCompoundStatement program.compound_statement

end SemanticAnalyzer

/-! ## Generator (`generator.hpp`, `generator.cpp`) -/

/-- The data members of the class `Generator`; `main_compound_statement` holds the address
of a node, or `none` for the null pointer. -/
structure Generator where
  result : String
  now_level : Int
  flag : Bool
  arr_bias : List (String × List String)
  tmp_periods : List String
  single_procedure : Int
  is_function_return : List (Nat × Bool)
  read_fmt_specifier : List (Nat × String)
  write_fmt_specifier : List (Nat × String)
  is_factor_function_call : List (Nat × Bool)
  is_factor_with_not_number : List (Nat × Bool)
  is_var_param : List (String × List Bool)
  params_name : List (String × List String)
  main_compound_statement : Option Nat
  now_in_which_subprogram : String
  deriving DecidableEq, Repr

/-- A member function of `Generator`: it changes the generator and returns, or the run
ends abnormally. -/
abbrev GenM := StateT Generator (Except Crash)

namespace Generator

/-- The constructor of `Generator` that takes the seven annotation maps. -/
def new (is_function_return : List (Nat × Bool)) (read_fmt_specifier write_fmt_specifier : List (Nat × String))
    (is_factor_function_call is_factor_with_not_number : List (Nat × Bool))
    (is_var_param : List (String × List Bool)) (params_name : List (String × List String)) : Generator :=
  { result := "", now_level := 0, flag := false, arr_bias := [], tmp_periods := [], single_procedure := 0,
    is_function_return := is_function_return, read_fmt_specifier := read_fmt_specifier,
    write_fmt_specifier := write_fmt_specifier, is_factor_function_call := is_factor_function_call,
    is_factor_with_not_number := is_factor_with_not_number, is_var_param := is_var_param,
    params_name := params_name, main_compound_statement := none, now_in_which_subprogram := "" }

/-- The statement `result += s`. -/
def emit (s : String) : GenM Unit := modify fun g => { g with result := g.result ++ s }

/-- The text `Generator::addIndent` appends at level `now_level`. -/
def indent (now_level : Int) : String := String.join (List.replicate now_level.toNat "  ")

/-- `Generator::addIndent`. -/
def addIndent : GenM Unit := modify fun g => { g with result := g.result ++ indent g.now_level }

/-- The statements `now_level++`, `now_level--`, `single_procedure++`, `single_procedure--`. -/
def addLevel (d : Int) : GenM Unit := modify fun g => { g with now_level := g.now_level + d }

/-- The statements `single_procedure++` and `single_procedure--`. -/
def addSingleProcedure (d : Int) : GenM Unit :=
  modify fun g => { g with single_procedure := g.single_procedure + d }

/-- `std::map::at`. -/
def mapAt {κ ν : Type} [BEq κ] (m : List (κ × ν)) (k : κ) : GenM ν :=
  match m.lookup k with
  | some v => pure v
  | none => throw .outOfRange

/-- The index of the first element equal to `x`, as `std::find` and `std::distance` give it. -/
def findIndex (x : String) : List String → Option Nat
  | [] => none
  | y :: ys => if y = x then some 0 else (findIndex x ys).map (· + 1)

/-- The block shared by `visit(const Variable&)` and `visit(const Factor&)` that emits `*`
before the name of a VAR parameter of the subprogram being generated. -/
def emitDeref (id : String) : GenM Unit := do
  let g ← get
  let params ← mapAt g.params_name g.now_in_which_subprogram
  match findIndex id params with
  | some index =>
    let flags ← mapAt g.is_var_param g.now_in_which_subprogram
    match flags[index]? with
    | some true => emit "*"
    | some false => pure ()
    | none => throw .outOfRange
  | none => pure ()

/-- The two `if (reslen >= 3 && result[reslen - 2] == c && result[reslen - 3] == c)` blocks of
`visit(const Factor&)`, for one character `c`: the last two characters are erased and a
blank is appended. -/
def eraseOperator (c : Char) (reslen : Nat) (result : String) : String :=
  if reslen ≥ 3 && result.data.getD (reslen - 2) NUL = c && result.data.getD (reslen - 3) NUL = c then
    String.mk (result.data.dropLast.dropLast ++ [' '])
  else result

mutual
/-- `Generator::visit(const Factor&)`. -/
def visitFactor : Factor → GenM Unit
  | .FUNCTION _ call => visitProcedureCall call
  | .VARIABLE _ v => visitVariable v
  | .EXPRESSION _ e => do
    emit " ( "
    visitExpression e
    emit " ) "
  | .WITH_PLUS _ operand => do
    emit "+"
    visitFactor operand
  | .WITH_UMINUS _ operand => do
    emit "- "
    visitFactor operand
  | .WITH_NOT addr operand => do
    if (← mapAt (← get).is_factor_with_not_number addr) then
      emit "~"
    else
      emit "!"
    visitFactor operand
  | .BOOLEAN _ value => emit value
  | .UNKNOWN addr var_name => do
    if (← get).is_factor_function_call.lookup addr = some true then
      emit (var_name ++ "()")
    else
      let reslen := (← get).result.length
      modify fun g => { g with result := eraseOperator '&' reslen g.result }
      modify fun g => { g with result := eraseOperator '|' reslen g.result }
      if (← get).now_in_which_subprogram ≠ "main" then
        emitDeref var_name
      emit var_name
  | .NUMBER _ value => emit value
/-- The loop of `Generator::visit(const Term&)`. -/
def visitTermLoop : FactorList → GenM Unit
  | .nil => return ()
  | .cons op factor tl => do
    emit (" " ++ Utils.getMulOpName op ++ " ")
    visitFactor factor
    visitTermLoop tl
/-- `Generator::visit(const Term&)`. -/
def visitTerm : Term → GenM Unit
  | .mk firstFactor factors => do
    addSingleProcedure 1
    visitFactor firstFactor
    visitTermLoop factors
    addSingleProcedure (-1)
/-- The loop of `Generator::visit(const SimpleExpression&)`. -/
def visitSimpleExpressionLoop : TermList → GenM Unit
  | .nil => return ()
  | .cons op term tl => do
    emit (" " ++ Utils.getAddOpName op ++ " ")
    visitTerm term
    visitSimpleExpressionLoop tl
/-- `Generator::visit(const SimpleExpression&)`. -/
def visitSimpleExpression : SimpleExpression → GenM Unit
  | .mk firstTerm terms => do
    addSingleProcedure 1
    visitTerm firstTerm
    visitSimpleExpressionLoop terms
    addSingleProcedure (-1)
/-- `Generator::visit(const Expression&)`. -/
def visitExpression : Expression → GenM Unit
  | .simple left => do
    addSingleProcedure 1
    visitSimpleExpression left
    addSingleProcedure (-1)
  | .relational left op right => do
    addSingleProcedure 1
    visitSimpleExpression left
    emit (" " ++ Utils.getRelOpName op ++ " ")
    visitSimpleExpression right
    addSingleProcedure (-1)
/-- The loop of `Generator::visit(const Variable&)` for an array with recorded lower
bounds: `bias` is `it->second`. -/
def visitIndexBiasLoop : ExpressionList → List String → Nat → GenM Unit
  | .nil, _, _ => return ()
  | .cons expression tl, bias, tmp_index => do
    emit "["
    visitExpression expression
    match bias[tmp_index]? with
    | none => throw .outOfRange
    | some b =>
      match stoi b with
      | none => throw .stoiException
      | some v => if v ≠ 0 then emit (" - " ++ b)
    emit "]"
    visitIndexBiasLoop tl bias (tmp_index + 1)
/-- The loop of `Generator::visit(const Variable&)` for a name without recorded bounds. -/
def visitIndexLoop : ExpressionList → GenM Unit
  | .nil => return ()
  | .cons expression tl => do
    emit "["
    visitExpression expression
    emit "]"
    visitIndexLoop tl
/-- `Generator::visit(const Variable&)`. -/
def visitVariable : Variable → GenM Unit
  | .mk id expressions => do
    if (← get).now_in_which_subprogram ≠ "main" && expressions.empty then
      emitDeref id
    emit id
    if !expressions.empty then
      match (← get).arr_bias.find? (fun p => p.1 == id) with
      | some it => visitIndexBiasLoop expressions it.2 0
      | none => visitIndexLoop expressions
/-- The loop over the arguments of `Generator::visit(const ProcedureCall&)`. -/
def visitArgumentLoop : ExpressionList → String → Nat → GenM Unit
  | .nil, _, _ => return ()
  | .cons param tl, id, pos => do
    let flags ← mapAt (← get).is_var_param id
    match flags[pos]? with
    | none => throw .outOfRange
    | some is_var => if is_var then emit "&"
    visitExpression param
    if !tl.empty then
      emit ", "
    visitArgumentLoop tl id (pos + 1)
/-- `Generator::visit(const ProcedureCall&)`. -/
def visitProcedureCall : ProcedureCall → GenM Unit
  | .mk id parameters => do
    if (← get).single_procedure ≤ 0 then addIndent
    emit (id ++ "(")
    visitArgumentLoop parameters id 0
    emit ")"
    if (← get).single_procedure ≤ 0 then emit ";\n"
end

/-- The loop `for (id : list) { result += text(id); if (id != list.back()) result += ", "; }`,
in which the identifiers are compared as strings. -/
def emitIdList (text : String → String) (back : String) : List String → GenM Unit
  | [] => return ()
  | id :: rest => do
    emit (text id)
    if id ≠ back then emit ", "
    emitIdList text back rest

/-- `Generator::visit(const Parameter&)`. -/
def visitParameter (parameter : Parameter) : GenM Unit := do
  let paramType := Utils.getBasicTypeName parameter.basic_type
  let ptr := if parameter.has_var then "*" else ""
  emitIdList (fun id => paramType ++ ptr ++ " " ++ id) (parameter.id_list.getLastD "") parameter.id_list

/-- `Generator::visit(const ConstDecl&)`. -/
def visitConstDecl (const_decl : ConstDecl) : GenM Unit := do
  addIndent
  let const_value := const_decl.value
  let c0 := const_value.data.getD 0 NUL
  if c0 = QUOTE then emit "const char "
  else if const_value.data.contains '.' then emit "const float "
  else if c0 = 't' || c0 = 'f' then emit "const bool "
  else if c0 = DQUOTE then emit "const char* "
  else emit "const int "
  emit (const_decl.id ++ " = " ++ const_decl.value ++ ";\n")

/-- `Generator::visit(const Type&)`. -/
def visitType (type : TypeNode) : GenM Unit := do
  let typeStr := Utils.getBasicTypeName type.basic_type
  if type.periods.isEmpty then
    modify fun g => { g with flag := true }
    emit (typeStr ++ " ")
  else
    for (lb, ub) in type.periods do
      match stoi ub, stoi lb with
      | some u, some l =>
        let tmp_num := wrapInt (wrapInt (u - l) + 1)
        modify fun g => { g with tmp_periods := g.tmp_periods ++ [intToString tmp_num, lb] }
      | _, _ => throw Crash.stoiException
    emit (typeStr ++ " ")

/-- The elements of a list at the positions `0, 2, 4, ...`. -/
def evens : List String → List String
  | [] => []
  | [x] => [x]
  | x :: _ :: rest => x :: evens rest

/-- The elements of a list at the positions `1, 3, 5, ...`. -/
def odds : List String → List String
  | [] => []
  | [_] => []
  | _ :: y :: rest => y :: odds rest

/-- The loop over the identifiers of an array declaration in `Generator::visit(const VarDecl&)`. -/
def emitArrayIds (back : String) : List String → GenM Unit
  | [] => return ()
  | id :: rest => do
    emit id
    let tmp_periods := (← get).tmp_periods
    emit (String.join ((evens tmp_periods).map fun p => "[" ++ p ++ "]"))
    if tmp_periods.length ≥ 2 then
      modify fun g => { g with arr_bias := g.arr_bias ++ [(id, odds tmp_periods)] }
    if id ≠ back then emit ", "
    emitArrayIds back rest

/-- `Generator::visit(const VarDecl&)`. -/
def visitVarDecl (var_decl : VarDecl) : GenM Unit := do
  addIndent
  visitType var_decl.type
  if (← get).flag = true then
    emitIdList (fun id => id) (var_decl.id_list.getLastD "") var_decl.id_list
    emit ";\n"
    modify fun g => { g with tmp_periods := [], flag := false }
  else
    emitArrayIds (var_decl.id_list.getLastD "") var_decl.id_list
    emit ";\n"
    modify fun g => { g with tmp_periods := [], flag := false }

/-- The test `dynamic_cast<CompoundStatement *>(s) != nullptr`. -/
def isCompound : Statement → Bool
  | .CompoundStatement _ => true
  | _ => false

/-- `Generator::visit(const Assign&)`. -/
def visitAssign (addr : Nat) (left : Variable) (right : Expression) : GenM Unit := do
  addIndent
  if (← mapAt (← get).is_function_return addr) then
    visitVariable left
    emit "_return = "
    addSingleProcedure 1
    visitExpression right
    addSingleProcedure (-1)
  else
    visitVariable left
    emit " = "
    addSingleProcedure 1
    visitExpression right
    addSingleProcedure (-1)
  emit ";\n"

/-- The loop of `Generator::visit(const Read&)`. -/
def visitReadLoop : List Variable → GenM Unit
  | [] => return ()
  | var :: rest => do
    emit "&"
    visitVariable var
    if var.getExpressions.empty && var.getId = (← get).now_in_which_subprogram then
      emit "_return"
    if !rest.isEmpty then emit ", "
    visitReadLoop rest

/-- `Generator::visit(const Read&)`. -/
def visitRead (addr : Nat) (variables_ : List Variable) : GenM Unit := do
  addIndent
  emit "scanf(\""
  emit (← mapAt (← get).read_fmt_specifier addr)
  emit "\", "
  visitReadLoop variables_
  emit ");\n"

/-- The loop of `Generator::visit(const Write&)`. -/
def visitWriteLoop : ExpressionList → GenM Unit
  | .nil => return ()
  | .cons expr rest => do
    visitExpression expr
    if !rest.empty then emit ", "
    visitWriteLoop rest

/-- `Generator::visit(const Write&)`. -/
def visitWrite (addr : Nat) (expressions : ExpressionList) : GenM Unit := do
  addIndent
  emit "printf(\""
  emit (← mapAt (← get).write_fmt_specifier addr)
  emit "\", "
  addSingleProcedure 1
  visitWriteLoop expressions
  emit ");\n"
  addSingleProcedure (-1)

mutual
/-- The `visit` function of `Generator` that `accept` calls for a statement. -/
def visitStatement : Statement → GenM Unit
  | .NullStatement => do
    addIndent
    emit ";\n"
  | .Assign addr left right => visitAssign addr left right
  | .ProcedureCall call => visitProcedureCall call
  | .CompoundStatement c => visitCompoundStatement c
  | .If condition then_statement => do
    addIndent
    addSingleProcedure 1
    emit "if ("
    visitExpression condition
    emit ")\n"
    addSingleProcedure (-1)
    if !isCompound then_statement then addLevel 1
    visitStatement then_statement
    if !isCompound then_statement then addLevel (-1)
  | .IfElse condition then_statement else_statement => do
    addIndent
    addSingleProcedure 1
    emit "if ("
    visitExpression condition
    emit ")\n"
    addSingleProcedure (-1)
    if !isCompound then_statement then addLevel 1
    visitStatement then_statement
    if !isCompound then_statement then addLevel (-1)
    addIndent
    emit "else\n"
    if !isCompound else_statement then addLevel 1
    visitStatement else_statement
    if !isCompound else_statement then addLevel (-1)
  | .For id lb ub statement => do
    addIndent
    emit ("for (" ++ id ++ " = ")
    visitExpression lb
    emit ("; " ++ id ++ " <= ")
    visitExpression ub
    emit ("; " ++ id ++ "++)\n")
    if !isCompound statement then addLevel 1
    visitStatement statement
    if !isCompound statement then addLevel (-1)
  | .While condition statement => do
    addIndent
    emit "while ("
    visitExpression condition
    emit ")\n"
    if !isCompound statement then addLevel 1
    visitStatement statement
    if !isCompound statement then addLevel (-1)
  | .Read addr variables_ => visitRead addr variables_
  | .Write addr expressions => visitWrite addr expressions
  | .Break => do
    addIndent
    emit "break;"
/-- The loop of `Generator::visit(const CompoundStatement&)`. -/
def visitStatementList : StatementList → GenM Unit
  | .nil => return ()
  | .cons statement tl => do
    visitStatement statement
    visitStatementList tl
/-- `Generator::visit(const CompoundStatement&)`. -/
def visitCompoundStatement : CompoundStatement → GenM Unit
  | .mk addr statements => do
    addIndent
    emit "\x7b\n"
    addLevel 1
    visitStatementList statements
    if (← get).main_compound_statement = some addr then
      addIndent
      emit "return 0;\n"
    addLevel (-1)
    addIndent
    emit "\x7d\n"
end

/-- The loop over the parameters of `Generator::visit(const Subprogram&)`. -/
def visitParameters : List Parameter → GenM Unit
  | [] => return ()
  | parameter :: rest => do
    visitParameter parameter
    if !rest.isEmpty then emit ", "
    visitParameters rest

/-- `Generator::visit(const Subprogram&)`. -/
def visitSubprogram (subprogram : Subprogram) : GenM Unit := do
  addIndent
  if subprogram.is_func then
    emit (Utils.getBasicTypeName subprogram.ret_type ++ " ")
  else
    emit "void "
  emit (subprogram.id ++ "(")
  visitParameters subprogram.parameters
  emit ") \x7b\n"
  addLevel 1
  for const_decl in subprogram.const_declaration do
    visitConstDecl const_decl
  for var_decl in subprogram.var_declaration do
    visitVarDecl var_decl
  if subprogram.is_func then
    addIndent
    emit (Utils.getBasicTypeName subprogram.ret_type ++ " ")
    emit (subprogram.id ++ "_return;\n")
  modify fun g => { g with now_in_which_subprogram := subprogram.id }
  visitCompoundStatement subprogram.compound_statement
  if subprogram.is_func then
    addIndent
    emit ("return " ++ subprogram.id ++ "_return;\n")
  addLevel (-1)
  addIndent
  emit "\x7d\n"

/-- `Generator::visit(const Program&)`. -/
def visitProgram (program : Program) : GenM Unit := do
  modify fun g => { g with now_level := 0 }
  emit "#include <stdio.h>\n#include <stdlib.h>\n#include <stdbool.h>\n"
  for const_decl in program.const_declaration do
    visitConstDecl const_decl
  for var_decl in program.var_declaration do
    visitVarDecl var_decl
  for subprogram in program.subprograms do
    visitSubprogram subprogram
  emit "int main()\n"
  modify fun g => { g with main_compound_statement := some program.compound_statement.addr,
                           now_in_which_subprogram := "main" }
  visitCompoundStatement program.compound_statement

end Generator

/-! ## Driver (`main.cpp`) -/

/-- How a run of `solveCCode` ends. -/
inductive Outcome
  /-- The lexer threw its list of errors: they are printed and the exit code is `EXIT_FAILURE`. -/
  | lexerErrors (errors : List LexerException)
  /-- The parser threw: the error is printed and the exit code is `EXIT_FAILURE`. -/
  | parserError (msg : String) (line : Nat)
  /-- `hasError()` held after the analysis: nothing is written to the output, the exit
  code is `EXIT_FAILURE`; `reports` is what the analysis wrote to the diagnostics stream. -/
  | semanticErrors (reports : List Report)
  /-- The C text is written to the output and the exit code is `EXIT_SUCCESS`; `reports`
  is what the analysis wrote to the diagnostics stream. -/
  | cCode (text : String) (reports : List Report)
  /-- The run ended abnormally. -/
  | crash (c : Crash)
  /-- The fuel of the embedding ran out, or the parser read outside the token vector. -/
  | stuck
  deriving DecidableEq, Repr

/-- `solveCCode`; `fuel` bounds the loop of the lexer and the recursion of the parser. -/
def solveCCode (fuel : Nat) (src : String) : Outcome :=
  match Lexer.scan fuel (Lexer.new src) with
  | none => .stuck
  | some (_, e :: es) => .lexerErrors (e :: es)
  | some (lexer, []) =>
    match (Parser.program fuel).run (Parser.new lexer.tokens) with
    | .error (.ParserException msg line) => .parserError msg line
    | .error _ => .stuck
    | .ok (program, _) =>
      match (SemanticAnalyzer.visitProgram program).run SemanticAnalyzer.new with
      | .error e => .crash e.crash
      | .ok (_, semantic_analyzer) =>
        if semantic_analyzer.hasError then .semanticErrors semantic_analyzer.reports
        else
          let generator := Generator.new semantic_analyzer.is_function_return
            semantic_analyzer.read_fmt_specifier semantic_analyzer.write_fmt_specifier
            semantic_analyzer.is_factor_function_call semantic_analyzer.is_factor_with_not_number
            semantic_analyzer.is_var_param semantic_analyzer.params_name
          match (Generator.visitProgram program).run generator with
          | .error c => .crash c
          | .ok (_, generator) => .cCode generator.result semantic_analyzer.reports

/-- The first three stages of `solveCCode`: the tree the parser builds and the analyzer
after `program->accept(semantic_analyzer)`; `none` when a stage before the analysis fails or
the analysis ends abnormally. -/
def analyzeSource (fuel : Nat) (src : String) : Option (Program × SemanticAnalyzer) :=
  match Lexer.scan fuel (Lexer.new src) with
  | some (lexer, []) =>
    match (Parser.program fuel).run (Parser.new lexer.tokens) with
    | .ok (program, _) =>
      match (SemanticAnalyzer.visitProgram program).run SemanticAnalyzer.new with
      | .ok (_, semantic_analyzer) => some (program, semantic_analyzer)
      | .error _ => none
    | .error _ => none
  | _ => none

/-- What the analysis of a text has written to the diagnostics stream when it ends, by a
return or abnormally: the stage of `solveCCode` between the parser and the test of
`hasError()`.  The list is empty when the text does not reach the analysis. -/
def analysisDiagnostics (fuel : Nat) (src : String) : List Report :=
  match Lexer.scan fuel (Lexer.new src) with
  | some (lexer, []) =>
    match (Parser.program fuel).run (Parser.new lexer.tokens) with
    | .ok (program, _) =>
      match (SemanticAnalyzer.visitProgram program).run SemanticAnalyzer.new with
      | .ok (_, semantic_analyzer) => semantic_analyzer.reports
      | .error e => e.reports
    | .error _ => []
  | _ => []

/-- The addresses of the `Assign` nodes among the statements of a list (nested statements
are not entered). -/
def assignAddrs : StatementList → List Nat
  | .nil => []
  | .cons (.Assign addr _ _) tl => addr :: assignAddrs tl
  | .cons _ tl => assignAddrs tl

/-- The is-function-return annotations of the assignments that stand directly in the main
body of the program. -/
def mainBodyAnnotations (program : Program) (semantic_analyzer : SemanticAnalyzer) :
    List (Option Bool) :=
  (assignAddrs program.compound_statement.getStatements).map
    fun addr => semantic_analyzer.is_function_return.lookup addr

/-- The report `SemanticAnalyzer::visit(const Assign&)` makes when a value of basic type `R`
is assigned to the variable `name` of basic type `L`. -/
def cannotAssignReport (R L : BaseTypeKind) (name : String) : Report :=
  ⟨.TYPE_MISMATCH, "Cannot assign value of type '" ++ SemanticAnalyzer.getTypeName (some (.BASIC R)) ++
    "' to variable '" ++ name ++ "' of type '" ++ SemanticAnalyzer.getTypeName (some (.BASIC L)) ++ "'", 0⟩

/-- An analyzer whose global scope declares `x : integer` and `r : real`. -/
def sampleAnalyzer : SemanticAnalyzer :=
  { SemanticAnalyzer.new with
    scope_stack := [⟨[{ name := "x", type := .BASIC .INTEGER, scope_level := 0 },
                      { name := "r", type := .BASIC .REAL, scope_level := 0 }], 0⟩] }

/-- The expression that consists of the number `text`, with node address `addr`. -/
def numberExpression (addr : Nat) (text : String) : Expression :=
  .simple (.mk (.mk (.NUMBER addr text) .nil) .nil)

/-! ## Statements about runs of the analyzer -/

/-- What the analysis of an expression, a variable reference or a call may do to the
analyzer: the scopes and the annotations of statements and subprograms stay as they are, the
error count does not decrease and reports are only added. -/
def ExprEffect (s s' : SemanticAnalyzer) : Prop :=
  s'.scope_stack = s.scope_stack ∧ s'.is_function_return = s.is_function_return ∧
  s'.read_fmt_specifier = s.read_fmt_specifier ∧ s'.write_fmt_specifier = s.write_fmt_specifier ∧
  s'.is_var_param = s.is_var_param ∧ s'.params_name = s.params_name ∧
  s.error_count ≤ s'.error_count ∧ ∃ added, s'.reports = s.reports ++ added

/-- Every run of `m` that returns has the effect `ExprEffect`. -/
def ExprFrame {α : Type} (m : SemM α) : Prop :=
  ∀ s a s', m s = .ok (a, s') → ExprEffect s s'

/-- The report of `SemanticAnalyzer::visit(const Assign&)` for an assignment to the constant
`name`. -/
def constantAssignmentReport (name : String) : Report :=
  ⟨.CONSTANT_ASSIGNMENT, "cannot to constants '" ++ name ++ "' assign values", 0⟩

/-- An analyzer in the body of a subprogram: the global scope declares the variable
`c : integer` and the array `a : array[1..3, 0..5] of integer`, the local scope declares the
constant `c = 1`. -/
def nestedAnalyzer : SemanticAnalyzer :=
  { SemanticAnalyzer.new with
    scope_stack :=
      [⟨[{ name := "c", type := .BASIC .INTEGER, scope_level := 1, is_constant := true,
           const_value := some "1" }], 1⟩,
       ⟨[{ name := "c", type := .BASIC .INTEGER, scope_level := 0 },
         { name := "a", type := .ARRAY [(1, 3), (0, 5)] .INTEGER, scope_level := 0 }], 0⟩] }

/-- The expressions of `l` followed by those of `r`. -/
def ExpressionList.append : ExpressionList → ExpressionList → ExpressionList
  | .nil, r => r
  | .cons e tl, r => .cons e (ExpressionList.append tl r)

/-- The report of `SemanticAnalyzer::visit(const Variable&)` for the literal index
`index_value` at position `i` (from 0) of an access to the array `var_name`, the range of
that dimension being `lower_bound..upper_bound`. -/
def indexOutOfBoundsReport (index_value lower_bound upper_bound : Int) (var_name : String)
    (i : Nat) : Report :=
  ⟨.ARRAY_INDEX_OUT_OF_BOUNDS, "Array index " ++ intToString index_value ++
    " is out of range [" ++ intToString lower_bound ++ ".." ++ intToString upper_bound ++
    "] for array '" ++ var_name ++ "' at dimension " ++ sizeToString (i + 1), 0⟩

/-- The format specifier a basic type gives in a write statement: `%d` for integer and
boolean, `%f` for real, `%c` for char. -/
def writeSpecifier : BaseTypeKind → String
  | .INTEGER => "%d"
  | .REAL => "%f"
  | .CHAR => "%c"
  | .BOOLEAN => "%d"

/-- The specifiers of a list of basic types, one after the other without separators. -/
def writeFormat : List BaseTypeKind → String
  | [] => ""
  | k :: ks => writeSpecifier k ++ writeFormat ks

/-- The test at the head of the loop of `SemanticAnalyzer::visit(const Write&)`: the first
factor of the expression is an identifier that resolves to a constant whose value is a quoted
string. -/
def writeIsString (expr : Expression) : SemM Bool :=
  match expr.getLeft.getFirstTerm.getFirstFactor with
  | .UNKNOWN _ id => do
    match (← SemanticAnalyzer.recursiveLookup id) with
    | some ent => SemanticAnalyzer.isStringConstant ent
    | none => pure false
  | _ => pure false

/-- `WriteRun s expressions ks s'`: from the analyzer `s`, for each expression of the list in
turn the string test of `visit(const Write&)` fails, the visit of the expression returns and
`getExpressionType` gives it a basic type; `ks` lists these types and `s'` is the analyzer at
the end. -/
inductive WriteRun : SemanticAnalyzer → ExpressionList → List BaseTypeKind → SemanticAnalyzer → Prop
  | nil (s : SemanticAnalyzer) : WriteRun s .nil [] s
  | cons (s s1 s2 s3 : SemanticAnalyzer) (expr : Expression) (rest : ExpressionList)
      (k : BaseTypeKind) (ks : List BaseTypeKind)
      (hString : (writeIsString expr).run s = .ok (false, s))
      (hVisit : (SemanticAnalyzer.visitExpression expr).run s = .ok ((), s1))
      (hType : (SemanticAnalyzer.getExpressionType expr).run s1 = .ok (some (.BASIC k), s2))
      (hRest : WriteRun s2 rest ks s3) : WriteRun s (.cons expr rest) (k :: ks) s3

/-- An analyzer whose global scope declares `i : integer`, `r : real` and `c : char`. -/
def writeAnalyzer : SemanticAnalyzer :=
  { SemanticAnalyzer.new with
    scope_stack := [⟨[{ name := "i", type := .BASIC .INTEGER, scope_level := 0 },
                      { name := "r", type := .BASIC .REAL, scope_level := 0 },
                      { name := "c", type := .BASIC .CHAR, scope_level := 0 }], 0⟩] }

/-- The expression that consists of the identifier `id`, with node address `addr`. -/
def nameExpression (addr : Nat) (id : String) : Expression :=
  .simple (.mk (.mk (.UNKNOWN addr id) .nil) .nil)

/-- The analyzer `writeAnalyzer` after the factors at the addresses `addrs` are annotated as
not being calls. -/
def writeAnalyzerAfter (addrs : List Nat) : SemanticAnalyzer :=
  { writeAnalyzer with is_factor_function_call := addrs.map fun a => (a, false) }

/-- The expressions of `write(i, r, c)`, with node addresses 1, 2 and 3. -/
def writeExample : ExpressionList :=
  .cons (nameExpression 1 "i") (.cons (nameExpression 2 "r") (.cons (nameExpression 3 "c") .nil))

/-- The text `Generator::visit(const Term&)` leaves for the operator `op` when the factor
after it is a bare identifier that is not annotated as a call: `&` for `and`, the text of
`Utils::getMulOpName` for the other operators. -/
def mulOpBeforeIdentifier : MulOp → String
  | .AND => "&"
  | op => Utils.getMulOpName op

/-- The text `Generator::visit(const SimpleExpression&)` leaves for the operator `op` when
the term after it starts with a bare identifier that is not annotated as a call: `|` for
`or`, the text of `Utils::getAddOpName` for the other operators. -/
def addOpBeforeIdentifier : AddOp → String
  | .OR => "|"
  | op => Utils.getAddOpName op

/-- A generator in the main body, with no annotations, whose text so far is `c = a`. -/
def operatorGenerator : Generator :=
  { Generator.new [] [] [] [] [] [] [] with result := "c = a", now_in_which_subprogram := "main" }

/-- The end of the branch of `Generator::visit(const Factor&)` for a bare identifier that is
not annotated as a call: `*` is written before a VAR parameter of the current subprogram,
then the identifier. -/
def emitIdentifier (var_name : String) : GenM Unit := do
  if (← get).now_in_which_subprogram ≠ "main" then
    Generator.emitDeref var_name
  Generator.emit var_name

/-! ## Statements about runs of the lexer -/

namespace Lexer

/-- The number of newline characters among the first `k` characters of a text. -/
def newlinesBefore (s : List Char) (k : Nat) : Nat := (s.take k).count NEWLINE

/-- The loop of `Lexer::scan` seen from outside: for every token that the loop adds, the
value that `start` has in the iteration that adds it, which is the position of the first
character of the token.  The iterations are those of `scanLoop`. -/
def scanStarts : Nat → Lexer → List Nat
  | 0, _ => []
  | fuel + 1, lx =>
    if lx.isEnd then []
    else
      let lx1 := (scanNextToken { lx with start := lx.current }).1
      List.replicate (lx1.tokens.length - lx.tokens.length) lx.current ++ scanStarts fuel lx1

/-- The first `k` iterations of the loop of `Lexer::scan` (fewer when the end of the text is
reached before): the lexer and the errors collected so far. -/
def scanSteps : Nat → Lexer → List LexerException → Lexer × List LexerException
  | 0, lx, errors => (lx, errors)
  | k + 1, lx, errors =>
    if lx.isEnd then (lx, errors)
    else
      match scanNextToken { lx with start := lx.current } with
      | (lx1, some e) => scanSteps k lx1 (errors ++ [e])
      | (lx1, none) => scanSteps k lx1 errors

end Lexer

namespace Lexer

/-- A stretch of `Lexer::scanNextToken` that only moves `current`, over characters that
are not newlines unless it runs into the end of the text. -/
def Moved (lx lx' : Lexer) : Prop :=
  lx'.src = lx.src ∧ lx'.tokens = lx.tokens ∧ lx'.line_num = lx.line_num ∧
    (lx.src.length ≤ lx.current → lx.src.length ≤ lx'.current) ∧
    (lx'.current < lx.src.length →
      newlinesBefore lx.src lx'.current = newlinesBefore lx.src lx.current)

/-- A stretch of `Lexer::scanNextToken` that adds no token, does not step back and raises
`line_num` by the number of newlines it passes. -/
def Counted (lx lx' : Lexer) : Prop :=
  lx'.src = lx.src ∧ lx'.tokens = lx.tokens ∧ lx.current ≤ lx'.current ∧
    lx'.line_num + newlinesBefore lx.src lx.current =
      lx.line_num + newlinesBefore lx.src lx'.current

/-- One call of `Lexer::scanNextToken`: the text stays, the tokens added carry the line
counter of the start of the call and are not END_OF_FILE, and unless the call runs into the
end of the text the line counter rises by the number of newlines passed. -/
def Stepped (lx lx' : Lexer) : Prop :=
  lx'.src = lx.src ∧
    (∃ added, lx'.tokens = lx.tokens ++ added ∧
      ∀ t ∈ added, t.line = lx.line_num ∧ t.type ≠ TokenType.END_OF_FILE) ∧
    (lx'.current < lx.src.length →
      lx'.line_num + newlinesBefore lx.src lx.current =
        lx.line_num + newlinesBefore lx.src lx'.current)

end Lexer

namespace Lexer

end Lexer

/-! ## Statements about runs of the parser -/

/-- A stretch of tokens put in front of the first of a list of stretches. -/
def glue (seg : List Token) : List (List Token) → List (List Token)
  | [] => [seg]
  | hd :: tl => (seg ++ hd) :: tl

/-- The positions for statements in the tokens between a `begin` and its `end`: the
stretches of tokens between the separating semicolons, which are the semicolons that no
inner `begin ... end` encloses.  `depth` counts the inner `begin`s that are open. -/
def positions : Nat → List Token → List (List Token)
  | _, [] => [[]]
  | depth, t :: ts =>
    if t.type = .BEGIN then glue [t] (positions (depth + 1) ts)
    else if t.type = .END then glue [t] (positions (depth - 1) ts)
    else if t.type = .SEMICOLON ∧ depth = 0 then [] :: positions depth ts
    else glue [t] (positions depth ts)

/-- The number of separating semicolons in the tokens between a `begin` and its `end`. -/
def separators : Nat → List Token → Nat
  | _, [] => 0
  | depth, t :: ts =>
    if t.type = .BEGIN then separators (depth + 1) ts
    else if t.type = .END then separators (depth - 1) ts
    else if t.type = .SEMICOLON ∧ depth = 0 then separators depth ts + 1
    else separators depth ts

/-- A stretch of tokens that holds no separating semicolon and closes every `begin` it
opens, when read with at least `k` inner `begin`s open. -/
def NeutralFrom (k : Nat) (seg : List Token) : Prop :=
  ∀ d rest, k ≤ d → positions d (seg ++ rest) = glue seg (positions d rest)

/-- What a run of a parsing function that returns does: the token vector stays, and the
tokens from the old position on are the tokens read, `seg`, and then the tokens from the new
position on; `Q` relates the result to the tokens read. -/
def Parses {α : Type} (m : ParserM α) (Q : α → List Token → Prop) : Prop :=
  ∀ p a p', m.run p = .ok (a, p') →
    p'.tokens = p.tokens ∧
      ∃ seg, p.tokens.drop p.current = seg ++ p.tokens.drop p'.current ∧ Q a seg

/-- A parsing function that reads a stretch without separating semicolon in which every
`begin` is closed. -/
def ParsesNeutral {α : Type} (m : ParserM α) : Prop :=
  Parses m fun _ seg => NeutralFrom 0 seg

/-- A parsing function for a statement: it reads at least one token, the stretch read has no
separating semicolon and closes every `begin`, and the result satisfies `R`. -/
def ParsesStatement {α : Type} (m : ParserM α) (R : α → Prop) : Prop :=
  Parses m fun a seg => NeutralFrom 0 seg ∧ seg ≠ [] ∧ R a

/-- A step of a parsing function that reads no token. -/
def ParsesNothing {α : Type} (m : ParserM α) : Prop :=
  Parses m fun _ seg => seg = []

/-- A position for a statement and the statement that fills it: the position is empty
exactly when the statement is a `NullStatement`. -/
def FilledBy (seg : List Token) (s : Statement) : Prop :=
  seg = [] ↔ s = Statement.NullStatement

/-- What `Parser::compoundStatement` reads and builds: a `begin`, a stretch of tokens in
which every inner `begin` is closed, and an `end`; every position of the stretch is filled
by one statement, in order. -/
def CompoundParsed (cs : CompoundStatement) (seg : List Token) : Prop :=
  ∃ b inner e, seg = b :: inner ++ [e] ∧ b.type = .BEGIN ∧ e.type = .END ∧
    NeutralFrom 1 inner ∧
    List.Forall₂ FilledBy (positions 0 inner) cs.getStatements.toList

/-- What the loop of `Parser::compoundStatement` reads and adds to the statements `acc`:
semicolons, each followed by the tokens of one position, and the `end`; every position is
filled by one of the statements added, in order. -/
def CompoundLoopParsed (acc : StatementList) (stmts : StatementList) (seg : List Token) : Prop :=
  ∃ body e segs added, seg = body ++ [e] ∧ e.type = .END ∧ NeutralFrom 1 body ∧
    stmts.toList = acc.toList ++ added ∧ List.Forall₂ FilledBy segs added ∧
    ∀ first, NeutralFrom 0 first → positions 0 (first ++ body) = first :: segs

/-- The tokens of `begin a; ; end`, as the lexer gives them. -/
def compoundExampleTokens : List Token :=
  [⟨.BEGIN, "", 1⟩, ⟨.IDENTIFIER, "a", 1⟩, ⟨.SEMICOLON, "", 1⟩, ⟨.SEMICOLON, "", 1⟩,
    ⟨.END, "", 1⟩, ⟨.END_OF_FILE, "", 1⟩]

/-! ## Example texts and token lists -/

/-- The text `x := 'a⏎y`: an unclosed character literal on line 1, then a word on line 2. -/
def unclosedExampleSource : String :=
  String.mk ("x := ".data ++ [QUOTE, 'a', NEWLINE, 'y'])

/-- The lexer state that `Lexer::scan` leaves on `unclosedExampleSource`. -/
def unclosedExampleLexer : Lexer :=
  { src := unclosedExampleSource.data
    raw_src := unclosedExampleSource.data
    tokens := [⟨.IDENTIFIER, "x", 1⟩, ⟨.ASSIGN, "", 1⟩, ⟨.IDENTIFIER, "y", 2⟩, ⟨.END_OF_FILE, "", 2⟩]
    start := 8
    current := 9
    line_num := 2
    processingString := false }

/-- The lexer state after the first two tokens-or-blanks of the text `x⏎'c`: the word `x` is
scanned, the newline is counted, and the next character is the quote. -/
def quoteExampleLexer : Lexer :=
  { src := ['x', NEWLINE, QUOTE, 'c']
    raw_src := ['x', NEWLINE, QUOTE, 'c']
    tokens := [⟨.IDENTIFIER, "x", 1⟩]
    start := 1
    current := 2
    line_num := 2
    processingString := false }

/-- The tokens of `if c1 then if c2 then s1 else s2`, followed by END_OF_FILE. -/
def danglingElseTokens : List Token :=
  [⟨.IF, "", 1⟩, ⟨.IDENTIFIER, "c1", 1⟩, ⟨.THEN, "", 1⟩, ⟨.IF, "", 1⟩, ⟨.IDENTIFIER, "c2", 1⟩,
    ⟨.THEN, "", 1⟩, ⟨.IDENTIFIER, "s1", 1⟩, ⟨.ELSE, "", 1⟩, ⟨.IDENTIFIER, "s2", 1⟩,
    ⟨.END_OF_FILE, "", 1⟩]

/-- The tokens of `x + 1`, followed by END_OF_FILE. -/
def factorExampleTokens : List Token :=
  [⟨.IDENTIFIER, "x", 1⟩, ⟨.PLUS, "", 1⟩, ⟨.NUMBER, "1", 1⟩, ⟨.END_OF_FILE, "", 1⟩]

/-! ## Parse-tree printer (`printer.hpp`, `printer.cpp`) -/

/-- The enumeration `FactorType`. -/
inductive FactorType
  | NUMBER | WITH_UMINUS | WITH_PLUS | WITH_NOT | VARIABLE | EXPRESSION | FUNCTION | BOOLEAN
  | UNKNOWN
  deriving DecidableEq, Repr

/-- `Factor::getType`. -/
def Factor.getType : Factor → FactorType
  | .NUMBER _ _ => .NUMBER
  | .BOOLEAN _ _ => .BOOLEAN
  | .VARIABLE _ _ => .VARIABLE
  | .FUNCTION _ _ => .FUNCTION
  | .EXPRESSION _ _ => .EXPRESSION
  | .WITH_UMINUS _ _ => .WITH_UMINUS
  | .WITH_PLUS _ _ => .WITH_PLUS
  | .WITH_NOT _ _ => .WITH_NOT
  | .UNKNOWN _ _ => .UNKNOWN

/-- `Utils::getFactorTypeName`. -/
def Utils.getFactorTypeName : FactorType → String
  | .NUMBER => "Number"
  | .WITH_UMINUS => "With Uminus"
  | .WITH_NOT => "With Not"
  | .VARIABLE => "Variable"
  | .EXPRESSION => "Expression"
  | .FUNCTION => "Function"
  | .BOOLEAN => "Boolean"
  | .WITH_PLUS => "With Plus"
  | .UNKNOWN => "Unknown"

/-- How a run of the printer ends abnormally: `std::get` on an alternative that the variant
does not hold (`std::bad_variant_access`, which nothing catches), or `back()` and
`end() - 1` on an empty vector. -/
inductive PrinterError
  | badVariantAccess
  | emptyVector
  deriving DecidableEq, Repr

/-- The data members of the class `Printer`. -/
structure Printer where
  result : String
  now_level : Int
  use_color : Bool
  deriving DecidableEq, Repr

/-- A member function of `Printer`: it writes to `result` and moves `now_level`, or the
run ends abnormally. -/
abbrev PrinterM := StateT Printer (Except PrinterError)

namespace Printer

/-- `Printer::Printer(bool use_color)`. -/
def new (use_color : Bool) : Printer := { result := "", now_level := 0, use_color := use_color }

/-- The text `COLOR_NODE`. -/
def COLOR_NODE : String := "\x1b[1;34m"

/-- The text `COLOR_ATTR`. -/
def COLOR_ATTR : String := "\x1b[0;32m"

/-- The text `COLOR_VAL`. -/
def COLOR_VAL : String := "\x1b[0;33m"

/-- The text `COLOR_RESET`. -/
def COLOR_RESET : String := "\x1b[0m"

/-- The loop `for (int i = 0; i < now_level; i++)` of `constructString` and
`constructValue`. -/
def branchIndentation (now_level : Int) : String :=
  String.join ((List.range now_level.toNat).map fun i =>
    if (i : Int) = now_level - 1 then "├─ " else "│  ")

/-- `Printer::constructString`. -/
def constructString (p : Printer) (str : String) : String :=
  if p.use_color then branchIndentation p.now_level ++ COLOR_NODE ++ str ++ COLOR_RESET ++ "\n"
  else branchIndentation p.now_level ++ str ++ "\n"

/-- `Printer::constructValue`. -/
def constructValue (p : Printer) (name value : String) : String :=
  if p.use_color then
    branchIndentation p.now_level ++ COLOR_ATTR ++ name ++ COLOR_RESET ++ ": " ++ COLOR_VAL ++
      value ++ COLOR_RESET ++ "\n"
  else branchIndentation p.now_level ++ name ++ ": " ++ value ++ "\n"

/-- The statement `result << constructString(str)`. -/
def writeString (str : String) : PrinterM Unit :=
  modify fun p => { p with result := p.result ++ constructString p str }

/-- The statement `result << constructValue(name, value)`. -/
def writeValue (name value : String) : PrinterM Unit :=
  modify fun p => { p with result := p.result ++ constructValue p name value }

/-- The statement `now_level++`. -/
def levelUp : PrinterM Unit := modify fun p => { p with now_level := p.now_level + 1 }

/-- The statement `now_level--`. -/
def levelDown : PrinterM Unit := modify fun p => { p with now_level := p.now_level - 1 }

/-- The statements `std::copy(ids.begin(), ids.end() - 1, std::ostream_iterator(oss, ", "));
oss << ids.back();`. -/
def joinIds : List String → PrinterM String
  | [] => throw .emptyVector
  | id :: ids => pure (String.join ((id :: ids).dropLast.map fun s => s ++ ", ") ++
      (id :: ids).getLastD "")

mutual
/-- `Printer::visit(const Factor&)`.  `std::get<std::string>` is applied for UNKNOWN and
NUMBER, `std::get<ASTNodePtr>` for every other type; a BOOLEAN factor holds a string. -/
def visitFactor : Factor → PrinterM Unit
  | .NUMBER _ value => do
    writeString ("Factor: " ++ Utils.getFactorTypeName .NUMBER ++ " (" ++ value ++ ")")
    levelUp
    writeValue "Value" value
    levelDown
  | .UNKNOWN _ id => do
    writeString ("Factor: " ++ Utils.getFactorTypeName .UNKNOWN)
    levelUp
    writeValue "Value" id
    levelDown
  | .BOOLEAN _ _ => do
    writeString ("Factor: " ++ Utils.getFactorTypeName .BOOLEAN)
    levelUp
    writeString "Value"
    levelUp
    throw .badVariantAccess
  | .VARIABLE _ v => do
    writeString ("Factor: " ++ Utils.getFactorTypeName .VARIABLE)
    levelUp
    writeString "Value"
    levelUp
    visitVariable v
    levelDown
    levelDown
  | .FUNCTION _ call => do
    writeString ("Factor: " ++ Utils.getFactorTypeName .FUNCTION)
    levelUp
    writeString "Value"
    levelUp
    visitProcedureCall call
    levelDown
    levelDown
  | .EXPRESSION _ e => do
    writeString ("Factor: " ++ Utils.getFactorTypeName .EXPRESSION)
    levelUp
    writeString "Value"
    levelUp
    visitExpression e
    levelDown
    levelDown
  | .WITH_UMINUS _ operand => do
    writeString ("Factor: " ++ Utils.getFactorTypeName .WITH_UMINUS)
    levelUp
    writeString "Value"
    levelUp
    visitFactor operand
    levelDown
    levelDown
  | .WITH_PLUS _ operand => do
    writeString ("Factor: " ++ Utils.getFactorTypeName .WITH_PLUS)
    levelUp
    writeString "Value"
    levelUp
    visitFactor operand
    levelDown
    levelDown
  | .WITH_NOT _ operand => do
    writeString ("Factor: " ++ Utils.getFactorTypeName .WITH_NOT)
    levelUp
    writeString "Value"
    levelUp
    visitFactor operand
    levelDown
    levelDown
/-- The loop over `term.getFactors()` of `Printer::visit(const Term&)`. -/
def visitFactorList : FactorList → PrinterM Unit
  | .nil => return ()
  | .cons op f tl => do
    writeString ("Op: " ++ Utils.getMulOpName op)
    levelUp
    visitFactor f
    levelDown
    visitFactorList tl
/-- `Printer::visit(const Term&)`. -/
def visitTerm : Term → PrinterM Unit
  | .mk first factors => do
    writeString "Term"
    levelUp
    visitFactor first
    visitFactorList factors
    levelDown
/-- The loop over `simple_expression.getTerms()` of
`Printer::visit(const SimpleExpression&)`. -/
def visitTermList : TermList → PrinterM Unit
  | .nil => return ()
  | .cons op t tl => do
    writeString ("Op: " ++ Utils.getAddOpName op)
    levelUp
    visitTerm t
    levelDown
    visitTermList tl
/-- `Printer::visit(const SimpleExpression&)`. -/
def visitSimpleExpression : SimpleExpression → PrinterM Unit
  | .mk first terms => do
    writeString "SimpleExpression"
    levelUp
    visitTerm first
    visitTermList terms
    levelDown
/-- `Printer::visit(const Expression&)`. -/
def visitExpression : Expression → PrinterM Unit
  | .simple left => do
    writeString "Expression"
    levelUp
    writeString "Left"
    levelUp
    visitSimpleExpression left
    levelDown
    levelDown
  | .relational left op right => do
    writeString ("Expression" ++ " [" ++ Utils.getRelOpName op ++ "]")
    levelUp
    writeString "Left"
    levelUp
    visitSimpleExpression left
    levelDown
    writeString "Right"
    levelUp
    visitSimpleExpression right
    levelDown
    levelDown
/-- A loop `for (const auto &expression : ...) expression->accept(*this);`. -/
def visitExpressionList : ExpressionList → PrinterM Unit
  | .nil => return ()
  | .cons e tl => do
    visitExpression e
    visitExpressionList tl
/-- `Printer::visit(const Variable&)`. -/
def visitVariable : Variable → PrinterM Unit
  | .mk id .nil => writeString ("Variable: " ++ id)
  | .mk id (.cons e tl) => do
    writeString ("Variable: " ++ id ++ " [array]")
    levelUp
    writeString "Indices"
    levelUp
    visitExpressionList (.cons e tl)
    levelDown
    levelDown
/-- `Printer::visit(const ProcedureCall&)`. -/
def visitProcedureCall : ProcedureCall → PrinterM Unit
  | .mk id .nil => writeString ("Call: " ++ id ++ " (no params)")
  | .mk id (.cons e tl) => do
    writeString ("Call: " ++ id)
    levelUp
    writeString "Parameters"
    levelUp
    visitExpressionList (.cons e tl)
    levelDown
    levelDown
end

mutual
/-- The functions `Printer::visit` for the subclasses of `Statement`. -/
def visitStatement : Statement → PrinterM Unit
  | .NullStatement => writeString "NullStatement"
  | .Assign _ left right => do
    writeString "Assignment"
    levelUp
    writeString "Left"
    levelUp
    visitVariable left
    levelDown
    writeString "Right"
    levelUp
    visitExpression right
    levelDown
    levelDown
  | .ProcedureCall call => visitProcedureCall call
  | .CompoundStatement c => visitCompoundStatement c
  | .If condition then_statement => do
    writeString "If"
    levelUp
    writeString "Condition"
    levelUp
    visitExpression condition
    levelDown
    writeString "Then"
    levelUp
    visitStatement then_statement
    levelDown
    levelDown
  | .IfElse condition then_statement else_statement => do
    writeString "If"
    levelUp
    writeString "Condition"
    levelUp
    visitExpression condition
    levelDown
    writeString "Then"
    levelUp
    visitStatement then_statement
    levelDown
    writeString "Else"
    levelUp
    visitStatement else_statement
    levelDown
    levelDown
  | .For id lb ub statement => do
    writeString ("For: " ++ id)
    levelUp
    writeString "From"
    levelUp
    visitExpression lb
    levelDown
    writeString "To"
    levelUp
    visitExpression ub
    levelDown
    writeString "Do"
    levelUp
    visitStatement statement
    levelDown
    levelDown
  | .While condition statement => do
    writeString "While"
    levelUp
    writeString "Condition"
    levelUp
    visitExpression condition
    levelDown
    writeString "Do"
    levelUp
    visitStatement statement
    levelDown
    levelDown
  | .Read _ variables_ => do
    writeString "Read"
    levelUp
    for v in variables_ do
      visitVariable v
    levelDown
  | .Write _ expressions => do
    writeString "Write"
    levelUp
    visitExpressionList expressions
    levelDown
  | .Break => writeString "Break"
/-- The loop over `compound_statement.getStatements()`. -/
def visitStatementList : StatementList → PrinterM Unit
  | .nil => return ()
  | .cons s tl => do
    visitStatement s
    visitStatementList tl
/-- `Printer::visit(const CompoundStatement&)`. -/
def visitCompoundStatement : CompoundStatement → PrinterM Unit
  | .mk _ statements => do
    writeString "Compound \x7b"
    levelUp
    visitStatementList statements
    levelDown
    writeString "\x7d"
end

/-- `Printer::visit(const Parameter&)`. -/
def visitParameter (parameter : Parameter) : PrinterM Unit := do
  let paramType := if parameter.has_var then "var " else ""
  let idList ← joinIds parameter.id_list
  writeString (paramType ++ idList ++ ": " ++ Utils.getBasicTypeName parameter.basic_type)

/-- `Printer::visit(const ConstDecl&)`. -/
def visitConstDecl (const_decl : ConstDecl) : PrinterM Unit :=
  writeString (const_decl.id ++ " = " ++ const_decl.value)

/-- `Printer::visit(const Type&)`. -/
def visitType (type : TypeNode) : PrinterM Unit := do
  let typeStr := Utils.getBasicTypeName type.basic_type
  if type.periods.isEmpty then
    writeValue "Type" typeStr
  else
    writeString (typeStr ++ " Array")
    levelUp
    for period in type.periods do
      writeString ("Range: " ++ period.1 ++ ".." ++ period.2)
    levelDown

/-- `Printer::visit(const VarDecl&)`. -/
def visitVarDecl (var_decl : VarDecl) : PrinterM Unit := do
  let idList ← joinIds var_decl.id_list
  writeString idList
  levelUp
  visitType var_decl.type
  levelDown

/-- The blocks `Const Declarations` and `Var Declarations` of `Printer::visit(const
Program&)` and `Printer::visit(const Subprogram&)`. -/
def visitDeclarations (consts : List ConstDecl) (vars : List VarDecl) : PrinterM Unit := do
  if !consts.isEmpty then
    writeString "Const Declarations"
    levelUp
    for const_decl in consts do
      visitConstDecl const_decl
    levelDown
  if !vars.isEmpty then
    writeString "Var Declarations"
    levelUp
    for var_decl in vars do
      visitVarDecl var_decl
    levelDown

/-- `Printer::visit(const Subprogram&)`. -/
def visitSubprogram (subprogram : Subprogram) : PrinterM Unit := do
  writeString ("Subprogram: " ++ subprogram.id)
  levelUp
  if !subprogram.parameters.isEmpty then
    writeString "Parameters"
    levelUp
    for param in subprogram.parameters do
      visitParameter param
    levelDown
  let return_type :=
    if subprogram.is_func then Utils.getBasicTypeName subprogram.ret_type else "None (procedure)"
  writeValue "Return Type" return_type
  visitDeclarations subprogram.const_declaration subprogram.var_declaration
  writeString "Body"
  visitCompoundStatement subprogram.compound_statement
  levelDown

/-- `Printer::visit(const Program&)`. -/
def visitProgram (program : Program) : PrinterM Unit := do
  modify fun p => { p with now_level := 0 }
  writeString ("Program: " ++ program.program_id)
  levelUp
  if !program.parameters.isEmpty then
    writeValue "Parameters" (← joinIds program.parameters)
  visitDeclarations program.const_declaration program.var_declaration
  if !program.subprograms.isEmpty then
    writeString "Subprograms"
    levelUp
    for subprogram in program.subprograms do
      visitSubprogram subprogram
    levelDown
  writeString "Body"
  visitCompoundStatement program.compound_statement
  levelDown

end Printer

/-- How `solveParserResult` ends. -/
inductive PrintOutcome
  /-- The lexer reported errors. -/
  | lexerErrors (errors : List LexerException)
  /-- The parser threw. -/
  | parserError (msg : String) (line : Nat)
  /-- The dump was written. -/
  | printed (text : String)
  /-- The printer ended abnormally. -/
  | crash (e : PrinterError)
  /-- The fuel of the embedding ran out, or the parser read outside the token vector. -/
  | stuck
  deriving DecidableEq, Repr

/-- `solveParserResult`; `fuel` bounds the loop of the lexer and the recursion of the
parser. -/
def solveParserResult (fuel : Nat) (src : String) (use_color : Bool) : PrintOutcome :=
  match Lexer.scan fuel (Lexer.new src) with
  | none => .stuck
  | some (_, e :: es) => .lexerErrors (e :: es)
  | some (lexer, []) =>
    match (Parser.program fuel).run (Parser.new lexer.tokens) with
    | .error (.ParserException msg line) => .parserError msg line
    | .error _ => .stuck
    | .ok (program, _) =>
      match (Printer.visitProgram program).run (Printer.new use_color) with
      | .error e => .crash e
      | .ok (_, printer) => .printed printer.result

/-! ## Further example runs -/

/-- The exception with which `Parser::compoundStatement` ends on the tokens of a text:
`none` when the text does not scan without error or the parser returns. -/
def compoundStatementError (fuel : Nat) (src : String) : Option ParserError :=
  match Lexer.scan fuel (Lexer.new src) with
  | some (lexer, []) =>
    match (Parser.compoundStatement fuel).run (Parser.new lexer.tokens) with
    | .error e => some e
    | .ok _ => none
  | _ => none

/-- The global scope after the analysis of a text: the entries of the table at the bottom of
the scope stack. -/
def globalScopeOf (fuel : Nat) (src : String) : Option (List SymbolEntry) :=
  (analyzeSource fuel src).bind fun r => r.2.scope_stack.getLast?.map fun t => t.entries

/-! ## Statements about the tokens that the parser reads -/

/-- Two parsers at the same position that have allocated the same nodes, the token vector
of the second being the token vector of the first with further tokens after it. -/
def Agree (p q : Parser) : Prop :=
  q.current = p.current ∧ q.nextAddr = p.nextAddr ∧ p.tokens <+: q.tokens

/-- Whatever `m` returns or throws on a parser, `n` returns or throws on a parser that
agrees with it.  Nothing is said of the runs of `m` that read outside the token vector or
run out of fuel. -/
def Follows {α : Type} (m n : ParserM α) : Prop :=
  ∀ p q, Agree p q →
    match m.run p with
    | .ok (a, p') => ∃ q', n.run q = .ok (a, q') ∧ Agree p' q'
    | .error (.ParserException msg line) => n.run q = .error (.ParserException msg line)
    | .error _ => True

/-- The first END_OF_FILE token of the vector is at index `k`. -/
def FirstEnd (k : Nat) (tokens : List Token) : Prop :=
  (∃ e, tokens[k]? = some e ∧ e.type = TokenType.END_OF_FILE) ∧
    ∀ i t, i < k → tokens[i]? = some t → t.type ≠ TokenType.END_OF_FILE

/-- How a run from position `cur` may end on a vector whose first END_OF_FILE is at `k`:
the parser returns, with the same vector, at a position from `cur` up to `k`, or it throws
a `ParserException`.  A read outside the vector and the end of the fuel are excluded. -/
def SettledRun {α : Type} (tokens : List Token) (k cur : Nat) :
    Except ParserError (α × Parser) → Prop
  | .ok (_, p') => p'.tokens = tokens ∧ cur ≤ p'.current ∧ p'.current ≤ k
  | .error (.ParserException _ _) => True
  | .error _ => False

/-- From every position up to `k` for which `fuel` covers 16 units for each token before
`k` and `c` units more, a run of `m` is settled. -/
def Settles {α : Type} (tokens : List Token) (k fuel c : Nat) (m : ParserM α) : Prop :=
  ∀ cur addr, cur ≤ k → 16 * (k - cur) + c ≤ fuel → SettledRun tokens k cur (m.run ⟨tokens, cur, addr⟩)

/-- The same for a run of `m` that starts one token ahead of a position before `k`, as
between `forward()` and `backward()`, and ends at that position or after it. -/
def SettlesAhead {α : Type} (tokens : List Token) (k fuel c : Nat) (m : ParserM α) : Prop :=
  ∀ cur addr, cur < k → 16 * (k - cur) + c ≤ fuel →
    SettledRun tokens k cur (m.run ⟨tokens, cur + 1, addr⟩)

/-- The multiplicative operator that a token stands for in the loop of `Parser::term`. -/
def mulOpOf : TokenType → Option MulOp
  | .TIMES => some .TIMES
  | .RDIV => some .RDIV
  | .DIV => some .DIV
  | .MOD => some .MOD
  | .AND => some .AND
  | _ => none

/-- The additive operator that a token stands for in the loop of
`Parser::simpleExpression`. -/
def addOpOf : TokenType → Option AddOp
  | .PLUS => some .PLUS
  | .MINUS => some .MINUS
  | .OR => some .OR
  | _ => none

/-- The relational operator that a token stands for in `Parser::expression`. -/
def relOpOf : TokenType → Option RelOp
  | .GT => some .GT
  | .EQUAL => some .EQ
  | .LT => some .LT
  | .GE => some .GE
  | .LE => some .LE
  | .NE => some .NE
  | _ => none

/-- A program text of five tokens, its END_OF_FILE, and two tokens after it. -/
def beyondEndTokens : List Token :=
  [⟨.PROGRAM, "", 1⟩, ⟨.IDENTIFIER, "p", 1⟩, ⟨.SEMICOLON, "", 1⟩, ⟨.BEGIN, "", 2⟩,
    ⟨.END, "", 2⟩, ⟨.DOT, "", 2⟩] ++ ⟨.END_OF_FILE, "", 2⟩ :: [⟨.IDENTIFIER, "x", 3⟩, ⟨.DOT, "", 3⟩]

/-- An operator between two factors of a simple expression. -/
inductive FactorOp
  | mul (op : MulOp)
  | add (op : AddOp)
  deriving DecidableEq, Repr

/-- The operator that a token between two factors stands for. -/
def factorOpOf (t : TokenType) : Option FactorOp :=
  match mulOpOf t with
  | some op => some (.mul op)
  | none => (addOpOf t).map .add

/-- The operands that follow a factor: from `p`, the position after a factor, an operator
token and the factor that `Parser::factor` reads after it, again and again up to `p'`. -/
inductive OperandsRead : Parser → List (FactorOp × Factor) → Parser → Prop
  | none (p : Parser) : OperandsRead p [] p
  | more (p : Parser) (tok : Token) (op : FactorOp) (g : Factor) (p1 : Parser)
      (rest : List (FactorOp × Factor)) (p' : Parser)
      (htok : p.tokens[p.current]? = some tok) (hop : factorOpOf tok.type = some op)
      (hg : ∃ n, (Parser.factor n).run { p with current := p.current + 1 } = .ok (g, p1))
      (hrest : OperandsRead p1 rest p') : OperandsRead p ((op, g) :: rest) p'

/-- The maximal run of operands joined by multiplicative operators at the head of a list of
operands. -/
def headRun : List (FactorOp × Factor) → FactorList
  | (.mul op, g) :: rest => .cons op g (headRun rest)
  | _ => .nil

/-- The terms after the first: each additive operator of the list, paired with the term
made of the operand after it and of the maximal run of operands joined to that operand by
multiplicative operators. -/
def laterTerms : List (FactorOp × Factor) → TermList
  | [] => .nil
  | (.add op, g) :: rest => .cons op (.mk g (headRun rest)) (laterTerms rest)
  | (.mul _, _) :: rest => laterTerms rest

/-- The operands that are left after the maximal run at the head. -/
def afterHeadRun : List (FactorOp × Factor) → List (FactorOp × Factor)
  | (.mul _, _) :: rest => afterHeadRun rest
  | l => l

/-- One list of factors after another. -/
def FactorList.append : FactorList → FactorList → FactorList
  | .nil, l => l
  | .cons op f tl, l => .cons op f (FactorList.append tl l)

/-- One list of terms after another. -/
def TermList.append : TermList → TermList → TermList
  | .nil, l => l
  | .cons op t tl, l => .cons op t (TermList.append tl l)

/-- The simple expression whose terms are the maximal runs of factors joined by
multiplicative operators, in order, paired with the additive operators between them. -/
def groupTerms (f0 : Factor) (rest : List (FactorOp × Factor)) : SimpleExpression :=
  .mk (.mk f0 (headRun rest)) (laterTerms rest)

/-- The tokens of `1 + 2 * 3 - 4 or 5`, followed by END_OF_FILE. -/
def precedenceTokens : List Token :=
  [⟨.NUMBER, "1", 1⟩, ⟨.PLUS, "", 1⟩, ⟨.NUMBER, "2", 1⟩, ⟨.TIMES, "", 1⟩, ⟨.NUMBER, "3", 1⟩,
    ⟨.MINUS, "", 1⟩, ⟨.NUMBER, "4", 1⟩, ⟨.OR, "", 1⟩, ⟨.NUMBER, "5", 1⟩, ⟨.END_OF_FILE, "", 1⟩]

namespace Parser

/-- The part of `Parser::program` before the last statement
`consume(TokenType::DOT, ...)`: the header, the declarations, the subprograms and the main
compound statement. -/
def programBeforeDot (fuel : Nat) : ParserM Program := do
  let _ ← consume .PROGRAM "Expected 'program' keyword at the beginning of the program declaration."
  let program_id := (← consume .IDENTIFIER "Expected program identifier after 'program' keyword.").value
  let parameters ← if (← match_ .LPAREN) then do
      let first := (← consume .IDENTIFIER "Expected identifier for program parameter.").value
      let ps ← identifierListLoop "Expected identifier for program parameter." fuel [first]
      let _ ← consume .RPAREN "Expected ')' to close program parameter list."
      pure ps
    else pure []
  let _ ← consume .SEMICOLON "Expected ';' after program header."
  let consts ← if (← match_ .CONST) then
      constDeclarationLoop "Expected ';' after constant declaration." fuel []
    else pure []
  let vars ← if (← match_ .VAR) then
      varDeclarationLoop "Expected ';' after variable declaration." fuel []
    else pure []
  let subprograms ← subprogramLoop fuel []
  let body ← compoundStatement fuel
  return { program_id := program_id, parameters := parameters, const_declaration := consts,
           var_declaration := vars, subprograms := subprograms, compound_statement := body }

end Parser

/-- The tokens of `program hello;` and `begin end` on the next line, followed by
END_OF_FILE: the vector of the test `ErrorHandling1`. -/
def missingDotTokens : List Token :=
  [⟨.PROGRAM, "", 1⟩, ⟨.IDENTIFIER, "hello", 1⟩, ⟨.SEMICOLON, "", 1⟩, ⟨.BEGIN, "", 2⟩,
    ⟨.END, "", 2⟩, ⟨.END_OF_FILE, "", 2⟩]

/-- The tokens of `begin`, of `for i := 1 = 10` on the second line and of `do ; end` on the
third, followed by END_OF_FILE. -/
def forRelationalTokens : List Token :=
  [⟨.BEGIN, "", 1⟩, ⟨.FOR, "", 2⟩, ⟨.IDENTIFIER, "i", 2⟩, ⟨.ASSIGN, "", 2⟩, ⟨.NUMBER, "1", 2⟩,
    ⟨.EQUAL, "", 2⟩, ⟨.NUMBER, "10", 2⟩, ⟨.DO, "", 3⟩, ⟨.SEMICOLON, "", 3⟩, ⟨.END, "", 3⟩,
    ⟨.END_OF_FILE, "", 3⟩]

/-! ## Statements about the text of the generator -/

/-- The test that the two blocks of `Generator::visit(const Factor&)` make on the text
written so far: it has at least three characters, and the second and the third character
from its end are both `&` or both `|`. -/
def OperatorAtEnd (t : List Char) : Prop :=
  3 ≤ t.length ∧
    ((t.getD (t.length - 2) NUL = '&' ∧ t.getD (t.length - 3) NUL = '&') ∨
      (t.getD (t.length - 2) NUL = '|' ∧ t.getD (t.length - 3) NUL = '|'))

/-- The two blocks of `Generator::visit(const Factor&)` in a row, as the code runs them: the
length is read once, before the first block. -/
def Generator.eraseOperators (result : String) : String :=
  Generator.eraseOperator '|' result.length (Generator.eraseOperator '&' result.length result)

/-- The text `t` starts with the text `P`. -/
def TextKept (P t : List Char) : Prop := ∃ w, t = P ++ w

/-- The text `t` starts with the text `P`, and either more has been written after `P` or the
test of `OperatorAtEnd` fails on `P`. -/
def TextSettled (P t : List Char) : Prop := ∃ w, t = P ++ w ∧ (w = [] → ¬ OperatorAtEnd P)

/-- A member function of the generator that, when it returns, has taken a text with the
property `A` with respect to `P` to a text with the property `B`, for every text `P`
that does not end with `&` or `|`. -/
def Carries (A B : List Char → List Char → Prop) {α : Type} (m : GenM α) : Prop :=
  ∀ P : List Char, P.getLast? ≠ some '&' → P.getLast? ≠ some '|' →
    ∀ g a g', A P g.result.data → m g = .ok (a, g') → B P g'.result.data

/-- The factor is a bare identifier that the analysis has not annotated as a call; `calls`
is the annotation map `is_factor_function_call`. -/
def bareIdentifier (calls : List (Nat × Bool)) : Factor → Bool
  | .UNKNOWN addr _ => !(calls.lookup addr == some true)
  | _ => false

/-- A member function of the generator that keeps a settled text settled. -/
abbrev KeepsText {α : Type} (m : GenM α) : Prop := Carries TextSettled TextSettled m

/-- A member function of the generator that keeps the start of the text and does not run
the two blocks of `Generator::visit(const Factor&)` before it has written something. -/
abbrev KeepsStart {α : Type} (m : GenM α) : Prop := Carries TextKept TextKept m

/-- A member function of the generator that keeps the start of the text and writes something
before the two blocks of `Generator::visit(const Factor&)` can run. -/
abbrev OpensText {α : Type} (m : GenM α) : Prop := Carries TextKept TextSettled m

/-! ## Statements about the scopes of the analyzer -/

/-- Every table of the scope stack has as level the number of tables below it, and every
entry of a table carries the level of that table. -/
def WellScoped : ScopeStack → Prop
  | [] => True
  | t :: rest =>
    t.current_scope = rest.length ∧ (∀ e ∈ t.entries, e.scope_level = t.current_scope) ∧
      WellScoped rest

/-- No SCOPE_VIOLATION is among the diagnostics. -/
def NoScopeViolation (reports : List Report) : Prop :=
  ∀ r ∈ reports, r.type ≠ ErrorType.SCOPE_VIOLATION

/-- The scope stack is well scoped and no SCOPE_VIOLATION has been reported. -/
def ScopeSound (s : SemanticAnalyzer) : Prop :=
  WellScoped s.scope_stack ∧ NoScopeViolation s.reports

/-- What a run of a member function of the analyzer leaves behind when the scopes are kept
sound: after a return the scope stack is well scoped and no SCOPE_VIOLATION has been
reported; after an abnormal end no SCOPE_VIOLATION is among the diagnostics written before
it. -/
def ScopesKept {α : Type} : Except Abort (α × SemanticAnalyzer) → Prop
  | .ok (_, s') => ScopeSound s'
  | .error e => NoScopeViolation e.reports

/-- A member function of the analyzer that keeps the scopes sound, however its run ends. -/
def KeepsScopes {α : Type} (m : SemM α) : Prop :=
  ∀ s, ScopeSound s → ScopesKept (m s)

/-- A scope stack in which the scope of a subprogram declares `x : real` and the global
scope declares `x : integer`. -/
def shadowingScopes : ScopeStack :=
  [⟨[{ name := "x", type := .BASIC .REAL, scope_level := 1 }], 1⟩,
   ⟨[{ name := "x", type := .BASIC .INTEGER, scope_level := 0 }], 0⟩]

/-! # Theorems -/

/-- Sanity check of `stoi` and `intToString` on sample texts. -/
theorem stoi_examples :
    stoi "12" = some 12 ∧ stoi "1.5" = some 1 ∧ stoi " -7x" = some (-7) ∧ stoi "x" = none ∧
    stoi "2147483648" = none ∧ stoi "" = none ∧ intToString (-12) = "-12" := by
  decide

/-! ## C1: a redefined constant -/

/-- Whatever the analyzer, a constant whose name is already in the current scope leaves
`error_count` as it is: the only effect of `visit(const ConstDecl&)` is the report that
`SymbolTable::insert` makes. -/
theorem visitConstDecl_duplicate_not_counted (const_decl : ConstDecl) (s : SemanticAnalyzer)
    (t : SymbolTable) (parents : List SymbolTable) (const_type : SymbolType) (e : SymbolEntry)
    (hStack : s.scope_stack = t :: parents)
    (hType : SemanticAnalyzer.constType const_decl.value = some const_type)
    (hDup : t.lookup const_decl.id = some e) :
    (SemanticAnalyzer.visitConstDecl const_decl).run s =
      .ok ((), { s with reports := s.reports ++ [⟨.DUPLICATE_DEFINITION,
        "identifier '" ++ const_decl.id ++ "' is already defined in the current scope", 0⟩] }) := by
  obtain ⟨stack, ec, m1, m2, m3, m4, m5, m6, m7, reps⟩ := s
  simp only at hStack
  subst hStack
  simp [SemanticAnalyzer.visitConstDecl, hType, StateT.run, bind, StateT.bind, Except.bind,
    SemanticAnalyzer.getCurrentScope, get, getThe, MonadStateOf.get, StateT.get, pure, Except.pure,
    SemanticAnalyzer.insert, SymbolTable.insert, hDup, set, StateT.set, StateT.pure]

/-- C1 (code defect). On `program p; const a=1; a=2; begin end.` the duplicate definition is
reported by `SymbolTable::insert`, but `error_count` stays 0: `hasError()` is false and
`solveCCode` writes C text that declares `a` twice. -/
theorem C1_duplicate_constant_emits_c :
    solveCCode 128 "program p; const a=1; a=2; begin end." =
      .cCode ("#include <stdio.h>\n#include <stdlib.h>\n#include <stdbool.h>\n" ++
          "const int a = 1;\nconst int a = 2;\nint main()\n\x7b\n  ;\n  return 0;\n\x7d\n")
        [⟨.DUPLICATE_DEFINITION, "identifier 'a' is already defined in the current scope", 0⟩] := by
  decide!

/-! ## C2: totality of the analysis -/

/-- C2 (code defect). On `x := y + 1` with `y` undeclared, `visit(const Assign&)` calls
`getExpressionType`, and `getNumericResultType` dereferences the null type of `y`: the run
ends abnormally instead of returning with a diagnostic. -/
theorem C2_undeclared_operand_crashes :
    solveCCode 128 "program p; var x: integer; begin x := y + 1 end." =
      .crash .nullDereference := by
  decide!

/-! ## C3: termination of `Lexer::scan` -/

/-- On the text `:` with `current = 0`, `scanNextToken` finds the end of the text after the
colon, steps back onto the colon and adds a COLON token: `current` is 0 again. -/
theorem scanNextToken_lone_colon (lx : Lexer) (h1 : lx.src = [':']) (h2 : lx.current = 0) :
    Lexer.scanNextToken { lx with start := lx.current } =
      ({ lx with start := 0, tokens := lx.tokens ++ [⟨.COLON, "", lx.line_num⟩] }, none) := by
  obtain ⟨src, raw, toks, st, cur, ln, ps⟩ := lx
  simp only at h1 h2
  subst h1 h2
  rfl

/-- The loop of `scan` never reaches the end of the text `:`, whatever the fuel. -/
theorem scanLoop_lone_colon : ∀ (fuel : Nat) (lx : Lexer) (errors : List LexerException),
    lx.src = [':'] → lx.current = 0 → Lexer.scanLoop fuel lx errors = none
  | 0, _, _, _, _ => rfl
  | fuel + 1, lx, errors, h1, h2 => by
    have hEnd : lx.isEnd = false := by simp [Lexer.isEnd, h1, h2]
    rw [Lexer.scanLoop, hEnd]
    simp only [Bool.false_eq_true, if_false]
    rw [scanNextToken_lone_colon lx h1 h2]
    exact scanLoop_lone_colon fuel _ errors h1 h2

/-- C3 (code defect). On the source `:` (the first character of the lexeme `:=` at the end of
the text) `Lexer::scan` does not terminate: no number of iterations of its loop reaches the
end of the text, each one steps back onto the colon and adds one more COLON token. -/
theorem C3_scan_diverges_on_lone_colon (fuel : Nat) :
    Lexer.scan fuel (Lexer.new ":") = none := by
  rw [Lexer.scan, scanLoop_lone_colon fuel _ [] rfl rfl]

/-- The same loop terminates on a text that ends with a complete lexeme. -/
theorem scan_terminates_on_assignment :
    (Lexer.scan 16 (Lexer.new "a := 1")).map (fun r => (r.1.tokens, r.2)) =
      some ([⟨.IDENTIFIER, "a", 1⟩, ⟨.ASSIGN, "", 1⟩, ⟨.NUMBER, "1", 1⟩, ⟨.END_OF_FILE, "", 1⟩], []) := by
  decide!

/-! ## C4: the bare program -/

/-- C4 (as stated, refuted). The C text generated for `program hello; begin end.` does not
contain `int main()\n{\n  return 0;\n}\n`. -/
theorem C4_bare_program_lacks_claimed_text :
    solveCCode 128 "program hello; begin end." =
        .cCode ("#include <stdio.h>\n#include <stdlib.h>\n#include <stdbool.h>\n" ++
          "int main()\n\x7b\n  ;\n  return 0;\n\x7d\n") [] ∧
      ¬ ("int main()\n\x7b\n  return 0;\n\x7d\n".data <:+:
        ("#include <stdio.h>\n#include <stdlib.h>\n#include <stdbool.h>\n" ++
          "int main()\n\x7b\n  ;\n  return 0;\n\x7d\n").data) :=
  ⟨by decide!, by decide!⟩

/-- C4 (amended). The C text generated for `program hello; begin end.` is the preamble
followed by `int main()\n{\n  ;\n  return 0;\n}\n`: the null statement that the parser puts in
the empty body is generated as `;` before `return 0;`. -/
theorem C4_bare_program_text :
    solveCCode 128 "program hello; begin end." =
        .cCode ("#include <stdio.h>\n#include <stdlib.h>\n#include <stdbool.h>\n" ++
          "int main()\n\x7b\n  ;\n  return 0;\n\x7d\n") [] ∧
      "int main()\n\x7b\n  ;\n  return 0;\n\x7d\n".data <:+:
        ("#include <stdio.h>\n#include <stdlib.h>\n#include <stdbool.h>\n" ++
          "int main()\n\x7b\n  ;\n  return 0;\n\x7d\n").data :=
  ⟨by decide!, by decide!⟩

/-! ## C5: array index origin -/

/-- C5 (code defect). A global `a : array[1..3]` and, local to procedure `q`, an
`a : array[5..7]`: the access `a[5]` inside `q` is generated as `a[5 - 1]`, with the lower
bound of the global array (the first entry of `arr_bias` for the name), not as `a[5 - 5]`. -/
theorem C5_local_array_uses_global_origin :
    solveCCode 128 ("program p; var a: array[1..3] of integer; " ++
        "procedure q; var a: array[5..7] of integer; begin a[5] := 0 end; " ++
        "begin a[1] := 0 end.") =
      .cCode ("#include <stdio.h>\n#include <stdlib.h>\n#include <stdbool.h>\n" ++
        "int a[3];\n" ++
        "void q() \x7b\n  int a[3];\n  \x7b\n    a[5 - 1] = 0;\n  \x7d\n\x7d\n" ++
        "int main()\n\x7b\n  a[1 - 1] = 0;\n  return 0;\n\x7d\n") [] := by
  decide!

/-! ## C6: dereference of VAR parameters -/

/-- C6 (code defect). In `procedure q(var i, s: integer)` the body `for i := 1 to 3 do s := s + i`
is generated with `*s` and `*i` in the assignment, but the loop header names the VAR parameter
`i` without `*`: `for (i = 1; i <= 3; i++)`. -/
theorem C6_for_control_variable_not_dereferenced :
    solveCCode 128 ("program p; procedure q(var i, s: integer); " ++
        "begin for i := 1 to 3 do s := s + i end; begin end.") =
      .cCode ("#include <stdio.h>\n#include <stdlib.h>\n#include <stdbool.h>\n" ++
        "void q(int* i, int* s) \x7b\n  \x7b\n    for (i = 1; i <= 3; i++)\n      *s = *s + *i;\n  \x7d\n\x7d\n" ++
        "int main()\n\x7b\n  ;\n  return 0;\n\x7d\n") [] := by
  decide!

/-! ## C7: the function result variable -/

/-- The result of `visit(const Assign&)` when the left name resolves to a function with
return type `T` and the type computed for the right side is the basic type `R`: the assignment
is annotated is-function-return = true when the types agree, whatever scope the assignment
stands in. -/
theorem visitAssign_function_result (addr : Nat) (left : Variable) (right : Expression)
    (s s1 s2 s3 : SemanticAnalyzer) (entry : SymbolEntry) (T R : BaseTypeKind)
    (parameters local_scope : List ParamEntry)
    (hLeft : (SemanticAnalyzer.visitVariable left).run s = .ok ((), s1))
    (hRight : (SemanticAnalyzer.visitExpression right).run s1 = .ok ((), s2))
    (hLookup : (SemanticAnalyzer.recursiveLookup left.getId).run s2 = .ok (some entry, s2))
    (hConst : entry.is_constant = false)
    (hType : entry.type = .CALLABLE true (some T) parameters local_scope)
    (hR : (SemanticAnalyzer.getExpressionType right).run s2 = .ok (some (.BASIC R), s3)) :
    (SemanticAnalyzer.visitAssign addr left right).run s =
      if T = R ∨ (T = .REAL ∧ R = .INTEGER) then
        .ok ((), { s3 with is_function_return := mapEmplace s3.is_function_return addr true })
      else
        .ok ((), { s3 with error_count := s3.error_count + 1,
                           reports := s3.reports ++ [⟨.TYPE_MISMATCH,
                             "Cannot assign value of type '" ++
                             SemanticAnalyzer.getTypeName (some (.BASIC R)) ++
                             "' to variable '" ++ left.getId ++ "' of type '" ++
                             SemanticAnalyzer.getTypeName
                               (some (.CALLABLE true (some T) parameters local_scope)) ++ "'", 0⟩] }) := by
  have hLeft' : SemanticAnalyzer.visitVariable left s = .ok ((), s1) := hLeft
  have hRight' : SemanticAnalyzer.visitExpression right s1 = .ok ((), s2) := hRight
  have hLookup' : SemanticAnalyzer.recursiveLookup left.getId s2 = .ok (some entry, s2) := hLookup
  have hR' : SemanticAnalyzer.getExpressionType right s2 = .ok (some (.BASIC R), s3) := hR
  unfold SemanticAnalyzer.visitAssign
  simp only [StateT.run, bind, StateT.bind, pure, StateT.pure, Except.bind, Except.pure,
    hLeft', hRight', hLookup', hConst, hR', Bool.false_eq_true, if_false]
  simp only [hType]
  cases T <;> cases R <;> rfl

/-- An assignment annotated is-function-return = true whose left side is the bare name `f`,
not a parameter of the subprogram being generated, is generated as the indentation, then
`f_return = `, the right side and `;`. -/
theorem generator_visitAssign_function_return (addr : Nat) (f : String) (right : Expression)
    (g : Generator) (params : List String)
    (hAnn : g.is_function_return.lookup addr = some true)
    (hParams : g.params_name.lookup g.now_in_which_subprogram = some params)
    (hNot : Generator.findIndex f params = none) :
    (Generator.visitAssign addr (.mk f .nil) right).run g =
      match (Generator.visitExpression right).run
          { g with result := g.result ++ Generator.indent g.now_level ++ f ++ "_return = ",
                   single_procedure := g.single_procedure + 1 } with
      | .ok ((), g2) =>
        .ok ((), { g2 with single_procedure := g2.single_procedure + -1, result := g2.result ++ ";\n" })
      | .error c => .error c := by
  obtain ⟨result, now_level, flag, arr_bias, tmp_periods, single_procedure, m1, m2, m3, m4, m5, m6, m7,
    mcs, now_in⟩ := g
  simp only at hAnn hParams
  by_cases hMain : now_in = "main"
  · simp [Generator.visitAssign, Generator.visitVariable, StateT.run, bind, StateT.bind, Except.bind,
      Generator.addIndent, Generator.mapAt, hAnn, hParams, hNot, Generator.emitDeref, Generator.emit,
      Generator.addSingleProcedure, modify, modifyGet, MonadStateOf.modifyGet,
      StateT.modifyGet, get, getThe, MonadStateOf.get, StateT.get, pure, Except.pure, StateT.pure,
      ExpressionList.empty, hMain, String.append_assoc]
    cases (Generator.visitExpression right) _ <;> rfl
  · simp [Generator.visitAssign, Generator.visitVariable, StateT.run, bind, StateT.bind, Except.bind,
      Generator.addIndent, Generator.mapAt, hAnn, hParams, hNot, Generator.emitDeref, Generator.emit,
      Generator.addSingleProcedure, modify, modifyGet, MonadStateOf.modifyGet,
      StateT.modifyGet, get, getThe, MonadStateOf.get, StateT.get, pure, Except.pure, StateT.pure,
      ExpressionList.empty, hMain, String.append_assoc]
    cases (Generator.visitExpression right) _ <;> rfl

/-- The text generated for a function `f` with return type `T`: the declaration
`T f_return;` is written right before the body is generated (with `f` as the current
subprogram), and the text ends with `return f_return;` and the closing brace. -/
theorem generator_visitSubprogram_function (sp : Subprogram) (g g' : Generator)
    (hFunc : sp.is_func = true)
    (hRun : (Generator.visitSubprogram sp).run g = .ok ((), g')) :
    ∃ g0 g2 : Generator,
      (Generator.visitCompoundStatement sp.compound_statement).run
        { g0 with result := g0.result ++ Generator.indent g0.now_level ++
                    (Utils.getBasicTypeName sp.ret_type ++ " ") ++ (sp.id ++ "_return;\n"),
                  now_in_which_subprogram := sp.id } = .ok ((), g2) ∧
      g'.result = g2.result ++ Generator.indent g2.now_level ++ ("return " ++ sp.id ++ "_return;\n") ++
        Generator.indent (g2.now_level + -1) ++ "\x7d\n" := by
  simp only [Generator.visitSubprogram, hFunc, StateT.run, bind, StateT.bind, Except.bind,
    Generator.addIndent, Generator.emit, Generator.addLevel, modify, modifyGet, MonadStateOf.modifyGet,
    StateT.modifyGet, get, getThe, MonadStateOf.get, StateT.get, pure, Except.pure, StateT.pure,
    if_true] at hRun
  split at hRun
  · cases hRun
  · split at hRun
    · cases hRun
    · split at hRun
      · cases hRun
      · rename_i v3 h3
        split at hRun
        · cases hRun
        · rename_i v4 h4
          obtain ⟨u, g2⟩ := v4
          refine ⟨v3.2, g2, h4, ?_⟩
          cases hRun
          rfl

/-- C7 (code defect). In `function f: integer; begin f := not 1.5 end` the analysis reports
nothing, leaves the type of `not 1.5` undetermined and annotates the assignment with
is-function-return = false: it is generated as `f = !1.5;`, not as `f_return = ...;`. -/
theorem C7_result_assignment_not_redirected :
    solveCCode 128 "program p; function f: integer; begin f := not 1.5 end; begin end." =
      .cCode ("#include <stdio.h>\n#include <stdlib.h>\n#include <stdbool.h>\n" ++
        "int f() \x7b\n  int f_return;\n  \x7b\n    f = !1.5;\n  \x7d\n  return f_return;\n\x7d\n" ++
        "int main()\n\x7b\n  ;\n  return 0;\n\x7d\n") [] := by
  decide!

/-- The example of C7: `function f: integer; begin f := 7 end` is generated with
`int f_return;`, `f_return = 7;` and `return f_return;`. -/
theorem function_result_example :
    solveCCode 128 "program p; function f: integer; begin f := 7 end; begin end." =
      .cCode ("#include <stdio.h>\n#include <stdlib.h>\n#include <stdbool.h>\n" ++
        "int f() \x7b\n  int f_return;\n  \x7b\n    f_return = 7;\n  \x7d\n  return f_return;\n\x7d\n" ++
        "int main()\n\x7b\n  ;\n  return 0;\n\x7d\n") [] := by
  decide!

/-! ## C8: the is-function-return annotation -/

/-- C8 (code defect). In `program p; function f: integer; begin f := 7 end; begin f := 3 end.`
the assignment `f := 3` of the main body is annotated is-function-return = true, without any
error, and is generated as `f_return = 3;` inside `main`. -/
theorem C8_main_body_assignment_annotated :
    (analyzeSource 128 "program p; function f: integer; begin f := 7 end; begin f := 3 end.").map
        (fun r => (mainBodyAnnotations r.1 r.2, r.2.error_count, r.2.reports)) =
      some ([some true], 0, []) ∧
    solveCCode 128 "program p; function f: integer; begin f := 7 end; begin f := 3 end." =
      .cCode ("#include <stdio.h>\n#include <stdlib.h>\n#include <stdbool.h>\n" ++
        "int f() \x7b\n  int f_return;\n  \x7b\n    f_return = 7;\n  \x7d\n  return f_return;\n\x7d\n" ++
        "int main()\n\x7b\n  f_return = 3;\n  return 0;\n\x7d\n") [] :=
  ⟨by decide!, by decide!⟩

/-! ## C9: the type of a term -/

/-- C9 (code defect). `getTermType` gives a term the type of its first factor: assigning
`2 * 1.5` to the integer variable `i` is accepted without a diagnostic and C text is written,
while `1.5 * 2` is rejected as a type mismatch. -/
theorem C9_term_type_is_first_factor_type :
    solveCCode 128 "program p; var i: integer; begin i := 2 * 1.5 end." =
      .cCode ("#include <stdio.h>\n#include <stdlib.h>\n#include <stdbool.h>\n" ++
        "int i;\nint main()\n\x7b\n  i = 2 * 1.5;\n  return 0;\n\x7d\n") [] ∧
    solveCCode 128 "program p; var i: integer; begin i := 1.5 * 2 end." =
      .semanticErrors [cannotAssignReport .REAL .INTEGER "i"] :=
  ⟨by decide!, by decide!⟩

/-! ## C10: the assignment check -/

/-- C10 (code defect). The assignment check of `visit(const Assign&)` compares the type of
the left side with the type that `getExpressionType` computes, and `getTermType` gives a
product the type of its first factor: `i := 2 * r` with `i : integer` and `r : real` is
accepted without a diagnostic and C text is written, while `i := r * 2` is reported as a
type mismatch.  And the check is not reached when a visit before it ends abnormally:
`a[-y] := 1.5` on an array of integer, with `y` undeclared, ends in a null pointer
dereference, and no mismatch has been reported. -/
theorem C10_real_product_assigned_to_integer :
    solveCCode 128 "program p; var i: integer; r: real; begin i := 2 * r end." =
      .cCode ("#include <stdio.h>\n#include <stdlib.h>\n#include <stdbool.h>\n" ++
        "int i;\nfloat r;\nint main()\n\x7b\n  i = 2 * r;\n  return 0;\n\x7d\n") [] ∧
    solveCCode 128 "program p; var i: integer; r: real; begin i := r * 2 end." =
      .semanticErrors [cannotAssignReport .REAL .INTEGER "i"] ∧
    solveCCode 128 "program p; var a: array[0..5] of integer; begin a[-y] := 1.5 end." =
      .crash .nullDereference ∧
    analysisDiagnostics 128 "program p; var a: array[0..5] of integer; begin a[-y] := 1.5 end." =
      [] :=
  ⟨by decide!, by decide!, by decide!, by decide!⟩

/-- The result of `visit(const Assign&)` when the left side is a variable that is not a
constant, of basic type `L` (or an indexed element of an array of `L`), and the type of the
right side is the basic type `R`: `s3` is the analyzer after the two sides are visited and
the type of the right side is computed. -/
theorem visitAssign_basic (addr : Nat) (left : Variable) (right : Expression)
    (s s1 s2 s3 : SemanticAnalyzer) (entry : SymbolEntry) (L R : BaseTypeKind)
    (hLeft : (SemanticAnalyzer.visitVariable left).run s = .ok ((), s1))
    (hRight : (SemanticAnalyzer.visitExpression right).run s1 = .ok ((), s2))
    (hLookup : (SemanticAnalyzer.recursiveLookup left.getId).run s2 = .ok (some entry, s2))
    (hConst : entry.is_constant = false)
    (hType : entry.type = .BASIC L ∨
      ∃ dims, entry.type = .ARRAY dims L ∧ left.getExpressions.empty = false)
    (hR : (SemanticAnalyzer.getExpressionType right).run s2 = .ok (some (.BASIC R), s3)) :
    (SemanticAnalyzer.visitAssign addr left right).run s =
      if L ≠ R ∧ ¬ (L = .REAL ∧ R = .INTEGER) then
        .ok ((), { s3 with error_count := s3.error_count + 1,
                           reports := s3.reports ++ [cannotAssignReport R L left.getId] })
      else
        .ok ((), { s3 with is_function_return := mapEmplace s3.is_function_return addr false }) := by
  have hLeft' : SemanticAnalyzer.visitVariable left s = .ok ((), s1) := hLeft
  have hRight' : SemanticAnalyzer.visitExpression right s1 = .ok ((), s2) := hRight
  have hLookup' : SemanticAnalyzer.recursiveLookup left.getId s2 = .ok (some entry, s2) := hLookup
  have hR' : SemanticAnalyzer.getExpressionType right s2 = .ok (some (.BASIC R), s3) := hR
  unfold SemanticAnalyzer.visitAssign
  simp only [StateT.run, bind, StateT.bind, pure, StateT.pure, Except.bind, Except.pure,
    hLeft', hRight', hLookup', hConst, hR', Bool.false_eq_true, if_false]
  rcases hType with h | ⟨dims, h, hidx⟩
  · simp only [h]
    cases L <;> cases R <;> rfl
  · simp only [h, hidx]
    cases L <;> cases R <;> rfl

/-- What `visit(const Assign&)` does with the type that `getExpressionType` computes, once the
visits of both sides have returned.  Let the left side of an assignment resolve to an entry that is not a constant, of
basic type `L` (or to an array of `L`, the left side being indexed), and let the type computed
for the right side be the basic type `R`.  Then `visit(const Assign&)` returns, and it reports
the type mismatch "Cannot assign value of type 'R' to variable ... of type 'L'" and counts it
if and only if `L ≠ R` and not (`L` is real and `R` is integer); otherwise it reports and
counts nothing and annotates the assignment with is-function-return = false. -/
theorem visitAssign_mismatch_iff (addr : Nat) (left : Variable) (right : Expression)
    (s s1 s2 s3 : SemanticAnalyzer) (entry : SymbolEntry) (L R : BaseTypeKind)
    (hLeft : (SemanticAnalyzer.visitVariable left).run s = .ok ((), s1))
    (hRight : (SemanticAnalyzer.visitExpression right).run s1 = .ok ((), s2))
    (hLookup : (SemanticAnalyzer.recursiveLookup left.getId).run s2 = .ok (some entry, s2))
    (hConst : entry.is_constant = false)
    (hType : entry.type = .BASIC L ∨
      ∃ dims, entry.type = .ARRAY dims L ∧ left.getExpressions.empty = false)
    (hR : (SemanticAnalyzer.getExpressionType right).run s2 = .ok (some (.BASIC R), s3)) :
    ∃ s4, (SemanticAnalyzer.visitAssign addr left right).run s = .ok ((), s4) ∧
      ((s4.error_count = s3.error_count + 1 ∧
          s4.reports = s3.reports ++ [cannotAssignReport R L left.getId]) ↔
        (L ≠ R ∧ ¬ (L = .REAL ∧ R = .INTEGER))) ∧
      (¬ (L ≠ R ∧ ¬ (L = .REAL ∧ R = .INTEGER)) →
        s4.error_count = s3.error_count ∧ s4.reports = s3.reports ∧
          s4.is_function_return = mapEmplace s3.is_function_return addr false) := by
  have h := visitAssign_basic addr left right s s1 s2 s3 entry L R hLeft hRight hLookup hConst hType hR
  by_cases hm : L ≠ R ∧ ¬ (L = .REAL ∧ R = .INTEGER)
  · rw [if_pos hm] at h
    exact ⟨_, h, ⟨fun _ => hm, fun _ => ⟨rfl, rfl⟩⟩, fun hn => absurd hm hn⟩
  · rw [if_neg hm] at h
    refine ⟨_, h, ⟨fun hc => ?_, fun hc => absurd hc hm⟩, fun _ => ⟨rfl, rfl, rfl⟩⟩
    exact absurd hc.1 (by simp)

/-- An instance: in a scope that declares `x : integer`, the hypotheses hold for the
assignment `x := 1.5` (visiting both sides changes nothing, `x` resolves to a variable of type
integer, the right side has type real), and the mismatch is reported and counted. -/
theorem visitAssign_mismatch_iff_example :
    (SemanticAnalyzer.visitVariable (.mk "x" .nil)).run sampleAnalyzer = .ok ((), sampleAnalyzer) ∧
    (SemanticAnalyzer.visitExpression (numberExpression 8 "1.5")).run sampleAnalyzer =
      .ok ((), sampleAnalyzer) ∧
    (SemanticAnalyzer.recursiveLookup "x").run sampleAnalyzer =
      .ok (some { name := "x", type := .BASIC .INTEGER, scope_level := 0 }, sampleAnalyzer) ∧
    (SemanticAnalyzer.getExpressionType (numberExpression 8 "1.5")).run sampleAnalyzer =
      .ok (some (.BASIC .REAL), sampleAnalyzer) ∧
    (∃ s4, (SemanticAnalyzer.visitAssign 7 (.mk "x" .nil) (numberExpression 8 "1.5")).run sampleAnalyzer =
        .ok ((), s4) ∧
      ((s4.error_count = sampleAnalyzer.error_count + 1 ∧
          s4.reports = sampleAnalyzer.reports ++ [cannotAssignReport .REAL .INTEGER "x"]) ↔
        (BaseTypeKind.INTEGER ≠ BaseTypeKind.REAL ∧
          ¬ (BaseTypeKind.INTEGER = .REAL ∧ BaseTypeKind.REAL = .INTEGER))) ∧
      (¬ (BaseTypeKind.INTEGER ≠ BaseTypeKind.REAL ∧
          ¬ (BaseTypeKind.INTEGER = .REAL ∧ BaseTypeKind.REAL = .INTEGER)) →
        s4.error_count = sampleAnalyzer.error_count ∧ s4.reports = sampleAnalyzer.reports ∧
          s4.is_function_return = mapEmplace sampleAnalyzer.is_function_return 7 false)) :=
  ⟨rfl, rfl, rfl, rfl,
    visitAssign_mismatch_iff 7 (.mk "x" .nil) (numberExpression 8 "1.5")
      sampleAnalyzer sampleAnalyzer sampleAnalyzer sampleAnalyzer
      { name := "x", type := .BASIC .INTEGER, scope_level := 0 } .INTEGER .REAL
      rfl rfl rfl rfl (Or.inl rfl) rfl⟩

/-! ## The effect of analysing an expression -/

section ExpressionFrame

open SemanticAnalyzer

/-- `ExprEffect` is reflexive. -/
theorem ExprEffect.refl (s : SemanticAnalyzer) : ExprEffect s s :=
  ⟨rfl, rfl, rfl, rfl, rfl, rfl, le_refl _, [], (List.append_nil _).symm⟩

/-- `ExprEffect` is transitive. -/
theorem ExprEffect.trans {s s1 s2 : SemanticAnalyzer} (h1 : ExprEffect s s1)
    (h2 : ExprEffect s1 s2) : ExprEffect s s2 := by
  obtain ⟨a1, a2, a3, a4, a5, a6, a7, r1, a8⟩ := h1
  obtain ⟨b1, b2, b3, b4, b5, b6, b7, r2, b8⟩ := h2
  exact ⟨b1.trans a1, b2.trans a2, b3.trans a3, b4.trans a4, b5.trans a5, b6.trans a6,
    le_trans a7 b7, r1 ++ r2, by rw [b8, a8, List.append_assoc]⟩

/-- A run of `m >>= f` is a run of `m` followed by a run of `f`. -/
theorem SemM.bind_run {α β : Type} (m : SemM α) (f : α → SemM β) (s : SemanticAnalyzer) :
    (m >>= f) s = (match m s with | .ok v => f v.1 v.2 | .error e => .error e) := by
  show (StateT.bind m f) s = _
  unfold StateT.bind
  show (Except.bind (m s) _) = _
  cases m s <;> rfl

/-- Returning a value changes nothing. -/
theorem ExprFrame.pure {α : Type} (a : α) : ExprFrame (pure a : SemM α) := by
  intro s b s' h
  cases h
  exact ExprEffect.refl _

/-- The effects of two steps compose. -/
theorem ExprFrame.bind {α β : Type} {m : SemM α} {f : α → SemM β} (hm : ExprFrame m)
    (hf : ∀ a, ExprFrame (f a)) : ExprFrame (m >>= f) := by
  intro s b s' h
  rw [SemM.bind_run] at h
  split at h
  · rename_i v hv
    exact (hm _ _ _ hv).trans (hf _ _ _ _ h)
  · cases h

/-- A report adds to the reports only. -/
theorem ExprFrame.report (t : ErrorType) (msg : String) (l : Nat) :
    ExprFrame (SemanticAnalyzer.report t msg l) := by
  intro s b s' h
  cases h
  exact ⟨rfl, rfl, rfl, rfl, rfl, rfl, le_refl _, _, rfl⟩

/-- Counting an error raises the error count only. -/
theorem ExprFrame.countError : ExprFrame SemanticAnalyzer.countError := by
  intro s b s' h
  cases h
  exact ⟨rfl, rfl, rfl, rfl, rfl, rfl, Nat.le_succ _, [], (List.append_nil _).symm⟩

/-- A run that ends abnormally does not return. -/
theorem ExprFrame.throw {α : Type} (c : Crash) : ExprFrame (SemanticAnalyzer.abort c : SemM α) := by
  intro s b s' h
  cases h

/-- Reading the analyzer changes nothing. -/
theorem ExprFrame.get : ExprFrame (get : SemM SemanticAnalyzer) := by
  intro s b s' h
  cases h
  exact ExprEffect.refl _

/-- Dereferencing a pointer changes nothing. -/
theorem ExprFrame.deref {α : Type} (o : Option α) : ExprFrame (SemanticAnalyzer.deref o) := by
  cases o
  · exact ExprFrame.throw _
  · exact ExprFrame.pure _

/-- Reading the base kind of a type changes nothing. -/
theorem ExprFrame.getBaseKind (t : SymbolType) : ExprFrame (SemanticAnalyzer.getBaseKind t) := by
  cases t
  · exact ExprFrame.pure _
  · exact ExprFrame.throw _
  · exact ExprFrame.throw _

/-- A lookup changes nothing. -/
theorem ExprFrame.recursiveLookup (n : String) :
    ExprFrame (SemanticAnalyzer.recursiveLookup n) := by
  unfold SemanticAnalyzer.recursiveLookup
  refine ExprFrame.bind ExprFrame.get fun s => ?_
  split
  · exact ExprFrame.throw _
  · exact ExprFrame.pure _

/-- An entry of the NOT annotation is outside `ExprEffect`. -/
theorem ExprFrame.modify_not (f : SemanticAnalyzer → List (Nat × Bool)) :
    ExprFrame (modify fun s => { s with is_factor_with_not_number := f s } : SemM PUnit) := by
  intro s b s' h
  cases h
  exact ExprEffect.refl s

/-- An entry of the call annotation of factors is outside `ExprEffect`. -/
theorem ExprFrame.modify_call (f : SemanticAnalyzer → List (Nat × Bool)) :
    ExprFrame (modify fun s => { s with is_factor_function_call := f s } : SemM PUnit) := by
  intro s b s' h
  cases h
  exact ExprEffect.refl s

/-- `SemanticAnalyzer::getNumericResultType` reports and counts at most. -/
theorem ExprFrame.getNumericResultType (l r : Option SymbolType) :
    ExprFrame (SemanticAnalyzer.getNumericResultType l r) := by
  unfold SemanticAnalyzer.getNumericResultType
  repeat' first
    | exact ExprFrame.pure _
    | exact ExprFrame.report _ _ _
    | exact ExprFrame.countError
    | exact ExprFrame.deref _
    | refine ExprFrame.bind ?_ (fun _ => ?_)
    | split
    | dsimp only

mutual
/-- `SemanticAnalyzer::getFactorType` leaves the scopes and the annotations of statements as they are. -/
theorem exprFrame_getFactorType : ∀ f, ExprFrame (getFactorType f)
  | .NUMBER _ _ => by
    rw [getFactorType]
    repeat' first
      | exact ExprFrame.pure _
      | refine ExprFrame.bind ?_ (fun _ => ?_)
      | split
  | .VARIABLE _ _ => by
    rw [getFactorType]
    repeat' first
      | exact ExprFrame.pure _
      | exact ExprFrame.recursiveLookup _
      | refine ExprFrame.bind ?_ (fun _ => ?_)
      | split
  | .EXPRESSION _ _ => by
    rw [getFactorType]
    exact exprFrame_getExpressionType _
  | .FUNCTION _ _ => by
    rw [getFactorType]
    repeat' first
      | exact ExprFrame.pure _
      | exact ExprFrame.recursiveLookup _
      | refine ExprFrame.bind ?_ (fun _ => ?_)
      | split
  | .WITH_PLUS _ _ => by
    rw [getFactorType]
    repeat' first
      | exact exprFrame_getFactorType _
      | exact ExprFrame.pure _
      | refine ExprFrame.bind ?_ (fun _ => ?_)
      | split
  | .WITH_UMINUS _ _ => by
    rw [getFactorType]
    repeat' first
      | exact exprFrame_getFactorType _
      | exact ExprFrame.pure _
      | refine ExprFrame.bind ?_ (fun _ => ?_)
      | split
  | .WITH_NOT _ _ => by
    rw [getFactorType]
    repeat' first
      | exact exprFrame_getFactorType _
      | exact ExprFrame.pure _
      | exact ExprFrame.getBaseKind _
      | refine ExprFrame.bind ?_ (fun _ => ?_)
      | split
  | .BOOLEAN _ _ => by
    rw [getFactorType]
    exact ExprFrame.pure _
  | .UNKNOWN _ _ => by
    rw [getFactorType]
    repeat' first
      | exact ExprFrame.pure _
      | exact ExprFrame.recursiveLookup _
      | refine ExprFrame.bind ?_ (fun _ => ?_)
      | split
/-- The loop of `SemanticAnalyzer::getTermType` has the same property. -/
theorem exprFrame_getTermTypeLoop : ∀ l, ExprFrame (getTermTypeLoop l)
  | .nil => by
    rw [getTermTypeLoop]
    exact ExprFrame.pure _
  | .cons _ _ _ => by
    rw [getTermTypeLoop]
    repeat' first
      | exact exprFrame_getFactorType _
      | exact exprFrame_getTermTypeLoop _
      | refine ExprFrame.bind ?_ (fun _ => ?_)
/-- `SemanticAnalyzer::getTermType` leaves the scopes and the annotations of statements as they are. -/
theorem exprFrame_getTermType : ∀ t, ExprFrame (getTermType t)
  | .mk _ _ => by
    rw [getTermType]
    repeat' first
      | exact exprFrame_getFactorType _
      | exact exprFrame_getTermTypeLoop _
      | exact ExprFrame.pure _
      | refine ExprFrame.bind ?_ (fun _ => ?_)
      | split
/-- The loop of `SemanticAnalyzer::getSimpleExpressionType` has the same property. -/
theorem exprFrame_getSimpleExpressionTypeLoop : ∀ l type, ExprFrame (getSimpleExpressionTypeLoop l type)
  | .nil, _ => by
    rw [getSimpleExpressionTypeLoop]
    exact ExprFrame.pure _
  | .cons _ _ tl, _ => by
    rw [getSimpleExpressionTypeLoop]
    have ih := exprFrame_getSimpleExpressionTypeLoop tl
    repeat' first
      | exact exprFrame_getTermType _
      | exact ExprFrame.report _ _ _
      | exact ExprFrame.countError
      | exact ExprFrame.deref _
      | exact ExprFrame.getNumericResultType _ _
      | exact ExprFrame.pure _
      | exact ih _
      | refine ExprFrame.bind ?_ (fun _ => ?_)
      | split
      | dsimp only
/-- `SemanticAnalyzer::getSimpleExpressionType` leaves the scopes and the annotations of statements as they are. -/
theorem exprFrame_getSimpleExpressionType : ∀ e, ExprFrame (getSimpleExpressionType e)
  | .mk _ _ => by
    rw [getSimpleExpressionType]
    repeat' first
      | exact exprFrame_getTermType _
      | exact exprFrame_getSimpleExpressionTypeLoop _ _
      | refine ExprFrame.bind ?_ (fun _ => ?_)
      | split
/-- `SemanticAnalyzer::getExpressionType` leaves the scopes and the annotations of statements as they are. -/
theorem exprFrame_getExpressionType : ∀ e, ExprFrame (getExpressionType e)
  | .simple _ => by
    rw [getExpressionType]
    exact exprFrame_getSimpleExpressionType _
  | .relational _ _ _ => by
    rw [getExpressionType]
    exact ExprFrame.pure _
end

set_option maxHeartbeats 1000000 in
mutual
/-- `SemanticAnalyzer::visit(const Factor&)` leaves the scopes and the annotations of statements as they are. -/
theorem exprFrame_visitFactor : ∀ f, ExprFrame (visitFactor f)
  | .NUMBER _ _ => by
    rw [visitFactor]
    exact ExprFrame.pure _
  | .VARIABLE _ _ => by
    rw [visitFactor]
    exact exprFrame_visitVariable _
  | .EXPRESSION _ _ => by
    rw [visitFactor]
    exact exprFrame_visitExpression _
  | .FUNCTION _ _ => by
    rw [visitFactor]
    exact exprFrame_visitProcedureCall _
  | .WITH_PLUS _ _ => by
    rw [visitFactor]
    repeat' first
      | exact exprFrame_getFactorType _
      | exact ExprFrame.deref _
      | exact ExprFrame.report _ _ _
      | exact ExprFrame.countError
      | exact ExprFrame.pure _
      | exact exprFrame_visitFactor _
      | refine ExprFrame.bind ?_ (fun _ => ?_)
      | split
  | .WITH_UMINUS _ _ => by
    rw [visitFactor]
    repeat' first
      | exact exprFrame_getFactorType _
      | exact ExprFrame.deref _
      | exact ExprFrame.report _ _ _
      | exact ExprFrame.countError
      | exact ExprFrame.pure _
      | exact exprFrame_visitFactor _
      | refine ExprFrame.bind ?_ (fun _ => ?_)
      | split
  | .WITH_NOT _ _ => by
    rw [visitFactor]
    repeat' first
      | exact exprFrame_getFactorType _
      | exact ExprFrame.deref _
      | exact ExprFrame.report _ _ _
      | exact ExprFrame.countError
      | exact ExprFrame.pure _
      | exact ExprFrame.getBaseKind _
      | exact ExprFrame.modify_not _
      | exact exprFrame_visitFactor _
      | refine ExprFrame.bind ?_ (fun _ => ?_)
      | split
  | .BOOLEAN _ _ => by
    rw [visitFactor]
    exact ExprFrame.pure _
  | .UNKNOWN _ _ => by
    rw [visitFactor]
    repeat' first
      | exact ExprFrame.recursiveLookup _
      | exact ExprFrame.report _ _ _
      | exact ExprFrame.countError
      | exact ExprFrame.modify_call _
      | refine ExprFrame.bind ?_ (fun _ => ?_)
      | split
/-- The loop of `SemanticAnalyzer::visit(const Term&)` has the same property. -/
theorem exprFrame_visitTermLoop : ∀ l t, ExprFrame (visitTermLoop l t)
  | .nil, _ => by
    rw [visitTermLoop]
    exact ExprFrame.pure _
  | .cons _ _ _, _ => by
    rw [visitTermLoop]
    repeat' first
      | exact exprFrame_visitFactor _
      | exact exprFrame_getFactorType _
      | exact ExprFrame.report _ _ _
      | exact ExprFrame.countError
      | exact ExprFrame.getNumericResultType _ _
      | exact ExprFrame.pure _
      | exact exprFrame_visitTermLoop _ _
      | refine ExprFrame.bind ?_ (fun _ => ?_)
      | split
/-- `SemanticAnalyzer::visit(const Term&)` leaves the scopes and the annotations of statements as they are. -/
theorem exprFrame_visitTerm : ∀ t, ExprFrame (visitTerm t)
  | .mk _ _ => by
    rw [visitTerm]
    repeat' first
      | exact exprFrame_visitFactor _
      | exact exprFrame_getFactorType _
      | exact ExprFrame.pure _
      | exact exprFrame_visitTermLoop _ _
      | refine ExprFrame.bind ?_ (fun _ => ?_)
      | split
/-- The loop of `SemanticAnalyzer::visit(const SimpleExpression&)` has the same property. -/
theorem exprFrame_visitSimpleExpressionLoop : ∀ l t, ExprFrame (visitSimpleExpressionLoop l t)
  | .nil, _ => by
    rw [visitSimpleExpressionLoop]
    exact ExprFrame.pure _
  | .cons _ _ _, _ => by
    rw [visitSimpleExpressionLoop]
    repeat' first
      | exact exprFrame_visitTerm _
      | exact exprFrame_getTermType _
      | exact ExprFrame.report _ _ _
      | exact ExprFrame.countError
      | exact ExprFrame.getNumericResultType _ _
      | exact ExprFrame.pure _
      | exact exprFrame_visitSimpleExpressionLoop _ _
      | refine ExprFrame.bind ?_ (fun _ => ?_)
      | split
/-- `SemanticAnalyzer::visit(const SimpleExpression&)` leaves the scopes and the annotations of statements as they are. -/
theorem exprFrame_visitSimpleExpression : ∀ e, ExprFrame (visitSimpleExpression e)
  | .mk _ _ => by
    rw [visitSimpleExpression]
    repeat' first
      | exact exprFrame_visitTerm _
      | exact exprFrame_getTermType _
      | exact ExprFrame.pure _
      | exact exprFrame_visitSimpleExpressionLoop _ _
      | refine ExprFrame.bind ?_ (fun _ => ?_)
      | split
/-- `SemanticAnalyzer::visit(const Expression&)` leaves the scopes and the annotations of statements as they are. -/
theorem exprFrame_visitExpression : ∀ e, ExprFrame (visitExpression e)
  | .simple _ => by
    rw [visitExpression]
    exact exprFrame_visitSimpleExpression _
  | .relational _ _ _ => by
    rw [visitExpression]
    repeat' first
      | exact exprFrame_visitSimpleExpression _
      | exact exprFrame_getSimpleExpressionType _
      | exact ExprFrame.report _ _ _
      | exact ExprFrame.countError
      | exact ExprFrame.pure _
      | refine ExprFrame.bind ?_ (fun _ => ?_)
      | split
      | dsimp only
/-- The loop of `SemanticAnalyzer::visit(const Variable&)` has the same property. -/
theorem exprFrame_visitIndexLoop : ∀ l dims i name, ExprFrame (visitIndexLoop l dims i name)
  | .nil, _, _, _ => by
    rw [visitIndexLoop]
    exact ExprFrame.pure _
  | .cons _ _, _, _, _ => by
    rw [visitIndexLoop]
    repeat' first
      | exact exprFrame_visitExpression _
      | exact ExprFrame.throw _
      | exact ExprFrame.report _ _ _
      | exact ExprFrame.countError
      | exact ExprFrame.pure _
      | exact exprFrame_visitIndexLoop _ _ _ _
      | refine ExprFrame.bind ?_ (fun _ => ?_)
      | split
/-- `SemanticAnalyzer::visit(const Variable&)` leaves the scopes and the annotations of statements as they are. -/
theorem exprFrame_visitVariable : ∀ v, ExprFrame (visitVariable v)
  | .mk _ _ => by
    rw [visitVariable]
    repeat' first
      | exact ExprFrame.recursiveLookup _
      | exact ExprFrame.report _ _ _
      | exact ExprFrame.countError
      | exact ExprFrame.get
      | exact ExprFrame.pure _
      | exact exprFrame_visitIndexLoop _ _ _ _
      | refine ExprFrame.bind ?_ (fun _ => ?_)
      | split
/-- The loop of `SemanticAnalyzer::visit(const ProcedureCall&)` has the same property. -/
theorem exprFrame_visitArgumentLoop : ∀ l params i name, ExprFrame (visitArgumentLoop l params i name)
  | .nil, _, _, _ => by
    rw [visitArgumentLoop]
    exact ExprFrame.pure _
  | .cons expr tl, _, _, _ => by
    rw [visitArgumentLoop]
    refine ExprFrame.bind (exprFrame_visitExpression expr) (fun _ => ?_)
    refine ExprFrame.bind (exprFrame_getExpressionType _) (fun _ => ?_)
    have ih := exprFrame_visitArgumentLoop tl
    split
    · exact ih _ _ _
    · split
      · exact ExprFrame.throw _
      · repeat' first
          | exact ExprFrame.report _ _ _
          | exact ExprFrame.countError
          | exact ExprFrame.recursiveLookup _
          | exact ExprFrame.pure _
          | exact ih _ _ _
          | refine ExprFrame.bind ?_ (fun _ => ?_)
          | split
          | dsimp only
/-- `SemanticAnalyzer::visit(const ProcedureCall&)` leaves the scopes and the annotations of statements as they are. -/
theorem exprFrame_visitProcedureCall : ∀ c, ExprFrame (visitProcedureCall c)
  | .mk _ _ => by
    rw [visitProcedureCall]
    repeat' first
      | exact ExprFrame.recursiveLookup _
      | exact ExprFrame.report _ _ _
      | exact ExprFrame.countError
      | exact ExprFrame.pure _
      | exact exprFrame_visitArgumentLoop _ _ _ _
      | refine ExprFrame.bind ?_ (fun _ => ?_)
      | split
end

end ExpressionFrame

/-! ## C11: assignment to a constant -/

/-- C11 (code defect). `visit(const Assign&)` visits both sides before it looks at the entry
of the left name, and `visit(const Factor&)` dereferences the null type of an undeclared
operand of a unary minus: for the constant `c`, the assignment `c := -y` ends in a null
pointer dereference before the test for a constant, and nothing has been reported.  The
assignment `c := 2` is reported. -/
theorem C11_constant_assignment_not_reported :
    solveCCode 128 "program p; const c = 1; begin c := -y end." = .crash .nullDereference ∧
    analysisDiagnostics 128 "program p; const c = 1; begin c := -y end." = [] ∧
    solveCCode 128 "program p; const c = 1; begin c := 2 end." =
      .semanticErrors [constantAssignmentReport "c"] :=
  ⟨by decide!, by decide!, by decide!⟩

/-- What `visit(const Assign&)` does for a constant once the visits of both sides have
returned.  Let the name on the left of an assignment resolve, innermost scope first, to a
constant, and let the visits of the two sides return (`s2` is the analyzer after them).  Then
`visit(const Assign&)` returns, it adds the report "cannot to constants ... assign values" and
raises the error count, and the is-function-return annotations are those from before the
assignment: none is recorded for it. -/
theorem visitAssign_constant_rejected (addr : Nat) (left : Variable) (right : Expression)
    (s s1 s2 : SemanticAnalyzer) (entry : SymbolEntry)
    (hLeft : (SemanticAnalyzer.visitVariable left).run s = .ok ((), s1))
    (hRight : (SemanticAnalyzer.visitExpression right).run s1 = .ok ((), s2))
    (hLookup : SymbolTable.recursiveLookup s.scope_stack left.getId = some entry)
    (hConst : entry.is_constant = true) :
    ∃ s3, (SemanticAnalyzer.visitAssign addr left right).run s = .ok ((), s3) ∧
      s3.reports = s2.reports ++ [constantAssignmentReport left.getId] ∧
      s3.error_count = s2.error_count + 1 ∧ s.error_count < s3.error_count ∧
      s3.is_function_return = s.is_function_return := by
  have hLeft' : SemanticAnalyzer.visitVariable left s = .ok ((), s1) := hLeft
  have hRight' : SemanticAnalyzer.visitExpression right s1 = .ok ((), s2) := hRight
  have e2 : ExprEffect s s2 :=
    (exprFrame_visitVariable left s () s1 hLeft').trans (exprFrame_visitExpression right s1 () s2 hRight')
  obtain ⟨hStack, hAnn, -, -, -, -, hCount, -⟩ := e2
  have hLookup' : SemanticAnalyzer.recursiveLookup left.getId s2 = .ok (some entry, s2) := by
    have hne : s2.scope_stack ≠ [] := by
      intro h0
      rw [← hStack, h0] at hLookup
      cases hLookup
    unfold SemanticAnalyzer.recursiveLookup
    rw [← hStack] at hLookup
    cases hs : s2.scope_stack with
    | nil => exact absurd hs hne
    | cons t parents =>
      rw [hs] at hLookup
      simp only [bind, StateT.bind, Except.bind, get, getThe, MonadStateOf.get, StateT.get, pure,
        Except.pure, StateT.pure, hs, hLookup]
  refine ⟨{ s2 with error_count := s2.error_count + 1,
                    reports := s2.reports ++ [constantAssignmentReport left.getId] }, ?_, rfl, rfl,
    Nat.lt_succ_of_le hCount, hAnn⟩
  unfold SemanticAnalyzer.visitAssign
  simp only [StateT.run, bind, StateT.bind, pure, StateT.pure, Except.bind, Except.pure,
    hLeft', hRight', hLookup', hConst, if_true]
  rfl

/-- An instance: in the body of a subprogram that declares the constant `c`, while the
enclosing scope declares a variable `c`, the assignment `c := 2` resolves to the constant: the
visits of both sides return, and the assignment is rejected. -/
theorem visitAssign_constant_rejected_example :
    (SemanticAnalyzer.visitVariable (.mk "c" .nil)).run nestedAnalyzer = .ok ((), nestedAnalyzer) ∧
    (SemanticAnalyzer.visitExpression (numberExpression 8 "2")).run nestedAnalyzer =
      .ok ((), nestedAnalyzer) ∧
    SymbolTable.recursiveLookup nestedAnalyzer.scope_stack "c" =
      some { name := "c", type := .BASIC .INTEGER, scope_level := 1, is_constant := true,
             const_value := some "1" } ∧
    ∃ s3, (SemanticAnalyzer.visitAssign 7 (.mk "c" .nil) (numberExpression 8 "2")).run nestedAnalyzer =
        .ok ((), s3) ∧
      s3.reports = nestedAnalyzer.reports ++ [constantAssignmentReport "c"] ∧
      s3.error_count = nestedAnalyzer.error_count + 1 ∧
      nestedAnalyzer.error_count < s3.error_count ∧
      s3.is_function_return = nestedAnalyzer.is_function_return :=
  ⟨rfl, rfl, rfl,
    visitAssign_constant_rejected 7 (.mk "c" .nil) (numberExpression 8 "2")
      nestedAnalyzer nestedAnalyzer nestedAnalyzer
      { name := "c", type := .BASIC .INTEGER, scope_level := 1, is_constant := true,
        const_value := some "1" } rfl rfl rfl rfl⟩

/-- An example through the whole driver: `c := 2` with `const c = 1` ends the run
with the constant-assignment report, one counted error and no annotation. -/
theorem constant_assignment_example :
    solveCCode 128 "program p; const c = 1; begin c := 2 end." =
      .semanticErrors [constantAssignmentReport "c"] ∧
    (analyzeSource 128 "program p; const c = 1; begin c := 2 end.").map
        (fun r => (r.2.is_function_return, r.2.error_count)) = some ([], 1) :=
  ⟨by decide!, by decide!⟩

/-! ## C12: actual arguments of VAR parameters -/

/-- C12 (code defect). In `program p; const c = 5; procedure q(var x: integer); begin x := 1 end;
begin q(c) end.` the declared constant `c` is passed to the VAR parameter `x`: the analysis
reports nothing (a bare name counts as a variable reference unless it names a function) and
the call is generated as `q(&c);`.  The literal `3` in the same place is rejected. -/
theorem C12_constant_passed_to_var_parameter :
    solveCCode 128 ("program p; const c = 5; procedure q(var x: integer); begin x := 1 end; " ++
        "begin q(c) end.") =
      .cCode ("#include <stdio.h>\n#include <stdlib.h>\n#include <stdbool.h>\n" ++
        "const int c = 5;\nvoid q(int* x) \x7b\n  \x7b\n    *x = 1;\n  \x7d\n\x7d\n" ++
        "int main()\n\x7b\n  q(&c);\n  return 0;\n\x7d\n") [] ∧
    solveCCode 128 "program p; procedure q(var x: integer); begin x := 1 end; begin q(3) end." =
      .semanticErrors [⟨.TYPE_MISMATCH,
        "Parameter 1 of 'q' requires a variable reference (VAR parameter)", 0⟩] :=
  ⟨by decide!, by decide!⟩

/-! ## C13: the type of an array index -/

/-- C13 (code defect). `visit(const Variable&)` never looks at the type of an index
expression: the accesses `a[1.5]` and `a[true]` are analysed without any diagnostic and C text
is written (`a[1.5 - 1]`, `a[true - 1]`). -/
theorem C13_index_type_not_checked :
    solveCCode 128 "program p; var a: array[1..3] of integer; x: integer; begin x := a[1.5] end." =
      .cCode ("#include <stdio.h>\n#include <stdlib.h>\n#include <stdbool.h>\n" ++
        "int a[3];\nint x;\nint main()\n\x7b\n  x = a[1.5 - 1];\n  return 0;\n\x7d\n") [] ∧
    solveCCode 128 "program p; var a: array[1..3] of integer; x: integer; begin x := a[true] end." =
      .cCode ("#include <stdio.h>\n#include <stdlib.h>\n#include <stdbool.h>\n" ++
        "int a[3];\nint x;\nint main()\n\x7b\n  x = a[true - 1];\n  return 0;\n\x7d\n") [] :=
  ⟨by decide!, by decide!⟩

/-! ## C14: literal indices and the declared range -/

/-- C14 (code defect). `visit(const Variable&)` visits the indices in order, and
`visit(const Factor&)` dereferences the null type of an undeclared operand of a unary minus:
in `a[-y, 7]` with `a : array[0..5, 0..5]` the literal `7` is outside `0..5`, but the run
ends in a null pointer dereference at the first index, before `7` is tested, and nothing has
been reported.  In `a[1, 7]` the literal is reported. -/
theorem C14_literal_index_not_reported :
    solveCCode 128 ("program p; var a: array[0..5, 0..5] of integer; " ++
        "begin a[-y, 7] := 1 end.") = .crash .nullDereference ∧
    analysisDiagnostics 128 ("program p; var a: array[0..5, 0..5] of integer; " ++
        "begin a[-y, 7] := 1 end.") = [] ∧
    solveCCode 128 ("program p; var a: array[0..5, 0..5] of integer; " ++
        "begin a[1, 7] := 1 end.") =
      .semanticErrors [⟨.ARRAY_INDEX_OUT_OF_BOUNDS,
        "Array index 7 is out of range [0..5] for array 'a' at dimension 2", 0⟩] :=
  ⟨by decide!, by decide!, by decide!⟩

/-- Visiting an expression that consists of one number changes nothing. -/
theorem visitExpression_number (addr : Nat) (text : String) (s : SemanticAnalyzer) :
    SemanticAnalyzer.visitExpression (numberExpression addr text) s = .ok ((), s) := by
  simp only [numberExpression, SemanticAnalyzer.visitExpression,
    SemanticAnalyzer.visitSimpleExpression, SemanticAnalyzer.visitTerm,
    SemanticAnalyzer.visitFactor, SemanticAnalyzer.getFactorType, SemanticAnalyzer.getTermType,
    SemanticAnalyzer.visitTermLoop, SemanticAnalyzer.visitSimpleExpressionLoop, FactorList.empty,
    bind, StateT.bind, Except.bind, pure, StateT.pure, Except.pure, if_true]
  cases text.data.contains '.' <;> rfl

/-- One turn of the loop over the indices in `visit(const Variable&)`, for an index that
is the number `text` with `std::stoi(text) = v`, at position `i` with range `l..u`: the
out-of-bounds report is made and counted exactly when `v < l` or `v > u`. -/
theorem visitIndexLoop_number (addr : Nat) (text : String) (v l u : Int) (tl : ExpressionList)
    (dims : List (Int × Int)) (i : Nat) (name : String) (s : SemanticAnalyzer)
    (hValue : stoi text = some v) (hRange : dims[i]? = some (l, u)) :
    SemanticAnalyzer.visitIndexLoop (.cons (numberExpression addr text) tl) dims i name s =
      SemanticAnalyzer.visitIndexLoop tl dims (i + 1) name
        (if v < l ∨ v > u then
          { s with error_count := s.error_count + 1,
                   reports := s.reports ++ [indexOutOfBoundsReport v l u name i] }
        else s) := by
  have hConst : SemanticAnalyzer.tryGetConstantValue (numberExpression addr text) = some v := hValue
  rw [SemanticAnalyzer.visitIndexLoop]
  simp only [bind, StateT.bind, Except.bind, visitExpression_number, hConst, hRange]
  by_cases h : v < l ∨ v > u
  · rw [if_pos h]
    have hb : (decide (v < l) || decide (v > u)) = true := by simpa using h
    simp only [hb, if_true]
    rfl
  · rw [if_neg h]
    have hb : (decide (v < l) || decide (v > u)) = false := by simpa using h
    simp only [hb]
    rfl

/-- The loop over the indices visits a list of expressions part by part. -/
theorem visitIndexLoop_append (post : ExpressionList) (dims : List (Int × Int)) (name : String) :
    ∀ (pre : ExpressionList) (i : Nat) (s : SemanticAnalyzer),
      SemanticAnalyzer.visitIndexLoop (pre.append post) dims i name s =
        match SemanticAnalyzer.visitIndexLoop pre dims i name s with
        | .ok (_, s1) => SemanticAnalyzer.visitIndexLoop post dims (i + pre.size) name s1
        | .error c => .error c
  | .nil, i, s => by
    rw [ExpressionList.append, SemanticAnalyzer.visitIndexLoop]
    rfl
  | .cons e tl, i, s => by
    have ih := visitIndexLoop_append post dims name tl (i + 1)
    have hi : i + (tl.size + 1) = i + 1 + tl.size := by omega
    rw [ExpressionList.append, SemanticAnalyzer.visitIndexLoop, SemanticAnalyzer.visitIndexLoop,
      ExpressionList.size, hi]
    simp only [SemM.bind_run]
    cases hE : SemanticAnalyzer.visitExpression e s with
    | error c => rfl
    | ok r1 =>
      simp only []
      cases SemanticAnalyzer.tryGetConstantValue e with
      | none => exact ih _
      | some index_value =>
        cases dims[i]? with
        | none => rfl
        | some range =>
          obtain ⟨lower_bound, upper_bound⟩ := range
          simp only []
          split
          · exact ih _
          · exact ih _

/-- For an array, accessible from the current scope, that is accessed with as many indices
as it has dimensions, `visit(const Variable&)` is the loop over the indices. -/
theorem visitVariable_array (name : String) (expressions : ExpressionList) (s : SemanticAnalyzer)
    (dims : List (Int × Int)) (elem : BaseTypeKind) (entry : SymbolEntry)
    (hLookup : SymbolTable.recursiveLookup s.scope_stack name = some entry)
    (hAccessible : ScopeStack.isAccessible s.scope_stack entry = true)
    (hType : entry.type = .ARRAY dims elem)
    (hIndexed : expressions.empty = false)
    (hSize : expressions.size = dims.length) :
    SemanticAnalyzer.visitVariable (.mk name expressions) s =
      SemanticAnalyzer.visitIndexLoop expressions dims 0 name s := by
  have hne : s.scope_stack ≠ [] := by
    intro h0
    rw [h0] at hLookup
    cases hLookup
  have hLookup' : SemanticAnalyzer.recursiveLookup name s = .ok (some entry, s) := by
    unfold SemanticAnalyzer.recursiveLookup
    cases hs : s.scope_stack with
    | nil => exact absurd hs hne
    | cons t parents =>
      rw [hs] at hLookup
      simp only [bind, StateT.bind, Except.bind, get, getThe, MonadStateOf.get, StateT.get, pure,
        Except.pure, StateT.pure, hs, hLookup]
  rw [SemanticAnalyzer.visitVariable]
  simp only [bind, StateT.bind, Except.bind, get, getThe, MonadStateOf.get, StateT.get, pure,
    Except.pure, StateT.pure, hLookup', hAccessible, hType, hIndexed, hSize, Bool.not_true,
    Bool.not_false, Bool.false_eq_true, if_false, if_true, ne_eq, not_true_eq_false]

/-- What `visit(const Variable&)` does with a literal index once the visits of the indices
before it have returned.  Let an array, accessible from the current scope, be accessed with as many indices
as it has dimensions, let the index at position `i` (after the indices `pre`, before the
indices `post`) be the number `text` with `std::stoi(text) = v`, and let the declared range of
that dimension be `l..u`.  When the visit of the indices before it returns, with analyzer `s1`,
`visit(const Variable&)` makes the out-of-bounds report for this index and counts it if and
only if `v < l` or `v > u` (otherwise it reports and counts nothing for it), and goes on with
the indices after it. -/
theorem visitVariable_literal_index_checked (name : String) (pre post : ExpressionList)
    (addr : Nat) (text : String) (v l u : Int) (s s1 : SemanticAnalyzer)
    (dims : List (Int × Int)) (elem : BaseTypeKind) (entry : SymbolEntry)
    (hLookup : SymbolTable.recursiveLookup s.scope_stack name = some entry)
    (hAccessible : ScopeStack.isAccessible s.scope_stack entry = true)
    (hType : entry.type = .ARRAY dims elem)
    (hSize : (pre.append (.cons (numberExpression addr text) post)).size = dims.length)
    (hValue : stoi text = some v)
    (hRange : dims[pre.size]? = some (l, u))
    (hBefore : (SemanticAnalyzer.visitIndexLoop pre dims 0 name).run s = .ok ((), s1)) :
    ∃ s2, (SemanticAnalyzer.visitVariable
          (.mk name (pre.append (.cons (numberExpression addr text) post)))).run s =
        (SemanticAnalyzer.visitIndexLoop post dims (pre.size + 1) name).run s2 ∧
      ((s2.error_count = s1.error_count + 1 ∧
          s2.reports = s1.reports ++ [indexOutOfBoundsReport v l u name pre.size]) ↔
        (v < l ∨ v > u)) ∧
      (¬ (v < l ∨ v > u) → s2 = s1) := by
  have hBefore' : SemanticAnalyzer.visitIndexLoop pre dims 0 name s = .ok ((), s1) := hBefore
  have hIndexed : (pre.append (.cons (numberExpression addr text) post)).empty = false := by
    cases pre <;> rfl
  have hRun : (SemanticAnalyzer.visitVariable
        (.mk name (pre.append (.cons (numberExpression addr text) post)))).run s =
      (SemanticAnalyzer.visitIndexLoop post dims (pre.size + 1) name).run
        (if v < l ∨ v > u then
          { s1 with error_count := s1.error_count + 1,
                    reports := s1.reports ++ [indexOutOfBoundsReport v l u name pre.size] }
        else s1) := by
    show SemanticAnalyzer.visitVariable _ s = _
    rw [visitVariable_array name _ s dims elem entry hLookup hAccessible hType hIndexed hSize,
      visitIndexLoop_append, hBefore']
    simp only [Nat.zero_add]
    rw [visitIndexLoop_number addr text v l u post dims pre.size name s1 hValue hRange]
    rfl
  by_cases h : v < l ∨ v > u
  · rw [if_pos h] at hRun
    exact ⟨_, hRun, ⟨fun _ => h, fun _ => ⟨rfl, rfl⟩⟩, fun hn => absurd h hn⟩
  · rw [if_neg h] at hRun
    refine ⟨_, hRun, ⟨fun hc => ?_, fun hc => absurd hc h⟩, fun _ => rfl⟩
    exact absurd hc.1 (by omega)

/-- An instance: with `a : array[1..3, 0..5] of integer` declared in the enclosing scope, the
access `a[2, 7]` has the literal `7` at the second position, whose range is `0..5`: the
hypotheses hold (the visit of the first index returns and changes nothing). -/
theorem visitVariable_literal_index_checked_example :
    (SemanticAnalyzer.visitIndexLoop (.cons (numberExpression 4 "2") .nil) [(1, 3), (0, 5)] 0 "a").run
        nestedAnalyzer = .ok ((), nestedAnalyzer) ∧
    stoi "7" = some 7 ∧
    ∃ s2, (SemanticAnalyzer.visitVariable
          (.mk "a" ((ExpressionList.cons (numberExpression 4 "2") .nil).append
            (.cons (numberExpression 5 "7") .nil)))).run nestedAnalyzer =
        (SemanticAnalyzer.visitIndexLoop .nil [(1, 3), (0, 5)]
          ((ExpressionList.cons (numberExpression 4 "2") .nil).size + 1) "a").run s2 ∧
      ((s2.error_count = nestedAnalyzer.error_count + 1 ∧
          s2.reports = nestedAnalyzer.reports ++
            [indexOutOfBoundsReport 7 0 5 "a" (ExpressionList.cons (numberExpression 4 "2") .nil).size]) ↔
        ((7 : Int) < 0 ∨ (7 : Int) > 5)) ∧
      (¬ ((7 : Int) < 0 ∨ (7 : Int) > 5) → s2 = nestedAnalyzer) :=
  ⟨rfl, by decide!,
    visitVariable_literal_index_checked "a" (.cons (numberExpression 4 "2") .nil) .nil 5 "7" 7 0 5
      nestedAnalyzer nestedAnalyzer [(1, 3), (0, 5)] .INTEGER
      { name := "a", type := .ARRAY [(1, 3), (0, 5)] .INTEGER, scope_level := 0 }
      (by decide!) (by decide!) rfl rfl (by decide!) rfl rfl⟩

/-- Examples through the whole driver: with `a : array[1..3] of integer`, the
indices `0` and `4` are reported, the indices `1` and `3` are not. -/
theorem literal_index_example :
    solveCCode 128 ("program p; var a: array[1..3] of integer; x: integer; " ++
        "begin x := a[0]; x := a[4]; x := a[1]; x := a[3] end.") =
      .semanticErrors [indexOutOfBoundsReport 0 1 3 "a" 0, indexOutOfBoundsReport 4 1 3 "a" 0] := by
  decide!

/-! ## C15: array bounds in the wrong order -/

/-- C15 (code defect). For `var a: array[5..3] of integer` the analysis writes the diagnostic
"Invalid array bounds: 5..3" but does not count it: `hasError()` is false, the array is
declared with that range and the C text `int a[-1];` is written. -/
theorem C15_reversed_bounds_not_counted :
    solveCCode 128 "program p; var a: array[5..3] of integer; begin end." =
      .cCode ("#include <stdio.h>\n#include <stdlib.h>\n#include <stdbool.h>\n" ++
        "int a[-1];\nint main()\n\x7b\n  ;\n  return 0;\n\x7d\n")
        [⟨.OTHER_ERROR, "Invalid array bounds: 5..3", 0⟩] ∧
    (analyzeSource 128 "program p; var a: array[5..3] of integer; begin end.").map
        (fun r => (r.2.hasError, r.2.error_count, r.2.scope_stack)) =
      some (false, 0, [⟨[{ name := "a", type := .ARRAY [(5, 3)] .INTEGER, scope_level := 0 }], 0⟩]) :=
  ⟨by decide!, by decide!⟩

/-! ## C16: the operand of `not` -/

/-- C16 (code defect). `visit(const Factor&)` accepts `not` on a real operand: for
`b := not 1.5` the analysis reports nothing and `b = !1.5;` is written.  For an operand that is
a whole array the mismatch is reported, and the run then ends abnormally in `getFactorType`
(`std::get<BaseType>` on an array type). -/
theorem C16_not_accepts_real_operand :
    solveCCode 128 "program p; var b: boolean; begin b := not 1.5 end." =
      .cCode ("#include <stdio.h>\n#include <stdlib.h>\n#include <stdbool.h>\n" ++
        "bool b;\nint main()\n\x7b\n  b = !1.5;\n  return 0;\n\x7d\n") [] ∧
    solveCCode 128 ("program p; var b: boolean; a: array[1..2] of boolean; " ++
        "begin b := not a end.") = .crash .badVariantAccess :=
  ⟨by decide!, by decide!⟩

/-! ## C17: the `%s` specifier -/

/-- C17 (code defect). `visit(const Write&)` tests only the first factor of an expression:
for `write(s = s)` with `const s = 'hi'` the relational expression is not analysed, the format
string is `%s` and `printf("%s", s == s);` is written.  The parenthesised `(s)` takes the
other path and gets `%c`. -/
theorem C17_composite_expression_gets_string_specifier :
    solveCCode 128 "program p; const s = 'hi'; begin write(s = s) end." =
      .cCode ("#include <stdio.h>\n#include <stdlib.h>\n#include <stdbool.h>\n" ++
        "const char* s = \"hi\";\nint main()\n\x7b\n  printf(\"%s\", s == s);\n  return 0;\n\x7d\n") [] ∧
    solveCCode 128 "program p; const s = 'hi'; begin write(s); write((s)) end." =
      .cCode ("#include <stdio.h>\n#include <stdlib.h>\n#include <stdbool.h>\n" ++
        "const char* s = \"hi\";\nint main()\n\x7b\n  printf(\"%s\", s);\n" ++
        "  printf(\"%c\",  ( s ) );\n  return 0;\n\x7d\n") [] :=
  ⟨by decide!, by decide!⟩

/-! ## C18: the format string of a write statement -/

/-- C18 (code defect). `visit(const Write&)` takes the specifier from the type that
`getExpressionType` computes, and `getTermType` gives a product the type of its first
factor: `write(2 * 1.5)` is written with `%d`, `write(1.5 * 2)` with `%f`. -/
theorem C18_real_product_written_with_integer_specifier :
    solveCCode 128 "program p; begin write(2 * 1.5) end." =
      .cCode ("#include <stdio.h>\n#include <stdlib.h>\n#include <stdbool.h>\n" ++
        "int main()\n\x7b\n  printf(\"%d\", 2 * 1.5);\n  return 0;\n\x7d\n") [] ∧
    solveCCode 128 "program p; begin write(1.5 * 2) end." =
      .cCode ("#include <stdio.h>\n#include <stdlib.h>\n#include <stdbool.h>\n" ++
        "int main()\n\x7b\n  printf(\"%f\", 1.5 * 2);\n  return 0;\n\x7d\n") [] :=
  ⟨by decide!, by decide!⟩

/-- One turn of the loop of `SemanticAnalyzer::visit(const Write&)` for an expression that
does not take the string case and to which `getExpressionType` gives the basic type `k`: the
specifier of `k` is appended to the format string. -/
theorem visitWriteLoop_basic (expr : Expression) (rest : ExpressionList) (fmt : String)
    (s s1 s2 : SemanticAnalyzer) (k : BaseTypeKind)
    (hString : writeIsString expr s = .ok (false, s))
    (hVisit : SemanticAnalyzer.visitExpression expr s = .ok ((), s1))
    (hType : SemanticAnalyzer.getExpressionType expr s1 = .ok (some (.BASIC k), s2)) :
    SemanticAnalyzer.visitWriteLoop (.cons expr rest) fmt s =
      SemanticAnalyzer.visitWriteLoop rest (fmt ++ writeSpecifier k) s2 := by
  have hTail : (do
        SemanticAnalyzer.visitExpression expr
        let t ← SemanticAnalyzer.getExpressionType expr
        match t with
          | none => SemanticAnalyzer.visitWriteLoop rest fmt
          | some expr_type =>
            if expr_type = SemanticAnalyzer.integer_type then
              SemanticAnalyzer.visitWriteLoop rest (fmt ++ "%d")
            else if expr_type = SemanticAnalyzer.real_type then
              SemanticAnalyzer.visitWriteLoop rest (fmt ++ "%f")
            else if expr_type = SemanticAnalyzer.char_type then
              SemanticAnalyzer.visitWriteLoop rest (fmt ++ "%c")
            else if expr_type = SemanticAnalyzer.boolean_type then
              SemanticAnalyzer.visitWriteLoop rest (fmt ++ "%d")
            else do
              SemanticAnalyzer.report .TYPE_MISMATCH
                ("Cannot write variable of type '" ++ SemanticAnalyzer.getTypeName expr_type ++ "'") 0
              SemanticAnalyzer.visitWriteLoop rest fmt : SemM String) s =
      SemanticAnalyzer.visitWriteLoop rest (fmt ++ writeSpecifier k) s2 := by
    simp only [bind, StateT.bind, Except.bind, hVisit, hType]
    cases k <;> rfl
  rw [SemanticAnalyzer.visitWriteLoop]
  unfold writeIsString at hString
  cases hf : expr.getLeft.getFirstTerm.getFirstFactor
  case UNKNOWN addr id =>
    simp only [hf] at hString ⊢
    simp only [SemM.bind_run] at hString ⊢
    cases hL : SemanticAnalyzer.recursiveLookup id s with
    | error c =>
      rw [hL] at hString
      cases hString
    | ok r =>
      obtain ⟨o, s0⟩ := r
      rw [hL] at hString
      simp only [] at hString ⊢
      cases o with
      | none =>
        simp only [] at hString ⊢
        cases hString
        exact hTail
      | some ent =>
        simp only [] at hString ⊢
        rw [SemM.bind_run, hString]
        exact hTail
  all_goals
    simp only [hf] at hString ⊢
    exact hTail

/-- The loop of `visit(const Write&)` over expressions that do not take the string case and
have the basic types `ks` appends the specifiers of `ks` to the format string. -/
theorem visitWriteLoop_writeRun {s s' : SemanticAnalyzer} {expressions : ExpressionList}
    {ks : List BaseTypeKind} (h : WriteRun s expressions ks s') :
    ∀ fmt : String,
      SemanticAnalyzer.visitWriteLoop expressions fmt s = .ok (fmt ++ writeFormat ks, s') := by
  induction h with
  | nil s =>
    intro fmt
    rw [SemanticAnalyzer.visitWriteLoop]
    show Except.ok (fmt, s) = Except.ok (fmt ++ writeFormat [], s)
    rw [writeFormat, String.append_empty]
  | cons s s1 s2 s3 expr rest k ks hString hVisit hType hRest ih =>
    intro fmt
    rw [visitWriteLoop_basic expr rest fmt s s1 s2 k hString hVisit hType, ih]
    rw [writeFormat, String.append_assoc]

/-- `Generator::visit(const Write&)` writes the indentation, `printf("`, the format string
recorded for the statement and `", `, then the expressions, then `);`. -/
theorem generator_visitWrite (addr : Nat) (expressions : ExpressionList) (g : Generator)
    (fmt : String) (hFmt : g.write_fmt_specifier.lookup addr = some fmt) :
    (Generator.visitWrite addr expressions).run g =
      match (Generator.visitWriteLoop expressions).run
          { g with result := g.result ++ Generator.indent g.now_level ++ "printf(\"" ++ fmt ++ "\", ",
                   single_procedure := g.single_procedure + 1 } with
      | .ok ((), g2) =>
        .ok ((), { g2 with result := g2.result ++ ");\n", single_procedure := g2.single_procedure + -1 })
      | .error c => .error c := by
  obtain ⟨result, now_level, flag, arr_bias, tmp_periods, single_procedure, m1, m2, m3, m4, m5, m6, m7,
    mcs, now_in⟩ := g
  simp only at hFmt
  simp [Generator.visitWrite, StateT.run, bind, StateT.bind, Except.bind,
    Generator.addIndent, Generator.mapAt, hFmt, Generator.emit,
    Generator.addSingleProcedure, modify, modifyGet, MonadStateOf.modifyGet,
    StateT.modifyGet, get, getThe, MonadStateOf.get, StateT.get, pure, Except.pure, StateT.pure,
    String.append_assoc]
  cases (Generator.visitWriteLoop expressions) _ <;> rfl

/-- What `visit(const Write&)` records for expressions that do not take its string case.
Let the expressions of a write statement, none of which takes the string case of
`visit(const Write&)`, be visited in turn and get the basic types `ks` from `getExpressionType`
(`WriteRun`), and let the statement have no format string yet.  Then `visit(const Write&)`
returns and the format string recorded for the statement is the concatenation of the
specifiers of `ks` (`%d` for integer and boolean, `%f` for real, `%c` for char), without
separators; and a generator that holds this annotation writes `printf("`, this format string
and `", `, then the expressions, then `);`. -/
theorem visitWrite_format_is_concatenation (addr : Nat) (expressions : ExpressionList)
    (ks : List BaseTypeKind) (s s' : SemanticAnalyzer) (g : Generator)
    (hRun : WriteRun s expressions ks s')
    (hFresh : s'.write_fmt_specifier.lookup addr = none)
    (hGen : g.write_fmt_specifier.lookup addr = some (writeFormat ks)) :
    (∃ s'', (SemanticAnalyzer.visitWrite addr expressions).run s = .ok ((), s'') ∧
      s''.write_fmt_specifier.lookup addr = some (writeFormat ks) ∧
      s''.error_count = s'.error_count ∧ s''.reports = s'.reports) ∧
    (Generator.visitWrite addr expressions).run g =
      match (Generator.visitWriteLoop expressions).run
          { g with result := g.result ++ Generator.indent g.now_level ++ "printf(\"" ++
                     writeFormat ks ++ "\", ",
                   single_procedure := g.single_procedure + 1 } with
      | .ok ((), g2) =>
        .ok ((), { g2 with result := g2.result ++ ");\n", single_procedure := g2.single_procedure + -1 })
      | .error c => .error c := by
  refine ⟨⟨{ s' with write_fmt_specifier := mapEmplace s'.write_fmt_specifier addr (writeFormat ks) },
    ?_, ?_, rfl, rfl⟩, generator_visitWrite addr expressions g (writeFormat ks) hGen⟩
  · have h := visitWriteLoop_writeRun hRun ""
    rw [String.empty_append] at h
    show SemanticAnalyzer.visitWrite addr expressions s = _
    unfold SemanticAnalyzer.visitWrite
    simp only [bind, StateT.bind, Except.bind, h]
    rfl
  · show (mapEmplace s'.write_fmt_specifier addr (writeFormat ks)).lookup addr = _
    unfold mapEmplace
    rw [hFresh]
    simp only [List.lookup_append, hFresh, List.lookup, beq_self_eq_true, Option.none_or]

/-- The expressions of `write(i, r, c)`, with `i : integer`, `r : real` and `c : char`
declared, are visited in turn without taking the string case and get the types integer, real
and char. -/
theorem writeExample_run :
    WriteRun writeAnalyzer writeExample [.INTEGER, .REAL, .CHAR] (writeAnalyzerAfter [1, 2, 3]) :=
  .cons writeAnalyzer (writeAnalyzerAfter [1]) (writeAnalyzerAfter [1]) (writeAnalyzerAfter [1, 2, 3])
    (nameExpression 1 "i") _ .INTEGER [.REAL, .CHAR] rfl rfl rfl
    (.cons (writeAnalyzerAfter [1]) (writeAnalyzerAfter [1, 2]) (writeAnalyzerAfter [1, 2])
      (writeAnalyzerAfter [1, 2, 3]) (nameExpression 2 "r") _ .REAL [.CHAR] rfl rfl rfl
      (.cons (writeAnalyzerAfter [1, 2]) (writeAnalyzerAfter [1, 2, 3]) (writeAnalyzerAfter [1, 2, 3])
        (writeAnalyzerAfter [1, 2, 3]) (nameExpression 3 "c") _ .CHAR [] rfl rfl rfl
        (.nil _)))

/-- An instance: for `write(i, r, c)` with `i : integer`, `r : real` and `c : char` the
hypotheses hold, the recorded format string is `%d%f%c`, and the generator writes
`printf("%d%f%c", ` before the expressions. -/
theorem visitWrite_format_is_concatenation_example :
    writeFormat [.INTEGER, .REAL, .CHAR] = "%d%f%c" ∧
    (∃ s'', (SemanticAnalyzer.visitWrite 9 writeExample).run writeAnalyzer = .ok ((), s'') ∧
      s''.write_fmt_specifier.lookup 9 = some (writeFormat [.INTEGER, .REAL, .CHAR]) ∧
      s''.error_count = (writeAnalyzerAfter [1, 2, 3]).error_count ∧
      s''.reports = (writeAnalyzerAfter [1, 2, 3]).reports) :=
  ⟨by decide!,
    (visitWrite_format_is_concatenation 9 writeExample [.INTEGER, .REAL, .CHAR] writeAnalyzer
      (writeAnalyzerAfter [1, 2, 3])
      (Generator.new [] [] [(9, writeFormat [.INTEGER, .REAL, .CHAR])] [] [] [] [])
      writeExample_run rfl rfl).1⟩

/-- An example through the whole driver: `write(i, r, c)` with `i` integer, `r` real
and `c` char is generated as `printf("%d%f%c", i, r, c);`, and a boolean expression gets
`%d`. -/
theorem write_format_example :
    solveCCode 128 "program p; var i: integer; r: real; c: char; begin write(i, r, c) end." =
      .cCode ("#include <stdio.h>\n#include <stdlib.h>\n#include <stdbool.h>\n" ++
        "int i;\nfloat r;\nchar c;\nint main()\n\x7b\n  printf(\"%d%f%c\", i, r, c);\n" ++
        "  return 0;\n\x7d\n") [] ∧
    solveCCode 128 ("program p; var i: integer; r: real; b: boolean; " ++
        "begin write(b, i + 1, r * 2, i < 2) end.") =
      .cCode ("#include <stdio.h>\n#include <stdlib.h>\n#include <stdbool.h>\n" ++
        "int i;\nfloat r;\nbool b;\nint main()\n\x7b\n" ++
        "  printf(\"%d%d%f%d\", b, i + 1, r * 2, i < 2);\n  return 0;\n\x7d\n") [] :=
  ⟨by decide!, by decide!⟩

/-! ## C19: operator translation -/

/-- Reading a text at a position inside its tail. -/
theorem getD_suffix (l t : List Char) (k : Nat) (d : Char) :
    (l ++ t).getD (l.length + k) d = t.getD k d := by
  rw [List.getD_append_right _ _ _ _ (Nat.le_add_right _ _), Nat.add_sub_cancel_left]

/-- Erasing the last two of three final characters. -/
theorem dropLast_dropLast_suffix (l : List Char) (x y z : Char) :
    (l ++ [x, y, z]).dropLast.dropLast = l ++ [x] := by
  rw [List.dropLast_append_of_ne_nil _ (by simp), List.dropLast_append_of_ne_nil _ (by simp)]
  rfl

/-- One of the two blocks of `Generator::visit(const Factor&)` that look at the end of the
text, for a text that ends with the characters `x`, `y`, `z`: when `x` and `y` are the
character `c`, the characters `y` and `z` are replaced by a blank. -/
theorem eraseOperator_suffix (c : Char) (r : String) (x y z : Char) :
    Generator.eraseOperator c (r ++ String.mk [x, y, z]).length (r ++ String.mk [x, y, z]) =
      if y = c ∧ x = c then r ++ String.mk [x, ' '] else r ++ String.mk [x, y, z] := by
  unfold Generator.eraseOperator
  have hlen : (r ++ String.mk [x, y, z]).length = r.data.length + 3 := by
    show (r.data ++ [x, y, z]).length = _
    rw [List.length_append]
    rfl
  have hy : (r ++ String.mk [x, y, z]).data.getD (r.data.length + 3 - 2) NUL = y :=
    getD_suffix r.data [x, y, z] 1 NUL
  have hx : (r ++ String.mk [x, y, z]).data.getD (r.data.length + 3 - 3) NUL = x :=
    getD_suffix r.data [x, y, z] 0 NUL
  rw [hlen, hy, hx]
  by_cases h : y = c ∧ x = c
  · rw [if_pos h]
    have hb : (decide (r.data.length + 3 ≥ 3) && decide (y = c) && decide (x = c)) = true := by
      simp [h.1, h.2]
    rw [if_pos hb]
    apply String.ext
    show ((r.data ++ [x, y, z]).dropLast.dropLast ++ [' ']) = r.data ++ [x, ' ']
    rw [dropLast_dropLast_suffix, List.append_assoc]
    rfl
  · rw [if_neg h]
    have hb : ¬ (decide (r.data.length + 3 ≥ 3) && decide (y = c) && decide (x = c)) = true := by
      simpa using h
    rw [if_neg hb]

/-- The second block, after the first one has replaced two characters: the length read
before is one more than the length of the text, and nothing changes. -/
theorem eraseOperator_after (c : Char) (r : String) (x : Char) (hc : c ≠ ' ') :
    Generator.eraseOperator c (r ++ String.mk [x, ' ', ' ']).length (r ++ String.mk [x, ' ']) =
      r ++ String.mk [x, ' '] := by
  unfold Generator.eraseOperator
  have hlen : (r ++ String.mk [x, ' ', ' ']).length = r.data.length + 3 := by
    show (r.data ++ [x, ' ', ' ']).length = _
    rw [List.length_append]
    rfl
  have hy : (r ++ String.mk [x, ' ']).data.getD (r.data.length + 3 - 2) NUL = ' ' :=
    getD_suffix r.data [x, ' '] 1 NUL
  rw [hlen, hy]
  have hb : ¬ (decide (r.data.length + 3 ≥ 3) && decide (' ' = c) &&
      decide ((r ++ String.mk [x, ' ']).data.getD (r.data.length + 3 - 3) NUL = c)) = true := by
    have hne : ¬ (' ' = c) := fun h => hc h.symm
    simp [hne]
  rw [if_neg hb]

/-- The two blocks of `Generator::visit(const Factor&)` in a row, on a text that ends with
the characters `x`, `y` and a blank: an operator `&&` or `||` loses its second character, any
other text stays. -/
theorem eraseOperators_suffix (r : String) (x y : Char) :
    Generator.eraseOperator '|' (r ++ String.mk [x, y, ' ']).length
        (Generator.eraseOperator '&' (r ++ String.mk [x, y, ' ']).length (r ++ String.mk [x, y, ' '])) =
      if (x = '&' ∧ y = '&') ∨ (x = '|' ∧ y = '|') then r ++ String.mk [x, ' ']
      else r ++ String.mk [x, y, ' '] := by
  have hlen : ∀ a b : Char, (r ++ String.mk [x, a, b]).length = (r ++ String.mk [x, y, ' ']).length := by
    intro a b
    show (r.data ++ [x, a, b]).length = (r.data ++ [x, y, ' ']).length
    rw [List.length_append, List.length_append]
    rfl
  rw [eraseOperator_suffix]
  by_cases h1 : y = '&' ∧ x = '&'
  · rw [if_pos h1, if_pos (Or.inl ⟨h1.2, h1.1⟩), ← hlen ' ' ' ', eraseOperator_after _ _ _ (by decide)]
  · rw [if_neg h1, eraseOperator_suffix]
    by_cases h2 : y = '|' ∧ x = '|'
    · rw [if_pos h2, if_pos (Or.inr ⟨h2.2, h2.1⟩)]
    · rw [if_neg h2, if_neg]
      rintro (h | h)
      · exact h1 ⟨h.2, h.1⟩
      · exact h2 ⟨h.2, h.1⟩

/-- `Generator::visit(const Factor&)` for a bare identifier that is not annotated as a call,
when the text so far ends with the characters `x`, `y` and a blank: an operator `&&` or `||`
at the end of the text loses its second character, then the identifier is written. -/
theorem generator_visitFactor_identifier (g : Generator) (addr : Nat) (id : String) (r : String)
    (x y : Char)
    (hCall : g.is_factor_function_call.lookup addr ≠ some true)
    (hText : g.result = r ++ String.mk [x, y, ' ']) :
    Generator.visitFactor (.UNKNOWN addr id) g =
      emitIdentifier id
        { g with result := if (x = '&' ∧ y = '&') ∨ (x = '|' ∧ y = '|') then r ++ String.mk [x, ' ']
                           else r ++ String.mk [x, y, ' '] } := by
  obtain ⟨result, now_level, flag, arr_bias, tmp_periods, single_procedure, m1, m2, m3, m4, m5, m6, m7,
    mcs, now_in⟩ := g
  simp only at hCall hText
  subst hText
  rw [Generator.visitFactor]
  unfold emitIdentifier
  simp only [bind, StateT.bind, Except.bind, get, getThe, MonadStateOf.get, StateT.get,
    pure, Except.pure, StateT.pure, hCall, if_false, modify, modifyGet, MonadStateOf.modifyGet,
    StateT.modifyGet, eraseOperators_suffix]

/-- C19 (as stated, refuted). For `c := a and b; c := a or b` with boolean variables the
generated C text is `c = a & b;` and `c = a | b;`: it contains neither `&&` nor `||`. -/
theorem C19_and_before_identifier_is_single_ampersand :
    solveCCode 128 "program p; var a, b, c: boolean; begin c := a and b; c := a or b end." =
      .cCode ("#include <stdio.h>\n#include <stdlib.h>\n#include <stdbool.h>\n" ++
        "bool a, b, c;\nint main()\n\x7b\n  c = a & b;\n  c = a | b;\n  return 0;\n\x7d\n") [] ∧
    ¬ ("&&".data <:+: ("#include <stdio.h>\n#include <stdlib.h>\n#include <stdbool.h>\n" ++
        "bool a, b, c;\nint main()\n\x7b\n  c = a & b;\n  c = a | b;\n  return 0;\n\x7d\n").data) ∧
    ¬ ("||".data <:+: ("#include <stdio.h>\n#include <stdlib.h>\n#include <stdbool.h>\n" ++
        "bool a, b, c;\nint main()\n\x7b\n  c = a & b;\n  c = a | b;\n  return 0;\n\x7d\n").data) :=
  ⟨by decide!, by decide!, by decide!⟩

/-- The loop of `Generator::visit(const Term&)` writes, before each further factor, a blank,
the text `Utils::getMulOpName` gives for the operator and a blank. -/
theorem generator_visitTermLoop_cons (g : Generator) (op : MulOp) (factor : Factor)
    (tl : FactorList) :
    (Generator.visitTermLoop (.cons op factor tl)).run g =
      (do
        Generator.visitFactor factor
        Generator.visitTermLoop tl : GenM Unit).run
        { g with result := g.result ++ (" " ++ Utils.getMulOpName op ++ " ") } := by
  rw [Generator.visitTermLoop]
  rfl

/-- The loop of `Generator::visit(const SimpleExpression&)` writes, before each further term,
a blank, the text `Utils::getAddOpName` gives for the operator and a blank. -/
theorem generator_visitSimpleExpressionLoop_cons (g : Generator) (op : AddOp) (term : Term)
    (tl : TermList) :
    (Generator.visitSimpleExpressionLoop (.cons op term tl)).run g =
      (do
        Generator.visitTerm term
        Generator.visitSimpleExpressionLoop tl : GenM Unit).run
        { g with result := g.result ++ (" " ++ Utils.getAddOpName op ++ " ") } := by
  rw [Generator.visitSimpleExpressionLoop]
  rfl

/-- A further factor of a term that is a bare identifier, not annotated as a call: the
operator before it is left as `mulOpBeforeIdentifier` gives it, `&` for `and`. -/
theorem generator_visitTermLoop_identifier (g : Generator) (op : MulOp) (addr : Nat) (id : String)
    (tl : FactorList) (hCall : g.is_factor_function_call.lookup addr ≠ some true) :
    (Generator.visitTermLoop (.cons op (.UNKNOWN addr id) tl)).run g =
      (do
        emitIdentifier id
        Generator.visitTermLoop tl : GenM Unit).run
        { g with result := g.result ++ (" " ++ mulOpBeforeIdentifier op ++ " ") } := by
  rw [generator_visitTermLoop_cons]
  have key : ∀ (r : String) (x y : Char),
      g.result ++ (" " ++ Utils.getMulOpName op ++ " ") = r ++ String.mk [x, y, ' '] →
      (if (x = '&' ∧ y = '&') ∨ (x = '|' ∧ y = '|') then r ++ String.mk [x, ' ']
        else r ++ String.mk [x, y, ' ']) = g.result ++ (" " ++ mulOpBeforeIdentifier op ++ " ") →
      (do
        Generator.visitFactor (.UNKNOWN addr id)
        Generator.visitTermLoop tl : GenM Unit).run
          { g with result := g.result ++ (" " ++ Utils.getMulOpName op ++ " ") } =
      (do
        emitIdentifier id
        Generator.visitTermLoop tl : GenM Unit).run
        { g with result := g.result ++ (" " ++ mulOpBeforeIdentifier op ++ " ") } := by
    intro r x y h1 h2
    have h := generator_visitFactor_identifier
      { g with result := g.result ++ (" " ++ Utils.getMulOpName op ++ " ") } addr id r x y hCall h1
    rw [h2] at h
    simp only [StateT.run, bind, StateT.bind, Except.bind, h]
  cases op
  · exact key g.result ' ' '*' rfl (by simp; rfl)
  · exact key g.result ' ' '/' rfl (by simp; rfl)
  · exact key g.result ' ' '/' rfl (by simp; rfl)
  · exact key g.result ' ' '%' rfl (by simp; rfl)
  · have e1 : " " ++ Utils.getMulOpName MulOp.AND ++ " " = " " ++ String.mk ['&', '&', ' '] := by
      decide
    have e2 : " " ++ mulOpBeforeIdentifier MulOp.AND ++ " " = " " ++ String.mk ['&', ' '] := by
      decide
    refine key (g.result ++ " ") '&' '&' ?_ ?_
    · rw [e1, String.append_assoc]
    · rw [e2, String.append_assoc]
      simp only [true_and, true_or, if_true, and_self]

/-- A further term of a simple expression that starts with a bare identifier, not annotated
as a call: the operator before it is left as `addOpBeforeIdentifier` gives it, `|` for `or`. -/
theorem generator_visitSimpleExpressionLoop_identifier (g : Generator) (op : AddOp) (addr : Nat)
    (id : String) (factors : FactorList) (tl : TermList)
    (hCall : g.is_factor_function_call.lookup addr ≠ some true) :
    (Generator.visitSimpleExpressionLoop (.cons op (.mk (.UNKNOWN addr id) factors) tl)).run g =
      (do
        emitIdentifier id
        Generator.visitTermLoop factors
        Generator.addSingleProcedure (-1)
        Generator.visitSimpleExpressionLoop tl : GenM Unit).run
        { g with result := g.result ++ (" " ++ addOpBeforeIdentifier op ++ " "),
                 single_procedure := g.single_procedure + 1 } := by
  rw [generator_visitSimpleExpressionLoop_cons, Generator.visitTerm]
  have key : ∀ (r : String) (x y : Char),
      g.result ++ (" " ++ Utils.getAddOpName op ++ " ") = r ++ String.mk [x, y, ' '] →
      (if (x = '&' ∧ y = '&') ∨ (x = '|' ∧ y = '|') then r ++ String.mk [x, ' ']
        else r ++ String.mk [x, y, ' ']) = g.result ++ (" " ++ addOpBeforeIdentifier op ++ " ") →
      (do
        (do
          Generator.addSingleProcedure 1
          Generator.visitFactor (.UNKNOWN addr id)
          Generator.visitTermLoop factors
          Generator.addSingleProcedure (-1) : GenM Unit)
        Generator.visitSimpleExpressionLoop tl : GenM Unit).run
          { g with result := g.result ++ (" " ++ Utils.getAddOpName op ++ " ") } =
      (do
        emitIdentifier id
        Generator.visitTermLoop factors
        Generator.addSingleProcedure (-1)
        Generator.visitSimpleExpressionLoop tl : GenM Unit).run
        { g with result := g.result ++ (" " ++ addOpBeforeIdentifier op ++ " "),
                 single_procedure := g.single_procedure + 1 } := by
    intro r x y h1 h2
    have h := generator_visitFactor_identifier
      { g with result := g.result ++ (" " ++ Utils.getAddOpName op ++ " "),
               single_procedure := g.single_procedure + 1 } addr id r x y hCall h1
    rw [h2] at h
    simp only [StateT.run, bind, StateT.bind, Except.bind, Generator.addSingleProcedure, modify,
      modifyGet, MonadStateOf.modifyGet, StateT.modifyGet, pure, Except.pure, h]
    cases emitIdentifier id _ with
    | error c => rfl
    | ok r1 =>
      simp only []
      cases Generator.visitTermLoop factors r1.2 <;> rfl
  cases op
  · exact key g.result ' ' '+' rfl (by simp; rfl)
  · exact key g.result ' ' '-' rfl (by simp; rfl)
  · have e1 : " " ++ Utils.getAddOpName AddOp.OR ++ " " = " " ++ String.mk ['|', '|', ' '] := by
      decide
    have e2 : " " ++ addOpBeforeIdentifier AddOp.OR ++ " " = " " ++ String.mk ['|', ' '] := by
      decide
    refine key (g.result ++ " ") '|' '|' ?_ ?_
    · rw [e1, String.append_assoc]
    · rw [e2, String.append_assoc]
      simp only [true_and, or_true, if_true, and_self]

/-- The two blocks of `Generator::visit(const Factor&)` leave the text as it is, or, when
the test holds, replace its last two characters by a blank. -/
theorem eraseOperators_cases (r : String) :
    (Generator.eraseOperators r).data = r.data ∨
      (OperatorAtEnd r.data ∧
        (Generator.eraseOperators r).data = r.data.dropLast.dropLast ++ [' ']) := by
  unfold Generator.eraseOperators Generator.eraseOperator
  have hlen : r.length = r.data.length := rfl
  rw [hlen]
  by_cases h1 : (decide (r.data.length ≥ 3) && decide (r.data.getD (r.data.length - 2) NUL = '&') &&
      decide (r.data.getD (r.data.length - 3) NUL = '&')) = true
  · rw [if_pos h1]
    simp only [Bool.and_eq_true, decide_eq_true_eq] at h1
    obtain ⟨⟨h3, ha⟩, hb⟩ := h1
    have hget : (r.data.dropLast.dropLast ++ [' ']).getD (r.data.length - 2) NUL = ' ' := by
      have hl : r.data.dropLast.dropLast.length = r.data.length - 2 := by
        rw [List.length_dropLast, List.length_dropLast]
        rfl
      rw [List.getD_append_right _ _ _ _ (Nat.le_of_eq hl), hl, Nat.sub_self]
      rfl
    have h2 : ¬ (decide (r.data.length ≥ 3) &&
        decide ((String.mk (r.data.dropLast.dropLast ++ [' '])).data.getD (r.data.length - 2) NUL = '|') &&
        decide ((String.mk (r.data.dropLast.dropLast ++ [' '])).data.getD (r.data.length - 3) NUL = '|')) = true := by
      show ¬ (decide (r.data.length ≥ 3) &&
        decide ((r.data.dropLast.dropLast ++ [' ']).getD (r.data.length - 2) NUL = '|') &&
        decide ((r.data.dropLast.dropLast ++ [' ']).getD (r.data.length - 3) NUL = '|')) = true
      rw [hget]
      simp
    rw [if_neg h2]
    exact Or.inr ⟨⟨h3, Or.inl ⟨ha, hb⟩⟩, rfl⟩
  · rw [if_neg h1]
    by_cases h2 : (decide (r.data.length ≥ 3) && decide (r.data.getD (r.data.length - 2) NUL = '|') &&
        decide (r.data.getD (r.data.length - 3) NUL = '|')) = true
    · rw [if_pos h2]
      simp only [Bool.and_eq_true, decide_eq_true_eq] at h2
      obtain ⟨⟨h3, ha⟩, hb⟩ := h2
      exact Or.inr ⟨⟨h3, Or.inr ⟨ha, hb⟩⟩, rfl⟩
    · rw [if_neg h2]
      exact Or.inl rfl

/-- When the test of the two blocks holds on a text that is settled after `P`, the last two
characters of the text were written after `P`. -/
theorem settled_dropLast (P t : List Char) (h1 : P.getLast? ≠ some '&')
    (h2 : P.getLast? ≠ some '|') (hs : TextSettled P t) (hop : OperatorAtEnd t) :
    ∃ w, t.dropLast.dropLast = P ++ w := by
  obtain ⟨w, rfl, hw⟩ := hs
  rcases List.eq_nil_or_concat w with rfl | ⟨w1, y, rfl⟩
  · rw [List.append_nil] at hop
    exact absurd hop (hw rfl)
  · rcases List.eq_nil_or_concat w1 with rfl | ⟨w2, x, rfl⟩
    · exfalso
      rw [List.concat_eq_append, List.nil_append] at hop
      obtain ⟨h3, hc⟩ := hop
      rw [List.length_append, List.length_singleton] at h3
      have hidx : (P ++ [y]).getD ((P ++ [y]).length - 2) NUL = P.getD (P.length - 1) NUL := by
        rw [List.length_append, List.length_singleton, show P.length + 1 - 2 = P.length - 1 by omega]
        exact List.getD_append _ _ _ _ (by omega)
      have hlast : P.getLast? = some (P.getD (P.length - 1) NUL) := by
        rw [List.getLast?_eq_getElem?, List.getD_eq_getElem?_getD,
          List.getElem?_eq_getElem (by omega : P.length - 1 < P.length)]
        rfl
      rcases hc with ⟨ha, _⟩ | ⟨ha, _⟩
      · rw [hidx] at ha
        exact h1 (by rw [hlast, ha])
      · rw [hidx] at ha
        exact h2 (by rw [hlast, ha])
    · refine ⟨w2, ?_⟩
      rw [List.concat_eq_append, List.concat_eq_append,
        show P ++ (w2 ++ [x] ++ [y]) = (P ++ w2 ++ [x]) ++ [y] by simp, List.dropLast_concat,
        List.dropLast_concat]

/-- The two blocks of `Generator::visit(const Factor&)` keep a settled text settled. -/
theorem settled_eraseOperators (P : List Char) (r : String) (h1 : P.getLast? ≠ some '&')
    (h2 : P.getLast? ≠ some '|') (hs : TextSettled P r.data) :
    TextSettled P (Generator.eraseOperators r).data := by
  rcases eraseOperators_cases r with h | ⟨hop, h⟩
  · rw [h]
    exact hs
  · obtain ⟨w, hw⟩ := settled_dropLast P r.data h1 h2 hs hop
    rw [h, hw, List.append_assoc]
    exact ⟨w ++ [' '], rfl, fun hnil => absurd hnil (by simp)⟩

/-- A settled text starts with `P`. -/
theorem kept_of_settled {P t : List Char} (h : TextSettled P t) : TextKept P t :=
  ⟨h.choose, h.choose_spec.1⟩

/-- A run of two steps of the generator in sequence. -/
theorem genM_bind_run {α β : Type} (m : GenM α) (f : α → GenM β) (g : Generator) :
    (m >>= f) g = (match m g with | .ok v => f v.1 v.2 | .error e => .error e) := by
  show (Except.bind (m g) _) = _
  cases m g <;> rfl

section GeneratorText

open Generator

/-- Two steps in sequence. -/
theorem carries_bind {A B C : List Char → List Char → Prop} {α β : Type} {m : GenM α}
    {f : α → GenM β} (hm : Carries A B m) (hf : ∀ a, Carries B C (f a)) :
    Carries A C (m >>= f) := by
  intro P h1 h2 g b g' hA h
  rw [genM_bind_run] at h
  split at h
  · rename_i v hv
    exact hf _ P h1 h2 _ _ _ (hm P h1 h2 _ _ _ hA hv) h
  · cases h

/-- Two steps that keep a settled text settled. -/
theorem keepsText_bind {α β : Type} {m : GenM α} {f : α → GenM β} (hm : KeepsText m)
    (hf : ∀ a, KeepsText (f a)) : KeepsText (m >>= f) :=
  carries_bind hm hf

/-- Two steps that keep the start of the text. -/
theorem keepsStart_bind {α β : Type} {m : GenM α} {f : α → GenM β} (hm : KeepsStart m)
    (hf : ∀ a, KeepsStart (f a)) : KeepsStart (m >>= f) :=
  carries_bind hm hf

/-- A weaker property at the end. -/
theorem carries_weaken {A B B' : List Char → List Char → Prop} {α : Type} {m : GenM α}
    (hm : Carries A B m) (hB : ∀ P t, B P t → B' P t) : Carries A B' m :=
  fun P h1 h2 g a g' hA h => hB _ _ (hm P h1 h2 g a g' hA h)

/-- A step that leaves the text as it is. -/
theorem carries_still {A : List Char → List Char → Prop} {α : Type} (m : GenM α)
    (hm : ∀ g a g', m g = .ok (a, g') → g'.result = g.result) : Carries A A m := by
  intro P _ _ g a g' hA h
  rw [hm g a g' h]
  exact hA

/-- Returning a value. -/
theorem carries_pure {A : List Char → List Char → Prop} {α : Type} (a : α) :
    Carries A A (pure a : GenM α) :=
  carries_still _ fun _ _ _ h => by cases h; rfl

/-- A run that ends abnormally does not return. -/
theorem carries_throw {A B : List Char → List Char → Prop} {α : Type} (c : Crash) :
    Carries A B (throw c : GenM α) := by
  intro P _ _ g a g' _ h
  cases h

/-- Reading the generator. -/
theorem carries_get {A : List Char → List Char → Prop} : Carries A A (get : GenM Generator) :=
  carries_still _ fun _ _ _ h => by cases h; rfl

/-- `std::map::at`. -/
theorem carries_mapAt {A : List Char → List Char → Prop} {κ ν : Type} [BEq κ]
    (m : List (κ × ν)) (k : κ) : Carries A A (mapAt m k) := by
  unfold mapAt
  split
  · exact carries_pure _
  · exact carries_throw _

/-- The statements `single_procedure++` and `single_procedure--`. -/
theorem carries_addSingleProcedure {A : List Char → List Char → Prop} (d : Int) :
    Carries A A (addSingleProcedure d) :=
  carries_still _ fun _ _ _ h => by cases h; rfl

/-- Writing text keeps a settled text settled. -/
theorem keepsText_emit (s : String) : KeepsText (emit s) := by
  intro P _ _ g a g' hA h
  cases h
  obtain ⟨w, hw, hnil⟩ := hA
  refine ⟨w ++ s.data, ?_, fun h => hnil (List.append_eq_nil.1 h).1⟩
  show g.result.data ++ s.data = _
  rw [hw, List.append_assoc]

/-- Writing text keeps the start of the text. -/
theorem keepsStart_emit (s : String) : KeepsStart (emit s) := by
  intro P _ _ g a g' hA h
  cases h
  obtain ⟨w, hw⟩ := hA
  refine ⟨w ++ s.data, ?_⟩
  show g.result.data ++ s.data = _
  rw [hw, List.append_assoc]

/-- Writing a text that is not empty settles the text. -/
theorem opens_emit (s : String) (hs : s.data ≠ []) : Carries TextKept TextSettled (emit s) := by
  intro P _ _ g a g' hA h
  cases h
  obtain ⟨w, hw⟩ := hA
  refine ⟨w ++ s.data, ?_, fun h => absurd (List.append_eq_nil.1 h).2 hs⟩
  show g.result.data ++ s.data = _
  rw [hw, List.append_assoc]

/-- `Generator::addIndent` keeps a settled text settled. -/
theorem keepsText_addIndent : KeepsText addIndent := by
  intro P _ _ g a g' hA h
  cases h
  obtain ⟨w, hw, hnil⟩ := hA
  refine ⟨w ++ (indent g.now_level).data, ?_, fun h => hnil (List.append_eq_nil.1 h).1⟩
  show g.result.data ++ (indent g.now_level).data = _
  rw [hw, List.append_assoc]

/-- `Generator::addIndent` keeps the start of the text. -/
theorem keepsStart_addIndent : KeepsStart addIndent := by
  intro P _ _ g a g' hA h
  cases h
  obtain ⟨w, hw⟩ := hA
  refine ⟨w ++ (indent g.now_level).data, ?_⟩
  show g.result.data ++ (indent g.now_level).data = _
  rw [hw, List.append_assoc]

/-- The block that writes `*` before a VAR parameter keeps a settled text settled. -/
theorem keepsText_emitDeref (id : String) : KeepsText (emitDeref id) := by
  unfold emitDeref
  repeat' first
    | exact carries_pure _
    | exact carries_throw _
    | exact carries_get
    | exact carries_mapAt _ _
    | exact keepsText_emit _
    | refine keepsText_bind ?_ (fun _ => ?_)
    | split

/-- The block that writes `*` before a VAR parameter keeps the start of the text. -/
theorem keepsStart_emitDeref (id : String) : KeepsStart (emitDeref id) := by
  unfold emitDeref
  repeat' first
    | exact carries_pure _
    | exact carries_throw _
    | exact carries_get
    | exact carries_mapAt _ _
    | exact keepsStart_emit _
    | refine keepsStart_bind ?_ (fun _ => ?_)
    | split

/-- The end of the branch for a bare identifier keeps a settled text settled. -/
theorem keepsText_emitIdentifier (id : String) : KeepsText (emitIdentifier id) := by
  unfold emitIdentifier
  repeat' first
    | exact carries_pure _
    | exact carries_get
    | exact keepsText_emitDeref _
    | exact keepsText_emit _
    | refine keepsText_bind ?_ (fun _ => ?_)
    | dsimp only
    | split

/-- The end of the branch for a bare identifier keeps the start of the text. -/
theorem keepsStart_emitIdentifier (id : String) : KeepsStart (emitIdentifier id) := by
  unfold emitIdentifier
  repeat' first
    | exact carries_pure _
    | exact carries_get
    | exact keepsStart_emitDeref _
    | exact keepsStart_emit _
    | refine keepsStart_bind ?_ (fun _ => ?_)
    | dsimp only
    | split

/-- `Generator::visit(const Factor&)` for a bare identifier: when the analysis has annotated
it as a call, the call is written; otherwise the two blocks run on the text written so far
and the identifier is written. -/
theorem generator_visitFactor_unknown (g : Generator) (addr : Nat) (id : String) :
    Generator.visitFactor (.UNKNOWN addr id) g =
      if g.is_factor_function_call.lookup addr = some true then emit (id ++ "()") g
      else emitIdentifier id { g with result := eraseOperators g.result } := by
  obtain ⟨result, now_level, flag, arr_bias, tmp_periods, single_procedure, m1, m2, m3, m4, m5, m6, m7,
    mcs, now_in⟩ := g
  rw [Generator.visitFactor]
  unfold emitIdentifier eraseOperators
  by_cases hCall : m4.lookup addr = some true
  · simp only [bind, StateT.bind, Except.bind, get, getThe, MonadStateOf.get, StateT.get,
      pure, Except.pure, StateT.pure, hCall, if_true]
  · simp only [bind, StateT.bind, Except.bind, get, getThe, MonadStateOf.get, StateT.get,
      pure, Except.pure, StateT.pure, hCall, if_false, modify, modifyGet, MonadStateOf.modifyGet,
      StateT.modifyGet]

end GeneratorText

section GeneratorVisits

open Generator

set_option maxHeartbeats 1000000 in
mutual
/-- `Generator::visit(const Factor&)` keeps a settled text settled: the two blocks that look
at the end of the text change only what was written after the settled part. -/
theorem keepsText_visitFactor : ∀ f, KeepsText (visitFactor f)
  | .FUNCTION _ call => by
    rw [visitFactor]
    exact keepsText_visitProcedureCall call
  | .VARIABLE _ v => by
    rw [visitFactor]
    exact keepsText_visitVariable v
  | .EXPRESSION _ e => by
    rw [visitFactor]
    exact keepsText_bind (keepsText_emit _) (fun _ =>
      keepsText_bind (keepsText_visitExpression e) (fun _ => keepsText_emit _))
  | .WITH_PLUS _ operand => by
    rw [visitFactor]
    exact keepsText_bind (keepsText_emit _) (fun _ => keepsText_visitFactor operand)
  | .WITH_UMINUS _ operand => by
    rw [visitFactor]
    exact keepsText_bind (keepsText_emit _) (fun _ => keepsText_visitFactor operand)
  | .WITH_NOT _ operand => by
    rw [visitFactor]
    have ih := keepsText_visitFactor operand
    repeat' first
      | exact carries_get
      | exact carries_mapAt _ _
      | exact keepsText_emit _
      | exact ih
      | refine keepsText_bind ?_ (fun _ => ?_)
      | dsimp only
      | split
  | .BOOLEAN _ _ => by
    rw [visitFactor]
    exact keepsText_emit _
  | .UNKNOWN addr id => by
    intro P h1 h2 g a g' hs h
    rw [generator_visitFactor_unknown] at h
    split at h
    · exact keepsText_emit _ P h1 h2 g a g' hs h
    · exact keepsText_emitIdentifier id P h1 h2 _ a g' (settled_eraseOperators P g.result h1 h2 hs) h
  | .NUMBER _ _ => by
    rw [visitFactor]
    exact keepsText_emit _
/-- The loop of `Generator::visit(const Term&)` keeps a settled text settled. -/
theorem keepsText_visitTermLoop : ∀ l, KeepsText (visitTermLoop l)
  | .nil => by
    rw [visitTermLoop]
    exact carries_pure _
  | .cons _ factor tl => by
    rw [visitTermLoop]
    exact keepsText_bind (keepsText_emit _) (fun _ =>
      keepsText_bind (keepsText_visitFactor factor) (fun _ => keepsText_visitTermLoop tl))
/-- `Generator::visit(const Term&)` keeps a settled text settled. -/
theorem keepsText_visitTerm : ∀ t, KeepsText (visitTerm t)
  | .mk first factors => by
    rw [visitTerm]
    exact keepsText_bind (carries_addSingleProcedure _) (fun _ =>
      keepsText_bind (keepsText_visitFactor first) (fun _ =>
        keepsText_bind (keepsText_visitTermLoop factors) (fun _ => carries_addSingleProcedure _)))
/-- The loop of `Generator::visit(const SimpleExpression&)` keeps a settled text settled. -/
theorem keepsText_visitSimpleExpressionLoop : ∀ l, KeepsText (visitSimpleExpressionLoop l)
  | .nil => by
    rw [visitSimpleExpressionLoop]
    exact carries_pure _
  | .cons _ term tl => by
    rw [visitSimpleExpressionLoop]
    exact keepsText_bind (keepsText_emit _) (fun _ =>
      keepsText_bind (keepsText_visitTerm term) (fun _ => keepsText_visitSimpleExpressionLoop tl))
/-- `Generator::visit(const SimpleExpression&)` keeps a settled text settled. -/
theorem keepsText_visitSimpleExpression : ∀ e, KeepsText (visitSimpleExpression e)
  | .mk first terms => by
    rw [visitSimpleExpression]
    exact keepsText_bind (carries_addSingleProcedure _) (fun _ =>
      keepsText_bind (keepsText_visitTerm first) (fun _ =>
        keepsText_bind (keepsText_visitSimpleExpressionLoop terms) (fun _ =>
          carries_addSingleProcedure _)))
/-- `Generator::visit(const Expression&)` keeps a settled text settled. -/
theorem keepsText_visitExpression : ∀ e, KeepsText (visitExpression e)
  | .simple left => by
    rw [visitExpression]
    exact keepsText_bind (carries_addSingleProcedure _) (fun _ =>
      keepsText_bind (keepsText_visitSimpleExpression left) (fun _ => carries_addSingleProcedure _))
  | .relational left _ right => by
    rw [visitExpression]
    exact keepsText_bind (carries_addSingleProcedure _) (fun _ =>
      keepsText_bind (keepsText_visitSimpleExpression left) (fun _ =>
        keepsText_bind (keepsText_emit _) (fun _ =>
          keepsText_bind (keepsText_visitSimpleExpression right) (fun _ =>
            carries_addSingleProcedure _))))
/-- The loop of `Generator::visit(const Variable&)` for an array with recorded lower bounds
keeps a settled text settled. -/
theorem keepsText_visitIndexBiasLoop : ∀ l bias i, KeepsText (visitIndexBiasLoop l bias i)
  | .nil, _, _ => by
    rw [visitIndexBiasLoop]
    exact carries_pure _
  | .cons expression tl, _, _ => by
    rw [visitIndexBiasLoop]
    have ih := keepsText_visitIndexBiasLoop tl
    have ie := keepsText_visitExpression expression
    repeat' first
      | exact carries_pure _
      | exact carries_throw _
      | exact keepsText_emit _
      | exact ie
      | exact ih _ _
      | refine keepsText_bind ?_ (fun _ => ?_)
      | dsimp only
      | split
/-- The loop of `Generator::visit(const Variable&)` for a name without recorded bounds keeps
a settled text settled. -/
theorem keepsText_visitIndexLoop : ∀ l, KeepsText (visitIndexLoop l)
  | .nil => by
    rw [visitIndexLoop]
    exact carries_pure _
  | .cons expression tl => by
    rw [visitIndexLoop]
    exact keepsText_bind (keepsText_emit _) (fun _ =>
      keepsText_bind (keepsText_visitExpression expression) (fun _ =>
        keepsText_bind (keepsText_emit _) (fun _ => keepsText_visitIndexLoop tl)))
/-- `Generator::visit(const Variable&)` keeps a settled text settled. -/
theorem keepsText_visitVariable : ∀ v, KeepsText (visitVariable v)
  | .mk _ expressions => by
    rw [visitVariable]
    have ib := keepsText_visitIndexBiasLoop expressions
    have il := keepsText_visitIndexLoop expressions
    repeat' first
      | exact carries_pure _
      | exact carries_get
      | exact keepsText_emitDeref _
      | exact keepsText_emit _
      | exact ib _ _
      | exact il
      | refine keepsText_bind ?_ (fun _ => ?_)
      | dsimp only
      | split
/-- The loop over the arguments of `Generator::visit(const ProcedureCall&)` keeps a settled
text settled. -/
theorem keepsText_visitArgumentLoop : ∀ l id pos, KeepsText (visitArgumentLoop l id pos)
  | .nil, _, _ => by
    rw [visitArgumentLoop]
    exact carries_pure _
  | .cons param tl, _, _ => by
    rw [visitArgumentLoop]
    have ih := keepsText_visitArgumentLoop tl
    have ie := keepsText_visitExpression param
    repeat' first
      | exact carries_pure _
      | exact carries_throw _
      | exact carries_get
      | exact carries_mapAt _ _
      | exact keepsText_emit _
      | exact ie
      | exact ih _ _
      | refine keepsText_bind ?_ (fun _ => ?_)
      | dsimp only
      | split
/-- `Generator::visit(const ProcedureCall&)` keeps a settled text settled. -/
theorem keepsText_visitProcedureCall : ∀ c, KeepsText (visitProcedureCall c)
  | .mk _ parameters => by
    rw [visitProcedureCall]
    have ia := keepsText_visitArgumentLoop parameters
    repeat' first
      | exact carries_pure _
      | exact carries_get
      | exact keepsText_emit _
      | exact keepsText_addIndent
      | exact ia _ _
      | refine keepsText_bind ?_ (fun _ => ?_)
      | dsimp only
      | split
end

end GeneratorVisits

section GeneratorStarts

open Generator

/-- A step that settles the text, then steps that keep it settled. -/
theorem opens_bind {α β : Type} {m : GenM α} {f : α → GenM β} (hm : OpensText m)
    (hf : ∀ a, KeepsText (f a)) : OpensText (m >>= f) :=
  carries_bind hm hf

/-- A step that keeps the start of the text, then steps that settle it. -/
theorem start_opens_bind {α β : Type} {m : GenM α} {f : α → GenM β} (hm : KeepsStart m)
    (hf : ∀ a, OpensText (f a)) : OpensText (m >>= f) :=
  carries_bind hm hf

/-- Steps that settle the text keep its start. -/
theorem keepsStart_of_opens {α : Type} {m : GenM α} (hm : OpensText m) : KeepsStart m :=
  carries_weaken hm fun _ _ h => kept_of_settled h

/-- The loop of `Generator::visit(const Term&)` keeps the start of the text: it writes an
operator before anything else. -/
theorem keepsStart_visitTermLoop : ∀ l, KeepsStart (visitTermLoop l)
  | .nil => by
    rw [visitTermLoop]
    exact carries_pure _
  | .cons op factor tl => by
    rw [visitTermLoop]
    refine keepsStart_of_opens (opens_bind (opens_emit _ ?_) (fun _ =>
      keepsText_bind (keepsText_visitFactor factor) (fun _ => keepsText_visitTermLoop tl)))
    cases op <;> decide

/-- The loop of `Generator::visit(const SimpleExpression&)` keeps the start of the text. -/
theorem keepsStart_visitSimpleExpressionLoop : ∀ l, KeepsStart (visitSimpleExpressionLoop l)
  | .nil => by
    rw [visitSimpleExpressionLoop]
    exact carries_pure _
  | .cons op term tl => by
    rw [visitSimpleExpressionLoop]
    refine keepsStart_of_opens (opens_bind (opens_emit _ ?_) (fun _ =>
      keepsText_bind (keepsText_visitTerm term) (fun _ => keepsText_visitSimpleExpressionLoop tl)))
    cases op <;> decide

/-- The loop over the indices of an array with recorded lower bounds keeps the start of the
text. -/
theorem keepsStart_visitIndexBiasLoop : ∀ l bias i, KeepsStart (visitIndexBiasLoop l bias i)
  | .nil, _, _ => by
    rw [visitIndexBiasLoop]
    exact carries_pure _
  | .cons expression tl, _, _ => by
    rw [visitIndexBiasLoop]
    refine keepsStart_of_opens (opens_bind (opens_emit _ (by decide)) (fun _ => ?_))
    repeat' first
      | exact carries_pure _
      | exact carries_throw _
      | exact keepsText_emit _
      | exact keepsText_visitExpression _
      | exact keepsText_visitIndexBiasLoop _ _ _
      | refine keepsText_bind ?_ (fun _ => ?_)
      | dsimp only
      | split

/-- The loop over the indices of a name without recorded bounds keeps the start of the
text. -/
theorem keepsStart_visitIndexLoop : ∀ l, KeepsStart (visitIndexLoop l)
  | .nil => by
    rw [visitIndexLoop]
    exact carries_pure _
  | .cons expression tl => by
    rw [visitIndexLoop]
    exact keepsStart_of_opens (opens_bind (opens_emit _ (by decide)) (fun _ =>
      keepsText_bind (keepsText_visitExpression expression) (fun _ =>
        keepsText_bind (keepsText_emit _) (fun _ => keepsText_visitIndexLoop tl))))

/-- `Generator::visit(const Variable&)` keeps the start of the text. -/
theorem keepsStart_visitVariable : ∀ v, KeepsStart (visitVariable v)
  | .mk _ expressions => by
    rw [visitVariable]
    repeat' first
      | exact carries_pure _
      | exact carries_get
      | exact keepsStart_emitDeref _
      | exact keepsStart_emit _
      | exact keepsStart_visitIndexBiasLoop _ _ _
      | exact keepsStart_visitIndexLoop _
      | refine keepsStart_bind ?_ (fun _ => ?_)
      | dsimp only
      | split

/-- `Generator::visit(const ProcedureCall&)` keeps the start of the text: the name of the
callee and `(` are written before any argument. -/
theorem keepsStart_visitProcedureCall : ∀ c, KeepsStart (visitProcedureCall c)
  | .mk id parameters => by
    rw [visitProcedureCall]
    refine keepsStart_of_opens ?_
    have hid : (id ++ "(").data ≠ [] := by
      show id.data ++ ['('] ≠ []
      simp
    repeat' first
      | exact carries_pure _
      | exact carries_get
      | exact keepsStart_addIndent
      | exact keepsText_emit _
      | exact keepsText_visitArgumentLoop _ _ _
      | refine opens_bind (opens_emit _ hid) (fun _ => ?_)
      | refine start_opens_bind ?_ (fun _ => ?_)
      | refine keepsText_bind ?_ (fun _ => ?_)
      | dsimp only
      | split

/-- `Generator::visit(const Factor&)` keeps the start of the text for every factor that is
not a bare identifier: something is written before a nested factor is visited. -/
theorem keepsStart_visitFactor : ∀ f, (∀ addr id, f ≠ .UNKNOWN addr id) → KeepsStart (visitFactor f)
  | .FUNCTION _ call, _ => by
    rw [visitFactor]
    exact keepsStart_visitProcedureCall call
  | .VARIABLE _ v, _ => by
    rw [visitFactor]
    exact keepsStart_visitVariable v
  | .EXPRESSION _ e, _ => by
    rw [visitFactor]
    exact keepsStart_of_opens (opens_bind (opens_emit _ (by decide)) (fun _ =>
      keepsText_bind (keepsText_visitExpression e) (fun _ => keepsText_emit _)))
  | .WITH_PLUS _ operand, _ => by
    rw [visitFactor]
    exact keepsStart_of_opens (opens_bind (opens_emit _ (by decide)) (fun _ =>
      keepsText_visitFactor operand))
  | .WITH_UMINUS _ operand, _ => by
    rw [visitFactor]
    exact keepsStart_of_opens (opens_bind (opens_emit _ (by decide)) (fun _ =>
      keepsText_visitFactor operand))
  | .WITH_NOT _ operand, _ => by
    rw [visitFactor]
    refine keepsStart_of_opens ?_
    repeat' first
      | exact carries_get
      | exact carries_mapAt _ _
      | exact keepsText_visitFactor _
      | refine opens_bind (opens_emit _ (by decide)) (fun _ => ?_)
      | refine start_opens_bind ?_ (fun _ => ?_)
      | dsimp only
      | split
  | .BOOLEAN _ _, _ => by
    rw [visitFactor]
    exact keepsStart_emit _
  | .UNKNOWN addr id, h => absurd rfl (h addr id)
  | .NUMBER _ _, _ => by
    rw [visitFactor]
    exact keepsStart_emit _

/-- `Generator::visit(const Factor&)` at a generator for which the factor is not a bare
identifier without a call annotation: the start of the text is kept. -/
theorem kept_visitFactor (g : Generator) (f : Factor)
    (hf : bareIdentifier g.is_factor_function_call f = false) (P : List Char)
    (h1 : P.getLast? ≠ some '&') (h2 : P.getLast? ≠ some '|') (a : Unit) (g' : Generator)
    (hP : TextKept P g.result.data) (h : visitFactor f g = .ok (a, g')) :
    TextKept P g'.result.data := by
  by_cases hu : ∃ addr id, f = .UNKNOWN addr id
  · obtain ⟨addr, id, rfl⟩ := hu
    rw [generator_visitFactor_unknown] at h
    have hcall : g.is_factor_function_call.lookup addr = some true := by
      simpa [bareIdentifier] using hf
    rw [if_pos hcall] at h
    exact keepsStart_emit _ P h1 h2 g a g' hP h
  · exact keepsStart_visitFactor f (fun addr id he => hu ⟨addr, id, he⟩) P h1 h2 g a g' hP h

end GeneratorStarts

section OperatorText

open Generator

/-- The test of the two blocks fails on a text that ends with a character other than `&`
and `|` followed by a blank. -/
theorem not_operatorAtEnd (t : List Char) (c : Char) (h1 : c ≠ '&') (h2 : c ≠ '|') :
    ¬ OperatorAtEnd (t ++ [c, ' ']) := by
  rintro ⟨_, hc⟩
  have hidx : (t ++ [c, ' ']).getD ((t ++ [c, ' ']).length - 2) NUL = c := by
    rw [List.length_append, show t.length + [c, ' '].length - 2 = t.length + 0 by simp]
    exact getD_suffix t [c, ' '] 0 NUL
  rw [hidx] at hc
  rcases hc with ⟨h, _⟩ | ⟨h, _⟩
  · exact h1 h
  · exact h2 h

/-- The test of the two blocks fails after an operator whose text ends with a character
other than `&` and `|`. -/
theorem not_operatorAtEnd_text (r name : String) (t : List Char) (c : Char)
    (hname : (" " ++ name ++ " ").data = t ++ [c, ' ']) (h1 : c ≠ '&') (h2 : c ≠ '|') :
    ¬ OperatorAtEnd (r ++ (" " ++ name ++ " ")).data := by
  have e : (r ++ (" " ++ name ++ " ")).data = (r.data ++ t) ++ [c, ' '] := by
    show r.data ++ (" " ++ name ++ " ").data = _
    rw [hname, List.append_assoc]
  rw [e]
  exact not_operatorAtEnd _ c h1 h2

/-- A text that ends with the text of an operator between blanks does not end with `&` or
`|`. -/
theorem operatorText_last (r name : String) :
    (r ++ (" " ++ name ++ " ")).data.getLast? ≠ some '&' ∧
      (r ++ (" " ++ name ++ " ")).data.getLast? ≠ some '|' := by
  have e : (r ++ (" " ++ name ++ " ")).data = (r.data ++ ([' '] ++ name.data)) ++ [' '] := by
    show r.data ++ (([' '] ++ name.data) ++ [' ']) = _
    simp only [List.append_assoc]
  rw [e, List.getLast?_append_of_ne_nil _ (by simp)]
  exact ⟨by decide, by decide⟩

/-- A text that starts with the text of `P` is `P` followed by a text. -/
theorem text_of_kept (P r : String) (h : TextKept P.data r.data) : ∃ w : String, r = P ++ w := by
  obtain ⟨w, hw⟩ := h
  exact ⟨String.mk w, String.ext hw⟩

/-- `Generator::visit(const Term&)` at a generator for which the first factor of the term is
not a bare identifier without a call annotation: the start of the text is kept. -/
theorem kept_visitTerm (g : Generator) (term : Term)
    (hf : bareIdentifier g.is_factor_function_call term.getFirstFactor = false) (P : List Char)
    (h1 : P.getLast? ≠ some '&') (h2 : P.getLast? ≠ some '|') (a : Unit) (g' : Generator)
    (hP : TextKept P g.result.data) (h : visitTerm term g = .ok (a, g')) :
    TextKept P g'.result.data := by
  obtain ⟨first, factors⟩ := term
  rw [visitTerm, genM_bind_run] at h
  change (visitFactor first >>= fun _ => visitTermLoop factors >>= fun _ =>
    addSingleProcedure (-1)) { g with single_procedure := g.single_procedure + 1 } = _ at h
  generalize hg1 : ({ g with single_procedure := g.single_procedure + 1 } : Generator) = g1 at h
  have hres : g1.result = g.result := by rw [← hg1]
  have hcalls : g1.is_factor_function_call = g.is_factor_function_call := by rw [← hg1]
  rw [← hres] at hP
  rw [← hcalls] at hf
  rw [genM_bind_run] at h
  split at h
  · rename_i v hv
    exact keepsStart_bind (keepsStart_visitTermLoop factors) (fun _ =>
        carries_addSingleProcedure _) P h1 h2 _ _ _
      (kept_visitFactor g1 first hf P h1 h2 v.1 v.2 hP hv) h
  · cases h

/-- The loop of `Generator::visit(const Term&)`, at an operator other than `and` or before a
factor that is not a bare identifier without call annotation: the operator stays as
`Utils::getMulOpName` gives it. -/
theorem visitTermLoop_operator (g g' : Generator) (op : MulOp) (factor : Factor)
    (tl : FactorList)
    (hcase : op ≠ .AND ∨ bareIdentifier g.is_factor_function_call factor = false)
    (h : (visitTermLoop (.cons op factor tl)).run g = .ok ((), g')) :
    ∃ w, g'.result = g.result ++ (" " ++ Utils.getMulOpName op ++ " ") ++ w := by
  rw [generator_visitTermLoop_cons] at h
  apply text_of_kept
  have hlast := operatorText_last g.result (Utils.getMulOpName op)
  generalize hg1 : ({ g with result := g.result ++ (" " ++ Utils.getMulOpName op ++ " ") } :
    Generator) = g1 at h
  have hres : g1.result = g.result ++ (" " ++ Utils.getMulOpName op ++ " ") := by rw [← hg1]
  have hcalls : g1.is_factor_function_call = g.is_factor_function_call := by rw [← hg1]
  rw [← hres] at hlast ⊢
  change (visitFactor factor >>= fun _ => visitTermLoop tl) g1 = _ at h
  rcases hcase with hop | hbare
  · have hnot : ¬ OperatorAtEnd g1.result.data := by
      rw [hres]
      cases op
      · exact not_operatorAtEnd_text _ _ [' '] '*' (by decide) (by decide) (by decide)
      · exact not_operatorAtEnd_text _ _ [' '] '/' (by decide) (by decide) (by decide)
      · exact not_operatorAtEnd_text _ _ [' '] '/' (by decide) (by decide) (by decide)
      · exact not_operatorAtEnd_text _ _ [' '] '%' (by decide) (by decide) (by decide)
      · exact absurd rfl hop
    exact kept_of_settled
      (keepsText_bind (keepsText_visitFactor factor) (fun _ => keepsText_visitTermLoop tl)
        g1.result.data hlast.1 hlast.2 g1 () g'
        ⟨[], (List.append_nil _).symm, fun _ => hnot⟩ h)
  · rw [genM_bind_run] at h
    rw [← hcalls] at hbare
    split at h
    · rename_i v hv
      exact keepsStart_visitTermLoop tl g1.result.data hlast.1 hlast.2 _ _ _
        (kept_visitFactor g1 factor hbare _ hlast.1 hlast.2 v.1 v.2
          ⟨[], (List.append_nil _).symm⟩ hv) h
    · cases h

/-- The loop of `Generator::visit(const Term&)`, at `and` before a bare identifier without
call annotation: the text holds `&` where `&&` was written. -/
theorem visitTermLoop_and_identifier (g g' : Generator) (factor : Factor) (tl : FactorList)
    (hbare : bareIdentifier g.is_factor_function_call factor = true)
    (h : (visitTermLoop (.cons .AND factor tl)).run g = .ok ((), g')) :
    ∃ w, g'.result = g.result ++ " & " ++ w := by
  cases factor with
  | UNKNOWN addr id =>
    have hCall : g.is_factor_function_call.lookup addr ≠ some true := by
      simpa [bareIdentifier] using hbare
    rw [generator_visitTermLoop_identifier g .AND addr id tl hCall] at h
    apply text_of_kept
    have hlast := operatorText_last g.result "&"
    generalize hg1 : ({ g with result := g.result ++ (" " ++ mulOpBeforeIdentifier .AND ++ " ") } :
      Generator) = g1 at h
    have hres : g1.result = g.result ++ " & " := by rw [← hg1]; rfl
    rw [show g.result ++ (" " ++ "&" ++ " ") = g.result ++ " & " from rfl, ← hres] at hlast
    rw [← hres]
    exact keepsStart_bind (keepsStart_emitIdentifier id) (fun _ => keepsStart_visitTermLoop tl)
      g1.result.data hlast.1 hlast.2 g1 () g' ⟨[], (List.append_nil _).symm⟩ h
  | _ => cases hbare

/-- The loop of `Generator::visit(const SimpleExpression&)`, at an operator other than `or`
or before a term whose first factor is not a bare identifier without call annotation: the
operator stays as `Utils::getAddOpName` gives it. -/
theorem visitSimpleExpressionLoop_operator (g g' : Generator) (op : AddOp) (term : Term)
    (tl : TermList)
    (hcase : op ≠ .OR ∨ bareIdentifier g.is_factor_function_call term.getFirstFactor = false)
    (h : (visitSimpleExpressionLoop (.cons op term tl)).run g = .ok ((), g')) :
    ∃ w, g'.result = g.result ++ (" " ++ Utils.getAddOpName op ++ " ") ++ w := by
  rw [generator_visitSimpleExpressionLoop_cons] at h
  apply text_of_kept
  have hlast := operatorText_last g.result (Utils.getAddOpName op)
  generalize hg1 : ({ g with result := g.result ++ (" " ++ Utils.getAddOpName op ++ " ") } :
    Generator) = g1 at h
  have hres : g1.result = g.result ++ (" " ++ Utils.getAddOpName op ++ " ") := by rw [← hg1]
  have hcalls : g1.is_factor_function_call = g.is_factor_function_call := by rw [← hg1]
  rw [← hres] at hlast ⊢
  change (visitTerm term >>= fun _ => visitSimpleExpressionLoop tl) g1 = _ at h
  rcases hcase with hop | hbare
  · have hnot : ¬ OperatorAtEnd g1.result.data := by
      rw [hres]
      cases op
      · exact not_operatorAtEnd_text _ _ [' '] '+' (by decide) (by decide) (by decide)
      · exact not_operatorAtEnd_text _ _ [' '] '-' (by decide) (by decide) (by decide)
      · exact absurd rfl hop
    exact kept_of_settled
      (keepsText_bind (keepsText_visitTerm term) (fun _ => keepsText_visitSimpleExpressionLoop tl)
        g1.result.data hlast.1 hlast.2 g1 () g'
        ⟨[], (List.append_nil _).symm, fun _ => hnot⟩ h)
  · rw [genM_bind_run] at h
    rw [← hcalls] at hbare
    split at h
    · rename_i v hv
      exact keepsStart_visitSimpleExpressionLoop tl g1.result.data hlast.1 hlast.2 _ _ _
        (kept_visitTerm g1 term hbare _ hlast.1 hlast.2 v.1 v.2
          ⟨[], (List.append_nil _).symm⟩ hv) h
    · cases h

/-- The loop of `Generator::visit(const SimpleExpression&)`, at `or` before a term whose
first factor is a bare identifier without call annotation: the text holds `|` where `||`
was written. -/
theorem visitSimpleExpressionLoop_or_identifier (g g' : Generator) (term : Term)
    (tl : TermList)
    (hbare : bareIdentifier g.is_factor_function_call term.getFirstFactor = true)
    (h : (visitSimpleExpressionLoop (.cons .OR term tl)).run g = .ok ((), g')) :
    ∃ w, g'.result = g.result ++ " | " ++ w := by
  obtain ⟨first, factors⟩ := term
  cases first with
  | UNKNOWN addr id =>
    have hCall : g.is_factor_function_call.lookup addr ≠ some true := by
      simpa [bareIdentifier, Term.getFirstFactor] using hbare
    rw [generator_visitSimpleExpressionLoop_identifier g .OR addr id factors tl hCall] at h
    apply text_of_kept
    have hlast := operatorText_last g.result "|"
    generalize hg1 : ({ g with result := g.result ++ (" " ++ addOpBeforeIdentifier .OR ++ " "),
                               single_procedure := g.single_procedure + 1 } : Generator) = g1 at h
    have hres : g1.result = g.result ++ " | " := by rw [← hg1]; rfl
    rw [show g.result ++ (" " ++ "|" ++ " ") = g.result ++ " | " from rfl, ← hres] at hlast
    rw [← hres]
    exact keepsStart_bind (keepsStart_emitIdentifier id) (fun _ =>
        keepsStart_bind (keepsStart_visitTermLoop factors) (fun _ =>
          keepsStart_bind (carries_addSingleProcedure _) (fun _ =>
            keepsStart_visitSimpleExpressionLoop tl)))
      g1.result.data hlast.1 hlast.2 g1 () g' ⟨[], (List.append_nil _).symm⟩ h
  | _ => cases hbare

/-- `Generator::visit(const Expression&)` on a relational expression: after the left side the
operator is written as `Utils::getRelOpName` gives it, and it stays. -/
theorem visitExpression_operator (g g1 g' : Generator) (left : SimpleExpression) (op : RelOp)
    (right : SimpleExpression)
    (hleft : (addSingleProcedure 1 >>= fun _ => visitSimpleExpression left).run g = .ok ((), g1))
    (h : (visitExpression (.relational left op right)).run g = .ok ((), g')) :
    ∃ w, g'.result = g1.result ++ (" " ++ Utils.getRelOpName op ++ " ") ++ w := by
  rw [visitExpression] at h
  change (addSingleProcedure 1 >>= fun _ => visitSimpleExpression left >>= fun _ =>
    emit (" " ++ Utils.getRelOpName op ++ " ") >>= fun _ => visitSimpleExpression right >>= fun _ =>
      addSingleProcedure (-1)) g = _ at h
  change (addSingleProcedure 1 >>= fun _ => visitSimpleExpression left) g = _ at hleft
  rw [genM_bind_run] at h hleft
  change (visitSimpleExpression left >>= fun _ =>
    emit (" " ++ Utils.getRelOpName op ++ " ") >>= fun _ => visitSimpleExpression right >>= fun _ =>
      addSingleProcedure (-1)) { g with single_procedure := g.single_procedure + 1 } = _ at h
  change visitSimpleExpression left { g with single_procedure := g.single_procedure + 1 } = _ at hleft
  rw [genM_bind_run, hleft] at h
  change (visitSimpleExpression right >>= fun _ => addSingleProcedure (-1))
    { g1 with result := g1.result ++ (" " ++ Utils.getRelOpName op ++ " ") } = _ at h
  apply text_of_kept
  have hlast := operatorText_last g1.result (Utils.getRelOpName op)
  generalize hg2 : ({ g1 with result := g1.result ++ (" " ++ Utils.getRelOpName op ++ " ") } :
    Generator) = g2 at h
  have hres : g2.result = g1.result ++ (" " ++ Utils.getRelOpName op ++ " ") := by rw [← hg2]
  rw [← hres] at hlast ⊢
  have hnot : ¬ OperatorAtEnd g2.result.data := by
    rw [hres]
    cases op
    · exact not_operatorAtEnd_text _ _ [' '] '>' (by decide) (by decide) (by decide)
    · exact not_operatorAtEnd_text _ _ [' ', '='] '=' (by decide) (by decide) (by decide)
    · exact not_operatorAtEnd_text _ _ [' ', '<'] '=' (by decide) (by decide) (by decide)
    · exact not_operatorAtEnd_text _ _ [' ', '>'] '=' (by decide) (by decide) (by decide)
    · exact not_operatorAtEnd_text _ _ [' '] '<' (by decide) (by decide) (by decide)
    · exact not_operatorAtEnd_text _ _ [' ', '!'] '=' (by decide) (by decide) (by decide)
  exact kept_of_settled
    (keepsText_bind (keepsText_visitSimpleExpression right) (fun _ => carries_addSingleProcedure _)
      g2.result.data hlast.1 hlast.2 g2 () g' ⟨[], (List.append_nil _).symm, fun _ => hnot⟩ h)

end OperatorText

/-- C19 (amended). `Utils` fixes one text per operator: `==` for `=`, `!=` for `<>`, `/` for
`div` and `/`, `%` for `mod`, `&&` for `and`, `||` for `or`.  In the text that the generator
has written when the loop of `Generator::visit(const Term&)` returns, the operator stands
between blanks right after the text written before, as `Utils::getMulOpName` gives it,
whatever the factor that follows (a literal, a call, a parenthesised expression, an indexed
variable, a signed or negated factor), with one exception: for `and` before a bare identifier
that the analysis has not annotated as a call, the text holds `&`.  The same holds in the
loop of `Generator::visit(const SimpleExpression&)` with `Utils::getAddOpName`, the
exception being `or` before a term that starts with such an identifier, where the text holds
`|`.  A relational operator stands as `Utils::getRelOpName` gives it, whatever the operands.
Once an operator and something after it are written, no visit of an expression changes
them. -/
theorem C19_operator_translation (g g' : Generator) :
    (Utils.getRelOpName .EQ = "==" ∧ Utils.getRelOpName .NE = "!=" ∧
      Utils.getMulOpName .DIV = "/" ∧ Utils.getMulOpName .RDIV = "/" ∧
      Utils.getMulOpName .MOD = "%" ∧ Utils.getMulOpName .AND = "&&" ∧
      Utils.getAddOpName .OR = "||") ∧
    (∀ (op : MulOp) (factor : Factor) (tl : FactorList),
      (op ≠ .AND ∨ bareIdentifier g.is_factor_function_call factor = false) →
      (Generator.visitTermLoop (.cons op factor tl)).run g = .ok ((), g') →
        ∃ w, g'.result = g.result ++ (" " ++ Utils.getMulOpName op ++ " ") ++ w) ∧
    (∀ (factor : Factor) (tl : FactorList),
      bareIdentifier g.is_factor_function_call factor = true →
      (Generator.visitTermLoop (.cons .AND factor tl)).run g = .ok ((), g') →
        ∃ w, g'.result = g.result ++ " & " ++ w) ∧
    (∀ (op : AddOp) (term : Term) (tl : TermList),
      (op ≠ .OR ∨ bareIdentifier g.is_factor_function_call term.getFirstFactor = false) →
      (Generator.visitSimpleExpressionLoop (.cons op term tl)).run g = .ok ((), g') →
        ∃ w, g'.result = g.result ++ (" " ++ Utils.getAddOpName op ++ " ") ++ w) ∧
    (∀ (term : Term) (tl : TermList),
      bareIdentifier g.is_factor_function_call term.getFirstFactor = true →
      (Generator.visitSimpleExpressionLoop (.cons .OR term tl)).run g = .ok ((), g') →
        ∃ w, g'.result = g.result ++ " | " ++ w) ∧
    (∀ (left : SimpleExpression) (op : RelOp) (right : SimpleExpression) (g1 : Generator),
      (Generator.addSingleProcedure 1 >>= fun _ => Generator.visitSimpleExpression left).run g =
        .ok ((), g1) →
      (Generator.visitExpression (.relational left op right)).run g = .ok ((), g') →
        ∃ w, g'.result = g1.result ++ (" " ++ Utils.getRelOpName op ++ " ") ++ w) ∧
    (∀ (e : Expression) (P : List Char), P.getLast? ≠ some '&' → P.getLast? ≠ some '|' →
      TextSettled P g.result.data → (Generator.visitExpression e).run g = .ok ((), g') →
        TextSettled P g'.result.data) :=
  ⟨⟨rfl, rfl, rfl, rfl, rfl, rfl, rfl⟩,
    fun op factor tl hcase h => visitTermLoop_operator g g' op factor tl hcase h,
    fun factor tl hbare h => visitTermLoop_and_identifier g g' factor tl hbare h,
    fun op term tl hcase h => visitSimpleExpressionLoop_operator g g' op term tl hcase h,
    fun term tl hbare h => visitSimpleExpressionLoop_or_identifier g g' term tl hbare h,
    fun left op right g1 hleft h => visitExpression_operator g g1 g' left op right hleft h,
    fun e P h1 h2 hP h => keepsText_visitExpression e P h1 h2 g () g' hP h⟩

/-- Witness of C19 (amended): in the main body, after `c = a` is written, `and` before the
literal `1` gives `c = a && 1`, and `and` before the bare identifier `b` gives `c = a & b`. -/
theorem C19_operator_translation_witness :
    (bareIdentifier operatorGenerator.is_factor_function_call (.NUMBER 5 "1") = false ∧
      (Generator.visitTermLoop (.cons .AND (.NUMBER 5 "1") .nil)).run operatorGenerator =
        .ok ((), { operatorGenerator with result := "c = a && 1" }) ∧
      ∃ w, "c = a && 1" = operatorGenerator.result ++ (" " ++ Utils.getMulOpName .AND ++ " ") ++ w) ∧
    (bareIdentifier operatorGenerator.is_factor_function_call (.UNKNOWN 5 "b") = true ∧
      (Generator.visitTermLoop (.cons .AND (.UNKNOWN 5 "b") .nil)).run operatorGenerator =
        .ok ((), { operatorGenerator with result := "c = a & b" }) ∧
      ∃ w, "c = a & b" = operatorGenerator.result ++ " & " ++ w) :=
  ⟨⟨rfl, rfl,
      (C19_operator_translation operatorGenerator
        { operatorGenerator with result := "c = a && 1" }).2.1 .AND (.NUMBER 5 "1") .nil
        (Or.inr rfl) rfl⟩,
    ⟨rfl, rfl,
      (C19_operator_translation operatorGenerator
        { operatorGenerator with result := "c = a & b" }).2.2.1 (.UNKNOWN 5 "b") .nil rfl rfl⟩⟩

/-- Other operands after `and` and `or` through the whole driver: a literal, a parenthesised
expression and a `not` factor leave `&&` and `||` as written; `div`, `/`, `mod`, `=` and `<>`
are written `/`, `/`, `%`, `==` and `!=`. -/
theorem operator_translation_example :
    solveCCode 128 ("program p; var a, b, c: boolean; " ++
        "begin c := a and true; c := a or (b); c := a and not b end.") =
      .cCode ("#include <stdio.h>\n#include <stdlib.h>\n#include <stdbool.h>\n" ++
        "bool a, b, c;\nint main()\n\x7b\n  c = a && true;\n  c = a ||  ( b ) ;\n" ++
        "  c = a && !b;\n  return 0;\n\x7d\n") [] ∧
    solveCCode 128 ("program p; var i, j: integer; x: real; begin i := i div j; i := i mod j; " ++
        "x := i / j; if i = j then i := 1; if i <> j then i := 2 end.") =
      .cCode ("#include <stdio.h>\n#include <stdlib.h>\n#include <stdbool.h>\n" ++
        "int i, j;\nfloat x;\nint main()\n\x7b\n  i = i / j;\n  i = i % j;\n  x = i / j;\n" ++
        "  if (i == j)\n    i = 1;\n  if (i != j)\n    i = 2;\n  return 0;\n\x7d\n") [] :=
  ⟨by decide!, by decide!⟩

/-! ## C20: the C type of a constant -/

/-- C20 (code defect). `Generator::visit(const ConstDecl&)` tests for a `.` in the text
before it tests for the double quote: the string constant `'a.b'` is written as
`const float t = "a.b";`, while `'abc'` gives `const char*`, `3.14` gives `float`, `'x'` gives
`char` and `10` gives `int`. -/
theorem C20_string_with_dot_declared_float :
    solveCCode 128 "program p; const t = 'a.b'; begin end." =
      .cCode ("#include <stdio.h>\n#include <stdlib.h>\n#include <stdbool.h>\n" ++
        "const float t = \"a.b\";\nint main()\n\x7b\n  ;\n  return 0;\n\x7d\n") [] ∧
    solveCCode 128 "program p; const pi = 3.14; n = 10; ch = 'x'; s = 'abc'; begin end." =
      .cCode ("#include <stdio.h>\n#include <stdlib.h>\n#include <stdbool.h>\n" ++
        "const float pi = 3.14;\nconst int n = 10;\nconst char ch = 'x';\n" ++
        "const char* s = \"abc\";\nint main()\n\x7b\n  ;\n  return 0;\n\x7d\n") [] :=
  ⟨by decide!, by decide!⟩

/-! ## C21: annotations that the generator looks up -/

/-- C21 (code defect). `visit(const Write&)` skips an expression whose first factor is an
identifier of a quoted-string constant without analysing it, so a `not` factor further on in
that expression gets no NOT annotation.  For `write(s = not b)` the analysis reports zero
errors, and `Generator::visit(const Factor&)` then looks the annotation up with `at` and ends
with `std::out_of_range`. -/
theorem C21_zero_errors_but_annotation_missing :
    (analyzeSource 128
        "program p; const s = 'hi'; var b: boolean; begin write(s = not b) end.").map
      (fun r => (r.2.error_count, r.2.reports)) = some (0, []) ∧
    solveCCode 128 "program p; const s = 'hi'; var b: boolean; begin write(s = not b) end." =
      .crash .outOfRange :=
  ⟨by decide!, by decide!⟩

/-! ## C22, C27: the END_OF_FILE token and the lines of tokens -/

namespace Lexer

/-- Reading one more character adds one newline exactly when that character is a newline. -/
theorem newlinesBefore_succ (s : List Char) (k : Nat) :
    newlinesBefore s (k + 1) = newlinesBefore s k + (if s.getD k NUL = NEWLINE then 1 else 0) := by
  induction s generalizing k with
  | nil => simp [newlinesBefore]; decide
  | cons a t ih =>
    cases k with
    | zero =>
      by_cases h : a = NEWLINE <;> simp [newlinesBefore, List.count_cons, h]
    | succ k =>
      have := ih k
      simp only [newlinesBefore, List.take_succ_cons, List.count_cons, List.getD_cons_succ] at this ⊢
      omega

/-- A character other than the newline leaves the count as it is. -/
theorem newlinesBefore_succ_of_ne (s : List Char) (k : Nat) (h : s.getD k NUL ≠ NEWLINE) :
    newlinesBefore s (k + 1) = newlinesBefore s k := by
  rw [newlinesBefore_succ, if_neg h]; rfl

/-- A newline raises the count by one. -/
theorem newlinesBefore_succ_of_eq (s : List Char) (k : Nat) (h : s.getD k NUL = NEWLINE) :
    newlinesBefore s (k + 1) = newlinesBefore s k + 1 := by
  rw [newlinesBefore_succ, if_pos h]

/-- A digit is not a newline. -/
theorem ne_newline_of_isdigit (c : Char) (h : isdigit c = true) : c ≠ NEWLINE := by
  intro e; subst e; revert h; decide

end Lexer

namespace Lexer

/-- Nothing moved. -/
theorem Moved.stay (lx : Lexer) : Moved lx lx :=
  ⟨rfl, rfl, rfl, fun h => h, fun _ => rfl⟩

/-- Two stretches in a row. -/
theorem Moved.andThen {a b c : Lexer} (h1 : Moved a b) (h2 : Moved b c) : Moved a c := by
  obtain ⟨s1, t1, l1, e1, n1⟩ := h1
  obtain ⟨s2, t2, l2, e2, n2⟩ := h2
  rw [s1] at e2 n2
  refine ⟨s2.trans s1, t2.trans t1, l2.trans l1, fun h => e2 (e1 h), fun h => ?_⟩
  have hb : b.current < a.src.length := by
    by_contra hb
    exact absurd (e2 (Nat.le_of_not_lt hb)) (Nat.not_le_of_lt h)
  rw [n2 h, n1 hb]

/-- Reading a character that is not a newline. -/
theorem Moved.readChar (lx : Lexer) (h : lx.src.getD lx.current NUL ≠ NEWLINE) :
    Moved lx lx.getNextChar.2 :=
  ⟨rfl, rfl, rfl, fun h => Nat.le_succ_of_le h, fun _ => newlinesBefore_succ_of_ne _ _ h⟩

/-- Stepping back over the character just read. -/
theorem backward_getNextChar (lx : Lexer) : lx.getNextChar.2.backward = lx := by
  cases lx
  simp [getNextChar, backward]

/-- The digit loop only moves `current`; the characters before the last one read are digits. -/
theorem digitLoop_spec (f : Nat) (lx : Lexer) :
    ∃ k, digitLoop f lx = { lx with current := k } ∧
      ((f = 0 ∧ k = lx.current) ∨
        (lx.current < k ∧ newlinesBefore lx.src (k - 1) = newlinesBefore lx.src lx.current)) := by
  induction f generalizing lx with
  | zero => exact ⟨lx.current, rfl, Or.inl ⟨rfl, rfl⟩⟩
  | succ f ih =>
    unfold digitLoop
    simp only [getNextChar]
    split
    · rename_i h
      obtain ⟨k, hk, hcase⟩ := ih { lx with current := lx.current + 1 }
      refine ⟨k, hk, Or.inr ?_⟩
      simp only [Bool.and_eq_true] at h
      have hd := newlinesBefore_succ_of_ne lx.src lx.current (ne_newline_of_isdigit _ h.1)
      rcases hcase with ⟨_, hk0⟩ | ⟨hlt, hnb⟩
      · simp only at hk0
        subst hk0
        exact ⟨Nat.lt_succ_self _, by simp⟩
      · simp only at hlt hnb
        exact ⟨Nat.lt_of_succ_lt hlt, hnb.trans hd⟩
    · exact ⟨lx.current + 1, rfl, Or.inr ⟨Nat.lt_succ_self _, by simp⟩⟩

/-- The digit loop with its step back only moves `current` over digits. -/
theorem digits_moved (lx : Lexer) : Moved lx (digits lx) := by
  unfold digits
  obtain ⟨k, hk, hcase⟩ := digitLoop_spec lx.loopBound lx
  rw [hk]
  rcases hcase with ⟨h0, _⟩ | ⟨hlt, hnb⟩
  · exact absurd h0 (Nat.succ_ne_zero _)
  · simp only [isEnd, backward]
    split
    · rename_i h
      simp only [Bool.not_eq_true', decide_eq_false_iff_not, Nat.not_le] at h
      exact ⟨rfl, rfl, rfl, fun h2 => absurd (Nat.lt_of_le_of_lt h2 hlt) (Nat.lt_asymm h),
        fun _ => hnb⟩
    · rename_i h
      simp only [Bool.not_eq_true', decide_eq_false_iff_not, Nat.not_le, Nat.not_lt] at h
      exact ⟨rfl, rfl, rfl, fun _ => h, fun h2 => absurd h (Nat.not_le_of_lt h2)⟩

end Lexer

namespace Lexer

/-- A sign is not a newline. -/
theorem ne_newline_of_sign (c : Char) (h : (decide (c = '+') || decide (c = '-')) = true) :
    c ≠ NEWLINE := by
  intro e; subst e; revert h; decide

/-- A stretch that ends where it began. -/
theorem Moved.of_current_eq (lx lx' : Lexer) (hs : lx'.src = lx.src)
    (ht : lx'.tokens = lx.tokens) (hl : lx'.line_num = lx.line_num)
    (hc : lx'.current = lx.current) : Moved lx lx' :=
  ⟨hs, ht, hl, fun h => hc ▸ h, fun _ => by rw [hc]⟩

/-- The exponent part of a number only moves `current`, over characters that are not
newlines unless it runs into the end of the text. -/
theorem processScientific_moved (lx : Lexer) : Moved lx (processScientific lx) := by
  unfold processScientific
  simp only [getNextChar]
  split
  · exact Moved.stay _
  · split
    · rename_i he
      have h1 : lx.src.getD lx.current NUL ≠ NEWLINE := by rw [he]; decide
      split
      · exact Moved.of_current_eq _ _ rfl rfl rfl (by simp [backward])
      · split
        · rename_i hs
          have h2 : lx.src.getD (lx.current + 1) NUL ≠ NEWLINE := ne_newline_of_sign _ hs
          split
          · exact Moved.of_current_eq _ _ rfl rfl rfl (by simp [backward])
          · split
            · exact Moved.of_current_eq _ _ rfl rfl rfl (by simp [backward])
            · rename_i hd
              simp only [Bool.not_eq_true', Bool.not_eq_false] at hd
              exact (Moved.readChar lx h1).andThen ((Moved.readChar _ h2).andThen
                ((Moved.readChar _ (ne_newline_of_isdigit _ hd)).andThen (digits_moved _)))
        · split
          · rename_i hd
            exact (Moved.readChar lx h1).andThen
              ((Moved.readChar _ (ne_newline_of_isdigit _ hd)).andThen (digits_moved _))
          · exact Moved.of_current_eq _ _ rfl rfl rfl (by simp [backward])
    · exact Moved.of_current_eq _ _ rfl rfl rfl (by simp [backward])

/-- A stretch that moved `current` only is a step without tokens. -/
theorem Stepped.of_moved {lx lx' : Lexer} (h : Moved lx lx') : Stepped lx lx' := by
  obtain ⟨s, t, l, _, n⟩ := h
  exact ⟨s, ⟨[], by rw [t, List.append_nil], fun _ h => absurd h (List.not_mem_nil _)⟩,
    fun h => by rw [l, n h]⟩

/-- A stretch that moved `current` only, followed by `addToken`. -/
theorem Stepped.token {lx lx' : Lexer} (h : Moved lx lx') (t : TokenType)
    (ht : t ≠ TokenType.END_OF_FILE) : Stepped lx (lx'.addToken t) := by
  obtain ⟨s, tk, l, _, n⟩ := h
  refine ⟨s, ⟨[⟨t, "", lx.line_num⟩], ?_, ?_⟩, fun h => ?_⟩
  · show lx'.tokens ++ _ = _
    rw [tk, l]
  · intro x hx
    rw [List.mem_singleton] at hx
    subst hx
    exact ⟨rfl, ht⟩
  · show lx'.line_num + _ = _ + newlinesBefore lx.src lx'.current
    rw [l, n h]

/-- A stretch that moved `current` only, followed by `addToken` with a value. -/
theorem Stepped.tokenV {lx lx' : Lexer} (h : Moved lx lx') (t : TokenType) (v : List Char)
    (ht : t ≠ TokenType.END_OF_FILE) : Stepped lx (lx'.addTokenV t v) := by
  obtain ⟨s, tk, l, _, n⟩ := h
  refine ⟨s, ⟨[⟨t, String.mk v, lx.line_num⟩], ?_, ?_⟩, fun h => ?_⟩
  · show lx'.tokens ++ _ = _
    rw [tk, l]
  · intro x hx
    rw [List.mem_singleton] at hx
    subst hx
    exact ⟨rfl, ht⟩
  · show lx'.line_num + _ = _ + newlinesBefore lx.src lx'.current
    rw [l, n h]

/-- `Lexer::processNumber` adds one NUMBER token with the line counter it finds. -/
theorem processNumber_stepped {lx0 lx : Lexer} (h : Moved lx0 lx) :
    Stepped lx0 (processNumber lx) := by
  unfold processNumber
  refine Stepped.tokenV (h.andThen ?_) _ _ (by decide)
  have hd := digits_moved lx
  generalize digits lx = d at hd ⊢
  refine hd.andThen ?_
  simp only [getNextChar]
  split
  · split
    · have e : backward { d with current := d.current + 1 } = d := by
        cases d
        simp [backward]
      rw [e]
      exact processScientific_moved _
    · rename_i hc
      simp only [Bool.or_eq_true, decide_eq_true_eq, not_or, ne_eq, Bool.not_eq_true,
        Decidable.not_not] at hc
      have h1 : d.src.getD d.current NUL ≠ NEWLINE := by
        rw [hc.1]; decide
      split
      · exact Moved.of_current_eq _ _ rfl rfl rfl (by simp [backward])
      · rename_i hdg
        simp only [Bool.not_eq_true', Bool.not_eq_false] at hdg
        have m2 := (Moved.readChar d h1).andThen (Moved.readChar _ (ne_newline_of_isdigit _ hdg))
        refine m2.andThen ?_
        have m3 := digits_moved ({ d with current := d.current + 1 + 1 } : Lexer)
        generalize digits ({ d with current := d.current + 1 + 1 } : Lexer) = d2 at m3 ⊢
        exact m3.andThen (processScientific_moved _)
  · exact Moved.stay _

end Lexer

namespace Lexer

/-- A blank is not a newline. -/
theorem ne_newline_of_blank (c : Char)
    (h : (decide (c = ' ') || decide (c = '\t') || decide (c = '\r')) = true) : c ≠ NEWLINE := by
  intro e; subst e; revert h; decide

/-- A letter, a digit or an underscore is not a newline. -/
theorem ne_newline_of_isalnum (c : Char) (h : (isalnum c || decide (c = '_')) = true) :
    c ≠ NEWLINE := by
  intro e; subst e; revert h; decide

/-- Nothing read. -/
theorem Counted.noChar (lx : Lexer) : Counted lx lx :=
  ⟨rfl, rfl, Nat.le_refl _, rfl⟩

/-- Two stretches in a row. -/
theorem Counted.followedBy {a b c : Lexer} (h1 : Counted a b) (h2 : Counted b c) : Counted a c := by
  obtain ⟨s1, t1, m1, n1⟩ := h1
  obtain ⟨s2, t2, m2, n2⟩ := h2
  rw [s1] at n2
  exact ⟨s2.trans s1, t2.trans t1, Nat.le_trans m1 m2, by omega⟩

/-- Reading a character that is not a newline. -/
theorem Counted.read_ne (lx : Lexer) (h : lx.src.getD lx.current NUL ≠ NEWLINE) :
    Counted lx lx.getNextChar.2 :=
  ⟨rfl, rfl, Nat.le_succ _, by
    show lx.line_num + _ = lx.line_num + newlinesBefore lx.src (lx.current + 1)
    rw [newlinesBefore_succ_of_ne _ _ h]⟩

/-- Reading a newline and counting it. -/
theorem Counted.read_eq (lx : Lexer) (h : lx.src.getD lx.current NUL = NEWLINE) :
    Counted lx { lx.getNextChar.2 with line_num := lx.line_num + 1 } :=
  ⟨rfl, rfl, Nat.le_succ _, by
    show lx.line_num + 1 + _ = lx.line_num + newlinesBefore lx.src (lx.current + 1)
    rw [newlinesBefore_succ_of_eq _ _ h]; omega⟩

/-- A stretch that moved `current` only and then one that counted its newlines make a step
without tokens. -/
theorem Stepped.of_moved_counted {a b c : Lexer} (h1 : Moved a b) (h2 : Counted b c) :
    Stepped a c := by
  obtain ⟨s1, t1, l1, _, n1⟩ := h1
  obtain ⟨s2, t2, m2, n2⟩ := h2
  rw [s1] at n2
  refine ⟨s2.trans s1, ⟨[], by rw [t2, t1, List.append_nil],
    fun _ h => absurd h (List.not_mem_nil _)⟩, fun h => ?_⟩
  have hb := n1 (Nat.lt_of_le_of_lt m2 h)
  omega

/-- A token added after a step that kept the line counter. -/
theorem Stepped.tokenV_after {lx lx' : Lexer} (h : Stepped lx lx')
    (hl : lx'.line_num = lx.line_num) (t : TokenType) (v : List Char)
    (ht : t ≠ TokenType.END_OF_FILE) : Stepped lx (lx'.addTokenV t v) := by
  obtain ⟨s, ⟨added, ha, hall⟩, n⟩ := h
  refine ⟨s, ⟨added ++ [⟨t, String.mk v, lx.line_num⟩], ?_, ?_⟩, n⟩
  · show lx'.tokens ++ _ = _
    rw [ha, hl, List.append_assoc]
  · intro x hx
    rcases List.mem_append.1 hx with hx | hx
    · exact hall x hx
    · rw [List.mem_singleton] at hx
      subst hx
      exact ⟨rfl, ht⟩

/-- The end of the `case '\''` branch: a CHAR_LITERAL token unless a string was read, and
the flag reset. -/
theorem Stepped.finish {lx l : Lexer} (h : Stepped lx l) (hl : l.line_num = lx.line_num)
    (v : List Char) :
    Stepped lx { (if (!l.processingString) = true then l.addTokenV .CHAR_LITERAL v else l) with
      processingString := false } := by
  split
  · exact Stepped.tokenV_after h hl _ _ (by decide)
  · exact h

/-- No keyword of the table is END_OF_FILE. -/
theorem keywords_ne_eof (w : String) (t : TokenType) (h : KEYWORDS.lookup w = some t) :
    t ≠ TokenType.END_OF_FILE := by
  have hmem : ∀ (l : List (String × TokenType)), l.lookup w = some t → t ∈ l.map Prod.snd := by
    intro l
    induction l with
    | nil => intro h; cases h
    | cons a tl ih =>
      intro h
      rw [List.lookup_cons] at h
      split at h
      · cases h
        exact List.mem_cons_self _ _
      · exact List.mem_cons_of_mem _ (ih h)
  have hall : ∀ x ∈ KEYWORDS.map Prod.snd, x ≠ TokenType.END_OF_FILE := by decide
  exact hall t (hmem _ h)

/-- The loop over the characters of a word only moves `current`; the last character read
is returned and the characters before it are letters, digits or underscores. -/
theorem alnumLoop_spec (f : Nat) (lx : Lexer) (c0 : Char) (cnt : Nat) :
    ∃ k c cnt', alnumLoop f lx c0 cnt = ({ lx with current := k }, c, cnt') ∧
      ((f = 0 ∧ k = lx.current ∧ c = c0) ∨
        (lx.current < k ∧ c = lx.src.getD (k - 1) NUL ∧
          newlinesBefore lx.src (k - 1) = newlinesBefore lx.src lx.current)) := by
  induction f generalizing lx c0 cnt with
  | zero => exact ⟨lx.current, c0, cnt, rfl, Or.inl ⟨rfl, rfl, rfl⟩⟩
  | succ f ih =>
    unfold alnumLoop
    simp only [getNextChar]
    split
    · rename_i h
      obtain ⟨k, c, cnt', hk, hcase⟩ :=
        ih { lx with current := lx.current + 1 } (lx.src.getD lx.current NUL) (cnt + 1)
      refine ⟨k, c, cnt', hk, Or.inr ?_⟩
      simp only [Bool.and_eq_true] at h
      have hd := newlinesBefore_succ_of_ne lx.src lx.current (ne_newline_of_isalnum _ h.1)
      rcases hcase with ⟨_, hk0, hc⟩ | ⟨hlt, hc, hnb⟩
      · simp only at hk0
        subst hk0
        exact ⟨Nat.lt_succ_self _, by simpa using hc, by simp⟩
      · simp only at hlt hnb hc
        exact ⟨Nat.lt_of_succ_lt hlt, hc, hnb.trans hd⟩
    · exact ⟨lx.current + 1, _, cnt, rfl, Or.inr ⟨Nat.lt_succ_self _, by simp, by simp⟩⟩

end Lexer

namespace Lexer

/-- `Lexer::processKeywordsAndIdentifiersAndAlphaOps` adds at most one token, which carries
the line counter it finds and is not END_OF_FILE. -/
theorem processKeywords_stepped {lx0 lx : Lexer} (h : Moved lx0 lx) :
    Stepped lx0 (processKeywordsAndIdentifiersAndAlphaOps lx).1 := by
  unfold processKeywordsAndIdentifiersAndAlphaOps
  obtain ⟨k, c, cnt, hk, hcase⟩ := alnumLoop_spec lx.loopBound lx NUL 1
  rw [hk]
  simp only
  rcases hcase with ⟨h0, _⟩ | ⟨hlt, hc, hnb⟩
  · exact absurd h0 (Nat.succ_ne_zero _)
  have hm : Moved lx0
      (if (!isalnum c && decide (c ≠ '_')) = true then backward { lx with current := k }
        else { lx with current := k }) := by
    refine h.andThen ?_
    split
    · exact ⟨rfl, rfl, rfl, fun h2 => by simp only [backward]; omega, fun _ => hnb⟩
    · rename_i hcond
      refine ⟨rfl, rfl, rfl, fun h2 => by simp only; omega, fun _ => ?_⟩
      have hal : (isalnum c || decide (c = '_')) = true := by
        revert hcond
        cases isalnum c <;> by_cases hu : c = '_' <;> simp [hu]
      have hne := ne_newline_of_isalnum c hal
      rw [hc] at hne
      have := newlinesBefore_succ_of_ne lx.src (k - 1) hne
      have hk1 : k - 1 + 1 = k := by omega
      rw [hk1] at this
      exact this.trans hnb
  generalize (if (!isalnum c && decide (c ≠ '_')) = true then backward { lx with current := k }
        else { lx with current := k }) = lx2 at hm
  split
  · exact Stepped.of_moved hm
  · split
    · exact Stepped.token hm _ (by decide)
    · split
      · exact Stepped.token hm _ (by decide)
      · split
        · exact Stepped.token hm _ (by decide)
        · split
          · exact Stepped.token hm _ (by decide)
          · split
            · exact Stepped.token hm _ (by decide)
            · split
              · rename_i t ht
                exact Stepped.token hm _ (keywords_ne_eof _ _ ht)
              · exact Stepped.tokenV hm _ _ (by decide)

/-- The loop of `Lexer::processString` counts the newline it stops at; when it ends at the
closing quote the line counter is as before. -/
theorem stringLoop_counted (f : Nat) (lx : Lexer) :
    Counted lx (stringLoop f lx).1 ∧
      ((stringLoop f lx).2 = none → (stringLoop f lx).1.line_num = lx.line_num) := by
  induction f generalizing lx with
  | zero => exact ⟨Counted.noChar _, fun _ => rfl⟩
  | succ f ih =>
    unfold stringLoop
    simp only [getNextChar]
    split
    · rename_i hq
      exact ⟨Counted.read_ne lx (by rw [hq]; decide), fun _ => rfl⟩
    · split
      · rename_i hn
        exact ⟨Counted.read_eq lx hn, fun h => by cases h⟩
      · rename_i hn
        split
        · exact ⟨Counted.read_ne lx hn, fun h => by cases h⟩
        · obtain ⟨h1, h2⟩ := ih { lx with current := lx.current + 1 }
          exact ⟨(Counted.read_ne lx hn).followedBy h1, h2⟩

/-- `Lexer::processString` adds at most one token, which carries the line counter it
finds; when it returns the line counter is as before. -/
theorem processString_stepped {lx0 lx : Lexer} (h : Moved lx0 lx) :
    Stepped lx0 (processString lx).1 ∧
      ((processString lx).2 = none → (processString lx).1.line_num = lx0.line_num) := by
  have h' : Moved lx0 { lx with processingString := true } :=
    ⟨h.1, h.2.1, h.2.2.1, h.2.2.2.1, h.2.2.2.2⟩
  unfold processString
  simp only
  generalize ({ lx with processingString := true } : Lexer) = l at h'
  split
  · exact ⟨Stepped.of_moved h', fun h => by cases h⟩
  · obtain ⟨h1, h2⟩ := stringLoop_counted l.loopBound l
    split
    · rename_i lx1 e heq
      rw [heq] at h1
      exact ⟨Stepped.of_moved_counted h' h1, fun h => by cases h⟩
    · rename_i lx1 heq
      rw [heq] at h1 h2
      have hl : lx1.line_num = lx0.line_num := (h2 rfl).trans h'.2.2.1
      exact ⟨Stepped.tokenV_after (Stepped.of_moved_counted h' h1) hl _ _ (by decide), fun _ => hl⟩

/-- The loop of a `//` comment reads up to a newline, which is counted after the loop. -/
theorem lineCommentLoop_counted (f : Nat) (lx : Lexer) (c : Char) (hc : c ≠ NEWLINE) :
    Counted lx (if (lineCommentLoop f lx c).2 = NEWLINE then
        { (lineCommentLoop f lx c).1 with line_num := (lineCommentLoop f lx c).1.line_num + 1 }
      else (lineCommentLoop f lx c).1) := by
  induction f generalizing lx c with
  | zero =>
    show Counted lx (if c = NEWLINE then _ else lx)
    rw [if_neg hc]
    exact Counted.noChar _
  | succ f ih =>
    unfold lineCommentLoop
    simp only [getNextChar]
    split
    · simp only [if_neg hc]
      exact Counted.noChar _
    · split
      · rename_i hn
        exact (Counted.read_ne lx hn).followedBy (ih _ _ hn)
      · rename_i hn
        simp only [ne_eq, Decidable.not_not] at hn
        simp only [hn, if_true]
        exact Counted.read_eq lx hn

/-- The loop of a brace comment counts the newlines it reads. -/
theorem braceCommentLoop_counted (f : Nat) (lx : Lexer) : Counted lx (braceCommentLoop f lx) := by
  induction f generalizing lx with
  | zero => exact Counted.noChar _
  | succ f ih =>
    unfold braceCommentLoop
    simp only [getNextChar]
    split
    · exact Counted.noChar _
    · split
      · split
        · rename_i hn
          exact (Counted.read_eq lx hn).followedBy (ih _)
        · rename_i hn
          exact (Counted.read_ne lx hn).followedBy (ih _)
      · rename_i hb
        simp only [ne_eq, Decidable.not_not] at hb
        exact Counted.read_ne lx (by rw [hb]; decide)

end Lexer

namespace Lexer

/-- The `case '\''` branch of `Lexer::scanNextToken` is a step. -/
theorem scanQuote_stepped {lx0 lx : Lexer} (h : Moved lx0 lx) :
    Stepped lx0 (scanQuote lx).1 := by
  unfold scanQuote
  simp only [getNextChar]
  split
  · exact Stepped.of_moved h
  split
  · rename_i hn
    exact Stepped.of_moved_counted h (Counted.read_eq lx hn)
  rename_i hn1
  have m1 : Moved lx0 lx.getNextChar.2 := h.andThen (Moved.readChar lx hn1)
  split
  · exact Stepped.of_moved m1
  split
  · exact Stepped.of_moved m1
  split
  · split
    · rename_i hn
      exact Stepped.of_moved_counted m1 (Counted.read_eq _ hn)
    · have hb : backward (backward
          ({ lx with current := lx.current + 1 + 1 } : Lexer)) = lx := by
        cases lx
        simp [backward]
      simp only [hb]
      obtain ⟨h1, h2⟩ := processString_stepped h
      split
      · rename_i lx3 e heq
        rw [heq] at h1
        exact h1
      · rename_i lx3 heq
        rw [heq] at h1 h2
        exact Stepped.finish h1 (h2 rfl) _
  · rename_i hq
    simp only [ne_eq, Decidable.not_not] at hq
    have m2 : Moved lx0 lx.getNextChar.2.getNextChar.2 :=
      m1.andThen (Moved.readChar _ (by
        show lx.src.getD (lx.current + 1) NUL ≠ NEWLINE
        rw [hq]; decide))
    exact Stepped.finish (Stepped.of_moved m2) m2.2.2.1 _

end Lexer

namespace Lexer

/-- One call of `Lexer::scanNextToken` is a step: the tokens it adds carry the line counter
of the start of the call and are not END_OF_FILE, and the line counter rises by the number
of newlines passed. -/
theorem scanNextToken_stepped (lx : Lexer) : Stepped lx (scanNextToken lx).1 := by
  delta scanNextToken getNextChar
  split
  rename_i c lx1 heq
  obtain ⟨hc, hlx1⟩ := Prod.mk.inj heq
  clear heq
  by_cases h : (decide (c = ' ') || decide (c = '\t') || decide (c = '\r')) = true
  · rw [if_pos h]
    subst hc hlx1
    exact Stepped.of_moved (Moved.readChar lx (ne_newline_of_blank _ h))
  rw [if_neg h]
  clear h
  by_cases hnl : c = NEWLINE
  · rw [if_pos hnl]
    subst hc hlx1
    exact Stepped.of_moved_counted (Moved.stay lx) (Counted.read_eq lx hnl)
  rw [if_neg hnl]
  have m1 : Moved lx lx1 := by
    subst hc hlx1
    exact Moved.readChar lx hnl
  have two : ∀ t : Char, t ≠ NEWLINE → lx1.src.getD lx1.current NUL = t →
      Moved lx lx1.getNextChar.2 := fun t ht h =>
    m1.andThen (Moved.readChar _ (by rw [h]; exact ht))
  have back : lx1.backward = lx := by
    subst hlx1
    cases lx
    simp [backward]
  have back2 : backward ({ lx1 with current := lx1.current + 1 } : Lexer) = lx1 := by
    cases lx1
    simp [backward]
  have tok : ∀ t : TokenType, t ≠ TokenType.END_OF_FILE →
      Stepped lx (lx1.addToken t, (none : Option LexerException)).1 :=
    fun t ht => Stepped.token m1 t ht
  have tok0 : ∀ t : TokenType, t ≠ TokenType.END_OF_FILE →
      Stepped lx (lx1.backward.addToken t, (none : Option LexerException)).1 := fun t ht => by
    rw [back]
    exact Stepped.token (Moved.stay lx) t ht
  have tok1 : ∀ t : TokenType, t ≠ TokenType.END_OF_FILE →
      Stepped lx ((backward ({ lx1 with current := lx1.current + 1 } : Lexer)).addToken t,
        (none : Option LexerException)).1 := fun t ht => by
    rw [back2]
    exact Stepped.token m1 t ht
  have tok2 : ∀ (t : TokenType) (d : Char), t ≠ TokenType.END_OF_FILE → d ≠ NEWLINE →
      lx1.src.getD lx1.current NUL = d →
      Stepped lx (addToken ({ lx1 with current := lx1.current + 1 } : Lexer) t,
        (none : Option LexerException)).1 :=
    fun t d ht hd h => Stepped.token (two d hd h) t ht
  clear hlx1 hc
  by_cases h : c = '('
  · rw [if_pos h]
    exact tok _ (by decide)
  rw [if_neg h]
  clear h
  by_cases h : c = ')'
  · rw [if_pos h]
    exact tok _ (by decide)
  rw [if_neg h]
  clear h
  by_cases h : c = ','
  · rw [if_pos h]
    exact tok _ (by decide)
  rw [if_neg h]
  clear h
  by_cases h : c = ';'
  · rw [if_pos h]
    exact tok _ (by decide)
  rw [if_neg h]
  clear h
  by_cases h : c = '.'
  · rw [if_pos h]
    split
    · exact tok _ (by decide)
    · split
      rename_i c2 lx2 heq
      obtain ⟨hc2, hlx2⟩ := Prod.mk.inj heq
      subst hc2 hlx2
      split
      · rename_i h2
        exact tok2 _ _ (by decide) (by decide) h2
      · exact tok1 _ (by decide)
  rw [if_neg h]
  clear h
  by_cases h : c = ':'
  · rw [if_pos h]
    split
    · exact tok0 _ (by decide)
    · split
      rename_i c2 lx2 heq
      obtain ⟨hc2, hlx2⟩ := Prod.mk.inj heq
      subst hc2 hlx2
      split
      · rename_i h2
        exact tok2 _ _ (by decide) (by decide) h2
      · exact tok1 _ (by decide)
  rw [if_neg h]
  clear h
  by_cases h : c = QUOTE
  · rw [if_pos h]
    exact scanQuote_stepped m1
  rw [if_neg h]
  clear h
  by_cases h : c = '['
  · rw [if_pos h]
    exact tok _ (by decide)
  rw [if_neg h]
  clear h
  by_cases h : c = ']'
  · rw [if_pos h]
    exact tok _ (by decide)
  rw [if_neg h]
  clear h
  by_cases h : c = '+'
  · rw [if_pos h]
    exact tok _ (by decide)
  rw [if_neg h]
  clear h
  by_cases h : c = '-'
  · rw [if_pos h]
    exact tok _ (by decide)
  rw [if_neg h]
  clear h
  by_cases h : c = '*'
  · rw [if_pos h]
    exact tok _ (by decide)
  rw [if_neg h]
  clear h
  by_cases h : c = '/'
  · rw [if_pos h]
    split
    · exact tok0 _ (by decide)
    · split
      rename_i c2 lx2 heq
      obtain ⟨hc2, hlx2⟩ := Prod.mk.inj heq
      subst hc2 hlx2
      split
      · rename_i h2
        split
        rename_i lx3 c3 heq
        have hl := lineCommentLoop_counted (loopBound lx1.getNextChar.2)
          lx1.getNextChar.2 c hnl
        have e : lineCommentLoop (loopBound lx1.getNextChar.2) lx1.getNextChar.2 c =
            (lx3, c3) := heq
        rw [e] at hl
        exact Stepped.of_moved_counted (two _ (by decide) h2) hl
      · exact tok1 _ (by decide)
  rw [if_neg h]
  clear h
  by_cases h : c = '='
  · rw [if_pos h]
    exact tok _ (by decide)
  rw [if_neg h]
  clear h
  by_cases h : c = '<'
  · rw [if_pos h]
    split
    · exact tok0 _ (by decide)
    · split
      rename_i c2 lx2 heq
      obtain ⟨hc2, hlx2⟩ := Prod.mk.inj heq
      subst hc2 hlx2
      split
      · rename_i h2
        exact tok2 _ _ (by decide) (by decide) h2
      · split
        · rename_i h2
          exact tok2 _ _ (by decide) (by decide) h2
        · exact tok1 _ (by decide)
  rw [if_neg h]
  clear h
  by_cases h : c = '>'
  · rw [if_pos h]
    split
    · exact tok0 _ (by decide)
    · split
      rename_i c2 lx2 heq
      obtain ⟨hc2, hlx2⟩ := Prod.mk.inj heq
      subst hc2 hlx2
      split
      · rename_i h2
        exact tok2 _ _ (by decide) (by decide) h2
      · exact tok1 _ (by decide)
  rw [if_neg h]
  clear h
  by_cases h : c = Char.ofNat 123
  · rw [if_pos h]
    exact Stepped.of_moved_counted m1 (braceCommentLoop_counted _ _)
  rw [if_neg h]
  clear h
  by_cases h : isdigit c = true
  · rw [if_pos h]
    exact processNumber_stepped m1
  rw [if_neg h]
  clear h
  by_cases h : isalpha c = true
  · rw [if_pos h]
    exact processKeywords_stepped m1
  rw [if_neg h]
  exact Stepped.of_moved m1

end Lexer

namespace Lexer

/-- Lower-casing a character neither makes nor removes a newline. -/
theorem tolower_eq_newline (c : Char) : tolower c = NEWLINE ↔ c = NEWLINE := by
  unfold tolower
  split
  · rename_i h
    obtain ⟨h1, h2⟩ := h
    constructor
    · intro e
      exfalso
      revert e
      rw [← Char.ofNat_toNat c]
      generalize c.toNat = n at h1 h2
      interval_cases n <;> decide
    · intro e
      subst e
      revert h1
      decide
  · exact Iff.rfl

/-- The lower-cased text has its newlines where the text has them. -/
theorem newlinesBefore_stringToLower (s : List Char) (k : Nat) :
    newlinesBefore (stringToLower s) k = newlinesBefore s k := by
  unfold newlinesBefore stringToLower
  rw [← List.map_take]
  generalize s.take k = l
  induction l with
  | nil => rfl
  | cons a t ih =>
    rw [List.map_cons, List.count_cons, List.count_cons, ih]
    by_cases h : a = NEWLINE
    · have h2 := (tolower_eq_newline a).2 h
      rw [h2, h]
    · have h2 : ¬ tolower a = NEWLINE := fun e => h ((tolower_eq_newline a).1 e)
      simp [h, h2]

/-- As many copies of a position as a list of tokens has members pair with the tokens. -/
theorem forall2_replicate (R : Token → Nat → Prop) (l : List Token) (p : Nat)
    (h : ∀ t ∈ l, R t p) : List.Forall₂ R l (List.replicate l.length p) := by
  induction l with
  | nil => exact List.Forall₂.nil
  | cons a t ih =>
    exact List.Forall₂.cons (h a (List.mem_cons_self _ _))
      (ih fun x hx => h x (List.mem_cons_of_mem _ hx))

/-- The loop of `Lexer::scan`: it keeps the text, no token it adds is END_OF_FILE, and when
the line counter is right at the start, every token it adds has the line of the position at
which the token starts. -/
theorem scanLoop_spec (fuel : Nat) (lx : Lexer) (errors : List LexerException) (r : Lexer)
    (errors' : List LexerException) (h : scanLoop fuel lx errors = some (r, errors')) :
    r.src = lx.src ∧ ∃ added, r.tokens = lx.tokens ++ added ∧
      (∀ t ∈ added, t.type ≠ TokenType.END_OF_FILE) ∧
      ((lx.current < lx.src.length → lx.line_num = 1 + newlinesBefore lx.src lx.current) →
        List.Forall₂ (fun t p => t.line = 1 + newlinesBefore lx.src p) added
          (scanStarts fuel lx)) := by
  induction fuel generalizing lx errors with
  | zero => cases h
  | succ fuel ih =>
    unfold scanLoop at h
    unfold scanStarts
    split at h
    · rename_i hend
      cases h
      rw [if_pos hend]
      exact ⟨rfl, [], (List.append_nil _).symm, fun _ h => absurd h (List.not_mem_nil _),
        fun _ => List.Forall₂.nil⟩
    · rename_i hend
      rw [if_neg hend]
      have hlt : lx.current < lx.src.length := by
        simpa [isEnd] using hend
      have hs := scanNextToken_stepped { lx with start := lx.current }
      obtain ⟨hsrc, ⟨added1, hadd1, hall1⟩, hline⟩ := hs
      have key : ∀ errs2, scanLoop fuel (scanNextToken { lx with start := lx.current }).1 errs2 =
          some (r, errors') → _ := fun errs2 h2 => ih _ errs2 h2
      have h2 : ∃ errs2, scanLoop fuel (scanNextToken { lx with start := lx.current }).1 errs2 =
          some (r, errors') := by
        split at h
        · rename_i lx1 e heq
          exact ⟨_, by rw [heq]; exact h⟩
        · rename_i lx1 heq
          exact ⟨_, by rw [heq]; exact h⟩
      obtain ⟨errs2, h2⟩ := h2
      obtain ⟨hsrc2, added2, hadd2, hall2, hforall⟩ := key errs2 h2
      generalize (scanNextToken { lx with start := lx.current }).1 = lx1 at *
      simp only at hsrc hadd1 hall1 hline
      refine ⟨hsrc2.trans hsrc, added1 ++ added2, ?_, ?_, fun hinv => ?_⟩
      · rw [hadd2, hadd1, List.append_assoc]
      · intro t ht
        rcases List.mem_append.1 ht with ht | ht
        · exact (hall1 t ht).2
        · exact hall2 t ht
      · have hl := hinv hlt
        have hlen : lx1.tokens.length - lx.tokens.length = added1.length := by
          rw [hadd1, List.length_append]; omega
        dsimp only
        rw [hlen]
        refine List.rel_append (forall2_replicate _ _ _ fun t ht => ?_) ?_
        · rw [(hall1 t ht).1, hl]
        · rw [hsrc] at hforall
          refine hforall fun hlt1 => ?_
          have := hline hlt1
          omega

end Lexer

/-- C22 (the END_OF_FILE token): whenever `Lexer::scan` completes, with or without errors,
the token list is a list without END_OF_FILE tokens followed by one END_OF_FILE token, whose
line is the final value of the line counter. -/
theorem C22_end_of_file_token_is_last_and_only (fuel : Nat) (src : String) (lx : Lexer)
    (errors : List LexerException) (h : Lexer.scan fuel (Lexer.new src) = some (lx, errors)) :
    ∃ before, lx.tokens = before ++ [⟨.END_OF_FILE, "", lx.line_num⟩] ∧
      ∀ t ∈ before, t.type ≠ TokenType.END_OF_FILE := by
  unfold Lexer.scan at h
  split at h
  · cases h
  · rename_i lx1 errs heq
    cases h
    obtain ⟨_, added, hadd, hall, _⟩ := Lexer.scanLoop_spec _ _ _ _ _ heq
    refine ⟨added, ?_, hall⟩
    show lx1.tokens ++ _ = _
    rw [hadd]
    rfl

/-- Witness of C22: the text `x := 'a⏎y` scans with one error; its tokens are IDENTIFIER,
ASSIGN, IDENTIFIER and one END_OF_FILE on line 2, the final line. -/
theorem C22_end_of_file_token_is_last_and_only_witness :
    Lexer.scan 16 (Lexer.new unclosedExampleSource) =
        some (unclosedExampleLexer,
          [⟨"Unclosed char literal " ++ String.mk [QUOTE, 'a'] ++ ".", 1⟩]) ∧
      ∃ before, unclosedExampleLexer.tokens =
          before ++ [⟨.END_OF_FILE, "", unclosedExampleLexer.line_num⟩] ∧
        ∀ t ∈ before, t.type ≠ TokenType.END_OF_FILE :=
  ⟨by decide!,
    C22_end_of_file_token_is_last_and_only 16 unclosedExampleSource unclosedExampleLexer
      [⟨"Unclosed char literal " ++ String.mk [QUOTE, 'a'] ++ ".", 1⟩] (by decide!)⟩

/-- C23 (code defect). The digit loops of `Lexer::processNumber` step back from the
character that ends the number only when the text has not ended: in `x := 1;` the final
semicolon is read into the token, NUMBER `1;`, and no SEMICOLON token follows; a final dot is
read into NUMBER `1.`.  With one more character after them the same texts give NUMBER `1`
followed by SEMICOLON, and NUMBER `1` followed by DOT. -/
theorem C23_number_takes_last_character_of_text :
    (Lexer.scan 8 (Lexer.new "x := 1;")).map (fun r => (r.1.tokens, r.2)) =
      some ([⟨.IDENTIFIER, "x", 1⟩, ⟨.ASSIGN, "", 1⟩, ⟨.NUMBER, "1;", 1⟩,
        ⟨.END_OF_FILE, "", 1⟩], []) ∧
    (Lexer.scan 8 (Lexer.new "1.")).map (fun r => (r.1.tokens, r.2)) =
      some ([⟨.NUMBER, "1.", 1⟩, ⟨.END_OF_FILE, "", 1⟩], []) ∧
    (Lexer.scan 8 (Lexer.new "1; ")).map (fun r => (r.1.tokens, r.2)) =
      some ([⟨.NUMBER, "1", 1⟩, ⟨.SEMICOLON, "", 1⟩, ⟨.END_OF_FILE, "", 1⟩], []) ∧
    (Lexer.scan 8 (Lexer.new "1. ")).map (fun r => (r.1.tokens, r.2)) =
      some ([⟨.NUMBER, "1", 1⟩, ⟨.DOT, "", 1⟩, ⟨.END_OF_FILE, "", 1⟩], []) :=
  ⟨by decide!, by decide!, by decide!, by decide!⟩

/-! ## C24: words and letter case -/

namespace Lexer

end Lexer

namespace Lexer

end Lexer

namespace Lexer

end Lexer

/-- C25 (code defect). The counting loop of
`Lexer::processKeywordsAndIdentifiersAndAlphaOps` tests for the end of the text after it has
read a character and before it counts it: an identifier of 257 characters that ends the text
is counted as 256 and accepted, while the same identifier followed by `;` is reported as too
long. -/
theorem C25_long_identifier_at_end_is_accepted :
    (Lexer.scan 4 (Lexer.new (String.mk (List.replicate 257 'a')))).map
        (fun r => (r.1.tokens, r.2)) =
      some ([⟨.IDENTIFIER, String.mk (List.replicate 257 'a'), 1⟩, ⟨.END_OF_FILE, "", 1⟩], []) ∧
    (Lexer.scan 4 (Lexer.new (String.mk (List.replicate 257 'a' ++ [';'])))).map
        (fun r => (r.1.tokens, r.2)) =
      some ([⟨.SEMICOLON, "", 1⟩, ⟨.END_OF_FILE, "", 1⟩],
        [⟨"Identifier " ++ String.mk [QUOTE] ++ "aaaaaaaaaa..." ++ String.mk [QUOTE] ++
          " is too long.", 1⟩]) :=
  ⟨by decide!, by decide!⟩

/-! ## C26: an unclosed character literal at the end of the text -/

namespace Lexer

/-- The first iterations of the loop of `Lexer::scan` keep the text, and keep the line
counter equal to one plus the number of newlines before `current`. -/
theorem scanSteps_spec (k : Nat) (lx : Lexer) (errors : List LexerException) (r : Lexer)
    (errors' : List LexerException) (h : scanSteps k lx errors = (r, errors')) :
    r.src = lx.src ∧
      ((lx.current < lx.src.length → lx.line_num = 1 + newlinesBefore lx.src lx.current) →
        r.current < lx.src.length → r.line_num = 1 + newlinesBefore lx.src r.current) := by
  induction k generalizing lx errors with
  | zero =>
    cases h
    exact ⟨rfl, fun h => h⟩
  | succ k ih =>
    unfold scanSteps at h
    split at h
    · cases h
      exact ⟨rfl, fun h => h⟩
    · rename_i hend
      have hlt : lx.current < lx.src.length := by
        simpa [isEnd] using hend
      obtain ⟨hsrc, _, hline⟩ := scanNextToken_stepped { lx with start := lx.current }
      have h2 : ∃ errs2, scanSteps k (scanNextToken { lx with start := lx.current }).1 errs2 =
          (r, errors') := by
        split at h
        · rename_i lx1 e heq
          exact ⟨_, by rw [heq]; exact h⟩
        · rename_i lx1 heq
          exact ⟨_, by rw [heq]; exact h⟩
      obtain ⟨errs2, h2⟩ := h2
      obtain ⟨hsrc2, hinv2⟩ := ih _ _ h2
      generalize (scanNextToken { lx with start := lx.current }).1 = lx1 at *
      simp only at hsrc hline
      rw [hsrc] at hinv2
      refine ⟨hsrc2.trans hsrc, fun hinv hr => hinv2 (fun hlt1 => ?_) hr⟩
      have := hline hlt1
      have := hinv hlt
      omega

/-- The loop of `Lexer::scan` goes on from where its first iterations have arrived. -/
theorem scanLoop_of_scanSteps (k : Nat) (lx : Lexer) (errors : List LexerException) (r : Lexer)
    (errors' : List LexerException) (h : scanSteps k lx errors = (r, errors')) (f : Nat) :
    scanLoop (k + (f + 1)) lx errors = scanLoop (f + 1) r errors' := by
  induction k generalizing lx errors with
  | zero =>
    cases h
    rw [Nat.zero_add]
  | succ k ih =>
    unfold scanSteps at h
    rw [show k + 1 + (f + 1) = (k + (f + 1)) + 1 by omega]
    split at h
    · rename_i hend
      cases h
      unfold scanLoop
      rw [if_pos hend, if_pos hend]
    · rename_i hend
      rw [scanLoop, if_neg hend]
      split at h
      · rename_i lx1 e heq
        try rw [heq]
        exact ih _ _ h
      · rename_i lx1 heq
        try rw [heq]
        exact ih _ _ h

/-- A quote followed by one last character that is neither a quote nor a newline:
`Lexer::scanNextToken` reads both and throws `Unclosed char literal`. -/
theorem scanNextToken_unclosed_char (lx : Lexer) (c : Char)
    (h0 : lx.src.getD lx.current NUL = QUOTE) (h1 : lx.src.getD (lx.current + 1) NUL = c)
    (hlen : lx.src.length = lx.current + 2) (hq : c ≠ QUOTE) (hn : c ≠ NEWLINE) :
    scanNextToken lx = ({ lx with current := lx.current + 2 },
      some ⟨"Unclosed char literal " ++
        String.mk (substr lx.src lx.start (lx.current + 2 - lx.start)) ++ ".", lx.line_num⟩) := by
  delta scanNextToken
  show (match ((lx.src.getD lx.current NUL, lx.getNextChar.2) : Char × Lexer) with
    | (c, lx1) => _) = _
  dsimp only
  rw [h0]
  rw [if_neg (by decide), if_neg (by decide), if_neg (by decide), if_neg (by decide),
    if_neg (by decide), if_neg (by decide), if_neg (by decide), if_neg (by decide),
    if_pos rfl]
  unfold scanQuote
  simp only [getNextChar, isEnd, hlen, h1]
  rw [if_neg (by simp), if_neg hn, if_neg hq, if_pos (by simp)]

end Lexer

/-- C26, the claim as it is written: a quote and one character at the very end of the text
are not reported when a comment of the text before them is still open.  The texts `//` and
`\x7b` scan without error, and so do `//'a` and `\x7b'a`: no error, no token but
END_OF_FILE. -/
theorem C26_quote_inside_comment_is_not_reported :
    (Lexer.scan 8 (Lexer.new "//")).map (fun r => r.2) = some [] ∧
    (Lexer.scan 8 (Lexer.new "//'a")).map (fun r => (r.1.tokens, r.2)) =
      some ([⟨.END_OF_FILE, "", 1⟩], []) ∧
    (Lexer.scan 8 (Lexer.new "\x7b")).map (fun r => r.2) = some [] ∧
    (Lexer.scan 8 (Lexer.new "\x7b'a")).map (fun r => (r.1.tokens, r.2)) =
      some ([⟨.END_OF_FILE, "", 1⟩], []) :=
  ⟨by decide!, by decide!, by decide!, by decide!⟩

/-- C26 (unclosed character literal at the end of the text), amended: when the loop of
`Lexer::scan` arrives without error at a quote that starts a token and is followed by
exactly one more character `c`, neither a quote nor a newline and lower-case if a letter,
the scan completes with exactly one error, `Unclosed char literal 'c.`, on the line of the
quote; the tokens collected before the quote are kept and END_OF_FILE follows them. -/
theorem C26_unclosed_char_literal_at_end (before : List Char) (c : Char) (k : Nat) (lx : Lexer)
    (hq : c ≠ QUOTE) (hn : c ≠ NEWLINE) (hl : tolower c = c)
    (hreach : Lexer.scanSteps k (Lexer.new (String.mk (before ++ [QUOTE, c]))) [] = (lx, []))
    (hpos : lx.current = before.length) :
    Lexer.scan (k + 2) (Lexer.new (String.mk (before ++ [QUOTE, c]))) =
      some ({ lx with
          start := before.length
          current := before.length + 2
          tokens := lx.tokens ++ [⟨.END_OF_FILE, "", lx.line_num⟩] },
        [⟨"Unclosed char literal " ++ String.mk [QUOTE, c] ++ ".", lx.line_num⟩]) ∧
    lx.line_num = 1 + Lexer.newlinesBefore (before ++ [QUOTE, c]) before.length := by
  obtain ⟨hsrc, hinv⟩ := Lexer.scanSteps_spec _ _ _ _ _ hreach
  have hsrc' : lx.src = Lexer.stringToLower before ++ [QUOTE, c] := by
    rw [hsrc]
    show Lexer.stringToLower (before ++ [QUOTE, c]) = _
    unfold Lexer.stringToLower
    rw [List.map_append, List.map_cons, List.map_cons, List.map_nil, hl]
    rfl
  have hlen : lx.src.length = lx.current + 2 := by
    rw [hsrc', hpos]
    simp [Lexer.stringToLower]
  have hbl : (Lexer.stringToLower before).length = before.length := by
    simp [Lexer.stringToLower]
  have h0 : lx.src.getD lx.current NUL = QUOTE := by
    rw [hsrc', hpos, List.getD_append_right _ _ _ _ (by rw [hbl]), hbl, Nat.sub_self]
    rfl
  have h1 : lx.src.getD (lx.current + 1) NUL = c := by
    rw [hsrc', hpos, List.getD_append_right _ _ _ _ (by rw [hbl]; omega), hbl,
      Nat.add_sub_cancel_left]
    rfl
  have hstep := Lexer.scanNextToken_unclosed_char { lx with start := lx.current } c h0 h1 hlen hq hn
  constructor
  · unfold Lexer.scan
    rw [show k + 2 = k + (1 + 1) by rfl, Lexer.scanLoop_of_scanSteps _ _ _ _ _ hreach 1]
    have hnend : ¬ lx.isEnd = true := by
      simp [Lexer.isEnd, hlen]
    rw [Lexer.scanLoop, if_neg hnend, hstep]
    simp only
    have hend2 : Lexer.isEnd ({ lx with start := lx.current, current := lx.current + 2 } : Lexer)
        = true := by
      simp [Lexer.isEnd, hlen]
    rw [Lexer.scanLoop, if_pos hend2]
    simp only [List.nil_append, Lexer.addToken]
    have hsub : substr lx.src lx.current (lx.current + 2 - lx.current) = [QUOTE, c] := by
      rw [Nat.add_sub_cancel_left, hsrc', hpos]
      unfold substr
      rw [← hbl, List.drop_left]
      rfl
    rw [hsub, hpos]
  · have := hinv (fun _ => rfl) (by rw [hsrc] at hlen; omega)
    rw [this, hpos]
    show 1 + Lexer.newlinesBefore (Lexer.stringToLower _) _ = _
    rw [Lexer.newlinesBefore_stringToLower]

/-- Witness of C26: in the text `x⏎'c` two turns of the loop reach the quote on line 2
without error; the scan reports the unclosed literal on line 2 and keeps the token `x`. -/
theorem C26_unclosed_char_literal_at_end_witness :
    Lexer.scanSteps 2 (Lexer.new (String.mk (['x', NEWLINE] ++ [QUOTE, 'c']))) [] =
        (quoteExampleLexer, []) ∧
      Lexer.scan (2 + 2) (Lexer.new (String.mk (['x', NEWLINE] ++ [QUOTE, 'c']))) =
        some ({ quoteExampleLexer with
            start := 2
            current := 4
            tokens := [⟨.IDENTIFIER, "x", 1⟩, ⟨.END_OF_FILE, "", 2⟩] },
          [⟨"Unclosed char literal " ++ String.mk [QUOTE, 'c'] ++ ".", 2⟩]) ∧
      quoteExampleLexer.line_num =
        1 + Lexer.newlinesBefore (['x', NEWLINE] ++ [QUOTE, 'c']) 2 :=
  ⟨by decide!,
    C26_unclosed_char_literal_at_end ['x', NEWLINE] 'c' 2 quoteExampleLexer (by decide) (by decide)
      (by decide) (by decide!) rfl⟩

/-! ## C30: factors that start with an identifier -/

namespace Parser

/-- A run of `m >>= f` is a run of `m` followed by a run of `f`. -/
theorem run_bind {α β : Type} (m : ParserM α) (f : α → ParserM β) (p : Parser) :
    (m >>= f).run p =
      (match m.run p with | .ok (a, p') => (f a).run p' | .error e => .error e) := by
  show (StateT.bind m f) p = _
  unfold StateT.bind
  show (Except.bind (m p) _) = (match m p with | .ok (a, p') => f a p' | .error e => .error e)
  cases m p <;> rfl

/-- A run of `pure`. -/
theorem run_pure {α : Type} (a : α) (p : Parser) : (pure a : ParserM α).run p = .ok (a, p) := rfl

/-- `Parser::getToken` on a token of the vector. -/
theorem getToken_run (p : Parser) (tok : Token) (h : p.tokens[p.current]? = some tok) :
    getToken.run p = .ok (tok, p) := by
  show (match p.tokens[p.current]? with | some t => _ | none => _) = _
  rw [h]

/-- `Parser::isEnd` on a token of the vector. -/
theorem isEnd_run (p : Parser) (tok : Token) (h : p.tokens[p.current]? = some tok) :
    isEnd.run p = .ok (tok.type == .END_OF_FILE, p) := by
  unfold isEnd
  rw [run_bind, getToken_run p tok h]
  rfl

/-- `Parser::check` on a token of the vector: the parser stays as it is. -/
theorem check_run (t : TokenType) (p : Parser) (tok : Token) (h : p.tokens[p.current]? = some tok) :
    (check t).run p = .ok (tok.type != .END_OF_FILE && tok.type == t, p) := by
  unfold check
  rw [run_bind, isEnd_run p tok h]
  dsimp only
  cases hty : tok.type == .END_OF_FILE
  · simp only [Bool.false_eq_true, if_false, run_bind, run_pure, getToken_run p tok h]
    simp [bne, hty]
  · simp only [if_true, run_pure]
    simp [bne, hty]

/-- `Parser::forward`. -/
theorem forward_run (p : Parser) :
    forward.run p = .ok ((), { p with current := p.current + 1 }) := rfl

/-- `Parser::backward`. -/
theorem backward_run (p : Parser) :
    backward.run p = .ok ((), { p with current := p.current - 1 }) := rfl

/-- The address of a new node. -/
theorem alloc_run (p : Parser) :
    alloc.run p = .ok (p.nextAddr, { p with nextAddr := p.nextAddr + 1 }) := rfl

/-- `Parser::match` on a token of the vector. -/
theorem match_run (t : TokenType) (p : Parser) (tok : Token) (h : p.tokens[p.current]? = some tok) :
    (match_ t).run p =
      if (tok.type != .END_OF_FILE && tok.type == t) = true then
        .ok (true, { p with current := p.current + 1 })
      else .ok (false, p) := by
  unfold match_
  rw [run_bind, check_run t p tok h]
  dsimp only
  split
  · rw [run_bind, forward_run]
    rfl
  · rfl

/-- `Parser::consume` on a token of the vector. -/
theorem consume_run (t : TokenType) (msg : String) (p : Parser) (tok : Token)
    (h : p.tokens[p.current]? = some tok) :
    (consume t msg).run p =
      if (tok.type != .END_OF_FILE && tok.type == t) = true then
        .ok (tok, { p with current := p.current + 1 })
      else .error (.ParserException msg tok.line) := by
  unfold consume
  rw [run_bind, check_run t p tok h]
  dsimp only
  split
  · rw [run_bind, getToken_run p tok h]
    dsimp only
    rw [run_bind, forward_run]
    rfl
  · rw [run_bind, run_pure]
    dsimp only
    rw [run_bind, getToken_run p tok h]
    rfl

/-- The test of a token type on a token of that type, which is not END_OF_FILE. -/
theorem test_self (t : TokenType) (h : t ≠ .END_OF_FILE) :
    (t != .END_OF_FILE && t == t) = true := by
  rw [Bool.and_eq_true]
  exact ⟨bne_iff_ne.2 h, beq_self_eq_true t⟩

/-- The test of a token type on a token of another type. -/
theorem test_ne (t u : TokenType) (h : t ≠ u) : (t != .END_OF_FILE && t == u) = false := by
  rw [beq_eq_false_iff_ne.2 h, Bool.and_false]

/-- The loop that reads the expressions after commas returns a list that is not empty when
it starts from one. -/
theorem expressionListLoop_nonempty (fuel : Nat) (acc : ExpressionList) (p : Parser)
    (es : ExpressionList) (p' : Parser) (hacc : acc.empty = false)
    (h : (expressionListLoop fuel acc).run p = .ok (es, p')) : es.empty = false := by
  induction fuel generalizing acc p with
  | zero =>
    rw [expressionListLoop] at h
    cases h
  | succ fuel ih =>
    rw [expressionListLoop, run_bind] at h
    split at h
    · rename_i b p1 _
      split at h
      · rw [run_bind] at h
        split at h
        · rename_i e p2 _
          refine ih _ _ ?_ h
          cases acc <;> rfl
        · cases h
      · cases h
        exact hacc
    · cases h

end Parser

/-- C30 (a factor that starts with an identifier): with an identifier at the current
position and a token after it, `Parser::factor` decides on that next token alone.  When it
is `(` the factor is a FUNCTION factor holding what `Parser::procedureCall` reads from the
identifier on, a call of that identifier; when it is `[` the factor is a VARIABLE factor
holding what `Parser::variable` reads from the identifier on, a variable of that identifier
with at least one index; otherwise the factor is an UNKNOWN factor with the text of the
identifier, and the parser has moved past the identifier only. -/
theorem C30_identifier_factor_is_classified_by_next_token (fuel : Nat) (p : Parser)
    (id next : Token) (hid : p.tokens[p.current]? = some id) (hty : id.type = .IDENTIFIER)
    (hnext : p.tokens[p.current + 1]? = some next) :
    (Parser.factor (fuel + 1)).run p =
      (if next.type = .LPAREN then
        match (Parser.procedureCall fuel).run { p with nextAddr := p.nextAddr + 1 } with
        | .ok (call, p') => .ok (Factor.FUNCTION p.nextAddr call, p')
        | .error e => .error e
      else if next.type = .LBRACKET then
        match (Parser.variable_ fuel).run { p with nextAddr := p.nextAddr + 1 } with
        | .ok (v, p') => .ok (Factor.VARIABLE p.nextAddr v, p')
        | .error e => .error e
      else
        .ok (Factor.UNKNOWN p.nextAddr id.value,
          { p with current := p.current + 1, nextAddr := p.nextAddr + 1 })) ∧
    (∀ call p', (Parser.procedureCall fuel).run { p with nextAddr := p.nextAddr + 1 } =
        .ok (call, p') → call.getId = id.value) ∧
    (∀ v p', next.type = .LBRACKET →
      (Parser.variable_ fuel).run { p with nextAddr := p.nextAddr + 1 } = .ok (v, p') →
        v.getId = id.value ∧ v.getExpressions.empty = false) := by
  have hI : (id.type != TokenType.END_OF_FILE && id.type == TokenType.IDENTIFIER) = true := by
    rw [hty]
    rfl
  have hid' : ({ p with nextAddr := p.nextAddr + 1 } : Parser).tokens[
      ({ p with nextAddr := p.nextAddr + 1 } : Parser).current]? = some id := hid
  have hnext' : ({ p with current := p.current + 1, nextAddr := p.nextAddr + 1 } : Parser).tokens[
      ({ p with current := p.current + 1, nextAddr := p.nextAddr + 1 } : Parser).current]? =
        some next := hnext
  refine ⟨?_, ?_, ?_⟩
  · rw [Parser.factor, Parser.run_bind, Parser.check_run _ _ _ hid]
    dsimp only
    rw [if_pos hI, Parser.run_bind, Parser.forward_run]
    dsimp only
    rw [Parser.run_bind, Parser.check_run _ _ next hnext]
    dsimp only
    by_cases h1 : next.type = .LPAREN
    · rw [if_pos h1, h1, if_pos (by rfl), Parser.run_bind, Parser.alloc_run]
      dsimp only
      rw [Parser.run_bind, Parser.backward_run]
      dsimp only
      rw [Nat.add_sub_cancel, Parser.run_bind]
      generalize StateT.run (Parser.procedureCall fuel) _ = r
      cases r with
      | error e => rfl
      | ok v => rfl
    · rw [if_neg h1, Parser.test_ne _ _ h1, if_neg Bool.false_ne_true, Parser.run_bind,
        Parser.check_run _ _ next hnext]
      dsimp only
      by_cases h2 : next.type = .LBRACKET
      · rw [if_pos h2, h2, if_pos (by rfl), Parser.run_bind, Parser.alloc_run]
        dsimp only
        rw [Parser.run_bind, Parser.backward_run]
        dsimp only
        rw [Nat.add_sub_cancel, Parser.run_bind]
        generalize StateT.run (Parser.variable_ fuel) _ = r
        cases r with
        | error e => rfl
        | ok v => rfl
      · rw [if_neg h2, Parser.test_ne _ _ h2, if_neg Bool.false_ne_true, Parser.run_bind,
          Parser.alloc_run]
        dsimp only
        rw [Parser.run_bind, Parser.backward_run]
        dsimp only
        rw [Nat.add_sub_cancel, Parser.run_bind, Parser.consume_run _ _ _ id hid', if_pos hI]
        rfl
  · intro call p' h
    cases fuel with
    | zero =>
      rw [Parser.procedureCall] at h
      cases h
    | succ fuel =>
      rw [Parser.procedureCall, Parser.run_bind, Parser.consume_run _ _ _ id hid', if_pos hI] at h
      dsimp only at h
      rw [Parser.run_bind] at h
      split at h
      · rename_i b p1 _
        split at h
        · rw [Parser.run_bind] at h
          split at h
          · rename_i b2 p2 _
            split at h
            · cases h
              rfl
            · rw [Parser.run_bind, Parser.run_pure] at h
              dsimp only at h
              rw [Parser.run_bind] at h
              split at h
              · rw [Parser.run_bind] at h
                split at h
                · rw [Parser.run_bind] at h
                  split at h
                  · cases h
                    rfl
                  · cases h
                · cases h
              · cases h
          · cases h
        · cases h
          rfl
      · cases h
  · intro v p' hb h
    cases fuel with
    | zero =>
      rw [Parser.variable_] at h
      cases h
    | succ fuel =>
      rw [Parser.variable_, Parser.run_bind, Parser.consume_run _ _ _ id hid', if_pos hI] at h
      dsimp only at h
      rw [Parser.run_bind, Parser.match_run _ _ next hnext', hb, if_pos (by rfl)] at h
      dsimp only at h
      rw [if_pos rfl, Parser.run_bind] at h
      split at h
      · rename_i first p1 _
        rw [Parser.run_bind] at h
        split at h
        · rename_i es p2 hes
          rw [Parser.run_bind] at h
          split at h
          · cases h
            exact ⟨rfl, Parser.expressionListLoop_nonempty _ (.cons first .nil) _ _ _ rfl hes⟩
          · cases h
        · cases h
      · cases h

/-- Witness of C30: in `x + 1` the identifier is followed by `+`; the factor is the UNKNOWN
factor `x` and the parser stands on the `+`. -/
theorem C30_identifier_factor_is_classified_by_next_token_witness :
    factorExampleTokens[1]? = some ⟨.PLUS, "", 1⟩ ∧
      (Parser.factor (2 + 1)).run (Parser.new factorExampleTokens) =
        .ok (Factor.UNKNOWN 0 "x", ⟨factorExampleTokens, 1, 1⟩) :=
  ⟨rfl, (C30_identifier_factor_is_classified_by_next_token 2 (Parser.new factorExampleTokens)
    ⟨.IDENTIFIER, "x", 1⟩ ⟨.PLUS, "", 1⟩ rfl rfl rfl).1⟩

/-! ## C28: the statements of a compound statement -/

/-- The positions of a stretch of tokens are never none. -/
theorem positions_ne_nil (d : Nat) (l : List Token) : positions d l ≠ [] := by
  induction l generalizing d with
  | nil => exact List.cons_ne_nil _ _
  | cons t ts ih =>
    unfold positions
    have hg : ∀ (s : List Token) (r : List (List Token)), glue s r ≠ [] := by
      intro s r
      cases r <;> exact List.cons_ne_nil _ _
    split
    · exact hg _ _
    · split
      · exact hg _ _
      · split
        · exact List.cons_ne_nil _ _
        · exact hg _ _

/-- There is one position more than there are separating semicolons. -/
theorem positions_length (d : Nat) (l : List Token) :
    (positions d l).length = separators d l + 1 := by
  induction l generalizing d with
  | nil => rfl
  | cons t ts ih =>
    unfold positions separators
    have hg : ∀ (s : List Token) (r : List (List Token)), r ≠ [] →
        (glue s r).length = r.length := by
      intro s r hr
      cases r with
      | nil => exact absurd rfl hr
      | cons _ _ => rfl
    split
    · rw [hg _ _ (positions_ne_nil _ _), ih]
    · split
      · rw [hg _ _ (positions_ne_nil _ _), ih]
      · split
        · rw [List.length_cons, ih]
        · rw [hg _ _ (positions_ne_nil _ _), ih]

/-- Gluing two stretches one after the other. -/
theorem glue_glue (s1 s2 : List Token) (r : List (List Token)) (hr : r ≠ []) :
    glue s1 (glue s2 r) = glue (s1 ++ s2) r := by
  cases r with
  | nil => exact absurd rfl hr
  | cons hd tl =>
    show (s1 ++ (s2 ++ hd)) :: tl = ((s1 ++ s2) ++ hd) :: tl
    rw [List.append_assoc]

/-- The empty stretch. -/
theorem NeutralFrom.empty (k : Nat) : NeutralFrom k [] := by
  intro d rest _
  have h := positions_ne_nil d rest
  rw [List.nil_append]
  cases hp : positions d rest with
  | nil => exact absurd hp h
  | cons hd tl => rfl

/-- Two stretches in a row. -/
theorem NeutralFrom.concat {k : Nat} {s1 s2 : List Token} (h1 : NeutralFrom k s1)
    (h2 : NeutralFrom k s2) : NeutralFrom k (s1 ++ s2) := by
  intro d rest hd
  rw [List.append_assoc, h1 d _ hd, h2 d _ hd, glue_glue _ _ _ (positions_ne_nil _ _)]

/-- A stretch without separating semicolon stays one under more open `begin`s. -/
theorem NeutralFrom.mono {k k' : Nat} {s : List Token} (h : NeutralFrom k s) (hk : k ≤ k') :
    NeutralFrom k' s :=
  fun d rest hd => h d rest (Nat.le_trans hk hd)

/-- A token that is not `begin`, `end` or a semicolon. -/
theorem NeutralFrom.plainToken (t : Token) (h1 : t.type ≠ .BEGIN) (h2 : t.type ≠ .END)
    (h3 : t.type ≠ .SEMICOLON) : NeutralFrom 0 [t] := by
  intro d rest _
  show positions d (t :: rest) = _
  rw [positions, if_neg h1, if_neg h2, if_neg (fun h => h3 h.1)]

/-- A semicolon under an open `begin`. -/
theorem NeutralFrom.semicolon (t : Token) (h : t.type = .SEMICOLON) : NeutralFrom 1 [t] := by
  intro d rest hd
  show positions d (t :: rest) = _
  rw [positions, if_neg (by rw [h]; decide), if_neg (by rw [h]; decide),
    if_neg (fun hh => by omega)]

/-- A `begin`, a stretch that is neutral under an open `begin`, and an `end`. -/
theorem NeutralFrom.block (b e : Token) (inner : List Token) (hb : b.type = .BEGIN)
    (he : e.type = .END) (h : NeutralFrom 1 inner) : NeutralFrom 0 (b :: inner ++ [e]) := by
  intro d rest _
  show positions d (b :: (inner ++ [e] ++ rest)) = _
  rw [positions, if_pos hb, List.append_assoc, h (d + 1) _ (Nat.le_add_left _ _)]
  show glue [b] (glue inner (positions (d + 1) (e :: rest))) = _
  rw [positions, if_neg (by rw [he]; decide), if_pos he, Nat.add_sub_cancel,
    glue_glue _ _ _ (positions_ne_nil _ _), glue_glue _ _ _ (positions_ne_nil _ _)]
  rfl

/-- A stretch without separating semicolon is one position. -/
theorem NeutralFrom.positions_eq {s : List Token} (h : NeutralFrom 0 s) :
    positions 0 s = [s] := by
  have := h 0 [] (Nat.le_refl _)
  rw [List.append_nil] at this
  rw [this]
  show [s ++ []] = [s]
  rw [List.append_nil]

/-- A stretch without separating semicolon, a semicolon, and more tokens: the stretch is the
first position. -/
theorem NeutralFrom.positions_cons {s : List Token} (h : NeutralFrom 0 s) (semi : Token)
    (hs : semi.type = .SEMICOLON) (rest : List Token) :
    positions 0 (s ++ semi :: rest) = s :: positions 0 rest := by
  rw [h 0 _ (Nat.le_refl _), positions, if_neg (by rw [hs]; decide), if_neg (by rw [hs]; decide),
    if_pos ⟨hs, rfl⟩]
  show (s ++ []) :: _ = _
  rw [List.append_nil]

/-- The tokens from a position on start with the token at the position. -/
theorem drop_of_getElem (l : List Token) (i : Nat) (tok : Token) (h : l[i]? = some tok) :
    l.drop i = tok :: l.drop (i + 1) := by
  induction l generalizing i with
  | nil => cases h
  | cons a t ih =>
    cases i with
    | zero =>
      have e : a = tok := by simpa using h
      rw [e]
      rfl
    | succ i =>
      rw [List.drop_succ_cons, List.drop_succ_cons]
      exact ih i (by simpa using h)

namespace Parser

/-- `Parser::getToken` outside the vector. -/
theorem getToken_run_none (p : Parser) (h : p.tokens[p.current]? = none) :
    getToken.run p = .error .outOfRange := by
  show (match p.tokens[p.current]? with | some t => _ | none => _) = _
  rw [h]

/-- `Parser::check` outside the vector. -/
theorem check_run_none (t : TokenType) (p : Parser) (h : p.tokens[p.current]? = none) :
    (check t).run p = .error .outOfRange := by
  unfold check isEnd
  rw [run_bind, run_bind, getToken_run_none p h]

/-- When `Parser::check` returns, the parser is as before, and `true` means that the
current token has the type asked for. -/
theorem check_ok (t : TokenType) (p : Parser) (b : Bool) (p' : Parser)
    (h : (check t).run p = .ok (b, p')) :
    p' = p ∧ (b = true → ∃ tok, p.tokens[p.current]? = some tok ∧ tok.type = t) := by
  cases hg : p.tokens[p.current]? with
  | none =>
    rw [check_run_none t p hg] at h
    cases h
  | some tok =>
    rw [check_run t p tok hg] at h
    cases h
    refine ⟨rfl, fun hb => ⟨tok, rfl, ?_⟩⟩
    rw [Bool.and_eq_true] at hb
    exact beq_iff_eq.1 hb.2

/-- When `Parser::match` returns, either nothing was read, or the current token has the type
asked for and was read. -/
theorem match_ok (t : TokenType) (p : Parser) (b : Bool) (p' : Parser)
    (h : (match_ t).run p = .ok (b, p')) :
    (b = false ∧ p' = p) ∨
      (b = true ∧ ∃ tok, p.tokens[p.current]? = some tok ∧ tok.type = t ∧
        p' = { p with current := p.current + 1 }) := by
  cases hg : p.tokens[p.current]? with
  | none =>
    unfold match_ at h
    rw [run_bind, check_run_none t p hg] at h
    cases h
  | some tok =>
    rw [match_run t p tok hg] at h
    split at h
    · rename_i hb
      cases h
      rw [Bool.and_eq_true] at hb
      exact Or.inr ⟨rfl, tok, rfl, beq_iff_eq.1 hb.2, rfl⟩
    · cases h
      exact Or.inl ⟨rfl, rfl⟩

/-- When `Parser::consume` returns, the current token has the type asked for, was read and
is the result. -/
theorem consume_ok (t : TokenType) (msg : String) (p : Parser) (tok : Token) (p' : Parser)
    (h : (consume t msg).run p = .ok (tok, p')) :
    p.tokens[p.current]? = some tok ∧ tok.type = t ∧ p' = { p with current := p.current + 1 } := by
  cases hg : p.tokens[p.current]? with
  | none =>
    unfold consume at h
    rw [run_bind, check_run_none t p hg] at h
    cases h
  | some tok' =>
    rw [consume_run t msg p tok' hg] at h
    split at h
    · rename_i hb
      cases h
      rw [Bool.and_eq_true] at hb
      exact ⟨rfl, beq_iff_eq.1 hb.2, rfl⟩
    · cases h

end Parser

/-- A stronger relation between result and tokens read may be weakened. -/
theorem Parses.weaker {α : Type} {m : ParserM α} {Q Q' : α → List Token → Prop}
    (h : Parses m Q) (hq : ∀ a seg, Q a seg → Q' a seg) : Parses m Q' := by
  intro p a p' hr
  obtain ⟨ht, seg, hd, hQ⟩ := h p a p' hr
  exact ⟨ht, seg, hd, hq a seg hQ⟩

/-- A parsing function for a statement reads a stretch without separating semicolon. -/
theorem ParsesStatement.toNeutral {α : Type} {m : ParserM α} {R : α → Prop}
    (h : ParsesStatement m R) : ParsesNeutral m :=
  Parses.weaker h fun _ _ hq => hq.1

/-- Returning a value reads nothing. -/
theorem Parses.ofPure {α : Type} (a : α) (Q : α → List Token → Prop) (h : Q a []) :
    Parses (pure a : ParserM α) Q := by
  intro p b p' hr
  cases hr
  exact ⟨rfl, [], rfl, h⟩

/-- Returning a value reads nothing. -/
theorem ParsesNeutral.pureNeutral {α : Type} (a : α) : ParsesNeutral (pure a : ParserM α) :=
  Parses.ofPure a _ (NeutralFrom.empty 0)

/-- A run that throws does not return. -/
theorem Parses.ofThrow {α : Type} (e : ParserError) (Q : α → List Token → Prop) :
    Parses (throw e : ParserM α) Q := by
  intro p b p' hr
  cases hr

/-- A run that throws does not return. -/
theorem ParsesNeutral.throwNeutral {α : Type} (e : ParserError) :
    ParsesNeutral (throw e : ParserM α) :=
  Parses.ofThrow e _

/-- Two parsing steps in a row read the tokens of the first and then those of the second. -/
theorem Parses.seq {α β : Type} {m : ParserM α} {f : α → ParserM β}
    {Q1 : α → List Token → Prop} {Q2 : β → List Token → Prop} {Q : β → List Token → Prop}
    (hm : Parses m Q1) (hf : ∀ a, Parses (f a) Q2)
    (hq : ∀ a b s1 s2, Q1 a s1 → Q2 b s2 → Q b (s1 ++ s2)) : Parses (m >>= f) Q := by
  intro p b p' hr
  rw [Parser.run_bind] at hr
  split at hr
  · rename_i a p1 h1
    obtain ⟨ht1, s1, hd1, hQ1⟩ := hm p a p1 h1
    obtain ⟨ht2, s2, hd2, hQ2⟩ := hf a p1 b p' hr
    refine ⟨ht2.trans ht1, s1 ++ s2, ?_, hq a b s1 s2 hQ1 hQ2⟩
    rw [ht1] at hd2
    rw [hd1, hd2, List.append_assoc]
  · cases hr

/-- Two steps that read neutral stretches. -/
theorem ParsesNeutral.seqNeutral {α β : Type} {m : ParserM α} {f : α → ParserM β}
    (hm : ParsesNeutral m) (hf : ∀ a, ParsesNeutral (f a)) : ParsesNeutral (m >>= f) :=
  Parses.seq hm hf fun _ _ _ _ h1 h2 => h1.concat h2

/-- A first step that reads at least one token, and a second that gives the result. -/
theorem ParsesStatement.seqStatement {α β : Type} {m : ParserM α} {f : α → ParserM β} {R : β → Prop}
    (hm : ParsesStatement m fun _ => True)
    (hf : ∀ a, Parses (f a) fun b seg => NeutralFrom 0 seg ∧ R b) :
    ParsesStatement (m >>= f) R :=
  Parses.seq hm hf fun _ _ _ _ h1 h2 =>
    ⟨h1.1.concat h2.1, fun h => h1.2.1 (List.append_eq_nil.1 h).1, h2.2⟩

/-- A first step that reads a neutral stretch, and a second that gives the result. -/
theorem Parses.seqResult {α β : Type} {m : ParserM α} {f : α → ParserM β} {R : β → Prop}
    (hm : ParsesNeutral m) (hf : ∀ a, Parses (f a) fun b seg => NeutralFrom 0 seg ∧ R b) :
    Parses (m >>= f) fun b seg => NeutralFrom 0 seg ∧ R b :=
  Parses.seq hm hf fun _ _ _ _ h1 h2 => ⟨h1.concat h2.1, h2.2⟩

/-- `Parser::check` reads nothing. -/
theorem ParsesNeutral.checkNeutral (t : TokenType) : ParsesNeutral (Parser.check t) := by
  intro p b p' hr
  obtain ⟨rfl, _⟩ := Parser.check_ok t p b p' hr
  exact ⟨rfl, [], rfl, NeutralFrom.empty 0⟩

/-- `Parser::getToken` reads nothing. -/
theorem ParsesNeutral.getTokenNeutral : ParsesNeutral Parser.getToken := by
  intro p b p' hr
  cases hg : p.tokens[p.current]? with
  | none =>
    rw [Parser.getToken_run_none p hg] at hr
    cases hr
  | some tok =>
    rw [Parser.getToken_run p tok hg] at hr
    cases hr
    exact ⟨rfl, [], rfl, NeutralFrom.empty 0⟩

/-- The address of a new node: nothing is read. -/
theorem ParsesNeutral.allocNeutral : ParsesNeutral Parser.alloc := by
  intro p b p' hr
  cases hr
  exact ⟨rfl, [], rfl, NeutralFrom.empty 0⟩

/-- `Parser::match` on a type other than `begin`, `end` and the semicolon. -/
theorem ParsesNeutral.matchNeutral (t : TokenType) (h1 : t ≠ .BEGIN) (h2 : t ≠ .END)
    (h3 : t ≠ .SEMICOLON) : ParsesNeutral (Parser.match_ t) := by
  intro p b p' hr
  rcases Parser.match_ok t p b p' hr with ⟨_, rfl⟩ | ⟨_, tok, hg, hty, rfl⟩
  · exact ⟨rfl, [], rfl, NeutralFrom.empty 0⟩
  · exact ⟨rfl, [tok], drop_of_getElem _ _ _ hg,
      NeutralFrom.plainToken tok (hty ▸ h1) (hty ▸ h2) (hty ▸ h3)⟩

/-- `Parser::consume` on a type other than `begin`, `end` and the semicolon. -/
theorem ParsesStatement.consumeStatement (t : TokenType) (msg : String) (h1 : t ≠ .BEGIN)
    (h2 : t ≠ .END) (h3 : t ≠ .SEMICOLON) :
    ParsesStatement (Parser.consume t msg) fun _ => True := by
  intro p tok p' hr
  obtain ⟨hg, hty, rfl⟩ := Parser.consume_ok t msg p tok p' hr
  exact ⟨rfl, [tok], drop_of_getElem _ _ _ hg,
    NeutralFrom.plainToken tok (hty ▸ h1) (hty ▸ h2) (hty ▸ h3), List.cons_ne_nil _ _, trivial⟩

/-- `Parser::consume` on a type other than `begin`, `end` and the semicolon. -/
theorem ParsesNeutral.consumeNeutral (t : TokenType) (msg : String) (h1 : t ≠ .BEGIN)
    (h2 : t ≠ .END) (h3 : t ≠ .SEMICOLON) : ParsesNeutral (Parser.consume t msg) :=
  (ParsesStatement.consumeStatement t msg h1 h2 h3).toNeutral

namespace Parser

/-- The functions that parse expressions, variables and calls read stretches of tokens
without separating semicolon, `begin` or `end`. -/
theorem expressions_neutral (fuel : Nat) :
    ParsesNeutral (factor fuel) ∧ (∀ f fs, ParsesNeutral (termLoop fuel f fs)) ∧
    ParsesNeutral (term fuel) ∧ (∀ t ts, ParsesNeutral (simpleExpressionLoop fuel t ts)) ∧
    ParsesNeutral (simpleExpression fuel) ∧ ParsesNeutral (expression fuel) ∧
    (∀ acc, ParsesNeutral (expressionListLoop fuel acc)) ∧ ParsesNeutral (variable_ fuel) ∧
    ParsesNeutral (procedureCall fuel) := by
  induction fuel with
  | zero =>
    refine ⟨?_, fun _ _ => ?_, ?_, fun _ _ => ?_, ?_, ?_, fun _ => ?_, ?_, ?_⟩
    · rw [factor]; exact Parses.ofThrow _ _
    · rw [termLoop]; exact Parses.ofThrow _ _
    · rw [term]; exact Parses.ofThrow _ _
    · rw [simpleExpressionLoop]; exact Parses.ofThrow _ _
    · rw [simpleExpression]; exact Parses.ofThrow _ _
    · rw [expression]; exact Parses.ofThrow _ _
    · rw [expressionListLoop]; exact Parses.ofThrow _ _
    · rw [variable_]; exact Parses.ofThrow _ _
    · rw [procedureCall]; exact Parses.ofThrow _ _
  | succ fuel ih =>
    obtain ⟨ihFactor, ihTermLoop, ihTerm, ihSimpleLoop, ihSimple, ihExpression, ihList,
      ihVariable, ihCall⟩ := ih
    refine ⟨?_, fun _ _ => ?_, ?_, fun _ _ => ?_, ?_, ?_, fun _ => ?_, ?_, ?_⟩
    · intro p a p' h
      rw [factor, run_bind] at h
      split at h
      · rename_i b p1 hc
        obtain ⟨rfl, hb⟩ := check_ok _ _ _ _ hc
        split at h
        · rw [run_bind, forward_run] at h
          dsimp only at h
          rw [run_bind] at h
          split at h
          · rename_i b2 p2 hc2
            obtain ⟨rfl, _⟩ := check_ok _ _ _ _ hc2
            split at h
            · rw [run_bind, alloc_run] at h
              dsimp only at h
              rw [run_bind, backward_run] at h
              dsimp only at h
              have := (ParsesNeutral.seqNeutral ihCall (fun _ => ParsesNeutral.pureNeutral _)) _ _ _ h
              simpa using this
            · rw [run_bind] at h
              split at h
              · rename_i b3 p3 hc3
                obtain ⟨rfl, _⟩ := check_ok _ _ _ _ hc3
                split at h
                · rw [run_bind, alloc_run] at h
                  dsimp only at h
                  rw [run_bind, backward_run] at h
                  dsimp only at h
                  have := (ParsesNeutral.seqNeutral ihVariable (fun _ => ParsesNeutral.pureNeutral _)) _ _ _ h
                  simpa using this
                · rw [run_bind, alloc_run] at h
                  dsimp only at h
                  rw [run_bind, backward_run] at h
                  dsimp only at h
                  have := (ParsesNeutral.seqNeutral
                    (ParsesNeutral.consumeNeutral .IDENTIFIER _ (by decide) (by decide) (by decide))
                    (fun _ => ParsesNeutral.pureNeutral _)) _ _ _ h
                  simpa using this
              · cases h
          · cases h
        · refine (show ParsesNeutral _ from ?_) _ a p' h
          repeat' first
            | with_reducible exact ParsesNeutral.checkNeutral _
            | with_reducible exact ParsesNeutral.getTokenNeutral
            | with_reducible exact ParsesNeutral.allocNeutral
            | with_reducible exact ParsesNeutral.pureNeutral _
            | with_reducible exact ParsesNeutral.throwNeutral _
            | with_reducible exact ParsesNeutral.consumeNeutral _ _ (by decide) (by decide) (by decide)
            | with_reducible exact ParsesNeutral.matchNeutral _ (by decide) (by decide) (by decide)
            | with_reducible exact ihFactor
            | with_reducible exact ihExpression
            | with_reducible refine ParsesNeutral.seqNeutral ?_ (fun _ => ?_)
            | split
      · cases h
    · rw [termLoop]
      repeat' first
        | with_reducible exact ParsesNeutral.checkNeutral _
        | with_reducible exact ParsesNeutral.pureNeutral _
        | with_reducible exact ParsesNeutral.matchNeutral _ (by decide) (by decide) (by decide)
        | with_reducible exact ihFactor
        | with_reducible exact ihTermLoop _ _
        | with_reducible refine ParsesNeutral.seqNeutral ?_ (fun _ => ?_)
        | split
    · rw [term]
      exact ParsesNeutral.seqNeutral ihFactor (fun _ => ihTermLoop _ _)
    · rw [simpleExpressionLoop]
      repeat' first
        | with_reducible exact ParsesNeutral.checkNeutral _
        | with_reducible exact ParsesNeutral.pureNeutral _
        | with_reducible exact ParsesNeutral.matchNeutral _ (by decide) (by decide) (by decide)
        | with_reducible exact ihTerm
        | with_reducible exact ihSimpleLoop _ _
        | with_reducible refine ParsesNeutral.seqNeutral ?_ (fun _ => ?_)
        | split
    · rw [simpleExpression]
      exact ParsesNeutral.seqNeutral ihTerm (fun _ => ihSimpleLoop _ _)
    · rw [expression]
      repeat' first
        | with_reducible exact ParsesNeutral.pureNeutral _
        | with_reducible exact ParsesNeutral.matchNeutral _ (by decide) (by decide) (by decide)
        | with_reducible exact ihSimple
        | with_reducible refine ParsesNeutral.seqNeutral ?_ (fun _ => ?_)
        | split
    · rw [expressionListLoop]
      repeat' first
        | with_reducible exact ParsesNeutral.pureNeutral _
        | with_reducible exact ParsesNeutral.matchNeutral _ (by decide) (by decide) (by decide)
        | with_reducible exact ihExpression
        | with_reducible exact ihList _
        | with_reducible refine ParsesNeutral.seqNeutral ?_ (fun _ => ?_)
        | split
    · rw [variable_]
      repeat' first
        | with_reducible exact ParsesNeutral.pureNeutral _
        | with_reducible exact ParsesNeutral.matchNeutral _ (by decide) (by decide) (by decide)
        | with_reducible exact ParsesNeutral.consumeNeutral _ _ (by decide) (by decide) (by decide)
        | with_reducible exact ihExpression
        | with_reducible exact ihList _
        | with_reducible refine ParsesNeutral.seqNeutral ?_ (fun _ => ?_)
        | split
    · rw [procedureCall]
      repeat' first
        | with_reducible exact ParsesNeutral.pureNeutral _
        | with_reducible exact ParsesNeutral.matchNeutral _ (by decide) (by decide) (by decide)
        | with_reducible exact ParsesNeutral.consumeNeutral _ _ (by decide) (by decide) (by decide)
        | with_reducible exact ihExpression
        | with_reducible exact ihList _
        | with_reducible refine ParsesNeutral.seqNeutral ?_ (fun _ => ?_)
        | split

end Parser

/-- A step that reads nothing reads a neutral stretch. -/
theorem ParsesNothing.asNeutral {α : Type} {m : ParserM α} (h : ParsesNothing m) :
    ParsesNeutral m :=
  Parses.weaker h fun _ _ hq => hq ▸ NeutralFrom.empty 0

/-- `Parser::check` reads nothing. -/
theorem ParsesNothing.checkNothing (t : TokenType) : ParsesNothing (Parser.check t) := by
  intro p b p' hr
  obtain ⟨rfl, _⟩ := Parser.check_ok t p b p' hr
  exact ⟨rfl, [], rfl, rfl⟩

/-- `Parser::getToken` reads nothing. -/
theorem ParsesNothing.getTokenNothing : ParsesNothing Parser.getToken := by
  intro p b p' hr
  cases hg : p.tokens[p.current]? with
  | none =>
    rw [Parser.getToken_run_none p hg] at hr
    cases hr
  | some tok =>
    rw [Parser.getToken_run p tok hg] at hr
    cases hr
    exact ⟨rfl, [], rfl, rfl⟩

/-- A step that reads nothing, then a parsing function for a statement. -/
theorem ParsesStatement.afterNothing {α β : Type} {m : ParserM α} {f : α → ParserM β}
    {R : β → Prop} (hm : ParsesNothing m) (hf : ∀ a, ParsesStatement (f a) R) :
    ParsesStatement (m >>= f) R :=
  Parses.seq hm hf fun _ _ _ _ h1 h2 => by
    rw [h1, List.nil_append]
    exact h2

/-- Returning a result that satisfies `R`. -/
theorem Parses.pureResult {α : Type} (a : α) (R : α → Prop) (h : R a) :
    Parses (Pure.pure a : ParserM α) fun b seg => NeutralFrom 0 seg ∧ R b :=
  Parses.ofPure a _ ⟨NeutralFrom.empty 0, h⟩

/-- A run that throws does not return. -/
theorem ParsesStatement.throwStatement {α : Type} (e : ParserError) (R : α → Prop) :
    ParsesStatement (throw e : ParserM α) R :=
  Parses.ofThrow e _

/-- A parsing function for a statement with a weaker condition on the result. -/
theorem ParsesStatement.weakerResult {α : Type} {m : ParserM α} {R R' : α → Prop}
    (h : ParsesStatement m R) (hr : ∀ a, R a → R' a) : ParsesStatement m R' :=
  Parses.weaker h fun a _ hq => ⟨hq.1, hq.2.1, hr a hq.2.2⟩

namespace Parser

/-- `Parser::variable` reads the identifier and a neutral stretch. -/
theorem variable_statement (fuel : Nat) : ParsesStatement (variable_ fuel) fun _ => True := by
  cases fuel with
  | zero =>
    rw [variable_]
    exact Parses.ofThrow _ _
  | succ fuel =>
    obtain ⟨_, _, _, _, _, ihExpression, ihList, _, _⟩ := expressions_neutral fuel
    rw [variable_]
    refine ParsesStatement.seqStatement
      (ParsesStatement.consumeStatement _ _ (by decide) (by decide) (by decide)) (fun _ => ?_)
    repeat' first
      | with_reducible exact Parses.pureResult _ _ trivial
      | with_reducible exact ParsesNeutral.matchNeutral _ (by decide) (by decide) (by decide)
      | with_reducible exact ParsesNeutral.consumeNeutral _ _ (by decide) (by decide) (by decide)
      | with_reducible exact ihExpression
      | with_reducible exact ihList _
      | with_reducible exact ParsesNeutral.pureNeutral _
      | with_reducible refine Parses.seqResult ?_ (fun _ => ?_)
      | split

/-- `Parser::procedureCall` reads the identifier and a neutral stretch. -/
theorem procedureCall_statement (fuel : Nat) :
    ParsesStatement (procedureCall fuel) fun _ => True := by
  cases fuel with
  | zero =>
    rw [procedureCall]
    exact Parses.ofThrow _ _
  | succ fuel =>
    obtain ⟨_, _, _, _, _, ihExpression, ihList, _, _⟩ := expressions_neutral fuel
    rw [procedureCall]
    refine ParsesStatement.seqStatement
      (ParsesStatement.consumeStatement _ _ (by decide) (by decide) (by decide)) (fun _ => ?_)
    repeat' first
      | with_reducible exact Parses.pureResult _ _ trivial
      | with_reducible exact ParsesNeutral.matchNeutral _ (by decide) (by decide) (by decide)
      | with_reducible exact ParsesNeutral.consumeNeutral _ _ (by decide) (by decide) (by decide)
      | with_reducible exact ihExpression
      | with_reducible exact ihList _
      | with_reducible exact ParsesNeutral.pureNeutral _
      | with_reducible refine Parses.seqResult ?_ (fun _ => ?_)
      | split

/-- The test whether a statement follows reads nothing. -/
theorem startsStatement_neutral : ParsesNeutral startsStatement := by
  unfold startsStatement
  repeat' first
    | with_reducible exact ParsesNeutral.checkNeutral _
    | with_reducible exact ParsesNeutral.pureNeutral _
    | with_reducible refine ParsesNeutral.seqNeutral ?_ (fun _ => ?_)

/-- `Parser::assign` reads at least one token and builds an assignment. -/
theorem assign_statement (fuel : Nat) :
    ParsesStatement (assign fuel) fun s => s ≠ Statement.NullStatement := by
  obtain ⟨_, _, _, _, _, ihExpression, _, _, _⟩ := expressions_neutral fuel
  unfold assign
  refine ParsesStatement.seqStatement (variable_statement fuel) (fun _ => ?_)
  repeat' first
    | with_reducible exact Parses.pureResult _ _ (fun h => Statement.noConfusion h)
    | with_reducible exact ParsesNeutral.allocNeutral
    | with_reducible exact ParsesNeutral.consumeNeutral _ _ (by decide) (by decide) (by decide)
    | with_reducible exact ihExpression
    | with_reducible refine Parses.seqResult ?_ (fun _ => ?_)

/-- The loop of `Parser::readStatement` reads a neutral stretch. -/
theorem variableListLoop_neutral (fuel : Nat) (acc : List Variable) :
    ParsesNeutral (variableListLoop fuel acc) := by
  induction fuel generalizing acc with
  | zero =>
    rw [variableListLoop]
    exact Parses.ofThrow _ _
  | succ fuel ih =>
    rw [variableListLoop]
    repeat' first
      | with_reducible exact ParsesNeutral.pureNeutral _
      | with_reducible exact ParsesNeutral.matchNeutral _ (by decide) (by decide) (by decide)
      | with_reducible exact (variable_statement fuel).toNeutral
      | with_reducible exact ih _
      | with_reducible refine ParsesNeutral.seqNeutral ?_ (fun _ => ?_)
      | split

/-- `Parser::readStatement` reads at least one token and builds a read statement. -/
theorem readStatement_statement (fuel : Nat) :
    ParsesStatement (readStatement fuel) fun s => s ≠ Statement.NullStatement := by
  unfold readStatement
  refine ParsesStatement.seqStatement
    (ParsesStatement.consumeStatement _ _ (by decide) (by decide) (by decide)) (fun _ => ?_)
  repeat' first
    | with_reducible exact Parses.pureResult _ _ (fun h => Statement.noConfusion h)
    | with_reducible exact ParsesNeutral.allocNeutral
    | with_reducible exact ParsesNeutral.consumeNeutral _ _ (by decide) (by decide) (by decide)
    | with_reducible exact (variable_statement fuel).toNeutral
    | with_reducible exact variableListLoop_neutral _ _
    | with_reducible refine Parses.seqResult ?_ (fun _ => ?_)

/-- `Parser::writeStatement` reads at least one token and builds a write statement. -/
theorem writeStatement_statement (fuel : Nat) :
    ParsesStatement (writeStatement fuel) fun s => s ≠ Statement.NullStatement := by
  obtain ⟨_, _, _, _, _, ihExpression, ihList, _, _⟩ := expressions_neutral fuel
  unfold writeStatement
  refine ParsesStatement.seqStatement
    (ParsesStatement.consumeStatement _ _ (by decide) (by decide) (by decide)) (fun _ => ?_)
  repeat' first
    | with_reducible exact Parses.pureResult _ _ (fun h => Statement.noConfusion h)
    | with_reducible exact ParsesNeutral.allocNeutral
    | with_reducible exact ParsesNeutral.consumeNeutral _ _ (by decide) (by decide) (by decide)
    | with_reducible exact ihExpression
    | with_reducible exact ihList _
    | with_reducible refine Parses.seqResult ?_ (fun _ => ?_)

/-- `Parser::breakStatement` reads `break`. -/
theorem breakStatement_statement :
    ParsesStatement breakStatement fun s => s ≠ Statement.NullStatement := by
  unfold breakStatement
  exact ParsesStatement.seqStatement
    (ParsesStatement.consumeStatement _ _ (by decide) (by decide) (by decide))
    (fun _ => Parses.pureResult _ _ (fun h => Statement.noConfusion h))

/-- The branch of `Parser::statement` for an identifier: the look at the token after the
identifier is undone before the assignment or the call is parsed. -/
theorem identifierStatement_statement (fuel : Nat) :
    ParsesStatement (do
      forward
      if (← check .ASSIGN) || (← check .LBRACKET) then
        backward
        assign fuel
      else if (← check .LPAREN) then
        backward
        return Statement.ProcedureCall (← procedureCall fuel)
      else
        backward
        return Statement.ProcedureCall (← procedureCall fuel))
      fun s => s ≠ Statement.NullStatement := by
  have hCall : ParsesStatement (do return Statement.ProcedureCall (← procedureCall fuel))
      fun s => s ≠ Statement.NullStatement :=
    ParsesStatement.seqStatement (procedureCall_statement fuel)
      (fun _ => Parses.pureResult _ _ (fun h => Statement.noConfusion h))
  have hback : ∀ (m : ParserM Statement) (p : Parser) (a : Statement) (p' : Parser),
      ParsesStatement m (fun s => s ≠ Statement.NullStatement) →
      (do backward; m).run { p with current := p.current + 1 } = .ok (a, p') →
      p'.tokens = p.tokens ∧ ∃ seg, p.tokens.drop p.current = seg ++ p.tokens.drop p'.current ∧
        NeutralFrom 0 seg ∧ seg ≠ [] ∧ a ≠ Statement.NullStatement := by
    intro m p a p' hm h
    rw [run_bind, backward_run] at h
    dsimp only at h
    have := hm _ _ _ h
    simpa using this
  intro p a p' h
  rw [run_bind, forward_run] at h
  dsimp only at h
  rw [run_bind] at h
  split at h
  · rename_i b1 p1 hc1
    obtain ⟨e1, _⟩ := check_ok _ _ _ _ hc1
    subst e1
    rw [run_bind] at h
    split at h
    · rename_i b2 p2 hc2
      obtain ⟨e2, _⟩ := check_ok _ _ _ _ hc2
      subst e2
      split at h
      · exact hback _ _ _ _ (assign_statement fuel) h
      · rw [run_bind] at h
        split at h
        · rename_i b3 p3 hc3
          obtain ⟨e3, _⟩ := check_ok _ _ _ _ hc3
          subst e3
          split at h
          · exact hback _ _ _ _ hCall h
          · exact hback _ _ _ _ hCall h
        · cases h
    · cases h
  · cases h

end Parser

/-- `push_back` puts the statement at the end. -/
theorem StatementList.toList_push_back :
    ∀ (l : StatementList) (s : Statement), (l.push_back s).toList = l.toList ++ [s]
  | .nil, _ => rfl
  | .cons a tl, s => by
    show a :: (tl.push_back s).toList = a :: (tl.toList ++ [s])
    rw [StatementList.toList_push_back tl s]

/-- What `Parser::compoundStatement` reads is a stretch without separating semicolon in
which every `begin` is closed, of at least one token. -/
theorem CompoundParsed.isNeutral {cs : CompoundStatement} {seg : List Token}
    (h : CompoundParsed cs seg) : NeutralFrom 0 seg ∧ seg ≠ [] := by
  obtain ⟨b, inner, e, rfl, hb, he, hn, _⟩ := h
  exact ⟨NeutralFrom.block b e inner hb he hn, List.cons_ne_nil _ _⟩

namespace Parser

/-- The functions that parse statements.  `Parser::statement` and the functions for `if`,
`for` and `while` read at least one token, a stretch without separating semicolon in which
every `begin` is closed, and build a statement that is not a `NullStatement`;
`Parser::compoundStatement` fills every position between its `begin` and its `end` with one
statement. -/
theorem statements_parsed (fuel : Nat) :
    ParsesStatement (statement fuel) (fun s => s ≠ Statement.NullStatement) ∧
    (∀ acc, Parses (compoundStatementLoop fuel acc) (CompoundLoopParsed acc)) ∧
    Parses (compoundStatement fuel) CompoundParsed ∧
    ParsesStatement (ifStatement fuel) (fun s => s ≠ Statement.NullStatement) ∧
    ParsesStatement (forStatement fuel) (fun s => s ≠ Statement.NullStatement) ∧
    ParsesStatement (whileStatement fuel) (fun s => s ≠ Statement.NullStatement) := by
  induction fuel with
  | zero =>
    refine ⟨?_, fun _ => ?_, ?_, ?_, ?_, ?_⟩
    · rw [statement]; exact Parses.ofThrow _ _
    · rw [compoundStatementLoop]; exact Parses.ofThrow _ _
    · rw [compoundStatement]; exact Parses.ofThrow _ _
    · rw [ifStatement]; exact Parses.ofThrow _ _
    · rw [forStatement]; exact Parses.ofThrow _ _
    · rw [whileStatement]; exact Parses.ofThrow _ _
  | succ fuel ih =>
    obtain ⟨ihStatement, ihLoop, ihCompound, ihIf, ihFor, ihWhile⟩ := ih
    obtain ⟨_, _, _, _, _, ihExpression, _, _, _⟩ := expressions_neutral fuel
    have ihCompound' : ParsesStatement (compoundStatement fuel) fun _ => True :=
      Parses.weaker ihCompound fun _ _ h => ⟨h.isNeutral.1, h.isNeutral.2, trivial⟩
    have ihBody : ParsesNeutral (statement fuel) := ihStatement.toNeutral
    have hBlock : ParsesStatement
        (do return Statement.CompoundStatement (← compoundStatement fuel))
        fun s => s ≠ Statement.NullStatement :=
      ParsesStatement.seqStatement ihCompound'
        (fun _ => Parses.pureResult _ _ (fun h => Statement.noConfusion h))
    refine ⟨?_, fun acc => ?_, ?_, ?_, ?_, ?_⟩
    · rw [statement]
      repeat' first
        | with_reducible exact ParsesNothing.checkNothing _
        | with_reducible exact ihIf
        | with_reducible exact ihFor
        | with_reducible exact ihWhile
        | with_reducible exact readStatement_statement _
        | with_reducible exact writeStatement_statement _
        | with_reducible exact breakStatement_statement
        | with_reducible exact identifierStatement_statement _
        | with_reducible exact hBlock
        | with_reducible exact ParsesNothing.getTokenNothing
        | with_reducible exact ParsesStatement.throwStatement _ _
        | with_reducible refine ParsesStatement.afterNothing ?_ (fun _ => ?_)
        | split
    · intro p stmts p' h
      rw [compoundStatementLoop, run_bind] at h
      split at h
      · rename_i b p1 hm
        rcases match_ok _ _ _ _ hm with ⟨hb, hp1⟩ | ⟨hb, e, hg, hty, hp1⟩
        · subst hb
          subst hp1
          rw [if_neg Bool.false_ne_true, run_bind] at h
          split at h
          · rename_i semi p2 hcons
            obtain ⟨hgs, htys, hp2⟩ := consume_ok _ _ _ _ _ hcons
            subst hp2
            have hdrop := drop_of_getElem _ _ _ hgs
            rw [run_bind] at h
            split at h
            · rename_i c1 q1 hc1
              obtain ⟨e1, _⟩ := check_ok _ _ _ _ hc1
              subst e1
              rw [run_bind] at h
              split at h
              · rename_i c2 q2 hc2
                obtain ⟨e2, _⟩ := check_ok _ _ _ _ hc2
                subst e2
                split at h
                · obtain ⟨ht, seg, hd, body, e, segs, added, hseg, he, hn, hst, hfa, hpos⟩ :=
                    ihLoop _ _ _ _ h
                  dsimp only at hd ht
                  refine ⟨ht, semi :: seg, ?_, semi :: body, e, [] :: segs,
                    Statement.NullStatement :: added, ?_, he, ?_, ?_, ?_, ?_⟩
                  · rw [hdrop, hd]
                    rfl
                  · rw [hseg]
                    rfl
                  · exact (NeutralFrom.semicolon semi htys).concat hn
                  · rw [hst, StatementList.toList_push_back, List.append_assoc]
                    rfl
                  · exact List.Forall₂.cons ⟨fun _ => rfl, fun _ => rfl⟩ hfa
                  · intro first hf
                    rw [hf.positions_cons semi htys, ← List.nil_append body,
                      hpos [] (NeutralFrom.empty 0)]
                · rw [run_bind] at h
                  split at h
                  · rename_i s p3 hs
                    obtain ⟨ht3, segS, hd3, hns, hne, hsn⟩ := ihStatement _ _ _ hs
                    obtain ⟨ht, seg, hd, body, e, segs, added, hseg, he, hn, hst, hfa, hpos⟩ :=
                      ihLoop _ _ _ _ h
                    dsimp only at hd3 ht3
                    rw [ht3] at hd
                    refine ⟨ht.trans ht3, semi :: (segS ++ seg), ?_, semi :: (segS ++ body), e,
                      segS :: segs, s :: added, ?_, he, ?_, ?_, ?_, ?_⟩
                    · rw [hdrop, hd3, hd]
                      simp only [List.cons_append, List.append_assoc]
                    · rw [hseg]
                      simp only [List.cons_append, List.append_assoc]
                    · exact (NeutralFrom.semicolon semi htys).concat
                        ((hns.mono (Nat.zero_le 1)).concat hn)
                    · rw [hst, StatementList.toList_push_back, List.append_assoc]
                      rfl
                    · exact List.Forall₂.cons
                        ⟨fun h0 => absurd h0 hne, fun h0 => absurd h0 hsn⟩ hfa
                    · intro first hf
                      rw [hf.positions_cons semi htys, hpos segS hns]
                  · cases h
              · cases h
            · cases h
          · cases h
        · subst hb
          subst hp1
          rw [if_pos rfl] at h
          cases h
          refine ⟨rfl, [e], drop_of_getElem _ _ _ hg, [], e, [], [], rfl, hty,
            NeutralFrom.empty 1, (List.append_nil _).symm, List.Forall₂.nil, fun first hf => ?_⟩
          rw [List.append_nil]
          exact hf.positions_eq
      · cases h
    · intro p cs p' h
      rw [compoundStatement, run_bind] at h
      split at h
      · rename_i b p1 hcons
        obtain ⟨hgb, htyb, hp1⟩ := consume_ok _ _ _ _ _ hcons
        subst hp1
        have hdropb := drop_of_getElem _ _ _ hgb
        rw [run_bind, alloc_run] at h
        dsimp only at h
        rw [run_bind] at h
        split at h
        · rename_i m p2 hm
          rcases match_ok _ _ _ _ hm with ⟨hb, hp2⟩ | ⟨hb, e, hg, hty, hp2⟩
          · subst hb
            subst hp2
            have key : ∀ (first : Statement) (p3 : Parser) (segF : List Token)
                (stmts : StatementList) (p4 : Parser), p3.tokens = p.tokens →
                p.tokens.drop (p.current + 1) = segF ++ p.tokens.drop p3.current →
                NeutralFrom 0 segF → FilledBy segF first →
                (compoundStatementLoop fuel (.cons first .nil)).run p3 = .ok (stmts, p4) →
                p4.tokens = p.tokens ∧ ∃ seg,
                  p.tokens.drop p.current = seg ++ p.tokens.drop p4.current ∧
                  CompoundParsed (.mk p.nextAddr stmts) seg := by
              intro first p3 segF stmts p4 ht3 hd3 hnF hfill hloop
              obtain ⟨ht, seg, hd, body, e, segs, added, hseg, he, hn, hst, hfa, hpos⟩ :=
                ihLoop _ _ _ _ hloop
              rw [ht3] at hd
              refine ⟨ht.trans ht3, b :: (segF ++ body) ++ [e], ?_, b, segF ++ body, e, rfl,
                htyb, he, (hnF.mono (Nat.zero_le 1)).concat hn, ?_⟩
              · rw [hdropb, hd3, hd, hseg]
                simp only [List.cons_append, List.append_assoc]
              · rw [hpos segF hnF]
                show List.Forall₂ FilledBy (segF :: segs) stmts.toList
                rw [hst]
                exact List.Forall₂.cons hfill hfa
            rw [if_neg Bool.false_ne_true, run_bind] at h
            split at h
            · rename_i c1 q1 hc1
              obtain ⟨e1, _⟩ := check_ok _ _ _ _ hc1
              subst e1
              split at h
              · rw [run_bind, run_pure] at h
                dsimp only at h
                rw [run_bind] at h
                split at h
                · rename_i stmts p4 hloop
                  cases h
                  exact key _ { p with current := p.current + 1, nextAddr := p.nextAddr + 1 } []
                    _ _ rfl rfl (NeutralFrom.empty 0) ⟨fun _ => rfl, fun _ => rfl⟩ hloop
                · cases h
              · rw [run_bind] at h
                split at h
                · rename_i first p3 hfirst
                  obtain ⟨ht3, segS, hd3, hns, hne, hsn⟩ := ihStatement _ _ _ hfirst
                  rw [run_bind] at h
                  split at h
                  · rename_i stmts p4 hloop
                    cases h
                    exact key _ _ segS _ _ ht3 hd3 hns
                      ⟨fun h0 => absurd h0 hne, fun h0 => absurd h0 hsn⟩ hloop
                  · cases h
                · cases h
            · cases h
          · subst hb
            subst hp2
            rw [if_pos rfl] at h
            cases h
            refine ⟨rfl, [b, e], ?_, b, [], e, rfl, htyb, hty, NeutralFrom.empty 1, ?_⟩
            · rw [hdropb]
              exact congrArg (b :: ·) (drop_of_getElem _ _ _ hg)
            · exact List.Forall₂.cons ⟨fun _ => rfl, fun _ => rfl⟩ List.Forall₂.nil
        · cases h
      · cases h
    · rw [ifStatement]
      refine ParsesStatement.seqStatement
        (ParsesStatement.consumeStatement _ _ (by decide) (by decide) (by decide)) (fun _ => ?_)
      repeat' first
        | with_reducible exact Parses.pureResult _ _ (fun h => Statement.noConfusion h)
        | with_reducible exact ParsesNeutral.pureNeutral _
        | with_reducible exact ParsesNeutral.consumeNeutral _ _ (by decide) (by decide) (by decide)
        | with_reducible exact ParsesNeutral.matchNeutral _ (by decide) (by decide) (by decide)
        | with_reducible exact startsStatement_neutral
        | with_reducible exact ihExpression
        | with_reducible exact ihBody
        | with_reducible refine Parses.seqResult ?_ (fun _ => ?_)
        | split
    · rw [forStatement]
      refine ParsesStatement.seqStatement
        (ParsesStatement.consumeStatement _ _ (by decide) (by decide) (by decide)) (fun _ => ?_)
      repeat' first
        | with_reducible exact Parses.pureResult _ _ (fun h => Statement.noConfusion h)
        | with_reducible exact ParsesNeutral.pureNeutral _
        | with_reducible exact ParsesNeutral.consumeNeutral _ _ (by decide) (by decide) (by decide)
        | with_reducible exact startsStatement_neutral
        | with_reducible exact ihExpression
        | with_reducible exact ihBody
        | with_reducible refine Parses.seqResult ?_ (fun _ => ?_)
        | split
    · rw [whileStatement]
      refine ParsesStatement.seqStatement
        (ParsesStatement.consumeStatement _ _ (by decide) (by decide) (by decide)) (fun _ => ?_)
      repeat' first
        | with_reducible exact Parses.pureResult _ _ (fun h => Statement.noConfusion h)
        | with_reducible exact ParsesNeutral.pureNeutral _
        | with_reducible exact ParsesNeutral.consumeNeutral _ _ (by decide) (by decide) (by decide)
        | with_reducible exact startsStatement_neutral
        | with_reducible exact ihExpression
        | with_reducible exact ihBody
        | with_reducible refine Parses.seqResult ?_ (fun _ => ?_)
        | split

end Parser

/-- C28 (statements of a compound statement): when `Parser::compoundStatement` returns, it
has read a `begin`, a stretch of tokens and the `end` that closes the `begin`; the
statements it holds fill, one each and in order, the positions into which the separating
semicolons cut the stretch, a position being filled by a `NullStatement` exactly when it is
empty.  So the statements are as many as the separating semicolons plus one, at least one,
and `begin end` gives exactly one `NullStatement`. -/
theorem C28_compound_statement_fills_every_position (fuel : Nat) (p : Parser)
    (cs : CompoundStatement) (p' : Parser)
    (h : (Parser.compoundStatement fuel).run p = .ok (cs, p')) :
    ∃ b inner e, p.tokens.drop p.current = b :: inner ++ e :: p.tokens.drop p'.current ∧
      b.type = .BEGIN ∧ e.type = .END ∧
      List.Forall₂ (fun seg s => seg = [] ↔ s = Statement.NullStatement) (positions 0 inner)
        cs.getStatements.toList ∧
      cs.getStatements.toList.length = separators 0 inner + 1 ∧
      (inner = [] → cs.getStatements.toList = [Statement.NullStatement]) := by
  obtain ⟨_, seg, hd, b, inner, e, hseg, hb, he, _, hfa⟩ :=
    (Parser.statements_parsed fuel).2.2.1 p cs p' h
  refine ⟨b, inner, e, ?_, hb, he, hfa, ?_, fun hi => ?_⟩
  · rw [hd, hseg]
    simp only [List.cons_append, List.append_assoc, List.singleton_append, List.nil_append]
  · rw [← hfa.length_eq, positions_length]
  · subst hi
    have hfa' : List.Forall₂ FilledBy [[]] cs.getStatements.toList := hfa
    generalize cs.getStatements.toList = l at hfa'
    cases hfa' with
    | cons h1 h2 =>
      cases h2
      rw [h1.1 rfl]

/-- Witness of C28: the tokens of `begin a; ; end`.  The stretch between `begin` and `end`
has two separating semicolons; the statements are the call `a`, and a `NullStatement` for
each of the two empty positions. -/
theorem C28_compound_statement_fills_every_position_witness :
    (Parser.compoundStatement 8).run (Parser.new compoundExampleTokens) =
      .ok (.mk 0 (.cons (.ProcedureCall (.mk "a" .nil))
          (.cons .NullStatement (.cons .NullStatement .nil))),
        ⟨compoundExampleTokens, 5, 1⟩) ∧
    ∃ b inner e,
      compoundExampleTokens = b :: inner ++ e :: [⟨.END_OF_FILE, "", 1⟩] ∧
      b.type = .BEGIN ∧ e.type = .END ∧
      List.Forall₂ (fun seg s => seg = [] ↔ s = Statement.NullStatement) (positions 0 inner)
        [.ProcedureCall (.mk "a" .nil), .NullStatement, .NullStatement] ∧
      [Statement.ProcedureCall (.mk "a" .nil), .NullStatement, .NullStatement].length =
        separators 0 inner + 1 ∧
      (inner = [] → [Statement.ProcedureCall (.mk "a" .nil), .NullStatement,
        .NullStatement] = [Statement.NullStatement]) :=
  ⟨rfl, C28_compound_statement_fills_every_position 8 (Parser.new compoundExampleTokens)
    (.mk 0 (.cons (.ProcedureCall (.mk "a" .nil))
      (.cons .NullStatement (.cons .NullStatement .nil))))
    ⟨compoundExampleTokens, 5, 1⟩ rfl⟩

/-! ## C29: the dangling else -/

namespace Parser

/-- The test whether a statement follows, on a token of the vector. -/
theorem startsStatement_run (p : Parser) (tok : Token) (h : p.tokens[p.current]? = some tok) :
    startsStatement.run p =
      .ok ((tok.type != .END_OF_FILE && tok.type == .IDENTIFIER) ||
        (tok.type != .END_OF_FILE && tok.type == .BEGIN) ||
        (tok.type != .END_OF_FILE && tok.type == .IF) ||
        (tok.type != .END_OF_FILE && tok.type == .FOR) ||
        (tok.type != .END_OF_FILE && tok.type == .WHILE) ||
        (tok.type != .END_OF_FILE && tok.type == .READ) ||
        (tok.type != .END_OF_FILE && tok.type == .WRITE) ||
        (tok.type != .END_OF_FILE && tok.type == .BREAK), p) := by
  unfold startsStatement
  simp only [run_bind, check_run _ p tok h, run_pure]

end Parser

/-- C29 (dangling else): in `if c1 then if c2 then s1 else s2`, where `c1` and `c2` are
read by `Parser::expression` and `s1` and `s2` by `Parser::statement`, and the token after
`s2` is not another `else`, `Parser::ifStatement` builds an `If` with condition `c1` and no
else-branch, whose then-branch is the `If` with condition `c2`, then-branch `s1` and
else-branch `s2`. -/
theorem C29_else_binds_to_nearest_if (fuel : Nat) (p p1 p2 p3 p4 : Parser)
    (if1 then1 if2 then2 else2 after : Token) (c1 c2 : Expression) (s1 s2 : Statement)
    (hif1 : p.tokens[p.current]? = some if1) (tif1 : if1.type = .IF)
    (hc1 : (Parser.expression (fuel + 2)).run { p with current := p.current + 1 } = .ok (c1, p1))
    (hthen1 : p1.tokens[p1.current]? = some then1) (tthen1 : then1.type = .THEN)
    (hif2 : p1.tokens[p1.current + 1]? = some if2) (tif2 : if2.type = .IF)
    (hc2 : (Parser.expression fuel).run { p1 with current := p1.current + 1 + 1 } = .ok (c2, p2))
    (hthen2 : p2.tokens[p2.current]? = some then2) (tthen2 : then2.type = .THEN)
    (hstart1 : Parser.startsStatement.run { p2 with current := p2.current + 1 } =
      .ok (true, { p2 with current := p2.current + 1 }))
    (hs1 : (Parser.statement fuel).run { p2 with current := p2.current + 1 } = .ok (s1, p3))
    (helse : p3.tokens[p3.current]? = some else2) (telse : else2.type = .ELSE)
    (hstart2 : Parser.startsStatement.run { p3 with current := p3.current + 1 } =
      .ok (true, { p3 with current := p3.current + 1 }))
    (hs2 : (Parser.statement fuel).run { p3 with current := p3.current + 1 } = .ok (s2, p4))
    (hafter : p4.tokens[p4.current]? = some after) (tafter : after.type ≠ .ELSE) :
    (Parser.ifStatement (fuel + 3)).run p = .ok (.If c1 (.IfElse c2 s1 s2), p4) := by
  have hIF : (TokenType.IF != TokenType.END_OF_FILE && TokenType.IF == TokenType.IF) = true := rfl
  have hTHEN : (TokenType.THEN != TokenType.END_OF_FILE && TokenType.THEN == TokenType.THEN) =
      true := rfl
  have hELSE : (TokenType.ELSE != TokenType.END_OF_FILE && TokenType.ELSE == TokenType.ELSE) =
      true := rfl
  have hif2' : ({ p1 with current := p1.current + 1 } : Parser).tokens[
      ({ p1 with current := p1.current + 1 } : Parser).current]? = some if2 := hif2
  -- the inner if statement
  have inner : (Parser.ifStatement (fuel + 1)).run { p1 with current := p1.current + 1 } =
      .ok (.IfElse c2 s1 s2, p4) := by
    rw [Parser.ifStatement, Parser.run_bind, Parser.consume_run _ _ _ if2 hif2', tif2, if_pos hIF]
    dsimp only
    rw [Parser.run_bind, hc2]
    dsimp only
    rw [Parser.run_bind, Parser.consume_run _ _ _ then2 hthen2, tthen2, if_pos hTHEN]
    dsimp only
    rw [Parser.run_bind, hstart1]
    dsimp only
    rw [if_pos rfl, Parser.run_bind, hs1]
    dsimp only
    rw [Parser.run_bind, Parser.match_run _ _ else2 helse, telse, if_pos hELSE]
    dsimp only
    rw [if_pos rfl, Parser.run_bind, hstart2]
    dsimp only
    rw [if_pos rfl, Parser.run_bind, hs2]
    rfl
  -- the statement after the first `then` is that if statement
  have body : (Parser.statement (fuel + 2)).run { p1 with current := p1.current + 1 } =
      .ok (.IfElse c2 s1 s2, p4) := by
    rw [Parser.statement, Parser.run_bind, Parser.check_run _ _ if2 hif2', tif2]
    dsimp only
    rw [if_neg (by decide), Parser.run_bind, Parser.check_run _ _ if2 hif2', tif2]
    dsimp only
    rw [if_pos hIF]
    exact inner
  have start : Parser.startsStatement.run { p1 with current := p1.current + 1 } =
      .ok (true, { p1 with current := p1.current + 1 }) := by
    rw [Parser.startsStatement_run _ if2 hif2', tif2]
    rfl
  rw [Parser.ifStatement, Parser.run_bind, Parser.consume_run _ _ _ if1 hif1, tif1, if_pos hIF]
  dsimp only
  rw [Parser.run_bind, hc1]
  dsimp only
  rw [Parser.run_bind, Parser.consume_run _ _ _ then1 hthen1, tthen1, if_pos hTHEN]
  dsimp only
  rw [Parser.run_bind, start]
  dsimp only
  rw [if_pos rfl, Parser.run_bind, body]
  dsimp only
  rw [Parser.run_bind, Parser.match_run _ _ after hafter, Parser.test_ne _ _ tafter,
    if_neg Bool.false_ne_true]
  rfl

/-- Witness of C29: `danglingElseTokens` are the tokens of
`if c1 then if c2 then s1 else s2`, and `Parser::ifStatement` builds from them the outer `If`
on `c1` that holds the `IfElse` on `c2` with the calls `s1` and `s2`. -/
theorem C29_else_binds_to_nearest_if_witness :
    (Lexer.scan 40 (Lexer.new "if c1 then if c2 then s1 else s2")).map
        (fun r => (r.1.tokens, r.2)) = some (danglingElseTokens, []) ∧
      (Parser.ifStatement (6 + 3)).run (Parser.new danglingElseTokens) =
        .ok (.If (nameExpression 0 "c1")
            (.IfElse (nameExpression 1 "c2") (.ProcedureCall (.mk "s1" .nil))
              (.ProcedureCall (.mk "s2" .nil))),
          ⟨danglingElseTokens, 9, 2⟩) :=
  ⟨by decide!,
    C29_else_binds_to_nearest_if 6 (Parser.new danglingElseTokens) ⟨danglingElseTokens, 2, 1⟩
      ⟨danglingElseTokens, 5, 2⟩ ⟨danglingElseTokens, 7, 2⟩ ⟨danglingElseTokens, 9, 2⟩
      ⟨.IF, "", 1⟩ ⟨.THEN, "", 1⟩ ⟨.IF, "", 1⟩ ⟨.THEN, "", 1⟩ ⟨.ELSE, "", 1⟩ ⟨.END_OF_FILE, "", 1⟩
      (nameExpression 0 "c1") (nameExpression 1 "c2") (.ProcedureCall (.mk "s1" .nil))
      (.ProcedureCall (.mk "s2" .nil))
      rfl rfl rfl rfl rfl rfl rfl rfl rfl rfl rfl rfl rfl rfl rfl rfl rfl (by decide)⟩

/-! ## C40: the tokens that the parser reads -/

/-- A parser agrees with itself. -/
theorem agree_self (p : Parser) : Agree p p := ⟨rfl, rfl, List.prefix_refl _⟩

/-- A token of the first vector is the token at the same index of the second. -/
theorem agree_getElem {p q : Parser} (h : Agree p q) {tok : Token}
    (ht : p.tokens[p.current]? = some tok) : q.tokens[q.current]? = some tok := by
  obtain ⟨hc, _, junk, hj⟩ := h
  rw [hc, ← hj]
  rw [List.getElem?_append_left]
  · exact ht
  · by_contra hlen
    rw [List.getElem?_eq_none (Nat.le_of_not_lt hlen)] at ht
    cases ht

/-- Returning a value. -/
theorem follows_pure {α : Type} (a : α) : Follows (pure a : ParserM α) (pure a) := by
  intro p q h
  exact ⟨q, rfl, h⟩

/-- Throwing. -/
theorem follows_throw {α : Type} (e : ParserError) :
    Follows (throw e : ParserM α) (throw e) := by
  intro p q _
  cases e <;> first | rfl | trivial

/-- Two steps in sequence. -/
theorem follows_bind {α β : Type} {m n : ParserM α} {f g : α → ParserM β}
    (hm : Follows m n) (hf : ∀ a, Follows (f a) (g a)) : Follows (m >>= f) (n >>= g) := by
  intro p q h
  have h1 := hm p q h
  rw [Parser.run_bind, Parser.run_bind]
  generalize m.run p = r at h1
  match r, h1 with
  | .ok (a, p'), h1 =>
    obtain ⟨q', hq, hag⟩ := h1
    rw [hq]
    exact hf a p' q' hag
  | .error (.ParserException msg line), h1 =>
    rw [h1]
  | .error .outOfRange, _ => trivial
  | .error .outOfFuel, _ => trivial

/-- A choice on a condition that does not depend on the parser. -/
theorem follows_ite {α : Type} {c : Prop} [Decidable c] {m n m' n' : ParserM α}
    (h1 : Follows m n) (h2 : Follows m' n') :
    Follows (if c then m else m') (if c then n else n') := by
  split
  · exact h1
  · exact h2

/-- `Parser::getToken`. -/
theorem follows_getToken : Follows Parser.getToken Parser.getToken := by
  intro p q h
  cases ht : p.tokens[p.current]? with
  | none =>
    have : Parser.getToken.run p = .error .outOfRange := by
      show (match p.tokens[p.current]? with | some t => _ | none => _) = _
      rw [ht]
    rw [this]
    trivial
  | some tok =>
    rw [Parser.getToken_run p tok ht, Parser.getToken_run q tok (agree_getElem h ht)]
    exact ⟨q, rfl, h⟩

/-- Allocation of a node. -/
theorem follows_alloc : Follows Parser.alloc Parser.alloc := by
  intro p q h
  refine ⟨{ q with nextAddr := q.nextAddr + 1 }, ?_, h.1, ?_, h.2.2⟩
  · show Parser.alloc.run q = _
    rw [Parser.alloc_run, h.2.1]
  · show q.nextAddr + 1 = p.nextAddr + 1
    rw [h.2.1]

/-- `Parser::forward`. -/
theorem follows_forward : Follows Parser.forward Parser.forward := by
  intro p q h
  refine ⟨{ q with current := q.current + 1 }, rfl, ?_, h.2.1, h.2.2⟩
  show q.current + 1 = p.current + 1
  rw [h.1]

/-- `Parser::backward`. -/
theorem follows_backward : Follows Parser.backward Parser.backward := by
  intro p q h
  refine ⟨{ q with current := q.current - 1 }, rfl, ?_, h.2.1, h.2.2⟩
  show q.current - 1 = p.current - 1
  rw [h.1]

/-- `Parser::isEnd`. -/
theorem follows_isEnd : Follows Parser.isEnd Parser.isEnd := by
  unfold Parser.isEnd
  exact follows_bind follows_getToken fun _ => follows_pure _

/-- `Parser::check`. -/
theorem follows_check (t : TokenType) : Follows (Parser.check t) (Parser.check t) := by
  unfold Parser.check
  refine follows_bind follows_isEnd fun b => ?_
  split
  · exact follows_pure _
  · exact follows_bind (follows_pure _) fun _ => follows_bind follows_getToken fun _ => follows_pure _

/-- `Parser::match`. -/
theorem follows_match (t : TokenType) : Follows (Parser.match_ t) (Parser.match_ t) := by
  unfold Parser.match_
  refine follows_bind (follows_check t) fun b => ?_
  split
  · exact follows_bind follows_forward fun _ => follows_pure _
  · exact follows_bind (follows_pure _) fun _ => follows_pure _

/-- `Parser::consume`. -/
theorem follows_consume (t : TokenType) (msg : String) :
    Follows (Parser.consume t msg) (Parser.consume t msg) := by
  unfold Parser.consume
  refine follows_bind (follows_check t) fun b => ?_
  split
  · exact follows_bind follows_getToken fun _ => follows_bind follows_forward fun _ => follows_pure _
  · exact follows_bind (follows_pure _) fun _ => follows_bind follows_getToken fun _ => follows_throw _

namespace Parser

/-- The chain that reads a basic type. -/
theorem follows_basicType (msg : String) : Follows (basicType msg) (basicType msg) := by
  unfold basicType
  repeat' first
    | with_reducible exact follows_pure _
    | with_reducible exact follows_throw _
    | with_reducible exact follows_getToken
    | with_reducible exact follows_match _
    | with_reducible refine follows_bind ?_ (fun _ => ?_)
    | with_reducible refine follows_ite ?_ ?_

/-- The test whether a statement follows. -/
theorem follows_startsStatement : Follows startsStatement startsStatement := by
  unfold startsStatement
  repeat' first
    | with_reducible exact follows_pure _
    | with_reducible exact follows_check _
    | with_reducible refine follows_bind ?_ (fun _ => ?_)

/-- `Parser::breakStatement`. -/
theorem follows_breakStatement : Follows breakStatement breakStatement := by
  unfold breakStatement
  exact follows_bind (follows_consume _ _) fun _ => follows_pure _

/-- `Parser::constDeclaration`. -/
theorem follows_constDeclaration : Follows constDeclaration constDeclaration := by
  unfold constDeclaration
  repeat' first
    | with_reducible exact follows_pure _
    | with_reducible exact follows_check _
    | with_reducible exact follows_match _
    | with_reducible exact follows_consume _ _
    | with_reducible refine follows_bind ?_ (fun _ => ?_)
    | with_reducible refine follows_ite ?_ ?_

/-- One range of `Parser::type`. -/
theorem follows_period : Follows period period := by
  unfold period
  repeat' first
    | with_reducible exact follows_pure _
    | with_reducible exact follows_throw _
    | with_reducible exact follows_getToken
    | with_reducible exact follows_consume _ _
    | with_reducible refine follows_bind ?_ (fun _ => ?_)
    | with_reducible refine follows_ite ?_ ?_

/-- The functions that parse expressions, variables and calls, with more fuel and further
tokens after the vector. -/
theorem follows_expressions (fuel : Nat) : ∀ fuel', fuel ≤ fuel' →
    Follows (factor fuel) (factor fuel') ∧
    (∀ first factors, Follows (termLoop fuel first factors) (termLoop fuel' first factors)) ∧
    Follows (term fuel) (term fuel') ∧
    (∀ first terms,
      Follows (simpleExpressionLoop fuel first terms) (simpleExpressionLoop fuel' first terms)) ∧
    Follows (simpleExpression fuel) (simpleExpression fuel') ∧
    Follows (expression fuel) (expression fuel') ∧
    (∀ acc, Follows (expressionListLoop fuel acc) (expressionListLoop fuel' acc)) ∧
    Follows (variable_ fuel) (variable_ fuel') ∧
    Follows (procedureCall fuel) (procedureCall fuel') := by
  induction fuel with
  | zero =>
    intro fuel' _
    have h0 : ∀ {α : Type} (n : ParserM α), Follows (throw ParserError.outOfFuel) n :=
      fun _ _ _ _ => trivial
    refine ⟨?_, fun _ _ => ?_, ?_, fun _ _ => ?_, ?_, ?_, fun _ => ?_, ?_, ?_⟩
    · rw [factor]; exact h0 _
    · rw [termLoop]; exact h0 _
    · rw [term]; exact h0 _
    · rw [simpleExpressionLoop]; exact h0 _
    · rw [simpleExpression]; exact h0 _
    · rw [expression]; exact h0 _
    · rw [expressionListLoop]; exact h0 _
    · rw [variable_]; exact h0 _
    · rw [procedureCall]; exact h0 _
  | succ fuel ih =>
    intro fuel' hle
    obtain ⟨f', rfl⟩ : ∃ f', fuel' = f' + 1 := ⟨fuel' - 1, by omega⟩
    obtain ⟨ihFactor, ihTermLoop, ihTerm, ihSimpleLoop, ihSimple, ihExpression, ihList,
      ihVariable, ihCall⟩ := ih f' (by omega)
    refine ⟨?_, fun _ _ => ?_, ?_, fun _ _ => ?_, ?_, ?_, fun _ => ?_, ?_, ?_⟩
    · rw [factor, factor]
      repeat' first
        | with_reducible exact follows_pure _
        | with_reducible exact follows_throw _
        | with_reducible exact follows_getToken
        | with_reducible exact follows_alloc
        | with_reducible exact follows_forward
        | with_reducible exact follows_backward
        | with_reducible exact follows_check _
        | with_reducible exact follows_match _
        | with_reducible exact follows_consume _ _
        | with_reducible exact ihFactor
        | with_reducible exact ihExpression
        | with_reducible exact ihVariable
        | with_reducible exact ihCall
        | with_reducible refine follows_bind ?_ (fun _ => ?_)
        | with_reducible refine follows_ite ?_ ?_
    · rw [termLoop, termLoop]
      repeat' first
        | with_reducible exact follows_pure _
        | with_reducible exact follows_check _
        | with_reducible exact follows_match _
        | with_reducible exact ihFactor
        | with_reducible exact ihTermLoop _ _
        | with_reducible refine follows_bind ?_ (fun _ => ?_)
        | with_reducible refine follows_ite ?_ ?_
    · rw [term, term]
      exact follows_bind ihFactor fun _ => ihTermLoop _ _
    · rw [simpleExpressionLoop, simpleExpressionLoop]
      repeat' first
        | with_reducible exact follows_pure _
        | with_reducible exact follows_check _
        | with_reducible exact follows_match _
        | with_reducible exact ihTerm
        | with_reducible exact ihSimpleLoop _ _
        | with_reducible refine follows_bind ?_ (fun _ => ?_)
        | with_reducible refine follows_ite ?_ ?_
    · rw [simpleExpression, simpleExpression]
      exact follows_bind ihTerm fun _ => ihSimpleLoop _ _
    · rw [expression, expression]
      repeat' first
        | with_reducible exact follows_pure _
        | with_reducible exact follows_match _
        | with_reducible exact ihSimple
        | with_reducible refine follows_bind ?_ (fun _ => ?_)
        | with_reducible refine follows_ite ?_ ?_
    · rw [expressionListLoop, expressionListLoop]
      repeat' first
        | with_reducible exact follows_pure _
        | with_reducible exact follows_match _
        | with_reducible exact ihExpression
        | with_reducible exact ihList _
        | with_reducible refine follows_bind ?_ (fun _ => ?_)
        | with_reducible refine follows_ite ?_ ?_
    · rw [variable_, variable_]
      repeat' first
        | with_reducible exact follows_pure _
        | with_reducible exact follows_match _
        | with_reducible exact follows_consume _ _
        | with_reducible exact ihExpression
        | with_reducible exact ihList _
        | with_reducible refine follows_bind ?_ (fun _ => ?_)
        | with_reducible refine follows_ite ?_ ?_
    · rw [procedureCall, procedureCall]
      repeat' first
        | with_reducible exact follows_pure _
        | with_reducible exact follows_match _
        | with_reducible exact follows_consume _ _
        | with_reducible exact ihExpression
        | with_reducible exact ihList _
        | with_reducible refine follows_bind ?_ (fun _ => ?_)
        | with_reducible refine follows_ite ?_ ?_

end Parser

namespace Parser

/-- The loop over the variables of a read statement, with more fuel and further tokens. -/
theorem follows_variableListLoop (fuel : Nat) : ∀ fuel', fuel ≤ fuel' → ∀ acc,
    Follows (variableListLoop fuel acc) (variableListLoop fuel' acc) := by
  induction fuel with
  | zero =>
    intro fuel' _ acc
    rw [variableListLoop]
    exact fun _ _ _ => trivial
  | succ fuel ih =>
    intro fuel' hle acc
    obtain ⟨f', rfl⟩ : ∃ f', fuel' = f' + 1 := ⟨fuel' - 1, by omega⟩
    have ihVariable := (follows_expressions fuel f' (by omega)).2.2.2.2.2.2.2.1
    rw [variableListLoop, variableListLoop]
    repeat' first
      | with_reducible exact follows_pure _
      | with_reducible exact follows_match _
      | with_reducible exact ihVariable
      | with_reducible exact ih f' (by omega) _
      | with_reducible refine follows_bind ?_ (fun _ => ?_)
      | with_reducible refine follows_ite ?_ ?_

/-- The functions that parse statements, with more fuel and further tokens after the
vector. -/
theorem follows_statements (fuel : Nat) : ∀ fuel', fuel ≤ fuel' →
    Follows (statement fuel) (statement fuel') ∧
    (∀ acc, Follows (compoundStatementLoop fuel acc) (compoundStatementLoop fuel' acc)) ∧
    Follows (compoundStatement fuel) (compoundStatement fuel') ∧
    Follows (ifStatement fuel) (ifStatement fuel') ∧
    Follows (forStatement fuel) (forStatement fuel') ∧
    Follows (whileStatement fuel) (whileStatement fuel') := by
  induction fuel with
  | zero =>
    intro fuel' _
    have h0 : ∀ {α : Type} (n : ParserM α), Follows (throw ParserError.outOfFuel) n :=
      fun _ _ _ _ => trivial
    refine ⟨?_, fun _ => ?_, ?_, ?_, ?_, ?_⟩
    · rw [statement]; exact h0 _
    · rw [compoundStatementLoop]; exact h0 _
    · rw [compoundStatement]; exact h0 _
    · rw [ifStatement]; exact h0 _
    · rw [forStatement]; exact h0 _
    · rw [whileStatement]; exact h0 _
  | succ fuel ih =>
    intro fuel' hle
    obtain ⟨f', rfl⟩ : ∃ f', fuel' = f' + 1 := ⟨fuel' - 1, by omega⟩
    obtain ⟨ihStatement, ihLoop, ihCompound, ihIf, ihFor, ihWhile⟩ := ih f' (by omega)
    obtain ⟨-, -, -, -, -, ihExpression, ihList, ihVariable, ihCall⟩ :=
      follows_expressions fuel f' (by omega)
    have ihVariableList := follows_variableListLoop fuel f' (by omega)
    refine ⟨?_, fun _ => ?_, ?_, ?_, ?_, ?_⟩
    · rw [statement, statement]
      unfold readStatement writeStatement assign
      repeat' first
        | with_reducible exact follows_pure _
        | with_reducible exact follows_throw _
        | with_reducible exact follows_getToken
        | with_reducible exact follows_alloc
        | with_reducible exact follows_forward
        | with_reducible exact follows_backward
        | with_reducible exact follows_check _
        | with_reducible exact follows_match _
        | with_reducible exact follows_consume _ _
        | with_reducible exact follows_breakStatement
        | with_reducible exact ihExpression
        | with_reducible exact ihVariable
        | with_reducible exact ihCall
        | with_reducible exact ihList _
        | with_reducible exact ihVariableList _
        | with_reducible exact ihCompound
        | with_reducible exact ihIf
        | with_reducible exact ihFor
        | with_reducible exact ihWhile
        | with_reducible refine follows_bind ?_ (fun _ => ?_)
        | with_reducible refine follows_ite ?_ ?_
    · rw [compoundStatementLoop, compoundStatementLoop]
      repeat' first
        | with_reducible exact follows_pure _
        | with_reducible exact follows_check _
        | with_reducible exact follows_match _
        | with_reducible exact follows_consume _ _
        | with_reducible exact ihStatement
        | with_reducible exact ihLoop _
        | with_reducible refine follows_bind ?_ (fun _ => ?_)
        | with_reducible refine follows_ite ?_ ?_
    · rw [compoundStatement, compoundStatement]
      repeat' first
        | with_reducible exact follows_pure _
        | with_reducible exact follows_alloc
        | with_reducible exact follows_check _
        | with_reducible exact follows_match _
        | with_reducible exact follows_consume _ _
        | with_reducible exact ihStatement
        | with_reducible exact ihLoop _
        | with_reducible refine follows_bind ?_ (fun _ => ?_)
        | with_reducible refine follows_ite ?_ ?_
    · rw [ifStatement, ifStatement]
      repeat' first
        | with_reducible exact follows_pure _
        | with_reducible exact follows_startsStatement
        | with_reducible exact follows_match _
        | with_reducible exact follows_consume _ _
        | with_reducible exact ihExpression
        | with_reducible exact ihStatement
        | with_reducible refine follows_bind ?_ (fun _ => ?_)
        | with_reducible refine follows_ite ?_ ?_
    · rw [forStatement, forStatement]
      repeat' first
        | with_reducible exact follows_pure _
        | with_reducible exact follows_startsStatement
        | with_reducible exact follows_consume _ _
        | with_reducible exact ihExpression
        | with_reducible exact ihStatement
        | with_reducible refine follows_bind ?_ (fun _ => ?_)
        | with_reducible refine follows_ite ?_ ?_
    · rw [whileStatement, whileStatement]
      repeat' first
        | with_reducible exact follows_pure _
        | with_reducible exact follows_startsStatement
        | with_reducible exact follows_consume _ _
        | with_reducible exact ihExpression
        | with_reducible exact ihStatement
        | with_reducible refine follows_bind ?_ (fun _ => ?_)
        | with_reducible refine follows_ite ?_ ?_

/-- The loop over the identifiers of a list, with more fuel and further tokens. -/
theorem follows_identifierListLoop (msg : String) (fuel : Nat) : ∀ fuel', fuel ≤ fuel' → ∀ acc,
    Follows (identifierListLoop msg fuel acc) (identifierListLoop msg fuel' acc) := by
  induction fuel with
  | zero =>
    intro fuel' _ acc
    rw [identifierListLoop]
    exact fun _ _ _ => trivial
  | succ fuel ih =>
    intro fuel' hle acc
    obtain ⟨f', rfl⟩ : ∃ f', fuel' = f' + 1 := ⟨fuel' - 1, by omega⟩
    rw [identifierListLoop, identifierListLoop]
    repeat' first
      | with_reducible exact follows_pure _
      | with_reducible exact follows_match _
      | with_reducible exact follows_consume _ _
      | with_reducible exact ih f' (by omega) _
      | with_reducible refine follows_bind ?_ (fun _ => ?_)
      | with_reducible refine follows_ite ?_ ?_

/-- The loop over the ranges of an array type, with more fuel and further tokens. -/
theorem follows_periodLoop (fuel : Nat) : ∀ fuel', fuel ≤ fuel' → ∀ acc,
    Follows (periodLoop fuel acc) (periodLoop fuel' acc) := by
  induction fuel with
  | zero =>
    intro fuel' _ acc
    rw [periodLoop]
    exact fun _ _ _ => trivial
  | succ fuel ih =>
    intro fuel' hle acc
    obtain ⟨f', rfl⟩ : ∃ f', fuel' = f' + 1 := ⟨fuel' - 1, by omega⟩
    rw [periodLoop, periodLoop]
    repeat' first
      | with_reducible exact follows_pure _
      | with_reducible exact follows_match _
      | with_reducible exact follows_period
      | with_reducible exact ih f' (by omega) _
      | with_reducible refine follows_bind ?_ (fun _ => ?_)
      | with_reducible refine follows_ite ?_ ?_

/-- `Parser::parameter`, with more fuel and further tokens. -/
theorem follows_parameter (fuel fuel' : Nat) (h : fuel ≤ fuel') :
    Follows (parameter fuel) (parameter fuel') := by
  unfold parameter
  repeat' first
    | with_reducible exact follows_pure _
    | with_reducible exact follows_match _
    | with_reducible exact follows_consume _ _
    | with_reducible exact follows_basicType _
    | with_reducible exact follows_identifierListLoop _ fuel fuel' h _
    | with_reducible refine follows_bind ?_ (fun _ => ?_)

/-- `Parser::type`, with more fuel and further tokens. -/
theorem follows_type (fuel fuel' : Nat) (h : fuel ≤ fuel') :
    Follows (type fuel) (type fuel') := by
  unfold type
  repeat' first
    | with_reducible exact follows_pure _
    | with_reducible exact follows_match _
    | with_reducible exact follows_consume _ _
    | with_reducible exact follows_basicType _
    | with_reducible exact follows_period
    | with_reducible exact follows_periodLoop fuel fuel' h _
    | with_reducible refine follows_bind ?_ (fun _ => ?_)
    | with_reducible refine follows_ite ?_ ?_

/-- `Parser::varDeclaration`, with more fuel and further tokens. -/
theorem follows_varDeclaration (fuel fuel' : Nat) (h : fuel ≤ fuel') :
    Follows (varDeclaration fuel) (varDeclaration fuel') := by
  unfold varDeclaration
  repeat' first
    | with_reducible exact follows_pure _
    | with_reducible exact follows_consume _ _
    | with_reducible exact follows_type fuel fuel' h
    | with_reducible exact follows_identifierListLoop _ fuel fuel' h _
    | with_reducible refine follows_bind ?_ (fun _ => ?_)

/-- The loop over constant declarations, with more fuel and further tokens. -/
theorem follows_constDeclarationLoop (msg : String) (fuel : Nat) : ∀ fuel', fuel ≤ fuel' →
    ∀ acc, Follows (constDeclarationLoop msg fuel acc) (constDeclarationLoop msg fuel' acc) := by
  induction fuel with
  | zero =>
    intro fuel' _ acc
    rw [constDeclarationLoop]
    exact fun _ _ _ => trivial
  | succ fuel ih =>
    intro fuel' hle acc
    obtain ⟨f', rfl⟩ : ∃ f', fuel' = f' + 1 := ⟨fuel' - 1, by omega⟩
    rw [constDeclarationLoop, constDeclarationLoop]
    repeat' first
      | with_reducible exact follows_pure _
      | with_reducible exact follows_check _
      | with_reducible exact follows_consume _ _
      | with_reducible exact follows_constDeclaration
      | with_reducible exact ih f' (by omega) _
      | with_reducible refine follows_bind ?_ (fun _ => ?_)
      | with_reducible refine follows_ite ?_ ?_

/-- The loop over variable declarations, with more fuel and further tokens. -/
theorem follows_varDeclarationLoop (msg : String) (fuel : Nat) : ∀ fuel', fuel ≤ fuel' →
    ∀ acc, Follows (varDeclarationLoop msg fuel acc) (varDeclarationLoop msg fuel' acc) := by
  induction fuel with
  | zero =>
    intro fuel' _ acc
    rw [varDeclarationLoop]
    exact fun _ _ _ => trivial
  | succ fuel ih =>
    intro fuel' hle acc
    obtain ⟨f', rfl⟩ : ∃ f', fuel' = f' + 1 := ⟨fuel' - 1, by omega⟩
    rw [varDeclarationLoop, varDeclarationLoop]
    repeat' first
      | with_reducible exact follows_pure _
      | with_reducible exact follows_check _
      | with_reducible exact follows_consume _ _
      | with_reducible exact follows_varDeclaration fuel f' (by omega)
      | with_reducible exact ih f' (by omega) _
      | with_reducible refine follows_bind ?_ (fun _ => ?_)
      | with_reducible refine follows_ite ?_ ?_

/-- The loop over the parameters of a subprogram, with more fuel and further tokens. -/
theorem follows_parameterLoop (fuel : Nat) : ∀ fuel', fuel ≤ fuel' → ∀ acc,
    Follows (parameterLoop fuel acc) (parameterLoop fuel' acc) := by
  induction fuel with
  | zero =>
    intro fuel' _ acc
    rw [parameterLoop]
    exact fun _ _ _ => trivial
  | succ fuel ih =>
    intro fuel' hle acc
    obtain ⟨f', rfl⟩ : ∃ f', fuel' = f' + 1 := ⟨fuel' - 1, by omega⟩
    rw [parameterLoop, parameterLoop]
    repeat' first
      | with_reducible exact follows_pure _
      | with_reducible exact follows_match _
      | with_reducible exact follows_parameter fuel f' (by omega)
      | with_reducible exact ih f' (by omega) _
      | with_reducible refine follows_bind ?_ (fun _ => ?_)
      | with_reducible refine follows_ite ?_ ?_

/-- The formal parameter list, with more fuel and further tokens. -/
theorem follows_parameterList (msg : String) (fuel fuel' : Nat) (h : fuel ≤ fuel') :
    Follows (parameterList msg fuel) (parameterList msg fuel') := by
  unfold parameterList
  repeat' first
    | with_reducible exact follows_pure _
    | with_reducible exact follows_match _
    | with_reducible exact follows_consume _ _
    | with_reducible exact follows_parameter fuel fuel' h
    | with_reducible exact follows_parameterLoop fuel fuel' h _
    | with_reducible refine follows_bind ?_ (fun _ => ?_)
    | with_reducible refine follows_ite ?_ ?_

/-- The body of a subprogram, with more fuel and further tokens. -/
theorem follows_subprogramBody (fuel fuel' : Nat) (h : fuel ≤ fuel') :
    Follows (subprogramBody fuel) (subprogramBody fuel') := by
  unfold subprogramBody
  repeat' first
    | with_reducible exact follows_pure _
    | with_reducible exact follows_match _
    | with_reducible exact follows_constDeclarationLoop _ fuel fuel' h _
    | with_reducible exact follows_varDeclarationLoop _ fuel fuel' h _
    | with_reducible exact (follows_statements fuel fuel' h).2.2.1
    | with_reducible refine follows_bind ?_ (fun _ => ?_)
    | with_reducible refine follows_ite ?_ ?_

/-- `Parser::subprogram`, with more fuel and further tokens. -/
theorem follows_subprogram (fuel fuel' : Nat) (h : fuel ≤ fuel') :
    Follows (subprogram fuel) (subprogram fuel') := by
  unfold subprogram
  repeat' first
    | with_reducible exact follows_pure _
    | with_reducible exact follows_throw _
    | with_reducible exact follows_getToken
    | with_reducible exact follows_match _
    | with_reducible exact follows_consume _ _
    | with_reducible exact follows_basicType _
    | with_reducible exact follows_parameterList _ fuel fuel' h
    | with_reducible exact follows_subprogramBody fuel fuel' h
    | with_reducible refine follows_bind ?_ (fun _ => ?_)
    | with_reducible refine follows_ite ?_ ?_

/-- The loop over the subprograms, with more fuel and further tokens. -/
theorem follows_subprogramLoop (fuel : Nat) : ∀ fuel', fuel ≤ fuel' → ∀ acc,
    Follows (subprogramLoop fuel acc) (subprogramLoop fuel' acc) := by
  induction fuel with
  | zero =>
    intro fuel' _ acc
    rw [subprogramLoop]
    exact fun _ _ _ => trivial
  | succ fuel ih =>
    intro fuel' hle acc
    obtain ⟨f', rfl⟩ : ∃ f', fuel' = f' + 1 := ⟨fuel' - 1, by omega⟩
    rw [subprogramLoop, subprogramLoop]
    repeat' first
      | with_reducible exact follows_pure _
      | with_reducible exact follows_check _
      | with_reducible exact follows_consume _ _
      | with_reducible exact follows_subprogram fuel f' (by omega)
      | with_reducible exact ih f' (by omega) _
      | with_reducible refine follows_bind ?_ (fun _ => ?_)
      | with_reducible refine follows_ite ?_ ?_

/-- `Parser::program`, with more fuel and further tokens after the vector. -/
theorem follows_program (fuel fuel' : Nat) (h : fuel ≤ fuel') :
    Follows (program fuel) (program fuel') := by
  unfold program
  repeat' first
    | with_reducible exact follows_pure _
    | with_reducible exact follows_match _
    | with_reducible exact follows_consume _ _
    | with_reducible exact follows_identifierListLoop _ fuel fuel' h _
    | with_reducible exact follows_constDeclarationLoop _ fuel fuel' h _
    | with_reducible exact follows_varDeclarationLoop _ fuel fuel' h _
    | with_reducible exact follows_subprogramLoop fuel fuel' h _
    | with_reducible exact (follows_statements fuel fuel' h).2.2.1
    | with_reducible refine follows_bind ?_ (fun _ => ?_)
    | with_reducible refine follows_ite ?_ ?_

end Parser

/-- A position up to the first END_OF_FILE holds a token. -/
theorem firstEnd_token {k : Nat} {tokens : List Token} (h : FirstEnd k tokens) {cur : Nat}
    (hc : cur ≤ k) : ∃ tok, tokens[cur]? = some tok := by
  obtain ⟨⟨e, he, _⟩, _⟩ := h
  have hk : k < tokens.length := by
    by_contra hlen
    rw [List.getElem?_eq_none (Nat.le_of_not_lt hlen)] at he
    cases he
  exact ⟨tokens[cur], List.getElem?_eq_getElem (by omega)⟩

/-- A token up to the first END_OF_FILE that is not END_OF_FILE stands before it. -/
theorem firstEnd_lt {k : Nat} {tokens : List Token} (h : FirstEnd k tokens) {cur : Nat}
    {tok : Token} (hc : cur ≤ k) (ht : tokens[cur]? = some tok)
    (hty : tok.type ≠ TokenType.END_OF_FILE) : cur < k := by
  obtain ⟨⟨e, he, hee⟩, _⟩ := h
  rcases Nat.lt_or_ge cur k with hlt | hge
  · exact hlt
  · have : cur = k := by omega
    subst this
    rw [he] at ht
    cases ht
    exact absurd hee hty

/-- A settled run stays settled when it is counted from an earlier position. -/
theorem settledRun_mono {α : Type} {tokens : List Token} {k cur cur' : Nat}
    {r : Except ParserError (α × Parser)} (hle : cur' ≤ cur) (h : SettledRun tokens k cur r) :
    SettledRun tokens k cur' r := by
  match r, h with
  | .ok (_, p'), h => exact ⟨h.1, by have := h.2.1; omega, h.2.2⟩
  | .error (.ParserException _ _), _ => trivial

/-- More units of fuel are asked for. -/
theorem settles_weaken {α : Type} {tokens : List Token} {k fuel c c' : Nat} {m : ParserM α}
    (hc : c ≤ c') (h : Settles tokens k fuel c m) : Settles tokens k fuel c' m :=
  fun cur addr hcur hfuel => h cur addr hcur (by omega)

/-- One more unit of fuel is there and one more is asked for. -/
theorem settles_succ {α : Type} {tokens : List Token} {k fuel c : Nat} {m : ParserM α}
    (h : Settles tokens k fuel c m) : Settles tokens k (fuel + 1) (c + 1) m :=
  fun cur addr hcur hfuel => h cur addr hcur (by omega)

/-- Returning a value. -/
theorem settles_pure {α : Type} (tokens : List Token) (k fuel c : Nat) (a : α) :
    Settles tokens k fuel c (pure a : ParserM α) :=
  fun _ _ hcur _ => ⟨rfl, Nat.le_refl _, hcur⟩

/-- Throwing a `ParserException`. -/
theorem settles_throw {α : Type} (tokens : List Token) (k fuel c : Nat) (msg : String)
    (line : Nat) : Settles tokens k fuel c (throw (.ParserException msg line) : ParserM α) :=
  fun _ _ _ _ => trivial

/-- Two steps in sequence. -/
theorem settles_bind {α β : Type} {tokens : List Token} {k fuel c : Nat} {m : ParserM α}
    {f : α → ParserM β} (hm : Settles tokens k fuel c m)
    (hf : ∀ a, Settles tokens k fuel c (f a)) : Settles tokens k fuel c (m >>= f) := by
  intro cur addr hcur hfuel
  have h1 := hm cur addr hcur hfuel
  rw [Parser.run_bind]
  generalize m.run ⟨tokens, cur, addr⟩ = r at h1
  match r, h1 with
  | .ok (a, ⟨toks, cur', addr'⟩), h1 =>
    obtain ⟨ht, hle, hk⟩ := h1
    dsimp only at ht hle hk
    subst ht
    exact settledRun_mono hle (hf a cur' addr' hk (by omega))
  | .error (.ParserException _ _), _ => trivial

/-- A choice on a condition that does not depend on the parser. -/
theorem settles_ite {α : Type} {tokens : List Token} {k fuel c : Nat} {b : Prop} [Decidable b]
    {m n : ParserM α} (h1 : Settles tokens k fuel c m) (h2 : Settles tokens k fuel c n) :
    Settles tokens k fuel c (if b then m else n) := by
  split
  · exact h1
  · exact h2

/-- Allocation of a node. -/
theorem settles_alloc (tokens : List Token) (k fuel c : Nat) :
    Settles tokens k fuel c Parser.alloc :=
  fun _ _ hcur _ => ⟨rfl, Nat.le_refl _, hcur⟩

/-- `Parser::getToken` up to the first END_OF_FILE. -/
theorem settles_getToken {tokens : List Token} {k : Nat} (hT : FirstEnd k tokens)
    (fuel c : Nat) : Settles tokens k fuel c Parser.getToken := by
  intro cur addr hcur _
  obtain ⟨tok, ht⟩ := firstEnd_token hT hcur
  rw [Parser.getToken_run ⟨tokens, cur, addr⟩ tok ht]
  exact ⟨rfl, Nat.le_refl _, hcur⟩

/-- `Parser::check` up to the first END_OF_FILE. -/
theorem settles_check {tokens : List Token} {k : Nat} (hT : FirstEnd k tokens)
    (fuel c : Nat) (t : TokenType) : Settles tokens k fuel c (Parser.check t) := by
  intro cur addr hcur _
  obtain ⟨tok, ht⟩ := firstEnd_token hT hcur
  rw [Parser.check_run t ⟨tokens, cur, addr⟩ tok ht]
  exact ⟨rfl, Nat.le_refl _, hcur⟩

/-- `Parser::match` followed by a choice on its result: the branch taken after a match
starts one token further on. -/
theorem settles_bindMatch {α : Type} {tokens : List Token} {k : Nat} (hT : FirstEnd k tokens)
    {fuel c : Nat} {t : TokenType} {m n : ParserM α} (h1 : Settles tokens k fuel (c + 16) m)
    (h2 : Settles tokens k fuel c n) :
    Settles tokens k fuel c (Parser.match_ t >>= fun b => if b = true then m else n) := by
  intro cur addr hcur hfuel
  obtain ⟨tok, ht⟩ := firstEnd_token hT hcur
  rw [Parser.run_bind, Parser.match_run t ⟨tokens, cur, addr⟩ tok ht]
  by_cases hb : (tok.type != TokenType.END_OF_FILE && tok.type == t) = true
  · have hne : tok.type ≠ TokenType.END_OF_FILE := by
      rw [Bool.and_eq_true] at hb
      exact bne_iff_ne.1 hb.1
    have hlt := firstEnd_lt hT hcur ht hne
    rw [if_pos hb]
    dsimp only
    rw [if_pos rfl]
    exact settledRun_mono (Nat.le_succ cur) (h1 (cur + 1) addr hlt (by omega))
  · rw [if_neg hb]
    dsimp only
    rw [if_neg (by simp)]
    exact h2 cur addr hcur hfuel

/-- `Parser::match` when its result is not what the next choice is made on. -/
theorem settles_match {tokens : List Token} {k : Nat} (hT : FirstEnd k tokens)
    (fuel c : Nat) (t : TokenType) : Settles tokens k fuel c (Parser.match_ t) := by
  have h : Settles tokens k fuel c
      (Parser.match_ t >>= fun b => if b = true then pure true else pure false) :=
    settles_bindMatch hT (settles_pure tokens k fuel (c + 16) true)
      (settles_pure tokens k fuel c false)
  intro cur addr hcur hfuel
  have h' := h cur addr hcur hfuel
  rw [Parser.run_bind] at h'
  generalize (Parser.match_ t).run ⟨tokens, cur, addr⟩ = r at h' ⊢
  match r, h' with
  | .ok (b, p'), h' =>
    cases b
    · exact h'
    · exact h'
  | .error (.ParserException _ _), _ => trivial
  | .error .outOfRange, h' => exact h'
  | .error .outOfFuel, h' => exact h'

/-- `Parser::consume` followed by further steps, which start one token further on. -/
theorem settles_bindConsume {α : Type} {tokens : List Token} {k : Nat}
    (hT : FirstEnd k tokens) {fuel c : Nat} {t : TokenType} {msg : String}
    {f : Token → ParserM α} (h : ∀ tok, Settles tokens k fuel (c + 16) (f tok)) :
    Settles tokens k fuel c (Parser.consume t msg >>= f) := by
  intro cur addr hcur hfuel
  obtain ⟨tok, ht⟩ := firstEnd_token hT hcur
  rw [Parser.run_bind, Parser.consume_run t msg ⟨tokens, cur, addr⟩ tok ht]
  by_cases hb : (tok.type != TokenType.END_OF_FILE && tok.type == t) = true
  · have hne : tok.type ≠ TokenType.END_OF_FILE := by
      rw [Bool.and_eq_true] at hb
      exact bne_iff_ne.1 hb.1
    have hlt := firstEnd_lt hT hcur ht hne
    rw [if_pos hb]
    exact settledRun_mono (Nat.le_succ cur) (h tok (cur + 1) addr hlt (by omega))
  · rw [if_neg hb]
    trivial

/-- `Parser::consume` as the last step. -/
theorem settles_consume {tokens : List Token} {k : Nat} (hT : FirstEnd k tokens)
    (fuel c : Nat) (t : TokenType) (msg : String) :
    Settles tokens k fuel c (Parser.consume t msg) := by
  have h : Settles tokens k fuel c (Parser.consume t msg >>= fun tok => pure tok) :=
    settles_bindConsume hT fun tok => settles_pure tokens k fuel (c + 16) tok
  intro cur addr hcur hfuel
  have h' := h cur addr hcur hfuel
  rw [Parser.run_bind] at h'
  generalize (Parser.consume t msg).run ⟨tokens, cur, addr⟩ = r at h' ⊢
  match r, h' with
  | .ok (b, p'), h' => exact h'
  | .error (.ParserException _ _), _ => trivial
  | .error .outOfRange, h' => exact h'
  | .error .outOfFuel, h' => exact h'

namespace Parser

/-- A run of a choice is the choice between the runs. -/
theorem run_ite {α : Type} (c : Prop) [Decidable c] (m n : ParserM α) (p : Parser) :
    (if c then m else n).run p = if c then m.run p else n.run p := by
  split <;> rfl

/-- A token type that is none of the multiplicative operators. -/
theorem mulOpOf_none (t : TokenType) (h1 : t ≠ .TIMES) (h2 : t ≠ .RDIV) (h3 : t ≠ .DIV)
    (h4 : t ≠ .MOD) (h5 : t ≠ .AND) : mulOpOf t = none := by
  cases t <;> first | rfl | contradiction

/-- A token type that is none of the additive operators. -/
theorem addOpOf_none (t : TokenType) (h1 : t ≠ .PLUS) (h2 : t ≠ .MINUS) (h3 : t ≠ .OR) :
    addOpOf t = none := by
  cases t <;> first | rfl | contradiction

/-- A token type that is none of the relational operators. -/
theorem relOpOf_none (t : TokenType) (h1 : t ≠ .GT) (h2 : t ≠ .EQUAL) (h3 : t ≠ .LT)
    (h4 : t ≠ .GE) (h5 : t ≠ .LE) (h6 : t ≠ .NE) : relOpOf t = none := by
  cases t <;> first | rfl | contradiction

/-- One turn of the loop of `Parser::term`: on a multiplicative operator the loop reads the
operator and a factor and goes on; on any other token it returns the term. -/
theorem termLoop_run (fuel : Nat) (first : Factor) (factors : FactorList) (p : Parser)
    (tok : Token) (h : p.tokens[p.current]? = some tok) :
    (termLoop (fuel + 1) first factors).run p =
      match mulOpOf tok.type with
      | some op =>
        (factor fuel >>= fun g => termLoop fuel first (factors.push_back op g)).run
          { p with current := p.current + 1 }
      | none => .ok (.mk first factors, p) := by
  rw [termLoop]
  by_cases h1 : tok.type = .TIMES
  · simp only [run_bind, run_ite, run_pure, check_run _ p tok h, match_run _ p tok h, h1, test_self .TIMES (by decide), Bool.true_or, if_true, mulOpOf, run_bind]
  by_cases h2 : tok.type = .RDIV
  · simp only [run_bind, run_ite, run_pure, check_run _ p tok h, match_run _ p tok h, h2, test_self .RDIV (by decide), test_ne .RDIV .TIMES (by decide), Bool.true_or,
      Bool.or_true, Bool.false_eq_true, if_true, if_false, mulOpOf, run_bind]
  by_cases h3 : tok.type = .DIV
  · simp only [run_bind, run_ite, run_pure, check_run _ p tok h, match_run _ p tok h, h3, test_self .DIV (by decide), test_ne .DIV .TIMES (by decide),
      test_ne .DIV .RDIV (by decide), Bool.true_or, Bool.or_true, Bool.false_eq_true, if_true,
      if_false, mulOpOf, run_bind]
  by_cases h4 : tok.type = .MOD
  · simp only [run_bind, run_ite, run_pure, check_run _ p tok h, match_run _ p tok h, h4, test_self .MOD (by decide), test_ne .MOD .TIMES (by decide),
      test_ne .MOD .RDIV (by decide), test_ne .MOD .DIV (by decide), Bool.true_or, Bool.or_true,
      Bool.false_eq_true, if_true, if_false, mulOpOf, run_bind]
  by_cases h5 : tok.type = .AND
  · simp only [run_bind, run_ite, run_pure, check_run _ p tok h, match_run _ p tok h, h5, test_self .AND (by decide), test_ne .AND .TIMES (by decide),
      test_ne .AND .RDIV (by decide), test_ne .AND .DIV (by decide),
      test_ne .AND .MOD (by decide), Bool.true_or, Bool.or_true, Bool.false_eq_true, if_true,
      if_false, mulOpOf, run_bind]
  · simp only [run_bind, run_ite, run_pure, check_run _ p tok h, match_run _ p tok h, test_ne _ _ h1, test_ne _ _ h2, test_ne _ _ h3, test_ne _ _ h4, test_ne _ _ h5,
      Bool.or_false, Bool.false_eq_true, if_false, mulOpOf_none _ h1 h2 h3 h4 h5]

/-- One turn of the loop of `Parser::simpleExpression`: on an additive operator the loop
reads the operator and a term and goes on; on any other token it returns the simple
expression. -/
theorem simpleExpressionLoop_run (fuel : Nat) (first : Term) (terms : TermList) (p : Parser)
    (tok : Token) (h : p.tokens[p.current]? = some tok) :
    (simpleExpressionLoop (fuel + 1) first terms).run p =
      match addOpOf tok.type with
      | some op =>
        (term fuel >>= fun t => simpleExpressionLoop fuel first (terms.push_back op t)).run
          { p with current := p.current + 1 }
      | none => .ok (.mk first terms, p) := by
  rw [simpleExpressionLoop]
  by_cases h1 : tok.type = .PLUS
  · simp only [run_bind, run_ite, run_pure, check_run _ p tok h, match_run _ p tok h, h1, test_self .PLUS (by decide), Bool.true_or, if_true, addOpOf, run_bind]
  by_cases h2 : tok.type = .MINUS
  · simp only [run_bind, run_ite, run_pure, check_run _ p tok h, match_run _ p tok h, h2, test_self .MINUS (by decide), test_ne .MINUS .PLUS (by decide), Bool.true_or,
      Bool.or_true, Bool.false_eq_true, if_true, if_false, addOpOf, run_bind]
  by_cases h3 : tok.type = .OR
  · simp only [run_bind, run_ite, run_pure, check_run _ p tok h, match_run _ p tok h, h3, test_self .OR (by decide), test_ne .OR .PLUS (by decide),
      test_ne .OR .MINUS (by decide), Bool.true_or, Bool.or_true, Bool.false_eq_true, if_true,
      if_false, addOpOf, run_bind]
  · simp only [run_bind, run_ite, run_pure, check_run _ p tok h, match_run _ p tok h, test_ne _ _ h1, test_ne _ _ h2, test_ne _ _ h3, Bool.or_false,
      Bool.false_eq_true, if_false, addOpOf_none _ h1 h2 h3]

/-- `Parser::expression` after its left operand: on a relational operator it reads the
operator and one more simple expression; on any other token it returns the left operand
alone. -/
theorem expression_run (fuel : Nat) (p : Parser) (left : SimpleExpression) (p1 : Parser)
    (tok : Token) (hleft : (simpleExpression fuel).run p = .ok (left, p1))
    (h : p1.tokens[p1.current]? = some tok) :
    (expression (fuel + 1)).run p =
      match relOpOf tok.type with
      | some op =>
        (simpleExpression fuel >>= fun right => pure (Expression.relational left op right)).run
          { p1 with current := p1.current + 1 }
      | none => .ok (.simple left, p1) := by
  rw [expression]
  by_cases h1 : tok.type = .GT
  · simp only [run_bind, run_ite, run_pure, hleft, match_run _ p1 tok h, h1, test_self .GT (by decide), if_true, relOpOf, run_bind, run_pure]
  by_cases h2 : tok.type = .EQUAL
  · simp only [run_bind, run_ite, run_pure, hleft, match_run _ p1 tok h, h2, test_self .EQUAL (by decide), test_ne .EQUAL .GT (by decide),
      Bool.false_eq_true, if_true, if_false, relOpOf, run_bind, run_pure]
  by_cases h3 : tok.type = .LT
  · simp only [run_bind, run_ite, run_pure, hleft, match_run _ p1 tok h, h3, test_self .LT (by decide), test_ne .LT .GT (by decide),
      test_ne .LT .EQUAL (by decide), Bool.false_eq_true, if_true, if_false, relOpOf, run_bind,
      run_pure]
  by_cases h4 : tok.type = .GE
  · simp only [run_bind, run_ite, run_pure, hleft, match_run _ p1 tok h, h4, test_self .GE (by decide), test_ne .GE .GT (by decide),
      test_ne .GE .EQUAL (by decide), test_ne .GE .LT (by decide), Bool.false_eq_true, if_true,
      if_false, relOpOf, run_bind, run_pure]
  by_cases h5 : tok.type = .LE
  · simp only [run_bind, run_ite, run_pure, hleft, match_run _ p1 tok h, h5, test_self .LE (by decide), test_ne .LE .GT (by decide),
      test_ne .LE .EQUAL (by decide), test_ne .LE .LT (by decide), test_ne .LE .GE (by decide),
      Bool.false_eq_true, if_true, if_false, relOpOf, run_bind, run_pure]
  by_cases h6 : tok.type = .NE
  · simp only [run_bind, run_ite, run_pure, hleft, match_run _ p1 tok h, h6, test_self .NE (by decide), test_ne .NE .GT (by decide),
      test_ne .NE .EQUAL (by decide), test_ne .NE .LT (by decide), test_ne .NE .GE (by decide),
      test_ne .NE .LE (by decide), Bool.false_eq_true, if_true, if_false, relOpOf, run_bind,
      run_pure]
  · simp only [run_bind, run_ite, run_pure, hleft, match_run _ p1 tok h, test_ne _ _ h1, test_ne _ _ h2, test_ne _ _ h3, test_ne _ _ h4, test_ne _ _ h5,
      test_ne _ _ h6, Bool.false_eq_true, if_false, relOpOf_none _ h1 h2 h3 h4 h5 h6]

end Parser

/-- `Parser::check` followed by further steps, one token ahead. -/
theorem ahead_bindCheck {α : Type} {tokens : List Token} {k : Nat} (hT : FirstEnd k tokens)
    {fuel c : Nat} {t : TokenType} {f : Bool → ParserM α}
    (h : ∀ b, SettlesAhead tokens k fuel c (f b)) :
    SettlesAhead tokens k fuel c (Parser.check t >>= f) := by
  intro cur addr hcur hfuel
  obtain ⟨tok, ht⟩ := firstEnd_token hT (Nat.succ_le_of_lt hcur)
  rw [Parser.run_bind, Parser.check_run t ⟨tokens, cur + 1, addr⟩ tok ht]
  exact h _ cur addr hcur hfuel

/-- A choice, one token ahead. -/
theorem ahead_ite {α : Type} {tokens : List Token} {k fuel c : Nat} {b : Prop} [Decidable b]
    {m n : ParserM α} (h1 : SettlesAhead tokens k fuel c m)
    (h2 : SettlesAhead tokens k fuel c n) :
    SettlesAhead tokens k fuel c (if b then m else n) := by
  split
  · exact h1
  · exact h2

/-- Allocation of a node followed by further steps, one token ahead. -/
theorem ahead_bindAlloc {α : Type} {tokens : List Token} {k fuel c : Nat}
    {f : Nat → ParserM α} (h : ∀ a, SettlesAhead tokens k fuel c (f a)) :
    SettlesAhead tokens k fuel c (Parser.alloc >>= f) := by
  intro cur addr hcur hfuel
  rw [Parser.run_bind, Parser.alloc_run]
  exact h _ cur (addr + 1) hcur hfuel

/-- `Parser::backward` one token ahead: the steps after it start at the position itself. -/
theorem ahead_bindBackward {α : Type} {tokens : List Token} {k fuel c : Nat}
    {f : Unit → ParserM α} (h : ∀ u, Settles tokens k fuel c (f u)) :
    SettlesAhead tokens k fuel c (Parser.backward >>= f) := by
  intro cur addr hcur hfuel
  rw [Parser.run_bind, Parser.backward_run]
  exact h () cur addr (Nat.le_of_lt hcur) hfuel

/-- `Parser::check` and, when the token is there, `Parser::forward`: the steps after it
run one token ahead. -/
theorem settles_checkForward {α : Type} {tokens : List Token} {k : Nat}
    (hT : FirstEnd k tokens) {fuel c : Nat} {t : TokenType} {f : Unit → ParserM α}
    {n : ParserM α} (h1 : ∀ u, SettlesAhead tokens k fuel c (f u))
    (h2 : Settles tokens k fuel c n) :
    Settles tokens k fuel c
      (Parser.check t >>= fun b => if b = true then Parser.forward >>= f else n) := by
  intro cur addr hcur hfuel
  obtain ⟨tok, ht⟩ := firstEnd_token hT hcur
  rw [Parser.run_bind, Parser.check_run t ⟨tokens, cur, addr⟩ tok ht]
  by_cases hb : (tok.type != TokenType.END_OF_FILE && tok.type == t) = true
  · have hne : tok.type ≠ TokenType.END_OF_FILE := by
      rw [Bool.and_eq_true] at hb
      exact bne_iff_ne.1 hb.1
    have hlt := firstEnd_lt hT hcur ht hne
    dsimp only
    rw [if_pos hb, Parser.run_bind, Parser.forward_run]
    exact h1 () cur addr hlt hfuel
  · dsimp only
    rw [if_neg hb]
    exact h2 cur addr hcur hfuel

namespace Parser

/-- The functions that parse expressions, variables and calls are settled up to the first
END_OF_FILE when the fuel covers the tokens before it. -/
theorem settles_expressions {tokens : List Token} {k : Nat} (hT : FirstEnd k tokens)
    (fuel : Nat) :
    Settles tokens k fuel 2 (factor fuel) ∧
    (∀ first factors, Settles tokens k fuel 1 (termLoop fuel first factors)) ∧
    Settles tokens k fuel 3 (term fuel) ∧
    (∀ first terms, Settles tokens k fuel 1 (simpleExpressionLoop fuel first terms)) ∧
    Settles tokens k fuel 4 (simpleExpression fuel) ∧
    Settles tokens k fuel 5 (expression fuel) ∧
    (∀ acc, Settles tokens k fuel 1 (expressionListLoop fuel acc)) ∧
    Settles tokens k fuel 1 (variable_ fuel) ∧
    Settles tokens k fuel 1 (procedureCall fuel) := by
  induction fuel with
  | zero =>
    have h0 : ∀ {α : Type} (c : Nat) (m : ParserM α), Settles tokens k 0 (c + 1) m :=
      fun _ _ _ _ _ hf => absurd hf (by omega)
    exact ⟨h0 _ _, fun _ _ => h0 _ _, h0 _ _, fun _ _ => h0 _ _, h0 _ _, h0 _ _,
      fun _ => h0 _ _, h0 _ _, h0 _ _⟩
  | succ fuel ih =>
    obtain ⟨ihFactor, ihTermLoop, ihTerm, ihSimpleLoop, ihSimple, ihExpression, ihList,
      ihVariable, ihCall⟩ := ih
    refine ⟨?_, fun first factors => ?_, ?_, fun first terms => ?_, ?_, ?_, fun _ => ?_, ?_, ?_⟩
    · rw [factor]
      refine settles_succ (c := 1) ?_
      repeat' first
        | with_reducible exact settles_pure _ _ _ _ _
        | with_reducible exact settles_throw _ _ _ _ _ _
        | with_reducible exact settles_getToken hT _ _
        | with_reducible exact settles_alloc _ _ _ _
        | with_reducible exact settles_check hT _ _ _
        | with_reducible exact settles_consume hT _ _ _ _
        | with_reducible exact settles_weaken (by omega) ihFactor
        | with_reducible exact settles_weaken (by omega) ihExpression
        | with_reducible exact settles_weaken (by omega) ihVariable
        | with_reducible exact settles_weaken (by omega) ihCall
        | with_reducible refine settles_checkForward hT (fun _ => ?_) ?_
        | with_reducible refine ahead_bindCheck hT (fun _ => ?_)
        | with_reducible refine ahead_bindAlloc (fun _ => ?_)
        | with_reducible refine ahead_bindBackward (fun _ => ?_)
        | with_reducible refine ahead_ite ?_ ?_
        | with_reducible refine settles_bindMatch hT ?_ ?_
        | with_reducible refine settles_bindConsume hT (fun _ => ?_)
        | with_reducible refine settles_bind ?_ (fun _ => ?_)
        | with_reducible refine settles_ite ?_ ?_
    · intro cur addr hcur hfuel
      obtain ⟨tok, ht⟩ := firstEnd_token hT hcur
      rw [termLoop_run fuel first factors ⟨tokens, cur, addr⟩ tok ht]
      cases hop : mulOpOf tok.type with
      | none => exact ⟨rfl, Nat.le_refl _, hcur⟩
      | some op =>
        have hne : tok.type ≠ TokenType.END_OF_FILE := by
          intro he
          rw [he] at hop
          cases hop
        have hlt := firstEnd_lt hT hcur ht hne
        exact settledRun_mono (Nat.le_succ cur)
          (settles_bind (c := 16) (settles_weaken (by omega) ihFactor)
            (fun g => settles_weaken (by omega) (ihTermLoop first (factors.push_back op g)))
            (cur + 1) addr hlt (by omega))
    · rw [term]
      refine settles_succ (c := 2) ?_
      exact settles_bind ihFactor fun _ => settles_weaken (by omega) (ihTermLoop _ _)
    · intro cur addr hcur hfuel
      obtain ⟨tok, ht⟩ := firstEnd_token hT hcur
      rw [simpleExpressionLoop_run fuel first terms ⟨tokens, cur, addr⟩ tok ht]
      cases hop : addOpOf tok.type with
      | none => exact ⟨rfl, Nat.le_refl _, hcur⟩
      | some op =>
        have hne : tok.type ≠ TokenType.END_OF_FILE := by
          intro he
          rw [he] at hop
          cases hop
        have hlt := firstEnd_lt hT hcur ht hne
        exact settledRun_mono (Nat.le_succ cur)
          (settles_bind (c := 16) (settles_weaken (by omega) ihTerm)
            (fun t => settles_weaken (by omega) (ihSimpleLoop first (terms.push_back op t)))
            (cur + 1) addr hlt (by omega))
    · rw [simpleExpression]
      refine settles_succ (c := 3) ?_
      exact settles_bind ihTerm fun _ => settles_weaken (by omega) (ihSimpleLoop _ _)
    · rw [expression]
      refine settles_succ (c := 4) ?_
      repeat' first
        | with_reducible exact settles_pure _ _ _ _ _
        | with_reducible exact settles_weaken (by omega) ihSimple
        | with_reducible refine settles_bindMatch hT ?_ ?_
        | with_reducible refine settles_bind ?_ (fun _ => ?_)
    · rw [expressionListLoop]
      refine settles_succ (c := 0) ?_
      repeat' first
        | with_reducible exact settles_pure _ _ _ _ _
        | with_reducible exact settles_weaken (by omega) ihExpression
        | with_reducible exact settles_weaken (by omega) (ihList _)
        | with_reducible refine settles_bindMatch hT ?_ ?_
        | with_reducible refine settles_bind ?_ (fun _ => ?_)
    · rw [variable_]
      refine settles_succ (c := 0) ?_
      repeat' first
        | with_reducible exact settles_pure _ _ _ _ _
        | with_reducible exact settles_consume hT _ _ _ _
        | with_reducible exact settles_weaken (by omega) ihExpression
        | with_reducible exact settles_weaken (by omega) (ihList _)
        | with_reducible refine settles_bindMatch hT ?_ ?_
        | with_reducible refine settles_bindConsume hT (fun _ => ?_)
        | with_reducible refine settles_bind ?_ (fun _ => ?_)
    · rw [procedureCall]
      refine settles_succ (c := 0) ?_
      repeat' first
        | with_reducible exact settles_pure _ _ _ _ _
        | with_reducible exact settles_consume hT _ _ _ _
        | with_reducible exact settles_weaken (by omega) ihExpression
        | with_reducible exact settles_weaken (by omega) (ihList _)
        | with_reducible refine settles_bindMatch hT ?_ ?_
        | with_reducible refine settles_bindConsume hT (fun _ => ?_)
        | with_reducible refine settles_bind ?_ (fun _ => ?_)

end Parser

namespace Parser

/-- The chain that reads a basic type is settled. -/
theorem settles_basicType {tokens : List Token} {k : Nat} (hT : FirstEnd k tokens)
    (fuel c : Nat) (msg : String) : Settles tokens k fuel c (basicType msg) := by
  unfold basicType
  repeat' first
    | with_reducible exact settles_pure _ _ _ _ _
    | with_reducible exact settles_throw _ _ _ _ _ _
    | with_reducible exact settles_getToken hT _ _
    | with_reducible refine settles_bindMatch hT ?_ ?_
    | with_reducible refine settles_bind ?_ (fun _ => ?_)

/-- The test whether a statement follows is settled. -/
theorem settles_startsStatement {tokens : List Token} {k : Nat} (hT : FirstEnd k tokens)
    (fuel c : Nat) : Settles tokens k fuel c startsStatement := by
  unfold startsStatement
  repeat' first
    | with_reducible exact settles_pure _ _ _ _ _
    | with_reducible exact settles_check hT _ _ _
    | with_reducible refine settles_bind ?_ (fun _ => ?_)

/-- `Parser::constDeclaration` is settled. -/
theorem settles_constDeclaration {tokens : List Token} {k : Nat} (hT : FirstEnd k tokens)
    (fuel c : Nat) : Settles tokens k fuel c constDeclaration := by
  unfold constDeclaration
  repeat' first
    | with_reducible exact settles_pure _ _ _ _ _
    | with_reducible exact settles_check hT _ _ _
    | with_reducible exact settles_match hT _ _ _
    | with_reducible exact settles_consume hT _ _ _ _
    | with_reducible refine settles_bind ?_ (fun _ => ?_)
    | with_reducible refine settles_ite ?_ ?_

/-- One range of `Parser::type` is settled. -/
theorem settles_period {tokens : List Token} {k : Nat} (hT : FirstEnd k tokens)
    (fuel c : Nat) : Settles tokens k fuel c period := by
  unfold period
  repeat' first
    | with_reducible exact settles_pure _ _ _ _ _
    | with_reducible exact settles_throw _ _ _ _ _ _
    | with_reducible exact settles_getToken hT _ _
    | with_reducible exact settles_consume hT _ _ _ _
    | with_reducible refine settles_bind ?_ (fun _ => ?_)
    | with_reducible refine settles_ite ?_ ?_

/-- The loop over the variables of a read statement is settled. -/
theorem settles_variableListLoop {tokens : List Token} {k : Nat} (hT : FirstEnd k tokens)
    (fuel : Nat) : ∀ acc, Settles tokens k fuel 1 (variableListLoop fuel acc) := by
  induction fuel with
  | zero => exact fun _ _ _ _ hf => absurd hf (by omega)
  | succ fuel ih =>
    intro acc
    have ihVariable := (settles_expressions hT fuel).2.2.2.2.2.2.2.1
    rw [variableListLoop]
    refine settles_succ (c := 0) ?_
    repeat' first
      | with_reducible exact settles_pure _ _ _ _ _
      | with_reducible exact settles_weaken (by omega) ihVariable
      | with_reducible exact settles_weaken (by omega) (ih _)
      | with_reducible refine settles_bindMatch hT ?_ ?_
      | with_reducible refine settles_bind ?_ (fun _ => ?_)

/-- The functions that parse statements are settled up to the first END_OF_FILE when the
fuel covers the tokens before it. -/
theorem settles_statements {tokens : List Token} {k : Nat} (hT : FirstEnd k tokens)
    (fuel : Nat) :
    Settles tokens k fuel 2 (statement fuel) ∧
    (∀ acc, Settles tokens k fuel 1 (compoundStatementLoop fuel acc)) ∧
    Settles tokens k fuel 1 (compoundStatement fuel) ∧
    Settles tokens k fuel 1 (ifStatement fuel) ∧
    Settles tokens k fuel 1 (forStatement fuel) ∧
    Settles tokens k fuel 1 (whileStatement fuel) := by
  induction fuel with
  | zero =>
    have h0 : ∀ {α : Type} (c : Nat) (m : ParserM α), Settles tokens k 0 (c + 1) m :=
      fun _ _ _ _ _ hf => absurd hf (by omega)
    exact ⟨h0 _ _, fun _ => h0 _ _, h0 _ _, h0 _ _, h0 _ _, h0 _ _⟩
  | succ fuel ih =>
    obtain ⟨ihStatement, ihLoop, ihCompound, ihIf, ihFor, ihWhile⟩ := ih
    obtain ⟨-, -, -, -, -, ihExpression, ihList, ihVariable, ihCall⟩ :=
      settles_expressions hT fuel
    have ihVariableList := settles_variableListLoop hT fuel
    refine ⟨?_, fun _ => ?_, ?_, ?_, ?_, ?_⟩
    · rw [statement]
      unfold readStatement writeStatement assign breakStatement
      refine settles_succ (c := 1) ?_
      repeat' first
        | with_reducible exact settles_pure _ _ _ _ _
        | with_reducible exact settles_throw _ _ _ _ _ _
        | with_reducible exact settles_getToken hT _ _
        | with_reducible exact settles_alloc _ _ _ _
        | with_reducible exact settles_check hT _ _ _
        | with_reducible exact settles_consume hT _ _ _ _
        | with_reducible exact settles_weaken (by omega) ihExpression
        | with_reducible exact settles_weaken (by omega) ihVariable
        | with_reducible exact settles_weaken (by omega) ihCall
        | with_reducible exact settles_weaken (by omega) (ihList _)
        | with_reducible exact settles_weaken (by omega) (ihVariableList _)
        | with_reducible exact settles_weaken (by omega) ihCompound
        | with_reducible exact settles_weaken (by omega) ihIf
        | with_reducible exact settles_weaken (by omega) ihFor
        | with_reducible exact settles_weaken (by omega) ihWhile
        | with_reducible refine settles_checkForward hT (fun _ => ?_) ?_
        | with_reducible refine ahead_bindCheck hT (fun _ => ?_)
        | with_reducible refine ahead_bindBackward (fun _ => ?_)
        | with_reducible refine ahead_ite ?_ ?_
        | with_reducible refine settles_bindConsume hT (fun _ => ?_)
        | with_reducible refine settles_bind ?_ (fun _ => ?_)
        | with_reducible refine settles_ite ?_ ?_
    · rw [compoundStatementLoop]
      refine settles_succ (c := 0) ?_
      repeat' first
        | with_reducible exact settles_pure _ _ _ _ _
        | with_reducible exact settles_check hT _ _ _
        | with_reducible exact settles_weaken (by omega) ihStatement
        | with_reducible exact settles_weaken (by omega) (ihLoop _)
        | with_reducible refine settles_bindMatch hT ?_ ?_
        | with_reducible refine settles_bindConsume hT (fun _ => ?_)
        | with_reducible refine settles_bind ?_ (fun _ => ?_)
        | with_reducible refine settles_ite ?_ ?_
    · rw [compoundStatement]
      refine settles_succ (c := 0) ?_
      repeat' first
        | with_reducible exact settles_pure _ _ _ _ _
        | with_reducible exact settles_alloc _ _ _ _
        | with_reducible exact settles_check hT _ _ _
        | with_reducible exact settles_weaken (by omega) ihStatement
        | with_reducible exact settles_weaken (by omega) (ihLoop _)
        | with_reducible refine settles_bindMatch hT ?_ ?_
        | with_reducible refine settles_bindConsume hT (fun _ => ?_)
        | with_reducible refine settles_bind ?_ (fun _ => ?_)
        | with_reducible refine settles_ite ?_ ?_
    · rw [ifStatement]
      refine settles_succ (c := 0) ?_
      repeat' first
        | with_reducible exact settles_pure _ _ _ _ _
        | with_reducible exact settles_startsStatement hT _ _
        | with_reducible exact settles_weaken (by omega) ihExpression
        | with_reducible exact settles_weaken (by omega) ihStatement
        | with_reducible refine settles_bindMatch hT ?_ ?_
        | with_reducible refine settles_bindConsume hT (fun _ => ?_)
        | with_reducible refine settles_bind ?_ (fun _ => ?_)
        | with_reducible refine settles_ite ?_ ?_
    · rw [forStatement]
      refine settles_succ (c := 0) ?_
      repeat' first
        | with_reducible exact settles_pure _ _ _ _ _
        | with_reducible exact settles_startsStatement hT _ _
        | with_reducible exact settles_weaken (by omega) ihExpression
        | with_reducible exact settles_weaken (by omega) ihStatement
        | with_reducible refine settles_bindConsume hT (fun _ => ?_)
        | with_reducible refine settles_bind ?_ (fun _ => ?_)
        | with_reducible refine settles_ite ?_ ?_
    · rw [whileStatement]
      refine settles_succ (c := 0) ?_
      repeat' first
        | with_reducible exact settles_pure _ _ _ _ _
        | with_reducible exact settles_startsStatement hT _ _
        | with_reducible exact settles_weaken (by omega) ihExpression
        | with_reducible exact settles_weaken (by omega) ihStatement
        | with_reducible refine settles_bindConsume hT (fun _ => ?_)
        | with_reducible refine settles_bind ?_ (fun _ => ?_)
        | with_reducible refine settles_ite ?_ ?_

/-- The loop over the identifiers of a list is settled. -/
theorem settles_identifierListLoop {tokens : List Token} {k : Nat} (hT : FirstEnd k tokens)
    (msg : String) (fuel : Nat) :
    ∀ acc, Settles tokens k fuel 1 (identifierListLoop msg fuel acc) := by
  induction fuel with
  | zero => exact fun _ _ _ _ hf => absurd hf (by omega)
  | succ fuel ih =>
    intro acc
    rw [identifierListLoop]
    refine settles_succ (c := 0) ?_
    repeat' first
      | with_reducible exact settles_pure _ _ _ _ _
      | with_reducible exact settles_weaken (by omega) (ih _)
      | with_reducible refine settles_bindMatch hT ?_ ?_
      | with_reducible refine settles_bindConsume hT (fun _ => ?_)

/-- The loop over the ranges of an array type is settled. -/
theorem settles_periodLoop {tokens : List Token} {k : Nat} (hT : FirstEnd k tokens)
    (fuel : Nat) : ∀ acc, Settles tokens k fuel 1 (periodLoop fuel acc) := by
  induction fuel with
  | zero => exact fun _ _ _ _ hf => absurd hf (by omega)
  | succ fuel ih =>
    intro acc
    rw [periodLoop]
    refine settles_succ (c := 0) ?_
    repeat' first
      | with_reducible exact settles_pure _ _ _ _ _
      | with_reducible exact settles_period hT _ _
      | with_reducible exact settles_weaken (by omega) (ih _)
      | with_reducible refine settles_bindMatch hT ?_ ?_
      | with_reducible refine settles_bind ?_ (fun _ => ?_)

/-- `Parser::parameter` is settled. -/
theorem settles_parameter {tokens : List Token} {k : Nat} (hT : FirstEnd k tokens)
    (fuel : Nat) : Settles tokens k fuel 0 (parameter fuel) := by
  unfold parameter
  repeat' first
    | with_reducible exact settles_pure _ _ _ _ _
    | with_reducible exact settles_match hT _ _ _
    | with_reducible exact settles_basicType hT _ _ _
    | with_reducible exact settles_weaken (by omega) (settles_identifierListLoop hT _ fuel _)
    | with_reducible refine settles_bindConsume hT (fun _ => ?_)
    | with_reducible refine settles_bind ?_ (fun _ => ?_)

/-- `Parser::type` is settled. -/
theorem settles_type {tokens : List Token} {k : Nat} (hT : FirstEnd k tokens)
    (fuel : Nat) : Settles tokens k fuel 0 (type fuel) := by
  unfold type
  repeat' first
    | with_reducible exact settles_pure _ _ _ _ _
    | with_reducible exact settles_basicType hT _ _ _
    | with_reducible exact settles_period hT _ _
    | with_reducible exact settles_weaken (by omega) (settles_periodLoop hT fuel _)
    | with_reducible refine settles_bindMatch hT ?_ ?_
    | with_reducible refine settles_bindConsume hT (fun _ => ?_)
    | with_reducible refine settles_bind ?_ (fun _ => ?_)

/-- `Parser::varDeclaration` is settled. -/
theorem settles_varDeclaration {tokens : List Token} {k : Nat} (hT : FirstEnd k tokens)
    (fuel : Nat) : Settles tokens k fuel 0 (varDeclaration fuel) := by
  unfold varDeclaration
  repeat' first
    | with_reducible exact settles_pure _ _ _ _ _
    | with_reducible exact settles_weaken (by omega) (settles_type hT fuel)
    | with_reducible exact settles_weaken (by omega) (settles_identifierListLoop hT _ fuel _)
    | with_reducible refine settles_bindConsume hT (fun _ => ?_)
    | with_reducible refine settles_bind ?_ (fun _ => ?_)

/-- The loop over constant declarations is settled. -/
theorem settles_constDeclarationLoop {tokens : List Token} {k : Nat}
    (hT : FirstEnd k tokens) (msg : String) (fuel : Nat) :
    ∀ acc, Settles tokens k fuel 1 (constDeclarationLoop msg fuel acc) := by
  induction fuel with
  | zero => exact fun _ _ _ _ hf => absurd hf (by omega)
  | succ fuel ih =>
    intro acc
    rw [constDeclarationLoop]
    refine settles_succ (c := 0) ?_
    repeat' first
      | with_reducible exact settles_pure _ _ _ _ _
      | with_reducible exact settles_check hT _ _ _
      | with_reducible exact settles_constDeclaration hT _ _
      | with_reducible exact settles_weaken (by omega) (ih _)
      | with_reducible refine settles_bindConsume hT (fun _ => ?_)
      | with_reducible refine settles_bind ?_ (fun _ => ?_)
      | with_reducible refine settles_ite ?_ ?_

/-- The loop over variable declarations is settled. -/
theorem settles_varDeclarationLoop {tokens : List Token} {k : Nat} (hT : FirstEnd k tokens)
    (msg : String) (fuel : Nat) :
    ∀ acc, Settles tokens k fuel 1 (varDeclarationLoop msg fuel acc) := by
  induction fuel with
  | zero => exact fun _ _ _ _ hf => absurd hf (by omega)
  | succ fuel ih =>
    intro acc
    rw [varDeclarationLoop]
    refine settles_succ (c := 0) ?_
    repeat' first
      | with_reducible exact settles_pure _ _ _ _ _
      | with_reducible exact settles_check hT _ _ _
      | with_reducible exact settles_varDeclaration hT fuel
      | with_reducible exact settles_weaken (by omega) (ih _)
      | with_reducible refine settles_bindConsume hT (fun _ => ?_)
      | with_reducible refine settles_bind ?_ (fun _ => ?_)
      | with_reducible refine settles_ite ?_ ?_

/-- The loop over the parameters of a subprogram is settled. -/
theorem settles_parameterLoop {tokens : List Token} {k : Nat} (hT : FirstEnd k tokens)
    (fuel : Nat) : ∀ acc, Settles tokens k fuel 1 (parameterLoop fuel acc) := by
  induction fuel with
  | zero => exact fun _ _ _ _ hf => absurd hf (by omega)
  | succ fuel ih =>
    intro acc
    rw [parameterLoop]
    refine settles_succ (c := 0) ?_
    repeat' first
      | with_reducible exact settles_pure _ _ _ _ _
      | with_reducible exact settles_weaken (by omega) (settles_parameter hT fuel)
      | with_reducible exact settles_weaken (by omega) (ih _)
      | with_reducible refine settles_bindMatch hT ?_ ?_
      | with_reducible refine settles_bind ?_ (fun _ => ?_)

/-- The formal parameter list is settled. -/
theorem settles_parameterList {tokens : List Token} {k : Nat} (hT : FirstEnd k tokens)
    (msg : String) (fuel : Nat) : Settles tokens k fuel 0 (parameterList msg fuel) := by
  unfold parameterList
  repeat' first
    | with_reducible exact settles_pure _ _ _ _ _
    | with_reducible exact settles_match hT _ _ _
    | with_reducible exact settles_consume hT _ _ _ _
    | with_reducible exact settles_weaken (by omega) (settles_parameter hT fuel)
    | with_reducible exact settles_weaken (by omega) (settles_parameterLoop hT fuel _)
    | with_reducible refine settles_bindMatch hT ?_ ?_
    | with_reducible refine settles_bind ?_ (fun _ => ?_)
    | with_reducible refine settles_ite ?_ ?_

/-- The body of a subprogram is settled. -/
theorem settles_subprogramBody {tokens : List Token} {k : Nat} (hT : FirstEnd k tokens)
    (fuel : Nat) : Settles tokens k fuel 1 (subprogramBody fuel) := by
  unfold subprogramBody
  repeat' first
    | with_reducible exact settles_pure _ _ _ _ _
    | with_reducible exact settles_weaken (by omega) (settles_constDeclarationLoop hT _ fuel _)
    | with_reducible exact settles_weaken (by omega) (settles_varDeclarationLoop hT _ fuel _)
    | with_reducible exact settles_weaken (by omega) (settles_statements hT fuel).2.2.1
    | with_reducible refine settles_bindMatch hT ?_ ?_
    | with_reducible refine settles_bind ?_ (fun _ => ?_)

/-- `Parser::subprogram` is settled. -/
theorem settles_subprogram {tokens : List Token} {k : Nat} (hT : FirstEnd k tokens)
    (fuel : Nat) : Settles tokens k fuel 0 (subprogram fuel) := by
  unfold subprogram
  repeat' first
    | with_reducible exact settles_pure _ _ _ _ _
    | with_reducible exact settles_throw _ _ _ _ _ _
    | with_reducible exact settles_getToken hT _ _
    | with_reducible exact settles_basicType hT _ _ _
    | with_reducible exact settles_weaken (by omega) (settles_parameterList hT _ fuel)
    | with_reducible exact settles_weaken (by omega) (settles_subprogramBody hT fuel)
    | with_reducible refine settles_bindMatch hT ?_ ?_
    | with_reducible refine settles_bindConsume hT (fun _ => ?_)
    | with_reducible refine settles_bind ?_ (fun _ => ?_)

/-- The loop over the subprograms is settled. -/
theorem settles_subprogramLoop {tokens : List Token} {k : Nat} (hT : FirstEnd k tokens)
    (fuel : Nat) : ∀ acc, Settles tokens k fuel 1 (subprogramLoop fuel acc) := by
  induction fuel with
  | zero => exact fun _ _ _ _ hf => absurd hf (by omega)
  | succ fuel ih =>
    intro acc
    rw [subprogramLoop]
    refine settles_succ (c := 0) ?_
    repeat' first
      | with_reducible exact settles_pure _ _ _ _ _
      | with_reducible exact settles_check hT _ _ _
      | with_reducible exact settles_subprogram hT fuel
      | with_reducible exact settles_weaken (by omega) (ih _)
      | with_reducible refine settles_bindConsume hT (fun _ => ?_)
      | with_reducible refine settles_bind ?_ (fun _ => ?_)
      | with_reducible refine settles_ite ?_ ?_

/-- `Parser::program` is settled from every position up to the first END_OF_FILE, when the
fuel covers 16 units for each token before it. -/
theorem settles_program {tokens : List Token} {k : Nat} (hT : FirstEnd k tokens)
    (fuel : Nat) : Settles tokens k fuel 0 (program fuel) := by
  unfold program
  repeat' first
    | with_reducible exact settles_pure _ _ _ _ _
    | with_reducible exact settles_weaken (by omega) (settles_identifierListLoop hT _ fuel _)
    | with_reducible exact settles_weaken (by omega) (settles_constDeclarationLoop hT _ fuel _)
    | with_reducible exact settles_weaken (by omega) (settles_varDeclarationLoop hT _ fuel _)
    | with_reducible exact settles_weaken (by omega) (settles_subprogramLoop hT fuel _)
    | with_reducible exact settles_weaken (by omega) (settles_statements hT fuel).2.2.1
    | with_reducible refine settles_bindMatch hT ?_ ?_
    | with_reducible refine settles_bindConsume hT (fun _ => ?_)
    | with_reducible refine settles_bind ?_ (fun _ => ?_)

end Parser

/-- The index of the first END_OF_FILE of a vector that has one after tokens without. -/
theorem firstEnd_append (before : List Token) (eof : Token) (after : List Token)
    (hbefore : ∀ t ∈ before, t.type ≠ TokenType.END_OF_FILE)
    (heof : eof.type = TokenType.END_OF_FILE) :
    FirstEnd before.length (before ++ eof :: after) := by
  refine ⟨⟨eof, ?_, heof⟩, fun i t hi ht => ?_⟩
  · rw [List.getElem?_append_right (Nat.le_refl _)]
    simp
  · rw [List.getElem?_append_left hi] at ht
    exact hbefore t (List.mem_iff_getElem?.2 ⟨i, ht⟩)

/-- C40 (tokens after the first END_OF_FILE, and termination): on a token vector with a
first END_OF_FILE, and with 16 units of fuel for each token before it, `Parser::program`
returns a tree at a position up to the END_OF_FILE or throws a `ParserException`; and it
does exactly the same on the vector cut after that END_OF_FILE, on which a read at a later
index has no token to return.  So no token after the first END_OF_FILE is read, the
lookahead of `forward()` and `backward()` included. -/
theorem C40_program_reads_up_to_first_end_of_file (before : List Token) (eof : Token)
    (after : List Token) (fuel : Nat)
    (hbefore : ∀ t ∈ before, t.type ≠ TokenType.END_OF_FILE)
    (heof : eof.type = TokenType.END_OF_FILE) (hfuel : 16 * before.length ≤ fuel) :
    (∃ tree cur addr, cur ≤ before.length ∧
      (Parser.program fuel).run (Parser.new (before ++ [eof])) =
        .ok (tree, ⟨before ++ [eof], cur, addr⟩) ∧
      (Parser.program fuel).run (Parser.new (before ++ eof :: after)) =
        .ok (tree, ⟨before ++ eof :: after, cur, addr⟩)) ∨
    (∃ msg line,
      (Parser.program fuel).run (Parser.new (before ++ [eof])) =
        .error (.ParserException msg line) ∧
      (Parser.program fuel).run (Parser.new (before ++ eof :: after)) =
        .error (.ParserException msg line)) := by
  have hcut := Parser.settles_program (firstEnd_append before eof [] hbefore heof) fuel 0 0
    (Nat.zero_le _) (by omega)
  have hall := Parser.settles_program (firstEnd_append before eof after hbefore heof) fuel 0 0
    (Nat.zero_le _) (by omega)
  have hfol := Parser.follows_program fuel fuel (Nat.le_refl _) (Parser.new (before ++ [eof]))
    (Parser.new (before ++ eof :: after)) ⟨rfl, rfl, after, by simp [Parser.new]⟩
  change SettledRun _ _ _ ((Parser.program fuel).run (Parser.new (before ++ [eof]))) at hcut
  change SettledRun _ _ _ ((Parser.program fuel).run (Parser.new (before ++ eof :: after)))
    at hall
  generalize (Parser.program fuel).run (Parser.new (before ++ [eof])) = r at hcut hfol ⊢
  match r, hcut, hfol with
  | .ok (tree, ⟨toks, cur, addr⟩), hcut, hfol =>
    obtain ⟨q', hq, hag⟩ := hfol
    rw [hq] at hall ⊢
    obtain ⟨qt, qc, qa⟩ := q'
    obtain ⟨ht, _, hk⟩ := hcut
    obtain ⟨ht', _, _⟩ := hall
    obtain ⟨hc, ha, _⟩ := hag
    dsimp only at ht hk ht' hc ha
    subst ht ht' hc ha
    exact Or.inl ⟨tree, qc, qa, hk, rfl, rfl⟩
  | .error (.ParserException msg line), _, hfol =>
    exact Or.inr ⟨msg, line, rfl, hfol⟩

/-- Witness of C40: the tokens of `program p; begin end.`, their END_OF_FILE and two tokens
after it.  The tree is built and the parser stops on the END_OF_FILE, at index 6. -/
theorem C40_program_reads_up_to_first_end_of_file_witness :
    (Parser.program 96).run (Parser.new beyondEndTokens) =
        .ok ({ program_id := "p", parameters := [], const_declaration := [],
               var_declaration := [], subprograms := [],
               compound_statement := .mk 0 (.cons .NullStatement .nil) },
          ⟨beyondEndTokens, 6, 1⟩) ∧
      ((∃ tree cur addr, cur ≤ 6 ∧
        (Parser.program 96).run (Parser.new (beyondEndTokens.take 6 ++ [⟨.END_OF_FILE, "", 2⟩])) =
          .ok (tree, ⟨beyondEndTokens.take 6 ++ [⟨.END_OF_FILE, "", 2⟩], cur, addr⟩) ∧
        (Parser.program 96).run (Parser.new (beyondEndTokens.take 6 ++
            ⟨.END_OF_FILE, "", 2⟩ :: [⟨.IDENTIFIER, "x", 3⟩, ⟨.DOT, "", 3⟩])) =
          .ok (tree, ⟨beyondEndTokens.take 6 ++
            ⟨.END_OF_FILE, "", 2⟩ :: [⟨.IDENTIFIER, "x", 3⟩, ⟨.DOT, "", 3⟩], cur, addr⟩)) ∨
      (∃ msg line,
        (Parser.program 96).run (Parser.new (beyondEndTokens.take 6 ++ [⟨.END_OF_FILE, "", 2⟩])) =
          .error (.ParserException msg line) ∧
        (Parser.program 96).run (Parser.new (beyondEndTokens.take 6 ++
            ⟨.END_OF_FILE, "", 2⟩ :: [⟨.IDENTIFIER, "x", 3⟩, ⟨.DOT, "", 3⟩])) =
          .error (.ParserException msg line))) :=
  ⟨rfl, C40_program_reads_up_to_first_end_of_file (beyondEndTokens.take 6) ⟨.END_OF_FILE, "", 2⟩
    [⟨.IDENTIFIER, "x", 3⟩, ⟨.DOT, "", 3⟩] 96 (by decide) rfl (by decide)⟩

/-! ## C31: operator precedence in the tree -/

namespace Parser

/-- What `Parser::factor` returns with some fuel, it returns with more. -/
theorem factor_mono (n n' : Nat) (h : n ≤ n') (p : Parser) (f : Factor) (p' : Parser)
    (hrun : (factor n).run p = .ok (f, p')) : (factor n').run p = .ok (f, p') := by
  have hfol := (follows_expressions n n' h).1 p p (agree_self p)
  rw [hrun] at hfol
  obtain ⟨q', hq, hc, ha, _⟩ := hfol
  have t1 := ((expressions_neutral n).1 p f p' hrun).1
  have t2 := ((expressions_neutral n').1 p f q' hq).1
  rw [hq]
  obtain ⟨qt, qc, qa⟩ := q'
  obtain ⟨pt, pc, pa⟩ := p'
  dsimp only at hc ha t1 t2
  subst hc ha
  rw [t1, t2]

end Parser

/-- The token types that stand for a multiplicative operator. -/
theorem factorOpOf_mul {t : TokenType} {op : MulOp} (h : factorOpOf t = some (.mul op)) :
    mulOpOf t = some op := by
  unfold factorOpOf at h
  cases hm : mulOpOf t with
  | some m =>
    rw [hm] at h
    cases h
    rfl
  | none =>
    rw [hm] at h
    cases ha : addOpOf t <;> rw [ha] at h <;> cases h

/-- The token types that stand for an additive operator. -/
theorem factorOpOf_add {t : TokenType} {op : AddOp} (h : factorOpOf t = some (.add op)) :
    mulOpOf t = none ∧ addOpOf t = some op := by
  unfold factorOpOf at h
  cases hm : mulOpOf t with
  | some m =>
    rw [hm] at h
    cases h
  | none =>
    rw [hm] at h
    cases ha : addOpOf t with
    | none =>
      rw [ha] at h
      cases h
    | some a =>
      rw [ha] at h
      cases h
      exact ⟨rfl, rfl⟩

/-- The token types that stand for no operator between factors. -/
theorem factorOpOf_none {t : TokenType} (h : factorOpOf t = none) :
    mulOpOf t = none ∧ addOpOf t = none := by
  unfold factorOpOf at h
  cases hm : mulOpOf t with
  | some m =>
    rw [hm] at h
    cases h
  | none =>
    rw [hm] at h
    cases ha : addOpOf t with
    | none => exact ⟨rfl, rfl⟩
    | some a =>
      rw [ha] at h
      cases h

/-- Nothing after a list of factors. -/
theorem FactorList.factors_append_nil : ∀ l : FactorList, l.append .nil = l
  | .nil => rfl
  | .cons op f tl => by rw [FactorList.append, FactorList.factors_append_nil tl]

/-- A factor pushed at the end comes before what is put after. -/
theorem FactorList.factors_push_back_append : ∀ (acc : FactorList) (op : MulOp) (g : Factor)
    (l : FactorList), (acc.push_back op g).append l = acc.append (.cons op g l)
  | .nil, _, _, _ => rfl
  | .cons o f tl, op, g, l => by
    rw [FactorList.push_back, FactorList.append, FactorList.append,
      FactorList.factors_push_back_append tl op g l]

/-- Nothing after a list of terms. -/
theorem TermList.terms_append_nil : ∀ l : TermList, l.append .nil = l
  | .nil => rfl
  | .cons op t tl => by rw [TermList.append, TermList.terms_append_nil tl]

/-- A term pushed at the end comes before what is put after. -/
theorem TermList.terms_push_back_append : ∀ (acc : TermList) (op : AddOp) (t : Term)
    (l : TermList), (acc.push_back op t).append l = acc.append (.cons op t l)
  | .nil, _, _, _ => rfl
  | .cons o f tl, op, t, l => by
    rw [TermList.push_back, TermList.append, TermList.append,
      TermList.terms_push_back_append tl op t l]

/-- What is left after the maximal run at the head is not longer than the list. -/
theorem afterHeadRun_length : ∀ l : List (FactorOp × Factor),
    (afterHeadRun l).length ≤ l.length
  | [] => Nat.le_refl _
  | (.add _, _) :: _ => Nat.le_refl _
  | (.mul _, _) :: rest => by
    rw [afterHeadRun, List.length_cons]
    exact Nat.le_succ_of_le (afterHeadRun_length rest)

/-- What is left after the maximal run at the head does not start with a multiplicative
operator. -/
theorem headRun_afterHeadRun : ∀ l : List (FactorOp × Factor),
    headRun (afterHeadRun l) = .nil
  | [] => rfl
  | (.add _, _) :: _ => rfl
  | (.mul _, _) :: rest => by
    rw [afterHeadRun]
    exact headRun_afterHeadRun rest

/-- The terms after the first are the terms of what is left after the maximal run at the
head. -/
theorem laterTerms_afterHeadRun : ∀ l : List (FactorOp × Factor),
    laterTerms (afterHeadRun l) = laterTerms l
  | [] => rfl
  | (.add _, _) :: _ => rfl
  | (.mul _, _) :: rest => by
    rw [afterHeadRun, laterTerms]
    exact laterTerms_afterHeadRun rest

/-- The loop of `Parser::term` reads the maximal run of operands joined by multiplicative
operators and stops before the operand that follows an additive operator. -/
theorem termLoop_reads {p : Parser} {rest : List (FactorOp × Factor)} {p' : Parser}
    (h : OperandsRead p rest p') (next : Token) (hnext : p'.tokens[p'.current]? = some next)
    (hstop : factorOpOf next.type = none) :
    ∀ (first : Factor) (acc : FactorList), ∃ N pm,
      (∀ fuel, N ≤ fuel →
        (Parser.termLoop fuel first acc).run p =
          .ok (.mk first (acc.append (headRun rest)), pm)) ∧
      OperandsRead pm (afterHeadRun rest) p' := by
  induction h with
  | none p =>
    intro first acc
    refine ⟨1, p, fun fuel hf => ?_, OperandsRead.none p⟩
    obtain ⟨f, rfl⟩ : ∃ f, fuel = f + 1 := ⟨fuel - 1, by omega⟩
    rw [Parser.termLoop_run f first acc p next hnext, (factorOpOf_none hstop).1]
    show _ = Except.ok (Term.mk first (acc.append .nil), p)
    rw [FactorList.factors_append_nil]
  | more p tok op g p1 rest p' htok hop hg hrest ih =>
    intro first acc
    cases op with
    | mul m =>
      obtain ⟨n, hg⟩ := hg
      obtain ⟨N, pm, hrun, hafter⟩ := ih hnext first (acc.push_back m g)
      refine ⟨max n N + 1, pm, fun fuel hf => ?_, hafter⟩
      obtain ⟨f, rfl⟩ : ∃ f, fuel = f + 1 := ⟨fuel - 1, by omega⟩
      rw [Parser.termLoop_run f first acc p tok htok, factorOpOf_mul hop]
      dsimp only
      rw [Parser.run_bind, Parser.factor_mono n f (by omega) _ _ _ hg]
      dsimp only
      rw [hrun f (by omega), FactorList.factors_push_back_append]
      rfl
    | add a =>
      refine ⟨1, p, fun fuel hf => ?_, OperandsRead.more p tok (.add a) g p1 rest p' htok hop hg hrest⟩
      obtain ⟨f, rfl⟩ : ∃ f, fuel = f + 1 := ⟨fuel - 1, by omega⟩
      rw [Parser.termLoop_run f first acc p tok htok, (factorOpOf_add hop).1]
      show _ = Except.ok (Term.mk first (acc.append .nil), p)
      rw [FactorList.factors_append_nil]

/-- The loop of `Parser::simpleExpression` reads, for each additive operator, the term made
of the maximal run of operands that follows it. -/
theorem simpleExpressionLoop_reads (L : Nat) : ∀ (rest : List (FactorOp × Factor)),
    rest.length ≤ L → ∀ (p p' : Parser), OperandsRead p rest p' → headRun rest = .nil →
    ∀ (next : Token), p'.tokens[p'.current]? = some next → factorOpOf next.type = none →
    ∀ (first : Term) (acc : TermList), ∃ N, ∀ fuel, N ≤ fuel →
      (Parser.simpleExpressionLoop fuel first acc).run p =
        .ok (.mk first (acc.append (laterTerms rest)), p') := by
  induction L with
  | zero =>
    intro rest hlen p p' h _ next hnext hstop first acc
    obtain rfl : rest = [] := List.eq_nil_of_length_eq_zero (by omega)
    cases h
    refine ⟨1, fun fuel hf => ?_⟩
    obtain ⟨f, rfl⟩ : ∃ f, fuel = f + 1 := ⟨fuel - 1, by omega⟩
    rw [Parser.simpleExpressionLoop_run f first acc p next hnext, (factorOpOf_none hstop).2]
    show _ = Except.ok (SimpleExpression.mk first (acc.append .nil), p)
    rw [TermList.terms_append_nil]
  | succ L ih =>
    intro rest hlen p p' h hhead next hnext hstop first acc
    cases h with
    | none =>
      refine ⟨1, fun fuel hf => ?_⟩
      obtain ⟨f, rfl⟩ : ∃ f, fuel = f + 1 := ⟨fuel - 1, by omega⟩
      rw [Parser.simpleExpressionLoop_run f first acc p next hnext, (factorOpOf_none hstop).2]
      show _ = Except.ok (SimpleExpression.mk first (acc.append .nil), p)
      rw [TermList.terms_append_nil]
    | more _ tok op g p1 rest' _ htok hop hg hrest =>
      cases op with
      | mul m => cases hhead
      | add a =>
        obtain ⟨n, hg⟩ := hg
        obtain ⟨N1, pm, hrunT, hafter⟩ := termLoop_reads hrest next hnext hstop g .nil
        rw [show FactorList.nil.append (headRun rest') = headRun rest' from rfl] at hrunT
        obtain ⟨N2, hrunS⟩ := ih (afterHeadRun rest')
          (Nat.le_trans (afterHeadRun_length rest') (by rw [List.length_cons] at hlen; omega))
          pm p' hafter (headRun_afterHeadRun rest') next hnext hstop first
          (acc.push_back a (.mk g (headRun rest')))
        refine ⟨max n (max N1 N2) + 2, fun fuel hf => ?_⟩
        obtain ⟨f, rfl⟩ : ∃ f, fuel = f + 2 := ⟨fuel - 2, by omega⟩
        rw [Parser.simpleExpressionLoop_run (f + 1) first acc p tok htok, (factorOpOf_add hop).2]
        dsimp only
        rw [Parser.run_bind, Parser.term, Parser.run_bind,
          Parser.factor_mono n f (by omega) _ _ _ hg]
        dsimp only
        rw [hrunT f (by omega)]
        dsimp only
        rw [hrunS (f + 1) (by omega), TermList.terms_push_back_append, laterTerms_afterHeadRun]
        rfl

/-- C31 (operator precedence in the tree).  Let `f0` be the factor that `Parser::factor`
reads at `p`, and let operator tokens from the additive and multiplicative sets, each
followed by a factor that `Parser::factor` reads, follow it up to a token that is no such
operator.  With enough fuel `Parser::simpleExpression` returns the simple expression whose
terms are the maximal runs of factors joined by multiplicative operators, in order and
paired with the additive operators between them; and `Parser::expression` returns it alone
when that next token is no relational operator, and otherwise puts it, with the operator,
to the left of the one simple expression that it reads after the operator. -/
theorem C31_terms_are_maximal_multiplicative_runs (p : Parser) (f0 : Factor) (p1 : Parser)
    (rest : List (FactorOp × Factor)) (p' : Parser) (next : Token)
    (hfirst : ∃ n, (Parser.factor n).run p = .ok (f0, p1)) (hrest : OperandsRead p1 rest p')
    (hnext : p'.tokens[p'.current]? = some next) (hstop : factorOpOf next.type = none) :
    ∃ N, ∀ fuel, N ≤ fuel →
      (Parser.simpleExpression fuel).run p = .ok (groupTerms f0 rest, p') ∧
      (Parser.expression (fuel + 1)).run p =
        match relOpOf next.type with
        | some op =>
          (Parser.simpleExpression fuel >>= fun right =>
            pure (Expression.relational (groupTerms f0 rest) op right)).run
            { p' with current := p'.current + 1 }
        | none => .ok (.simple (groupTerms f0 rest), p') := by
  obtain ⟨n, hfirst⟩ := hfirst
  obtain ⟨N1, pm, hrunT, hafter⟩ := termLoop_reads hrest next hnext hstop f0 .nil
  rw [show FactorList.nil.append (headRun rest) = headRun rest from rfl] at hrunT
  obtain ⟨N2, hrunS⟩ := simpleExpressionLoop_reads _ (afterHeadRun rest) (Nat.le_refl _) pm p'
    hafter (headRun_afterHeadRun rest) next hnext hstop (.mk f0 (headRun rest)) .nil
  have key : ∀ fuel, max n (max N1 N2) + 2 ≤ fuel →
      (Parser.simpleExpression fuel).run p = .ok (groupTerms f0 rest, p') := by
    intro fuel hf
    obtain ⟨f, rfl⟩ : ∃ f, fuel = f + 2 := ⟨fuel - 2, by omega⟩
    rw [Parser.simpleExpression, Parser.run_bind, Parser.term, Parser.run_bind,
      Parser.factor_mono n f (by omega) _ _ _ hfirst]
    dsimp only
    rw [hrunT f (by omega)]
    dsimp only
    rw [hrunS (f + 1) (by omega), laterTerms_afterHeadRun]
    rfl
  exact ⟨max n (max N1 N2) + 2, fun fuel hf =>
    ⟨key fuel hf, Parser.expression_run fuel p _ p' next (key fuel hf) hnext⟩⟩

/-- Witness of C31: the tokens of `1 + 2 * 3 - 4 or 5`.  The terms are `1`, `2 * 3`, `4`
and `5`, with the operators `+`, `-` and `or`. -/
theorem C31_terms_are_maximal_multiplicative_runs_witness :
    groupTerms (.NUMBER 0 "1")
        [(.add .PLUS, .NUMBER 1 "2"), (.mul .TIMES, .NUMBER 2 "3"),
          (.add .MINUS, .NUMBER 3 "4"), (.add .OR, .NUMBER 4 "5")] =
      .mk (.mk (.NUMBER 0 "1") .nil)
        (.cons .PLUS (.mk (.NUMBER 1 "2") (.cons .TIMES (.NUMBER 2 "3") .nil))
          (.cons .MINUS (.mk (.NUMBER 3 "4") .nil) (.cons .OR (.mk (.NUMBER 4 "5") .nil) .nil))) ∧
    ∃ N, ∀ fuel, N ≤ fuel →
      (Parser.simpleExpression fuel).run (Parser.new precedenceTokens) =
        .ok (groupTerms (.NUMBER 0 "1")
          [(.add .PLUS, .NUMBER 1 "2"), (.mul .TIMES, .NUMBER 2 "3"),
            (.add .MINUS, .NUMBER 3 "4"), (.add .OR, .NUMBER 4 "5")],
          ⟨precedenceTokens, 9, 5⟩) ∧
      (Parser.expression (fuel + 1)).run (Parser.new precedenceTokens) =
        .ok (.simple (groupTerms (.NUMBER 0 "1")
          [(.add .PLUS, .NUMBER 1 "2"), (.mul .TIMES, .NUMBER 2 "3"),
            (.add .MINUS, .NUMBER 3 "4"), (.add .OR, .NUMBER 4 "5")]),
          ⟨precedenceTokens, 9, 5⟩) :=
  ⟨rfl, C31_terms_are_maximal_multiplicative_runs (Parser.new precedenceTokens) (.NUMBER 0 "1")
    ⟨precedenceTokens, 1, 1⟩ _ ⟨precedenceTokens, 9, 5⟩ ⟨.END_OF_FILE, "", 1⟩ ⟨1, rfl⟩
    (.more _ ⟨.PLUS, "", 1⟩ _ _ ⟨precedenceTokens, 3, 2⟩ _ _ rfl rfl ⟨1, rfl⟩
      (.more _ ⟨.TIMES, "", 1⟩ _ _ ⟨precedenceTokens, 5, 3⟩ _ _ rfl rfl ⟨1, rfl⟩
        (.more _ ⟨.MINUS, "", 1⟩ _ _ ⟨precedenceTokens, 7, 4⟩ _ _ rfl rfl ⟨1, rfl⟩
          (.more _ ⟨.OR, "", 1⟩ _ _ ⟨precedenceTokens, 9, 5⟩ _ _ rfl rfl ⟨1, rfl⟩
            (.none _)))))
    rfl rfl⟩

/-! ## C32: a program without its final dot -/

namespace Parser

/-- Steps after a choice are steps after each of its branches. -/
theorem ite_then {α β : Type} (c : Prop) [Decidable c] (m n : ParserM α) (f : α → ParserM β) :
    (if c then m else n) >>= f = if c then m >>= f else n >>= f := by
  split <;> rfl

/-- `Parser::program` is its part before the last statement, followed by
`consume(TokenType::DOT, ...)`. -/
theorem program_eq (fuel : Nat) :
    program fuel = (do
      let tree ← programBeforeDot fuel
      let _ ← consume .DOT "Expected '.' at the end of the program."
      return tree) := by
  unfold program programBeforeDot
  simp only [bind_assoc, pure_bind, ite_then]

end Parser

/-- C32 (missing final dot): when the header, the declarations, the subprograms and the main
compound statement are read and the token that follows is not `.`, `Parser::program`
throws `Expected '.' at the end of the program.` with the line of that token, which is the
END_OF_FILE token when the text ends there. -/
theorem C32_missing_final_dot (fuel : Nat) (p : Parser) (tree : Program) (p' : Parser)
    (tok : Token) (hread : (Parser.programBeforeDot fuel).run p = .ok (tree, p'))
    (htok : p'.tokens[p'.current]? = some tok) (hdot : tok.type ≠ TokenType.DOT) :
    (Parser.program fuel).run p =
      .error (.ParserException "Expected '.' at the end of the program." tok.line) := by
  rw [Parser.program_eq, Parser.run_bind, hread]
  dsimp only
  rw [Parser.run_bind, Parser.consume_run _ _ p' tok htok, Parser.test_ne _ _ hdot]
  rfl

/-- Witness of C32: the token vector of the test `ErrorHandling1`; the exception carries
line 2, the line of the END_OF_FILE token. -/
theorem C32_missing_final_dot_witness :
    (Parser.programBeforeDot 8).run (Parser.new missingDotTokens) =
        .ok ({ program_id := "hello", parameters := [], const_declaration := [],
               var_declaration := [], subprograms := [],
               compound_statement := .mk 0 (.cons .NullStatement .nil) },
          ⟨missingDotTokens, 5, 1⟩) ∧
      (Parser.program 8).run (Parser.new missingDotTokens) =
        .error (.ParserException "Expected '.' at the end of the program." 2) :=
  ⟨rfl, C32_missing_final_dot 8 (Parser.new missingDotTokens) _ ⟨missingDotTokens, 5, 1⟩
    ⟨.END_OF_FILE, "", 2⟩ rfl rfl (by decide)⟩

/-! ## C33: a relational expression as the lower bound of a for loop -/

/-- C33, the claim as it is written: in `for i := 1 = 10 do ;` the `:=` is there and is
consumed, `1 = 10` is read by `Parser::expression` as a relational expression, and the
parser throws at the `do`, where it expects `to`.  The line is the line of the `do` token,
line 4 in the second text, whose `for` is on line 3.  The message of the claim is what
`for i = 1 to 10 do ;` gives. -/
theorem C33_relational_lower_bound_reports_missing_to :
    compoundStatementError 64 "begin for i := 1 = 10 do ; end" =
      some (.ParserException "Expected 'to' keyword for for loop range." 1) ∧
    compoundStatementError 64 "begin\nx := 1;\nfor i := 1 = 10\ndo ; end" =
      some (.ParserException "Expected 'to' keyword for for loop range." 4) ∧
    compoundStatementError 64 "begin for i = 1 to 10 do ; end" =
      some (.ParserException "Expected ':=' for loop control variable initialization." 1) :=
  ⟨by decide!, by decide!, by decide!⟩

namespace Parser

/-- `Parser::factor` on a number. -/
theorem factor_number_run (fuel : Nat) (p : Parser) (tok : Token)
    (h : p.tokens[p.current]? = some tok) (hty : tok.type = .NUMBER) :
    (factor (fuel + 1)).run p =
      .ok (.NUMBER p.nextAddr tok.value,
        { p with current := p.current + 1, nextAddr := p.nextAddr + 1 }) := by
  obtain ⟨toks, cur, addr⟩ := p
  have h' : (⟨toks, cur, addr + 1⟩ : Parser).tokens[cur]? = some tok := h
  rw [factor]
  simp only [run_bind, run_ite, run_pure, check_run _ ⟨toks, cur, addr⟩ tok h, alloc_run,
    consume_run _ _ ⟨toks, cur, addr + 1⟩ tok h', hty, test_ne .NUMBER .IDENTIFIER (by decide),
    test_self .NUMBER (by decide), Bool.false_eq_true, if_true, if_false]

/-- `Parser::simpleExpression` on a number that no additive or multiplicative operator
follows. -/
theorem simpleExpression_number_run (fuel : Nat) (p : Parser) (tok next : Token)
    (h : p.tokens[p.current]? = some tok) (hty : tok.type = .NUMBER)
    (hnext : p.tokens[p.current + 1]? = some next) (hstop : factorOpOf next.type = none) :
    (simpleExpression (fuel + 3)).run p =
      .ok (.mk (.mk (.NUMBER p.nextAddr tok.value) .nil) .nil,
        { p with current := p.current + 1, nextAddr := p.nextAddr + 1 }) := by
  obtain ⟨toks, cur, addr⟩ := p
  rw [simpleExpression, run_bind, term, run_bind, factor_number_run fuel _ tok h hty]
  dsimp only
  rw [termLoop_run fuel _ _ ⟨toks, cur + 1, addr + 1⟩ next hnext, (factorOpOf_none hstop).1]
  dsimp only
  rw [simpleExpressionLoop_run (fuel + 1) _ _ ⟨toks, cur + 1, addr + 1⟩ next hnext,
    (factorOpOf_none hstop).2]

end Parser

/-- C33 (`for i := 1 = 10 do`), amended: on the tokens FOR, IDENTIFIER, ASSIGN, NUMBER,
EQUAL, NUMBER, DO, `Parser::forStatement` consumes the `:=`, `Parser::expression` reads the
two numbers and the `=` between them as one relational expression, and the exception is
`Expected 'to' keyword for for loop range.` with the line of the DO token.
`Parser::statement` throws the same. -/
theorem C33_for_with_relational_lower_bound (fuel : Nat) (p : Parser)
    (for_ id asg one eq ten do_ : Token) (rest : List Token)
    (htokens : p.tokens.drop p.current = for_ :: id :: asg :: one :: eq :: ten :: do_ :: rest)
    (hfor : for_.type = .FOR) (hid : id.type = .IDENTIFIER) (hasg : asg.type = .ASSIGN)
    (hone : one.type = .NUMBER) (heq : eq.type = .EQUAL) (hten : ten.type = .NUMBER)
    (hdo : do_.type = .DO) :
    (Parser.forStatement (fuel + 5)).run p =
        .error (.ParserException "Expected 'to' keyword for for loop range." do_.line) ∧
      (Parser.statement (fuel + 6)).run p =
        .error (.ParserException "Expected 'to' keyword for for loop range." do_.line) := by
  obtain ⟨toks, cur, addr⟩ := p
  dsimp only at htokens
  have hget : ∀ i, toks[cur + i]? =
      (for_ :: id :: asg :: one :: eq :: ten :: do_ :: rest)[i]? := by
    intro i
    rw [← htokens, List.getElem?_drop]
  have h0 : toks[cur]? = some for_ := hget 0
  have h1 : toks[cur + 1]? = some id := hget 1
  have h2 : toks[cur + 1 + 1]? = some asg := hget 2
  have h3 : toks[cur + 1 + 1 + 1]? = some one := hget 3
  have h4 : toks[cur + 1 + 1 + 1 + 1]? = some eq := hget 4
  have h5 : toks[cur + 1 + 1 + 1 + 1 + 1]? = some ten := hget 5
  have h6 : toks[cur + 1 + 1 + 1 + 1 + 1 + 1]? = some do_ := by
    rw [show cur + 1 + 1 + 1 + 1 + 1 + 1 = cur + 6 by omega, hget 6]
    simp
  have hloop : (Parser.forStatement (fuel + 5)).run ⟨toks, cur, addr⟩ =
      .error (.ParserException "Expected 'to' keyword for for loop range." do_.line) := by
    rw [Parser.forStatement, Parser.run_bind, Parser.consume_run _ _ ⟨toks, cur, addr⟩ for_ h0,
      hfor, if_pos (by rfl)]
    dsimp only
    rw [Parser.run_bind, Parser.consume_run _ _ ⟨toks, cur + 1, addr⟩ id h1, hid,
      if_pos (by rfl)]
    dsimp only
    rw [Parser.run_bind, Parser.consume_run _ _ ⟨toks, cur + 1 + 1, addr⟩ asg h2, hasg,
      if_pos (by rfl)]
    dsimp only
    rw [Parser.run_bind, Parser.expression_run (fuel + 3) ⟨toks, cur + 1 + 1 + 1, addr⟩ _
      ⟨toks, cur + 1 + 1 + 1 + 1, addr + 1⟩ eq
      (Parser.simpleExpression_number_run fuel ⟨toks, cur + 1 + 1 + 1, addr⟩ one eq h3 hone h4
        (by rw [heq]; rfl)) h4, heq]
    dsimp only [relOpOf]
    rw [Parser.run_bind,
      Parser.simpleExpression_number_run fuel ⟨toks, cur + 1 + 1 + 1 + 1 + 1, addr + 1⟩ ten do_
        h5 hten h6 (by rw [hdo]; rfl)]
    dsimp only
    rw [Parser.run_pure]
    dsimp only
    rw [Parser.run_bind,
      Parser.consume_run _ _ ⟨toks, cur + 1 + 1 + 1 + 1 + 1 + 1, addr + 1 + 1⟩ do_ h6, hdo,
      if_neg (by decide)]
  refine ⟨hloop, ?_⟩
  rw [Parser.statement]
  simp only [Parser.run_bind, Parser.run_ite, Parser.check_run _ ⟨toks, cur, addr⟩ for_ h0, hfor,
    Parser.test_ne .FOR .BEGIN (by decide), Parser.test_ne .FOR .IF (by decide),
    Parser.test_self .FOR (by decide), Bool.false_eq_true, if_true, if_false]
  exact hloop

/-- Witness of C33: the `for` is on line 2 and the `do` on line 3; the statement, and the
compound statement around it, throw with line 3. -/
theorem C33_for_with_relational_lower_bound_witness :
    ((Parser.forStatement (0 + 5)).run ⟨forRelationalTokens, 1, 1⟩ =
        .error (.ParserException "Expected 'to' keyword for for loop range." 3) ∧
      (Parser.statement (0 + 6)).run ⟨forRelationalTokens, 1, 1⟩ =
        .error (.ParserException "Expected 'to' keyword for for loop range." 3)) ∧
    (Parser.compoundStatement 7).run (Parser.new forRelationalTokens) =
      .error (.ParserException "Expected 'to' keyword for for loop range." 3) :=
  ⟨C33_for_with_relational_lower_bound 0 ⟨forRelationalTokens, 1, 1⟩ ⟨.FOR, "", 2⟩
    ⟨.IDENTIFIER, "i", 2⟩ ⟨.ASSIGN, "", 2⟩ ⟨.NUMBER, "1", 2⟩ ⟨.EQUAL, "", 2⟩ ⟨.NUMBER, "10", 2⟩
    ⟨.DO, "", 3⟩ [⟨.SEMICOLON, "", 3⟩, ⟨.END, "", 3⟩, ⟨.END_OF_FILE, "", 3⟩] rfl rfl rfl rfl rfl
    rfl rfl rfl, rfl⟩

/-! ## C34: the local scope of a subprogram -/

/-- C34 (code defect). `SemanticAnalyzer::visit(const Subprogram&)` attaches to the callable
type the scope it pushed for the first pass over the parameters, pops it, and pushes a new
scope for the second pass over the parameters, the declarations and the body; that second
scope is dropped at the end.  After the analysis of a procedure `q(a)` that declares the
constant `c` and the variable `v`, the local scope of `q` in the global scope holds the
parameter `a` only. -/
theorem C34_local_scope_holds_parameters_only :
    globalScopeOf 128 ("program p; procedure q(a: integer); const c = 1; var v: real; " ++
        "begin v := a end; begin end.") =
      some [{ name := "q",
              type := .CALLABLE false none [⟨"a", .INTEGER, 1, false⟩] [⟨"a", .INTEGER, 1, false⟩],
              scope_level := 0 }] :=
  by decide!

/-! ## C35: the printer on a boolean literal -/

/-- C35 (code defect). `Printer::visit(const Factor&)` applies `std::get<ASTNodePtr>` to the
value of every factor that is neither UNKNOWN nor NUMBER; a BOOLEAN factor holds the text
`true` or `false`, so the call throws `std::bad_variant_access`, which `solveParserResult`
does not catch.  The same program with `1` in place of `true` is printed. -/
theorem C35_printer_fails_on_boolean_literal :
    solveParserResult 64 "program p; var b: boolean; begin b := true end." false =
      .crash .badVariantAccess ∧
    solveParserResult 64 "program p; var b: boolean; begin b := 1 end." false =
      .printed ("Program: p\n├─ Var Declarations\n│  ├─ b\n│  │  ├─ Type: bool\n├─ Body\n" ++
        "├─ Compound \x7b\n│  ├─ Assignment\n│  │  ├─ Left\n│  │  │  ├─ Variable: b\n" ++
        "│  │  ├─ Right\n│  │  │  ├─ Expression\n│  │  │  │  ├─ Left\n" ++
        "│  │  │  │  │  ├─ SimpleExpression\n│  │  │  │  │  │  ├─ Term\n" ++
        "│  │  │  │  │  │  │  ├─ Factor: Number (1)\n│  │  │  │  │  │  │  │  ├─ Value: 1\n" ++
        "├─ \x7d\n") :=
  ⟨by decide!, by decide!⟩

/-! ## C36: scoped lookup -/

/-- An entry that `SymbolTable::lookup` returns carries the name looked up. -/
theorem SymbolTable.lookup_name (t : SymbolTable) (name : String) (e : SymbolEntry)
    (h : t.lookup name = some e) : e.name = name := by
  unfold SymbolTable.lookup at h
  have := List.find?_some h
  exact beq_iff_eq.1 this

/-- C36 (scoped lookup): on a scope `t` followed by the chain `parents` of its enclosing
scopes, `recursiveLookup(name)` returns the entry of `t` when `t` has one, whatever the
enclosing scopes declare, and otherwise what it returns on the parent; it returns nothing
exactly when no scope of the chain has an entry; and what it returns is the entry for `name`
of the first scope of the chain that has one. -/
theorem C36_recursive_lookup_returns_innermost (t : SymbolTable) (parents : List SymbolTable)
    (name : String) :
    (∀ e, t.lookup name = some e →
      SymbolTable.recursiveLookup (t :: parents) name = some e) ∧
    (t.lookup name = none →
      SymbolTable.recursiveLookup (t :: parents) name =
        SymbolTable.recursiveLookup parents name) ∧
    (SymbolTable.recursiveLookup (t :: parents) name = none ↔
      ∀ u ∈ t :: parents, u.lookup name = none) ∧
    (∀ e, SymbolTable.recursiveLookup (t :: parents) name = some e →
      e.name = name ∧
        ∃ inner u outer, t :: parents = inner ++ u :: outer ∧
          (∀ v ∈ inner, v.lookup name = none) ∧ u.lookup name = some e) := by
  have hnone : ∀ chain : List SymbolTable,
      SymbolTable.recursiveLookup chain name = none ↔ ∀ u ∈ chain, u.lookup name = none := by
    intro chain
    induction chain with
    | nil => simp [SymbolTable.recursiveLookup]
    | cons u us ih =>
      rw [SymbolTable.recursiveLookup]
      cases hu : u.lookup name with
      | some e => simp [hu]
      | none => simp [hu, ih]
  have hsome : ∀ (chain : List SymbolTable) (e : SymbolEntry),
      SymbolTable.recursiveLookup chain name = some e →
        ∃ inner u outer, chain = inner ++ u :: outer ∧
          (∀ v ∈ inner, v.lookup name = none) ∧ u.lookup name = some e := by
    intro chain
    induction chain with
    | nil =>
      intro e h
      rw [SymbolTable.recursiveLookup] at h
      cases h
    | cons u us ih =>
      intro e h
      rw [SymbolTable.recursiveLookup] at h
      cases hu : u.lookup name with
      | some e' =>
        rw [hu] at h
        cases h
        exact ⟨[], u, us, rfl, fun _ hv => absurd hv (List.not_mem_nil _), hu⟩
      | none =>
        rw [hu] at h
        obtain ⟨inner, w, outer, hc, hin, hw⟩ := ih e h
        refine ⟨u :: inner, w, outer, by rw [hc]; rfl, fun v hv => ?_, hw⟩
        rcases List.mem_cons.1 hv with rfl | hv'
        · exact hu
        · exact hin v hv'
  refine ⟨fun e h => ?_, fun h => ?_, hnone _, fun e h => ?_⟩
  · rw [SymbolTable.recursiveLookup, h]
  · rw [SymbolTable.recursiveLookup, h]
  · obtain ⟨inner, u, outer, hc, hin, hu⟩ := hsome _ e h
    exact ⟨SymbolTable.lookup_name u name e hu, inner, u, outer, hc, hin, hu⟩

/-- C36 at the stack `shadowingScopes`: the local `x : real` is returned, not the global
`x : integer`. -/
theorem C36_recursive_lookup_returns_innermost_witness :
    SymbolTable.recursiveLookup shadowingScopes "x" =
      some { name := "x", type := .BASIC .REAL, scope_level := 1 } :=
  (C36_recursive_lookup_returns_innermost
    ⟨[{ name := "x", type := .BASIC .REAL, scope_level := 1 }], 1⟩
    [⟨[{ name := "x", type := .BASIC .INTEGER, scope_level := 0 }], 0⟩] "x").1 _ (by decide!)

/-! ## C37: a procedure as an operand -/

/-- C37 (code defect). For the factor `p(1)` of a procedure `p`,
`SemanticAnalyzer::getFactorType` returns null without a report, and
`SemanticAnalyzer::visit(const Assign&)` returns silently when the type of the right side
is null: `x := p(1)` is analysed without error, and `x = p(1);` is written for the
`void` function `p`. -/
theorem C37_procedure_as_operand_is_accepted :
    solveCCode 128 ("program t; var x: integer; procedure p(a: integer); begin end; " ++
        "begin x := p(1) end.") =
      .cCode ("#include <stdio.h>\n#include <stdlib.h>\n#include <stdbool.h>\nint x;\n" ++
        "void p(int a) \x7b\n  \x7b\n    ;\n  \x7d\n\x7d\nint main()\n\x7b\n  x = p(1);\n" ++
        "  return 0;\n\x7d\n") [] :=
  by decide!

/-! ## C38: the letter case of string literals -/

/-- C38 (code defect). `Lexer::processString` cuts the value of a STRING_LITERAL token from
`src`, the lower-cased copy of the text, while the CHAR_LITERAL token is cut from `raw_src`:
`'Hello'` gives the value `hello`, `'A'` keeps its case (and its quotes).  The constant
`'Hi There'` is written to the C text as `"hi there"`. -/
theorem C38_string_literal_is_lower_cased :
    (Lexer.scan 16 (Lexer.new (String.mk ([QUOTE] ++ "Hello".data ++ [QUOTE, ' ', QUOTE, 'A', QUOTE])))).map
        (fun r => (r.1.tokens, r.2)) =
      some ([⟨.STRING_LITERAL, "hello", 1⟩, ⟨.CHAR_LITERAL, String.mk [QUOTE, 'A', QUOTE], 1⟩,
        ⟨.END_OF_FILE, "", 1⟩], []) ∧
    solveCCode 128 "program t; const s = 'Hi There'; begin write(s) end." =
      .cCode ("#include <stdio.h>\n#include <stdlib.h>\n#include <stdbool.h>\n" ++
        "const char* s = \"hi there\";\nint main()\n\x7b\n  printf(\"%s\", s);\n  return 0;\n\x7d\n") [] :=
  ⟨by decide!, by decide!⟩

/-! ## C39: the scope-violation check -/

/-- An entry that `SymbolTable::lookup` returns is an entry of the table. -/
theorem SymbolTable.lookup_mem (t : SymbolTable) (name : String) (e : SymbolEntry)
    (h : t.lookup name = some e) : e ∈ t.entries :=
  List.mem_of_find?_eq_some h

/-- In a well scoped stack, an entry that `recursiveLookup` returns has a level below the
height of the stack. -/
theorem wellScoped_level_lt : ∀ (stack : ScopeStack) (name : String) (e : SymbolEntry),
    WellScoped stack → SymbolTable.recursiveLookup stack name = some e →
      e.scope_level < stack.length
  | [], _, _, _, h => by
    rw [SymbolTable.recursiveLookup] at h
    cases h
  | t :: rest, name, e, hw, h => by
    rw [SymbolTable.recursiveLookup] at h
    obtain ⟨hlevel, hentries, hrest⟩ := hw
    cases ht : t.lookup name with
    | some e' =>
      rw [ht] at h
      cases h
      rw [hentries e (SymbolTable.lookup_mem t name e ht), hlevel, List.length_cons]
      exact Nat.lt_succ_self _
    | none =>
      rw [ht] at h
      have := wellScoped_level_lt rest name e hrest h
      rw [List.length_cons]
      exact Nat.lt_succ_of_lt this

/-- In a well scoped stack, an entry that `recursiveLookup` returns from the current scope
is accessible. -/
theorem wellScoped_accessible (stack : ScopeStack) (name : String) (e : SymbolEntry)
    (hw : WellScoped stack) (h : SymbolTable.recursiveLookup stack name = some e) :
    ScopeStack.isAccessible stack e = true := by
  cases stack with
  | nil =>
    rw [SymbolTable.recursiveLookup] at h
    cases h
  | cons t rest =>
    have hlt := wellScoped_level_lt (t :: rest) name e hw h
    rw [List.length_cons] at hlt
    show decide (e.scope_level ≤ t.current_scope) = true
    rw [hw.1]
    exact decide_eq_true (Nat.le_of_lt_succ hlt)

/-- A new scope on a well scoped stack. -/
theorem wellScoped_push (stack : ScopeStack) (h : WellScoped stack) :
    WellScoped (ScopeStack.push stack) :=
  ⟨rfl, fun _ he => absurd he (List.not_mem_nil _), h⟩

/-- A well scoped stack without its top. -/
theorem wellScoped_pop (stack : ScopeStack) (h : WellScoped stack) :
    WellScoped (ScopeStack.pop stack) := by
  cases stack with
  | nil => trivial
  | cons t rest => exact h.2.2

/-- Returning a value. -/
theorem keeps_pure {α : Type} (a : α) : KeepsScopes (pure a : SemM α) :=
  fun _ hs => hs

/-- Two steps in sequence. -/
theorem keeps_bind {α β : Type} {m : SemM α} {f : α → SemM β} (hm : KeepsScopes m)
    (hf : ∀ a, KeepsScopes (f a)) : KeepsScopes (m >>= f) := by
  intro s hs
  have h1 := hm s hs
  rw [SemM.bind_run]
  cases h : m s with
  | ok v =>
    rw [h] at h1
    exact hf v.1 v.2 h1
  | error e =>
    rw [h] at h1
    exact h1

/-- A report of another type than SCOPE_VIOLATION. -/
theorem keeps_report (t : ErrorType) (msg : String) (l : Nat)
    (ht : t ≠ ErrorType.SCOPE_VIOLATION) : KeepsScopes (SemanticAnalyzer.report t msg l) := by
  intro s hs
  refine ⟨hs.1, fun r hr => ?_⟩
  rcases List.mem_append.1 hr with h1 | h1
  · exact hs.2 r h1
  · rw [List.mem_singleton.1 h1]
    exact ht

/-- A change of the analyzer that leaves the scope stack and the reports as they are. -/
theorem keeps_modify (f : SemanticAnalyzer → SemanticAnalyzer)
    (hf : ∀ s, (f s).scope_stack = s.scope_stack ∧ (f s).reports = s.reports) :
    KeepsScopes (modify f : SemM PUnit) := by
  intro s hs
  show WellScoped (f s).scope_stack ∧ NoScopeViolation (f s).reports
  rw [(hf s).1, (hf s).2]
  exact hs

/-- Counting an error. -/
theorem keeps_countError : KeepsScopes SemanticAnalyzer.countError :=
  keeps_modify _ fun _ => ⟨rfl, rfl⟩

/-- An abnormal end carries the diagnostics written so far, which hold no SCOPE_VIOLATION. -/
theorem keeps_abort {α : Type} (c : Crash) : KeepsScopes (SemanticAnalyzer.abort c : SemM α) :=
  fun _ hs => hs.2

/-- An abnormal end, whatever would have followed. -/
theorem keeps_abortThen {α β : Type} (c : Crash) (f : α → SemM β) :
    KeepsScopes (SemanticAnalyzer.abort c >>= f) :=
  fun _ hs => hs.2

/-- Reading the analyzer. -/
theorem keeps_get : KeepsScopes (get : SemM SemanticAnalyzer) :=
  fun _ hs => hs

/-- Dereferencing a pointer. -/
theorem keeps_deref {α : Type} (o : Option α) : KeepsScopes (SemanticAnalyzer.deref o) := by
  cases o
  · exact keeps_abort _
  · exact keeps_pure _

/-- Reading the base kind of a type. -/
theorem keeps_getBaseKind (t : SymbolType) : KeepsScopes (SemanticAnalyzer.getBaseKind t) := by
  cases t
  · exact keeps_pure _
  · exact keeps_abort _
  · exact keeps_abort _

/-- A lookup from the current scope. -/
theorem keeps_recursiveLookup (n : String) :
    KeepsScopes (SemanticAnalyzer.recursiveLookup n) := by
  unfold SemanticAnalyzer.recursiveLookup
  refine keeps_bind keeps_get fun s => ?_
  split
  · exact keeps_abort _
  · exact keeps_pure _

/-- A lookup in the current scope. -/
theorem keeps_lookup (n : String) : KeepsScopes (SemanticAnalyzer.lookup n) := by
  unfold SemanticAnalyzer.lookup
  refine keeps_bind keeps_get fun s => ?_
  split
  · exact keeps_abort _
  · exact keeps_pure _

/-- The level of the current scope. -/
theorem keeps_getCurrentScope : KeepsScopes SemanticAnalyzer.getCurrentScope := by
  unfold SemanticAnalyzer.getCurrentScope
  refine keeps_bind keeps_get fun s => ?_
  split
  · exact keeps_abort _
  · exact keeps_pure _

/-- A run of `getCurrentScope`. -/
theorem getCurrentScope_run (s : SemanticAnalyzer) :
    SemanticAnalyzer.getCurrentScope s =
      match s.scope_stack with
      | [] => .error ⟨.nullDereference, s.reports⟩
      | t :: _ => .ok (t.current_scope, s) := by
  obtain ⟨stack, _, _, _, _, _, _, _, _, _⟩ := s
  cases stack <;> rfl

/-- A run of `recursiveLookup`. -/
theorem recursiveLookup_run (name : String) (s : SemanticAnalyzer) :
    SemanticAnalyzer.recursiveLookup name s =
      match s.scope_stack with
      | [] => .error ⟨.nullDereference, s.reports⟩
      | t :: rest => .ok (SymbolTable.recursiveLookup (t :: rest) name, s) := by
  obtain ⟨stack, _, _, _, _, _, _, _, _, _⟩ := s
  cases stack <;> rfl

/-- A run of `insert`. -/
theorem insert_run (entry : SymbolEntry) (s : SemanticAnalyzer) :
    SemanticAnalyzer.insert entry s =
      match s.scope_stack with
      | [] => .error ⟨.nullDereference, s.reports⟩
      | t :: parents =>
        .ok ((), { s with scope_stack := (t.insert entry).1 :: parents
                          reports := s.reports ++ (t.insert entry).2.2.toList }) := by
  obtain ⟨stack, _, _, _, _, _, _, _, _, _⟩ := s
  cases stack <;> rfl

/-- An entry that is inserted with the level of the current scope. -/
theorem keeps_insertCurrent (f : Nat → SymbolEntry) (hf : ∀ l, (f l).scope_level = l) :
    KeepsScopes (SemanticAnalyzer.getCurrentScope >>= fun l => SemanticAnalyzer.insert (f l)) := by
  intro s hs
  rw [SemM.bind_run, getCurrentScope_run]
  obtain ⟨hw, hr⟩ := hs
  cases hst : s.scope_stack with
  | nil => exact hr
  | cons t rest =>
    rw [hst] at hw
    dsimp only
    rw [insert_run, hst]
    dsimp only
    obtain ⟨hlevel, hentries, hrest⟩ := hw
    unfold SymbolTable.insert
    cases hl : t.lookup (f t.current_scope).name with
    | some e =>
      refine ⟨⟨hlevel, hentries, hrest⟩, fun r hr' => ?_⟩
      rcases List.mem_append.1 hr' with h1 | h1
      · exact hr r h1
      · rw [List.mem_singleton.1 h1]
        exact fun hne => ErrorType.noConfusion hne
    | none =>
      refine ⟨⟨hlevel, fun e he => ?_, hrest⟩, fun r hr' => ?_⟩
      · rcases List.mem_append.1 he with h1 | h1
        · exact hentries e h1
        · rw [List.mem_singleton.1 h1]
          exact hf _
      · rcases List.mem_append.1 hr' with h1 | h1
        · exact hr r h1
        · cases h1

section ScopeKeeping

open SemanticAnalyzer

/-- `SemanticAnalyzer::getNumericResultType` keeps the scopes sound. -/
theorem keeps_getNumericResultType (l r : Option SymbolType) :
    KeepsScopes (SemanticAnalyzer.getNumericResultType l r) := by
  unfold SemanticAnalyzer.getNumericResultType
  repeat' first
    | exact keeps_pure _
    | exact keeps_report _ _ _ (by decide)
    | exact keeps_countError
    | exact keeps_deref _
    | refine keeps_bind ?_ (fun _ => ?_)
    | split
    | dsimp only

mutual
/-- `SemanticAnalyzer::getFactorType` keeps the scopes sound. -/
theorem keeps_getFactorType : ∀ f, KeepsScopes (getFactorType f)
  | .NUMBER _ _ => by
    rw [getFactorType]
    repeat' first
      | exact keeps_pure _
      | refine keeps_bind ?_ (fun _ => ?_)
      | split
  | .VARIABLE _ _ => by
    rw [getFactorType]
    repeat' first
      | exact keeps_pure _
      | exact keeps_recursiveLookup _
      | refine keeps_bind ?_ (fun _ => ?_)
      | split
  | .EXPRESSION _ _ => by
    rw [getFactorType]
    exact keeps_getExpressionType _
  | .FUNCTION _ _ => by
    rw [getFactorType]
    repeat' first
      | exact keeps_pure _
      | exact keeps_recursiveLookup _
      | refine keeps_bind ?_ (fun _ => ?_)
      | split
  | .WITH_PLUS _ _ => by
    rw [getFactorType]
    repeat' first
      | exact keeps_getFactorType _
      | exact keeps_pure _
      | refine keeps_bind ?_ (fun _ => ?_)
      | split
  | .WITH_UMINUS _ _ => by
    rw [getFactorType]
    repeat' first
      | exact keeps_getFactorType _
      | exact keeps_pure _
      | refine keeps_bind ?_ (fun _ => ?_)
      | split
  | .WITH_NOT _ _ => by
    rw [getFactorType]
    repeat' first
      | exact keeps_getFactorType _
      | exact keeps_pure _
      | exact keeps_getBaseKind _
      | refine keeps_bind ?_ (fun _ => ?_)
      | split
  | .BOOLEAN _ _ => by
    rw [getFactorType]
    exact keeps_pure _
  | .UNKNOWN _ _ => by
    rw [getFactorType]
    repeat' first
      | exact keeps_pure _
      | exact keeps_recursiveLookup _
      | refine keeps_bind ?_ (fun _ => ?_)
      | split
/-- The loop of `SemanticAnalyzer::getTermType` has the same property. -/
theorem keeps_getTermTypeLoop : ∀ l, KeepsScopes (getTermTypeLoop l)
  | .nil => by
    rw [getTermTypeLoop]
    exact keeps_pure _
  | .cons _ _ _ => by
    rw [getTermTypeLoop]
    repeat' first
      | exact keeps_getFactorType _
      | exact keeps_getTermTypeLoop _
      | refine keeps_bind ?_ (fun _ => ?_)
/-- `SemanticAnalyzer::getTermType` keeps the scopes sound. -/
theorem keeps_getTermType : ∀ t, KeepsScopes (getTermType t)
  | .mk _ _ => by
    rw [getTermType]
    repeat' first
      | exact keeps_getFactorType _
      | exact keeps_getTermTypeLoop _
      | exact keeps_pure _
      | refine keeps_bind ?_ (fun _ => ?_)
      | split
/-- The loop of `SemanticAnalyzer::getSimpleExpressionType` has the same property. -/
theorem keeps_getSimpleExpressionTypeLoop : ∀ l type, KeepsScopes (getSimpleExpressionTypeLoop l type)
  | .nil, _ => by
    rw [getSimpleExpressionTypeLoop]
    exact keeps_pure _
  | .cons _ _ tl, _ => by
    rw [getSimpleExpressionTypeLoop]
    have ih := keeps_getSimpleExpressionTypeLoop tl
    repeat' first
      | exact keeps_getTermType _
      | exact keeps_report _ _ _ (by decide)
      | exact keeps_countError
      | exact keeps_deref _
      | exact keeps_getNumericResultType _ _
      | exact keeps_pure _
      | exact ih _
      | refine keeps_bind ?_ (fun _ => ?_)
      | split
      | dsimp only
/-- `SemanticAnalyzer::getSimpleExpressionType` keeps the scopes sound. -/
theorem keeps_getSimpleExpressionType : ∀ e, KeepsScopes (getSimpleExpressionType e)
  | .mk _ _ => by
    rw [getSimpleExpressionType]
    repeat' first
      | exact keeps_getTermType _
      | exact keeps_getSimpleExpressionTypeLoop _ _
      | refine keeps_bind ?_ (fun _ => ?_)
      | split
/-- `SemanticAnalyzer::getExpressionType` keeps the scopes sound. -/
theorem keeps_getExpressionType : ∀ e, KeepsScopes (getExpressionType e)
  | .simple _ => by
    rw [getExpressionType]
    exact keeps_getSimpleExpressionType _
  | .relational _ _ _ => by
    rw [getExpressionType]
    exact keeps_pure _
end

set_option maxHeartbeats 1000000 in
mutual
/-- `SemanticAnalyzer::visit(const Factor&)` keeps the scopes sound. -/
theorem keeps_visitFactor : ∀ f, KeepsScopes (visitFactor f)
  | .NUMBER _ _ => by
    rw [visitFactor]
    exact keeps_pure _
  | .VARIABLE _ _ => by
    rw [visitFactor]
    exact keeps_visitVariable _
  | .EXPRESSION _ _ => by
    rw [visitFactor]
    exact keeps_visitExpression _
  | .FUNCTION _ _ => by
    rw [visitFactor]
    exact keeps_visitProcedureCall _
  | .WITH_PLUS _ _ => by
    rw [visitFactor]
    repeat' first
      | exact keeps_getFactorType _
      | exact keeps_deref _
      | exact keeps_report _ _ _ (by decide)
      | exact keeps_countError
      | exact keeps_pure _
      | exact keeps_visitFactor _
      | refine keeps_bind ?_ (fun _ => ?_)
      | split
  | .WITH_UMINUS _ _ => by
    rw [visitFactor]
    repeat' first
      | exact keeps_getFactorType _
      | exact keeps_deref _
      | exact keeps_report _ _ _ (by decide)
      | exact keeps_countError
      | exact keeps_pure _
      | exact keeps_visitFactor _
      | refine keeps_bind ?_ (fun _ => ?_)
      | split
  | .WITH_NOT _ _ => by
    rw [visitFactor]
    repeat' first
      | exact keeps_getFactorType _
      | exact keeps_deref _
      | exact keeps_report _ _ _ (by decide)
      | exact keeps_countError
      | exact keeps_pure _
      | exact keeps_getBaseKind _
      | exact keeps_modify _ (fun _ => ⟨rfl, rfl⟩)
      | exact keeps_visitFactor _
      | refine keeps_bind ?_ (fun _ => ?_)
      | split
  | .BOOLEAN _ _ => by
    rw [visitFactor]
    exact keeps_pure _
  | .UNKNOWN _ _ => by
    rw [visitFactor]
    repeat' first
      | exact keeps_recursiveLookup _
      | exact keeps_report _ _ _ (by decide)
      | exact keeps_countError
      | exact keeps_modify _ (fun _ => ⟨rfl, rfl⟩)
      | refine keeps_bind ?_ (fun _ => ?_)
      | split
/-- The loop of `SemanticAnalyzer::visit(const Term&)` has the same property. -/
theorem keeps_visitTermLoop : ∀ l t, KeepsScopes (visitTermLoop l t)
  | .nil, _ => by
    rw [visitTermLoop]
    exact keeps_pure _
  | .cons _ _ _, _ => by
    rw [visitTermLoop]
    repeat' first
      | exact keeps_visitFactor _
      | exact keeps_getFactorType _
      | exact keeps_report _ _ _ (by decide)
      | exact keeps_countError
      | exact keeps_getNumericResultType _ _
      | exact keeps_pure _
      | exact keeps_visitTermLoop _ _
      | refine keeps_bind ?_ (fun _ => ?_)
      | split
/-- `SemanticAnalyzer::visit(const Term&)` keeps the scopes sound. -/
theorem keeps_visitTerm : ∀ t, KeepsScopes (visitTerm t)
  | .mk _ _ => by
    rw [visitTerm]
    repeat' first
      | exact keeps_visitFactor _
      | exact keeps_getFactorType _
      | exact keeps_pure _
      | exact keeps_visitTermLoop _ _
      | refine keeps_bind ?_ (fun _ => ?_)
      | split
/-- The loop of `SemanticAnalyzer::visit(const SimpleExpression&)` has the same property. -/
theorem keeps_visitSimpleExpressionLoop : ∀ l t, KeepsScopes (visitSimpleExpressionLoop l t)
  | .nil, _ => by
    rw [visitSimpleExpressionLoop]
    exact keeps_pure _
  | .cons _ _ _, _ => by
    rw [visitSimpleExpressionLoop]
    repeat' first
      | exact keeps_visitTerm _
      | exact keeps_getTermType _
      | exact keeps_report _ _ _ (by decide)
      | exact keeps_countError
      | exact keeps_getNumericResultType _ _
      | exact keeps_pure _
      | exact keeps_visitSimpleExpressionLoop _ _
      | refine keeps_bind ?_ (fun _ => ?_)
      | split
/-- `SemanticAnalyzer::visit(const SimpleExpression&)` keeps the scopes sound. -/
theorem keeps_visitSimpleExpression : ∀ e, KeepsScopes (visitSimpleExpression e)
  | .mk _ _ => by
    rw [visitSimpleExpression]
    repeat' first
      | exact keeps_visitTerm _
      | exact keeps_getTermType _
      | exact keeps_pure _
      | exact keeps_visitSimpleExpressionLoop _ _
      | refine keeps_bind ?_ (fun _ => ?_)
      | split
/-- `SemanticAnalyzer::visit(const Expression&)` keeps the scopes sound. -/
theorem keeps_visitExpression : ∀ e, KeepsScopes (visitExpression e)
  | .simple _ => by
    rw [visitExpression]
    exact keeps_visitSimpleExpression _
  | .relational _ _ _ => by
    rw [visitExpression]
    repeat' first
      | exact keeps_visitSimpleExpression _
      | exact keeps_getSimpleExpressionType _
      | exact keeps_report _ _ _ (by decide)
      | exact keeps_countError
      | exact keeps_pure _
      | refine keeps_bind ?_ (fun _ => ?_)
      | split
      | dsimp only
/-- The loop of `SemanticAnalyzer::visit(const Variable&)` has the same property. -/
theorem keeps_visitIndexLoop : ∀ l dims i name, KeepsScopes (visitIndexLoop l dims i name)
  | .nil, _, _, _ => by
    rw [visitIndexLoop]
    exact keeps_pure _
  | .cons _ _, _, _, _ => by
    rw [visitIndexLoop]
    repeat' first
      | exact keeps_visitExpression _
      | exact keeps_abort _
      | exact keeps_report _ _ _ (by decide)
      | exact keeps_countError
      | exact keeps_pure _
      | exact keeps_visitIndexLoop _ _ _ _
      | refine keeps_bind ?_ (fun _ => ?_)
      | split
/-- `SemanticAnalyzer::visit(const Variable&)` keeps the scopes sound: the entry that the
lookup returns is accessible, so the branch that reports SCOPE_VIOLATION is not taken,
whether the visit returns or ends abnormally later. -/
theorem keeps_visitVariable : ∀ v, KeepsScopes (visitVariable v)
  | .mk n es => by
    rw [visitVariable]
    intro s hs
    rw [SemM.bind_run, recursiveLookup_run]
    cases hst : s.scope_stack with
    | nil => exact hs.2
    | cons t rest =>
      dsimp only
      cases hl : SymbolTable.recursiveLookup (t :: rest) n with
      | none =>
        exact keeps_bind (keeps_report _ _ _ (by decide)) (fun _ => keeps_countError) s hs
      | some entry =>
        dsimp only
        rw [SemM.bind_run]
        have hacc : ScopeStack.isAccessible s.scope_stack entry = true :=
          wellScoped_accessible _ n entry hs.1 (by rw [hst]; exact hl)
        have hget : (get : SemM SemanticAnalyzer) s = .ok (s, s) := rfl
        rw [hget]
        dsimp only
        rw [hacc]
        simp only [Bool.not_true, Bool.false_eq_true, if_false]
        refine (?_ : KeepsScopes _) s hs
        repeat' first
          | exact keeps_report _ _ _ (by decide)
          | exact keeps_countError
          | exact keeps_pure _
          | exact keeps_visitIndexLoop _ _ _ _
          | refine keeps_bind ?_ (fun _ => ?_)
          | split
/-- The loop of `SemanticAnalyzer::visit(const ProcedureCall&)` has the same property. -/
theorem keeps_visitArgumentLoop : ∀ l params i name, KeepsScopes (visitArgumentLoop l params i name)
  | .nil, _, _, _ => by
    rw [visitArgumentLoop]
    exact keeps_pure _
  | .cons expr tl, _, _, _ => by
    rw [visitArgumentLoop]
    refine keeps_bind (keeps_visitExpression expr) (fun _ => ?_)
    refine keeps_bind (keeps_getExpressionType _) (fun _ => ?_)
    have ih := keeps_visitArgumentLoop tl
    split
    · exact ih _ _ _
    · split
      · exact keeps_abort _
      · repeat' first
          | exact keeps_report _ _ _ (by decide)
          | exact keeps_countError
          | exact keeps_recursiveLookup _
          | exact keeps_pure _
          | exact ih _ _ _
          | refine keeps_bind ?_ (fun _ => ?_)
          | split
          | dsimp only
/-- `SemanticAnalyzer::visit(const ProcedureCall&)` keeps the scopes sound. -/
theorem keeps_visitProcedureCall : ∀ c, KeepsScopes (visitProcedureCall c)
  | .mk _ _ => by
    rw [visitProcedureCall]
    repeat' first
      | exact keeps_recursiveLookup _
      | exact keeps_report _ _ _ (by decide)
      | exact keeps_countError
      | exact keeps_pure _
      | exact keeps_visitArgumentLoop _ _ _ _
      | refine keeps_bind ?_ (fun _ => ?_)
      | split
end

end ScopeKeeping

section ScopeKeepingStatements

open SemanticAnalyzer

/-- A loop over a list whose body keeps the scopes sound keeps them sound. -/
theorem keeps_forIn {α β : Type} (f : α → β → SemM (ForInStep β))
    (hf : ∀ a b, KeepsScopes (f a b)) : ∀ (l : List α) (b : β), KeepsScopes (forIn l b f)
  | [], b => by
    rw [List.forIn_nil]
    exact keeps_pure _
  | a :: l, b => by
    rw [List.forIn_cons]
    refine keeps_bind (hf a b) (fun r => ?_)
    cases r with
    | done b' => exact keeps_pure _
    | yield b' => exact keeps_forIn f hf l b'

/-- `ScopeStack::push` on the stack of the analyzer keeps the scopes sound. -/
theorem keeps_push :
    KeepsScopes (modify fun s => { s with scope_stack := s.scope_stack.push } : SemM PUnit) :=
  fun _ hs => ⟨wellScoped_push _ hs.1, hs.2⟩

/-- `ScopeStack::pop` on the stack of the analyzer keeps the scopes sound. -/
theorem keeps_pop :
    KeepsScopes (modify fun s => { s with scope_stack := s.scope_stack.pop } : SemM PUnit) :=
  fun _ hs => ⟨wellScoped_pop _ hs.1, hs.2⟩

/-- An insertion at the level of the current scope, followed by more work. -/
theorem keeps_insertCurrentThen {β : Type} (f : Nat → SymbolEntry)
    (hf : ∀ l, (f l).scope_level = l) (k : SemM β) (hk : KeepsScopes k) :
    KeepsScopes (getCurrentScope >>= fun l => SemanticAnalyzer.insert (f l) >>= fun _ => k) := by
  have e : (getCurrentScope >>= fun l => SemanticAnalyzer.insert (f l) >>= fun _ => k) =
      (getCurrentScope >>= fun l => SemanticAnalyzer.insert (f l)) >>= fun _ => k :=
    (bind_assoc _ _ _).symm
  rw [e]
  exact keeps_bind (keeps_insertCurrent f hf) (fun _ => hk)

/-- `SemanticAnalyzer::visit(const Parameter&)` keeps the scopes sound. -/
theorem keeps_visitParameter (parameter : Parameter) : KeepsScopes (visitParameter parameter) := by
  unfold visitParameter
  refine keeps_bind (keeps_forIn _ (fun a b => ?_) _ _) (fun _ => keeps_pure _)
  exact keeps_insertCurrentThen (fun l => _) (fun _ => rfl) _ (keeps_pure _)

/-- `SemanticAnalyzer::visit(const ConstDecl&)` keeps the scopes sound. -/
theorem keeps_visitConstDecl (const_decl : ConstDecl) :
    KeepsScopes (visitConstDecl const_decl) := by
  unfold visitConstDecl
  split
  · exact keeps_bind (keeps_report _ _ _ (by decide)) (fun _ => keeps_countError)
  · exact keeps_insertCurrent (fun l => _) (fun _ => rfl)

/-- The loop over the periods of `SemanticAnalyzer::processType` keeps the scopes sound. -/
theorem keeps_processPeriods : ∀ l dims, KeepsScopes (processPeriods l dims)
  | [], _ => by
    rw [processPeriods]
    exact keeps_pure _
  | (lower, upper) :: rest, dims => by
    rw [processPeriods]
    have ih := keeps_processPeriods rest
    repeat' first
      | exact keeps_report _ _ _ (by decide)
      | exact keeps_countError
      | exact keeps_pure _
      | exact ih _
      | refine keeps_bind ?_ (fun _ => ?_)
      | dsimp only
      | split

/-- `SemanticAnalyzer::processType` keeps the scopes sound. -/
theorem keeps_processType (type_node : TypeNode) : KeepsScopes (processType type_node) := by
  unfold processType
  repeat' first
    | exact keeps_pure _
    | exact keeps_processPeriods _ _
    | refine keeps_bind ?_ (fun _ => ?_)
    | dsimp only
    | split

/-- `SemanticAnalyzer::visit(const VarDecl&)` keeps the scopes sound. -/
theorem keeps_visitVarDecl (var_decl : VarDecl) : KeepsScopes (visitVarDecl var_decl) := by
  unfold visitVarDecl
  refine keeps_bind (keeps_processType _) (fun r => ?_)
  split
  · exact keeps_pure _
  · refine keeps_bind (keeps_forIn _ (fun a b => ?_) _ _) (fun _ => keeps_pure _)
    exact keeps_insertCurrentThen (fun l => _) (fun _ => rfl) _ (keeps_pure _)

/-- The report of a type mismatch in an assignment keeps the scopes sound. -/
theorem keeps_reportCannotAssign (r l : SymbolType) (n : String) :
    KeepsScopes (reportCannotAssign r l n) :=
  keeps_bind (keeps_report _ _ _ (by decide)) (fun _ => keeps_countError)

/-- The statement `is_function_return.emplace` keeps the scopes sound. -/
theorem keeps_emplaceIsFunctionReturn (addr : Nat) (flag : Bool) :
    KeepsScopes (emplaceIsFunctionReturn addr flag) :=
  keeps_modify _ (fun _ => ⟨rfl, rfl⟩)

/-- `SemanticAnalyzer::visit(const Assign&)` keeps the scopes sound. -/
theorem keeps_visitAssign (addr : Nat) (left : Variable) (right : Expression) :
    KeepsScopes (visitAssign addr left right) := by
  unfold visitAssign
  repeat' first
    | exact keeps_visitVariable _
    | exact keeps_visitExpression _
    | exact keeps_recursiveLookup _
    | exact keeps_getExpressionType _
    | exact keeps_emplaceIsFunctionReturn _ _
    | exact keeps_reportCannotAssign _ _ _
    | exact keeps_report _ _ _ (by decide)
    | exact keeps_countError
    | exact keeps_getBaseKind _
    | exact keeps_deref _
    | exact keeps_pure _
    | refine keeps_bind ?_ (fun _ => ?_)
    | dsimp only
    | split

/-- The loop of `SemanticAnalyzer::visit(const Read&)` keeps the scopes sound. -/
theorem keeps_visitReadLoop : ∀ l fmt, KeepsScopes (visitReadLoop l fmt)
  | [], _ => by
    rw [visitReadLoop]
    exact keeps_pure _
  | var :: rest, fmt => by
    rw [visitReadLoop]
    have ih := keeps_visitReadLoop rest
    repeat' first
      | exact keeps_visitVariable _
      | exact keeps_recursiveLookup _
      | exact keeps_report _ _ _ (by decide)
      | exact keeps_countError
      | exact keeps_deref _
      | exact keeps_pure _
      | exact ih _
      | refine keeps_bind ?_ (fun _ => ?_)
      | dsimp only
      | split

/-- `SemanticAnalyzer::visit(const Read&)` keeps the scopes sound. -/
theorem keeps_visitRead (addr : Nat) (variables_ : List Variable) :
    KeepsScopes (visitRead addr variables_) :=
  keeps_bind (keeps_visitReadLoop _ _) (fun _ => keeps_modify _ (fun _ => ⟨rfl, rfl⟩))

/-- The test for a string constant keeps the scopes sound. -/
theorem keeps_isStringConstant (ent : SymbolEntry) : KeepsScopes (isStringConstant ent) := by
  unfold isStringConstant
  repeat' first
    | exact keeps_pure _
    | exact keeps_abort _
    | dsimp only
    | split

/-- The loop of `SemanticAnalyzer::visit(const Write&)` keeps the scopes sound. -/
theorem keeps_visitWriteLoop : ∀ l fmt, KeepsScopes (visitWriteLoop l fmt)
  | .nil, _ => by
    rw [visitWriteLoop]
    exact keeps_pure _
  | .cons expr rest, fmt => by
    rw [visitWriteLoop]
    have ih := keeps_visitWriteLoop rest
    repeat' first
      | exact keeps_visitExpression _
      | exact keeps_getExpressionType _
      | exact keeps_recursiveLookup _
      | exact keeps_isStringConstant _
      | exact keeps_report _ _ _ (by decide)
      | exact keeps_countError
      | exact keeps_pure _
      | exact ih _
      | refine keeps_bind ?_ (fun _ => ?_)
      | dsimp only
      | split

/-- `SemanticAnalyzer::visit(const Write&)` keeps the scopes sound. -/
theorem keeps_visitWrite (addr : Nat) (expressions : ExpressionList) :
    KeepsScopes (visitWrite addr expressions) :=
  keeps_bind (keeps_visitWriteLoop _ _) (fun _ => keeps_modify _ (fun _ => ⟨rfl, rfl⟩))

/-- The check of a condition keeps the scopes sound. -/
theorem keeps_checkCondition (what : String) (condition : Expression) :
    KeepsScopes (checkCondition what condition) := by
  unfold checkCondition
  repeat' first
    | exact keeps_getExpressionType _
    | exact keeps_report _ _ _ (by decide)
    | exact keeps_countError
    | exact keeps_pure _
    | refine keeps_bind ?_ (fun _ => ?_)
    | dsimp only
    | split

/-- The checks of a for loop keep the scopes sound. -/
theorem keeps_checkFor (n : String) (t : SymbolType) (lb ub : Expression) :
    KeepsScopes (checkFor n t lb ub) := by
  unfold checkFor
  repeat' first
    | exact keeps_getExpressionType _
    | exact keeps_report _ _ _ (by decide)
    | exact keeps_countError
    | exact keeps_pure _
    | refine keeps_bind ?_ (fun _ => ?_)
    | dsimp only
    | split

mutual
/-- The visit of a statement keeps the scopes sound. -/
theorem keeps_visitStatement : ∀ st, KeepsScopes (visitStatement st)
  | .NullStatement => by
    rw [visitStatement]
    exact keeps_pure _
  | .Assign _ _ _ => by
    rw [visitStatement]
    exact keeps_visitAssign _ _ _
  | .ProcedureCall _ => by
    rw [visitStatement]
    exact keeps_visitProcedureCall _
  | .CompoundStatement c => by
    rw [visitStatement]
    exact keeps_visitCompoundStatement c
  | .If _ th => by
    rw [visitStatement]
    exact keeps_bind (keeps_visitExpression _) (fun _ =>
      keeps_bind (keeps_visitStatement th) (fun _ => keeps_checkCondition _ _))
  | .IfElse _ th el => by
    rw [visitStatement]
    exact keeps_bind (keeps_visitExpression _) (fun _ =>
      keeps_bind (keeps_visitStatement th) (fun _ =>
        keeps_bind (keeps_visitStatement el) (fun _ => keeps_checkCondition _ _)))
  | .For _ _ _ body => by
    rw [visitStatement]
    refine keeps_bind (keeps_recursiveLookup _) (fun r => ?_)
    split
    · exact keeps_bind (keeps_report _ _ _ (by decide)) (fun _ => keeps_countError)
    · exact keeps_bind (keeps_visitExpression _) (fun _ =>
        keeps_bind (keeps_visitExpression _) (fun _ =>
          keeps_bind (keeps_visitStatement body) (fun _ => keeps_checkFor _ _ _ _)))
  | .While _ body => by
    rw [visitStatement]
    exact keeps_bind (keeps_visitExpression _) (fun _ =>
      keeps_bind (keeps_visitStatement body) (fun _ => keeps_checkCondition _ _))
  | .Read _ _ => by
    rw [visitStatement]
    exact keeps_visitRead _ _
  | .Write _ _ => by
    rw [visitStatement]
    exact keeps_visitWrite _ _
  | .Break => by
    rw [visitStatement]
    exact keeps_pure _
/-- The loop over the statements of a compound statement keeps the scopes sound. -/
theorem keeps_visitStatementList : ∀ l, KeepsScopes (visitStatementList l)
  | .nil => by
    rw [visitStatementList]
    exact keeps_pure _
  | .cons st tl => by
    rw [visitStatementList]
    exact keeps_bind (keeps_visitStatement st) (fun _ => keeps_visitStatementList tl)
/-- `SemanticAnalyzer::visit(const CompoundStatement&)` keeps the scopes sound. -/
theorem keeps_visitCompoundStatement : ∀ c, KeepsScopes (visitCompoundStatement c)
  | .mk _ l => by
    rw [visitCompoundStatement]
    exact keeps_visitStatementList l
end

/-- The collection of the parameter entries keeps the scopes sound. -/
theorem keeps_collectParameters : ∀ l acc, KeepsScopes (collectParameters l acc)
  | [], _ => by
    rw [collectParameters]
    exact keeps_pure _
  | _ :: rest, _ => by
    rw [collectParameters]
    have ih := keeps_collectParameters rest
    repeat' first
      | exact keeps_lookup _
      | exact ih _
      | refine keeps_bind ?_ (fun _ => ?_)
      | dsimp only
      | split

/-- The first loop over the parameters of a subprogram keeps the scopes sound. -/
theorem keeps_visitParametersFirst : ∀ l acc, KeepsScopes (visitParametersFirst l acc)
  | [], _ => by
    rw [visitParametersFirst]
    exact keeps_pure _
  | param :: rest, acc => by
    rw [visitParametersFirst]
    exact keeps_bind (keeps_visitParameter _) (fun _ =>
      keeps_bind (keeps_collectParameters _ _) (fun _ => keeps_visitParametersFirst rest _))

/-- The second loop over the parameters of a subprogram keeps the scopes sound. -/
theorem keeps_visitParametersSecond (id : String) :
    ∀ l, KeepsScopes (visitParametersSecond id l)
  | [] => by
    rw [visitParametersSecond]
    exact keeps_pure _
  | param :: rest => by
    rw [visitParametersSecond]
    refine keeps_bind (keeps_visitParameter _) (fun _ => ?_)
    refine keeps_bind (keeps_forIn _ (fun a b => ?_) _ _) (fun _ => keeps_visitParametersSecond id rest)
    exact keeps_bind (keeps_modify _ (fun _ => ⟨rfl, rfl⟩)) (fun _ => keeps_pure _)

/-- `SemanticAnalyzer::visit(const Subprogram&)` keeps the scopes sound. -/
theorem keeps_visitSubprogram (subprogram : Subprogram) :
    KeepsScopes (visitSubprogram subprogram) := by
  unfold visitSubprogram
  refine keeps_bind keeps_push (fun _ => ?_)
  refine keeps_bind (keeps_visitParametersFirst _ _) (fun _ => ?_)
  refine keeps_bind keeps_get (fun _ => ?_)
  dsimp only
  split
  · exact keeps_abortThen _ _
  refine keeps_bind (keeps_pure _) (fun _ => ?_)
  refine keeps_bind keeps_pop (fun _ => ?_)
  refine keeps_insertCurrentThen (fun l => _) (fun _ => rfl) _ ?_
  refine keeps_bind keeps_push (fun _ => ?_)
  refine keeps_bind (keeps_modify _ (fun _ => ⟨rfl, rfl⟩)) (fun _ => ?_)
  refine keeps_bind (keeps_visitParametersSecond _ _) (fun _ => ?_)
  refine keeps_bind (keeps_forIn _ (fun a b => ?_) _ _) (fun _ => ?_)
  · exact keeps_bind (keeps_visitConstDecl _) (fun _ => keeps_pure _)
  refine keeps_bind (keeps_forIn _ (fun a b => ?_) _ _) (fun _ => ?_)
  · exact keeps_bind (keeps_visitVarDecl _) (fun _ => keeps_pure _)
  exact keeps_bind (keeps_visitCompoundStatement _) (fun _ => keeps_pop)

/-- `SemanticAnalyzer::visit(const Program&)` keeps the scopes sound. -/
theorem keeps_visitProgram (program : Program) : KeepsScopes (visitProgram program) := by
  unfold visitProgram
  refine keeps_bind (keeps_forIn _ (fun a b => ?_) _ _) (fun _ => ?_)
  · exact keeps_bind (keeps_visitConstDecl _) (fun _ => keeps_pure _)
  refine keeps_bind (keeps_forIn _ (fun a b => ?_) _ _) (fun _ => ?_)
  · exact keeps_bind (keeps_visitVarDecl _) (fun _ => keeps_pure _)
  refine keeps_bind (keeps_forIn _ (fun a b => ?_) _ _) (fun _ => ?_)
  · exact keeps_bind (keeps_visitSubprogram _) (fun _ => keeps_pure _)
  exact keeps_visitCompoundStatement _

/-- The analyzer starts with sound scopes. -/
theorem scopeSound_new : ScopeSound SemanticAnalyzer.new :=
  ⟨wellScoped_push _ trivial, fun _ hr => absurd hr (List.not_mem_nil _)⟩

end ScopeKeepingStatements

/-- The diagnostics that `solveCCode` shows after an analysis that returned are those of
`analysisDiagnostics`. -/
theorem solveCCode_diagnostics (fuel : Nat) (src : String) :
    (∀ reports, solveCCode fuel src = .semanticErrors reports →
      reports = analysisDiagnostics fuel src) ∧
    (∀ text reports, solveCCode fuel src = .cCode text reports →
      reports = analysisDiagnostics fuel src) := by
  unfold solveCCode analysisDiagnostics
  constructor
  · intro reports h
    split at h
    · cases h
    · cases h
    · split at h
      · cases h
      · cases h
      · split at h
        · cases h
        · split at h
          · cases h
            simp only [*]
          · dsimp only at h
            split at h <;> cases h
  · intro text reports h
    split at h
    · cases h
    · cases h
    · split at h
      · cases h
      · cases h
      · split at h
        · cases h
        · split at h
          · cases h
          · dsimp only at h
            split at h
            · cases h
            · cases h
              simp only [*]

/-- C39 (the scope-violation check): in a scope stack in which every table has as level its
depth and every entry the level of its table, an entry that `recursiveLookup` returns from
the current scope has a level that is at most the level of the current scope, so
`isAccessible` holds for it.  `visit(const Variable&)`, the one place where SCOPE_VIOLATION
is reported, keeps the stack in that shape and reports none, whether it returns or the run
ends abnormally.  From the initial analyzer, the analysis of any program leaves the stack in
that shape when it returns, and no SCOPE_VIOLATION is among the diagnostics written, whether
the analysis returns or ends abnormally; so the diagnostics written for any text hold none,
and these are the diagnostics that `solveCCode` shows. -/
theorem C39_scope_violation_is_never_reported :
    (∀ (stack : ScopeStack) (name : String) (e : SymbolEntry), WellScoped stack →
      SymbolTable.recursiveLookup stack name = some e →
        (∃ t rest, stack = t :: rest ∧ e.scope_level ≤ t.current_scope) ∧
          ScopeStack.isAccessible stack e = true) ∧
    (∀ (v : Variable) (s : SemanticAnalyzer), ScopeSound s →
      match (SemanticAnalyzer.visitVariable v).run s with
      | .ok (_, s') => WellScoped s'.scope_stack ∧ NoScopeViolation s'.reports
      | .error e => NoScopeViolation e.reports) ∧
    (∀ program : Program,
      match (SemanticAnalyzer.visitProgram program).run SemanticAnalyzer.new with
      | .ok (_, s') => WellScoped s'.scope_stack ∧ NoScopeViolation s'.reports
      | .error e => NoScopeViolation e.reports) ∧
    (∀ (fuel : Nat) (src : String),
      (∀ r ∈ analysisDiagnostics fuel src, r.type ≠ ErrorType.SCOPE_VIOLATION) ∧
      (∀ reports, solveCCode fuel src = .semanticErrors reports →
        reports = analysisDiagnostics fuel src) ∧
      (∀ text reports, solveCCode fuel src = .cCode text reports →
        reports = analysisDiagnostics fuel src)) := by
  refine ⟨fun stack name e hw h => ?_, fun v s hs => ?_, fun program => ?_,
    fun fuel src => ⟨?_, solveCCode_diagnostics fuel src⟩⟩
  · have hacc := wellScoped_accessible stack name e hw h
    cases stack with
    | nil => cases hacc
    | cons t rest => exact ⟨⟨t, rest, rfl, of_decide_eq_true hacc⟩, hacc⟩
  · have h : ScopesKept ((SemanticAnalyzer.visitVariable v).run s) := keeps_visitVariable v s hs
    revert h
    cases (SemanticAnalyzer.visitVariable v).run s with
    | ok r => exact fun h => h
    | error e => exact fun h => h
  · have h : ScopesKept ((SemanticAnalyzer.visitProgram program).run SemanticAnalyzer.new) :=
      keeps_visitProgram program _ scopeSound_new
    revert h
    cases (SemanticAnalyzer.visitProgram program).run SemanticAnalyzer.new with
    | ok r => exact fun h => h
    | error e => exact fun h => h
  · unfold analysisDiagnostics
    split
    · split
      · next program _ _ =>
        have hkept : ScopesKept ((SemanticAnalyzer.visitProgram program).run SemanticAnalyzer.new) :=
          keeps_visitProgram program _ scopeSound_new
        split
        · next heq =>
          rw [heq] at hkept
          exact hkept.2
        · next heq =>
          rw [heq] at hkept
          exact hkept
      · exact fun _ hr => absurd hr (List.not_mem_nil _)
    · exact fun _ hr => absurd hr (List.not_mem_nil _)

/-- C39 at the stack `shadowingScopes`, where the entry found for `x` is the one of level 1,
the level of the current scope; at a text whose analysis ends abnormally after it has
written a diagnostic; and at a text with a subprogram, whose analysis returns. -/
theorem C39_scope_violation_is_never_reported_witness :
    (WellScoped shadowingScopes ∧
      SymbolTable.recursiveLookup shadowingScopes "x" =
        some { name := "x", type := .BASIC .REAL, scope_level := 1 } ∧
      ((∃ t rest, shadowingScopes = t :: rest ∧ 1 ≤ t.current_scope) ∧
        ScopeStack.isAccessible shadowingScopes
          { name := "x", type := .BASIC .REAL, scope_level := 1 } = true)) ∧
    (solveCCode 64 "program p; var x: integer; begin x := y + 1 end." = .crash .nullDereference ∧
      analysisDiagnostics 64 "program p; var x: integer; begin x := y + 1 end." =
        [⟨.UNDEFINED_SYMBOL, "Use undeclared variable or function 'y'", 0⟩] ∧
      ∀ r ∈ analysisDiagnostics 64 "program p; var x: integer; begin x := y + 1 end.",
        r.type ≠ ErrorType.SCOPE_VIOLATION) ∧
    (analysisDiagnostics 128 ("program p; var x: integer; procedure q(a: integer); " ++
        "var y: integer; begin y := a + x end; begin q(x) end.") = [] ∧
      ∀ r ∈ analysisDiagnostics 128 ("program p; var x: integer; procedure q(a: integer); " ++
        "var y: integer; begin y := a + x end; begin q(x) end."),
        r.type ≠ ErrorType.SCOPE_VIOLATION) :=
  have hw : WellScoped shadowingScopes :=
    ⟨rfl, fun e he => by rw [List.mem_singleton.1 he], rfl,
      fun e he => by rw [List.mem_singleton.1 he], trivial⟩
  have hx : SymbolTable.recursiveLookup shadowingScopes "x" =
      some { name := "x", type := .BASIC .REAL, scope_level := 1 } := by decide!
  ⟨⟨hw, hx, C39_scope_violation_is_never_reported.1 shadowingScopes "x" _ hw hx⟩,
    ⟨by decide!, by decide!, (C39_scope_violation_is_never_reported.2.2.2 64 _).1⟩,
    ⟨by decide!, (C39_scope_violation_is_never_reported.2.2.2 128 _).1⟩⟩
